import Mathlib

/-! # libmodjpeg (`outline.c`): the DCT-domain compositor

A shallow embedding of the compositor of `outline.c` and the properties proved about it.

* Floating-point values (`float`, `double`) are elements of a field `R`; the statements about
  "exact real arithmetic" take `R = ℝ`. The constants `M_SQRT2` (from `math.h`) and the literal
  `0.3535534` are parameters of the definitions; the statements read them as `√2` and `√2 / 4`.
* A coefficient block (`JBLOCK`, `DCTSIZE2 = 64` entries in natural order) is a function on
  indices; only the indices `0..63` are meaningful. Coefficients are integers. `JCOEF`,
  the type of a stored coefficient, is a 16-bit `short` in the codec's headers:
  `dequantise_block` and `blend_block` give the values that the program assigns, as integers,
  and the definitions with the suffix `_JCOEF` add the conversion of the store, `to_JCOEF`;
  the two agree while the assigned values stay in `−32768..32767`.
* Calls into the codec (libjpeg) are parameters of the model.
* A run that indexes a block outside the host's coefficient arrays has no defined result: the
  compositors return an `Option`. The loops of an image over its own arrays stay below the
  image's own block counts, which the codec allocates; these accesses are not checked.
-/

namespace ModJpeg

/-! ## Constants -/

/-- The side of a block, `DCTSIZE` in `jpeglib.h`. -/
def DCTSIZE : Nat := 8

/-- The number of coefficients of a block, `DCTSIZE2` in `jpeglib.h`. -/
def DCTSIZE2 : Nat := 64

def MODJPEG_COLORSPACE_RGBA : Nat := 1
def MODJPEG_COLORSPACE_RGB : Nat := 2
def MODJPEG_COLORSPACE_GRAYSCALE : Nat := 3
def MODJPEG_COLORSPACE_GRAYSCALEA : Nat := 4
def MODJPEG_COLORSPACE_YCC : Nat := 5
def MODJPEG_COLORSPACE_YCCA : Nat := 6

def MODJPEG_ALIGN_TOP : Int := 1
def MODJPEG_ALIGN_BOTTOM : Int := 2
def MODJPEG_ALIGN_LEFT : Int := 3
def MODJPEG_ALIGN_RIGHT : Int := 4
def MODJPEG_ALIGN_CENTER : Int := 5

def MODJPEG_BLEND_NONUNIFORM : Int := -1
def MODJPEG_BLEND_NONE : Int := 0
def MODJPEG_BLEND_FULL : Int := 255

/-! ## The block convolver `mj_convolve` -/

/-- The `switch(l)` of `mj_convolve`: case `l` lists the values assigned to `z[0], …, z[63]`, in index order; a value of `l` outside `0..7` matches no case and assigns nothing. -/
def convolve_switch_l {R : Type} [Field R] (M_SQRT2 : R) (x : Nat → R) : Nat → List R
  | 0 =>
    [2 * x 0, 2 * x 1, 2 * x 2, 2 * x 3, 2 * x 4, 2 * x 5, 2 * x 6, 2 * x 7,
     2 * x 8, 2 * x 9, 2 * x 10, 2 * x 11, 2 * x 12, 2 * x 13, 2 * x 14, 2 * x 15,
     2 * x 16, 2 * x 17, 2 * x 18, 2 * x 19, 2 * x 20, 2 * x 21, 2 * x 22, 2 * x 23,
     2 * x 24, 2 * x 25, 2 * x 26, 2 * x 27, 2 * x 28, 2 * x 29, 2 * x 30, 2 * x 31,
     2 * x 32, 2 * x 33, 2 * x 34, 2 * x 35, 2 * x 36, 2 * x 37, 2 * x 38, 2 * x 39,
     2 * x 40, 2 * x 41, 2 * x 42, 2 * x 43, 2 * x 44, 2 * x 45, 2 * x 46, 2 * x 47,
     2 * x 48, 2 * x 49, 2 * x 50, 2 * x 51, 2 * x 52, 2 * x 53, 2 * x 54, 2 * x 55,
     2 * x 56, 2 * x 57, 2 * x 58, 2 * x 59, 2 * x 60, 2 * x 61, 2 * x 62, 2 * x 63]
  | 1 =>
    [M_SQRT2 * x 1, M_SQRT2 * x 0 + x 2, x 1 + x 3, x 2 + x 4, x 3 + x 5, x 4 + x 6, x 5 + x 7, x 6,
     M_SQRT2 * x 9, M_SQRT2 * x 8 + x 10, x 9 + x 11, x 10 + x 12, x 11 + x 13, x 12 + x 14, x 13 + x 15, x 14,
     M_SQRT2 * x 17, M_SQRT2 * x 16 + x 18, x 17 + x 19, x 18 + x 20, x 19 + x 21, x 20 + x 22, x 21 + x 23, x 22,
     M_SQRT2 * x 25, M_SQRT2 * x 24 + x 26, x 25 + x 27, x 26 + x 28, x 27 + x 29, x 28 + x 30, x 29 + x 31, x 30,
     M_SQRT2 * x 33, M_SQRT2 * x 32 + x 34, x 33 + x 35, x 34 + x 36, x 35 + x 37, x 36 + x 38, x 37 + x 39, x 38,
     M_SQRT2 * x 41, M_SQRT2 * x 40 + x 42, x 41 + x 43, x 42 + x 44, x 43 + x 45, x 44 + x 46, x 45 + x 47, x 46,
     M_SQRT2 * x 49, M_SQRT2 * x 48 + x 50, x 49 + x 51, x 50 + x 52, x 51 + x 53, x 52 + x 54, x 53 + x 55, x 54,
     M_SQRT2 * x 57, M_SQRT2 * x 56 + x 58, x 57 + x 59, x 58 + x 60, x 59 + x 61, x 60 + x 62, x 61 + x 63, x 62]
  | 2 =>
    [M_SQRT2 * x 2, x 1 + x 3, M_SQRT2 * x 0 + x 4, x 1 + x 5, x 2 + x 6, x 3 + x 7, x 4, x 5 - x 7,
     M_SQRT2 * x 10, x 9 + x 11, M_SQRT2 * x 8 + x 12, x 9 + x 13, x 10 + x 14, x 11 + x 15, x 12, x 13 - x 15,
     M_SQRT2 * x 18, x 17 + x 19, M_SQRT2 * x 16 + x 20, x 17 + x 21, x 18 + x 22, x 19 + x 23, x 20, x 21 - x 23,
     M_SQRT2 * x 26, x 25 + x 27, M_SQRT2 * x 24 + x 28, x 25 + x 29, x 26 + x 30, x 27 + x 31, x 28, x 29 - x 31,
     M_SQRT2 * x 34, x 33 + x 35, M_SQRT2 * x 32 + x 36, x 33 + x 37, x 34 + x 38, x 35 + x 39, x 36, x 37 - x 39,
     M_SQRT2 * x 42, x 41 + x 43, M_SQRT2 * x 40 + x 44, x 41 + x 45, x 42 + x 46, x 43 + x 47, x 44, x 45 - x 47,
     M_SQRT2 * x 50, x 49 + x 51, M_SQRT2 * x 48 + x 52, x 49 + x 53, x 50 + x 54, x 51 + x 55, x 52, x 53 - x 55,
     M_SQRT2 * x 58, x 57 + x 59, M_SQRT2 * x 56 + x 60, x 57 + x 61, x 58 + x 62, x 59 + x 63, x 60, x 61 - x 63]
  | 3 =>
    [M_SQRT2 * x 3, x 2 + x 4, x 1 + x 5, M_SQRT2 * x 0 + x 6, x 1 + x 7, x 2, x 3 - x 7, x 4 - x 6,
     M_SQRT2 * x 11, x 10 + x 12, x 9 + x 13, M_SQRT2 * x 8 + x 14, x 9 + x 15, x 10, x 11 - x 15, x 12 - x 14,
     M_SQRT2 * x 19, x 18 + x 20, x 17 + x 21, M_SQRT2 * x 16 + x 22, x 17 + x 23, x 18, x 19 - x 23, x 20 - x 22,
     M_SQRT2 * x 27, x 26 + x 28, x 25 + x 29, M_SQRT2 * x 24 + x 30, x 25 + x 31, x 26, x 27 - x 31, x 28 - x 30,
     M_SQRT2 * x 35, x 34 + x 36, x 33 + x 37, M_SQRT2 * x 32 + x 38, x 33 + x 39, x 34, x 35 - x 39, x 36 - x 38,
     M_SQRT2 * x 43, x 42 + x 44, x 41 + x 45, M_SQRT2 * x 40 + x 46, x 41 + x 47, x 42, x 43 - x 47, x 44 - x 46,
     M_SQRT2 * x 51, x 50 + x 52, x 49 + x 53, M_SQRT2 * x 48 + x 54, x 49 + x 55, x 50, x 51 - x 55, x 52 - x 54,
     M_SQRT2 * x 59, x 58 + x 60, x 57 + x 61, M_SQRT2 * x 56 + x 62, x 57 + x 63, x 58, x 59 - x 63, x 60 - x 62]
  | 4 =>
    [M_SQRT2 * x 4, x 3 + x 5, x 2 + x 6, x 1 + x 7, M_SQRT2 * x 0, x 1 - x 7, x 2 - x 6, x 3 - x 5,
     M_SQRT2 * x 12, x 11 + x 13, x 10 + x 14, x 9 + x 15, M_SQRT2 * x 8, x 9 - x 15, x 10 - x 14, x 11 - x 13,
     M_SQRT2 * x 20, x 19 + x 21, x 18 + x 22, x 17 + x 23, M_SQRT2 * x 16, x 17 - x 23, x 18 - x 22, x 19 - x 21,
     M_SQRT2 * x 28, x 27 + x 29, x 26 + x 30, x 25 + x 31, M_SQRT2 * x 24, x 25 - x 31, x 26 - x 30, x 27 - x 29,
     M_SQRT2 * x 36, x 35 + x 37, x 34 + x 38, x 33 + x 39, M_SQRT2 * x 32, x 33 - x 39, x 34 - x 38, x 35 - x 37,
     M_SQRT2 * x 44, x 43 + x 45, x 42 + x 46, x 41 + x 47, M_SQRT2 * x 40, x 41 - x 47, x 42 - x 46, x 43 - x 45,
     M_SQRT2 * x 52, x 51 + x 53, x 50 + x 54, x 49 + x 55, M_SQRT2 * x 48, x 49 - x 55, x 50 - x 54, x 51 - x 53,
     M_SQRT2 * x 60, x 59 + x 61, x 58 + x 62, x 57 + x 63, M_SQRT2 * x 56, x 57 - x 63, x 58 - x 62, x 59 - x 61]
  | 5 =>
    [M_SQRT2 * x 5, x 4 + x 6, x 3 + x 7, x 2, x 1 - x 7, M_SQRT2 * x 0 - x 6, x 1 - x 5, x 2 - x 4,
     M_SQRT2 * x 13, x 12 + x 14, x 11 + x 15, x 10, x 9 - x 15, M_SQRT2 * x 8 - x 14, x 9 - x 13, x 10 - x 12,
     M_SQRT2 * x 21, x 20 + x 22, x 19 + x 23, x 18, x 17 - x 23, M_SQRT2 * x 16 - x 22, x 17 - x 21, x 18 - x 20,
     M_SQRT2 * x 29, x 28 + x 30, x 27 + x 31, x 26, x 25 - x 31, M_SQRT2 * x 24 - x 30, x 25 - x 29, x 26 - x 28,
     M_SQRT2 * x 37, x 36 + x 38, x 35 + x 39, x 34, x 33 - x 39, M_SQRT2 * x 32 - x 38, x 33 - x 37, x 34 - x 36,
     M_SQRT2 * x 45, x 44 + x 46, x 43 + x 47, x 42, x 41 - x 47, M_SQRT2 * x 40 - x 46, x 41 - x 45, x 42 - x 44,
     M_SQRT2 * x 53, x 52 + x 54, x 51 + x 55, x 50, x 49 - x 55, M_SQRT2 * x 48 - x 54, x 49 - x 53, x 50 - x 52,
     M_SQRT2 * x 61, x 60 + x 62, x 59 + x 63, x 58, x 57 - x 63, M_SQRT2 * x 56 - x 62, x 57 - x 61, x 58 - x 60]
  | 6 =>
    [M_SQRT2 * x 6, x 5 + x 7, x 4, x 3 - x 7, x 2 - x 6, x 1 - x 5, M_SQRT2 * x 0 - x 4, x 1 - x 3,
     M_SQRT2 * x 14, x 13 + x 15, x 12, x 11 - x 15, x 10 - x 14, x 9 - x 13, M_SQRT2 * x 8 - x 12, x 9 - x 11,
     M_SQRT2 * x 22, x 21 + x 23, x 20, x 19 - x 23, x 18 - x 22, x 17 - x 21, M_SQRT2 * x 16 - x 20, x 17 - x 19,
     M_SQRT2 * x 30, x 29 + x 31, x 28, x 27 - x 31, x 26 - x 30, x 25 - x 29, M_SQRT2 * x 24 - x 28, x 25 - x 27,
     M_SQRT2 * x 38, x 37 + x 39, x 36, x 35 - x 39, x 34 - x 38, x 33 - x 37, M_SQRT2 * x 32 - x 36, x 33 - x 35,
     M_SQRT2 * x 46, x 45 + x 47, x 44, x 43 - x 47, x 42 - x 46, x 41 - x 45, M_SQRT2 * x 40 - x 44, x 41 - x 43,
     M_SQRT2 * x 54, x 53 + x 55, x 52, x 51 - x 55, x 50 - x 54, x 49 - x 53, M_SQRT2 * x 48 - x 52, x 49 - x 51,
     M_SQRT2 * x 62, x 61 + x 63, x 60, x 59 - x 63, x 58 - x 62, x 57 - x 61, M_SQRT2 * x 56 - x 60, x 57 - x 59]
  | 7 =>
    [M_SQRT2 * x 7, x 6, x 5 - x 7, x 4 - x 6, x 3 - x 5, x 2 - x 4, x 1 - x 3, M_SQRT2 * x 0 - x 2,
     M_SQRT2 * x 15, x 14, x 13 - x 15, x 12 - x 14, x 11 - x 13, x 10 - x 12, x 9 - x 11, M_SQRT2 * x 8 - x 10,
     M_SQRT2 * x 23, x 22, x 21 - x 23, x 20 - x 22, x 19 - x 21, x 18 - x 20, x 17 - x 19, M_SQRT2 * x 16 - x 18,
     M_SQRT2 * x 31, x 30, x 29 - x 31, x 28 - x 30, x 27 - x 29, x 26 - x 28, x 25 - x 27, M_SQRT2 * x 24 - x 26,
     M_SQRT2 * x 39, x 38, x 37 - x 39, x 36 - x 38, x 35 - x 37, x 34 - x 36, x 33 - x 35, M_SQRT2 * x 32 - x 34,
     M_SQRT2 * x 47, x 46, x 45 - x 47, x 44 - x 46, x 43 - x 45, x 42 - x 44, x 41 - x 43, M_SQRT2 * x 40 - x 42,
     M_SQRT2 * x 55, x 54, x 53 - x 55, x 52 - x 54, x 51 - x 53, x 50 - x 52, x 49 - x 51, M_SQRT2 * x 48 - x 50,
     M_SQRT2 * x 63, x 62, x 61 - x 63, x 60 - x 62, x 59 - x 61, x 58 - x 60, x 57 - x 59, M_SQRT2 * x 56 - x 58]
  | _ => []

/-- The `switch(k)` of `mj_convolve`: case `k` lists, in index order, the parenthesised expressions `e` of the statements `y[i] += (e) * w`; a value of `k` outside `0..7` matches no case and updates nothing. -/
def convolve_switch_k {R : Type} [Field R] (M_SQRT2 : R) (z : Nat → R) : Nat → List R
  | 0 =>
    [2 * z 0, 2 * z 1, 2 * z 2, 2 * z 3, 2 * z 4, 2 * z 5, 2 * z 6, 2 * z 7,
     2 * z 8, 2 * z 9, 2 * z 10, 2 * z 11, 2 * z 12, 2 * z 13, 2 * z 14, 2 * z 15,
     2 * z 16, 2 * z 17, 2 * z 18, 2 * z 19, 2 * z 20, 2 * z 21, 2 * z 22, 2 * z 23,
     2 * z 24, 2 * z 25, 2 * z 26, 2 * z 27, 2 * z 28, 2 * z 29, 2 * z 30, 2 * z 31,
     2 * z 32, 2 * z 33, 2 * z 34, 2 * z 35, 2 * z 36, 2 * z 37, 2 * z 38, 2 * z 39,
     2 * z 40, 2 * z 41, 2 * z 42, 2 * z 43, 2 * z 44, 2 * z 45, 2 * z 46, 2 * z 47,
     2 * z 48, 2 * z 49, 2 * z 50, 2 * z 51, 2 * z 52, 2 * z 53, 2 * z 54, 2 * z 55,
     2 * z 56, 2 * z 57, 2 * z 58, 2 * z 59, 2 * z 60, 2 * z 61, 2 * z 62, 2 * z 63]
  | 1 =>
    [M_SQRT2 * z 8, M_SQRT2 * z 9, M_SQRT2 * z 10, M_SQRT2 * z 11, M_SQRT2 * z 12, M_SQRT2 * z 13, M_SQRT2 * z 14, M_SQRT2 * z 15,
     M_SQRT2 * z 0 + z 16, M_SQRT2 * z 1 + z 17, M_SQRT2 * z 2 + z 18, M_SQRT2 * z 3 + z 19, M_SQRT2 * z 4 + z 20, M_SQRT2 * z 5 + z 21, M_SQRT2 * z 6 + z 22, M_SQRT2 * z 7 + z 23,
     z 8 + z 24, z 9 + z 25, z 10 + z 26, z 11 + z 27, z 12 + z 28, z 13 + z 29, z 14 + z 30, z 15 + z 31,
     z 16 + z 32, z 17 + z 33, z 18 + z 34, z 19 + z 35, z 20 + z 36, z 21 + z 37, z 22 + z 38, z 23 + z 39,
     z 24 + z 40, z 25 + z 41, z 26 + z 42, z 27 + z 43, z 28 + z 44, z 29 + z 45, z 30 + z 46, z 31 + z 47,
     z 32 + z 48, z 33 + z 49, z 34 + z 50, z 35 + z 51, z 36 + z 52, z 37 + z 53, z 38 + z 54, z 39 + z 55,
     z 40 + z 56, z 41 + z 57, z 42 + z 58, z 43 + z 59, z 44 + z 60, z 45 + z 61, z 46 + z 62, z 47 + z 63,
     z 48, z 49, z 50, z 51, z 52, z 53, z 54, z 55]
  | 2 =>
    [M_SQRT2 * z 16, M_SQRT2 * z 17, M_SQRT2 * z 18, M_SQRT2 * z 19, M_SQRT2 * z 20, M_SQRT2 * z 21, M_SQRT2 * z 22, M_SQRT2 * z 23,
     z 8 + z 24, z 9 + z 25, z 10 + z 26, z 11 + z 27, z 12 + z 28, z 13 + z 29, z 14 + z 30, z 15 + z 31,
     M_SQRT2 * z 0 + z 32, M_SQRT2 * z 1 + z 33, M_SQRT2 * z 2 + z 34, M_SQRT2 * z 3 + z 35, M_SQRT2 * z 4 + z 36, M_SQRT2 * z 5 + z 37, M_SQRT2 * z 6 + z 38, M_SQRT2 * z 7 + z 39,
     z 8 + z 40, z 9 + z 41, z 10 + z 42, z 11 + z 43, z 12 + z 44, z 13 + z 45, z 14 + z 46, z 15 + z 47,
     z 16 + z 48, z 17 + z 49, z 18 + z 50, z 19 + z 51, z 20 + z 52, z 21 + z 53, z 22 + z 54, z 23 + z 55,
     z 24 + z 56, z 25 + z 57, z 26 + z 58, z 27 + z 59, z 28 + z 60, z 29 + z 61, z 30 + z 62, z 31 + z 63,
     z 32, z 33, z 34, z 35, z 36, z 37, z 38, z 39,
     z 40 - z 56, z 41 - z 57, z 42 - z 58, z 43 - z 59, z 44 - z 60, z 45 - z 61, z 46 - z 62, z 47 - z 63]
  | 3 =>
    [M_SQRT2 * z 24, M_SQRT2 * z 25, M_SQRT2 * z 26, M_SQRT2 * z 27, M_SQRT2 * z 28, M_SQRT2 * z 29, M_SQRT2 * z 30, M_SQRT2 * z 31,
     z 16 + z 32, z 17 + z 33, z 18 + z 34, z 19 + z 35, z 20 + z 36, z 21 + z 37, z 22 + z 38, z 23 + z 39,
     z 8 + z 40, z 9 + z 41, z 10 + z 42, z 11 + z 43, z 12 + z 44, z 13 + z 45, z 14 + z 46, z 15 + z 47,
     M_SQRT2 * z 0 + z 48, M_SQRT2 * z 1 + z 49, M_SQRT2 * z 2 + z 50, M_SQRT2 * z 3 + z 51, M_SQRT2 * z 4 + z 52, M_SQRT2 * z 5 + z 53, M_SQRT2 * z 6 + z 54, M_SQRT2 * z 7 + z 55,
     z 8 + z 56, z 9 + z 57, z 10 + z 58, z 11 + z 59, z 12 + z 60, z 13 + z 61, z 14 + z 62, z 15 + z 63,
     z 16, z 17, z 18, z 19, z 20, z 21, z 22, z 23,
     z 24 - z 56, z 25 - z 57, z 26 - z 58, z 27 - z 59, z 28 - z 60, z 29 - z 61, z 30 - z 62, z 31 - z 63,
     z 32 - z 48, z 33 - z 49, z 34 - z 50, z 35 - z 51, z 36 - z 52, z 37 - z 53, z 38 - z 54, z 39 - z 55]
  | 4 =>
    [M_SQRT2 * z 32, M_SQRT2 * z 33, M_SQRT2 * z 34, M_SQRT2 * z 35, M_SQRT2 * z 36, M_SQRT2 * z 37, M_SQRT2 * z 38, M_SQRT2 * z 39,
     z 24 + z 40, z 25 + z 41, z 26 + z 42, z 27 + z 43, z 28 + z 44, z 29 + z 45, z 30 + z 46, z 31 + z 47,
     z 16 + z 48, z 17 + z 49, z 18 + z 50, z 19 + z 51, z 20 + z 52, z 21 + z 53, z 22 + z 54, z 23 + z 55,
     z 8 + z 56, z 9 + z 57, z 10 + z 58, z 11 + z 59, z 12 + z 60, z 13 + z 61, z 14 + z 62, z 15 + z 63,
     M_SQRT2 * z 0, M_SQRT2 * z 1, M_SQRT2 * z 2, M_SQRT2 * z 3, M_SQRT2 * z 4, M_SQRT2 * z 5, M_SQRT2 * z 6, M_SQRT2 * z 7,
     z 8 - z 56, z 9 - z 57, z 10 - z 58, z 11 - z 59, z 12 - z 60, z 13 - z 61, z 14 - z 62, z 15 - z 63,
     z 16 - z 48, z 17 - z 49, z 18 - z 50, z 19 - z 51, z 20 - z 52, z 21 - z 53, z 22 - z 54, z 23 - z 55,
     z 24 - z 40, z 25 - z 41, z 26 - z 42, z 27 - z 43, z 28 - z 44, z 29 - z 45, z 30 - z 46, z 31 - z 47]
  | 5 =>
    [M_SQRT2 * z 40, M_SQRT2 * z 41, M_SQRT2 * z 42, M_SQRT2 * z 43, M_SQRT2 * z 44, M_SQRT2 * z 45, M_SQRT2 * z 46, M_SQRT2 * z 47,
     z 32 + z 48, z 33 + z 49, z 34 + z 50, z 35 + z 51, z 36 + z 52, z 37 + z 53, z 38 + z 54, z 39 + z 55,
     z 24 + z 56, z 25 + z 57, z 26 + z 58, z 27 + z 59, z 28 + z 60, z 29 + z 61, z 30 + z 62, z 31 + z 63,
     z 16, z 17, z 18, z 19, z 20, z 21, z 22, z 23,
     z 8 - z 56, z 9 - z 57, z 10 - z 58, z 11 - z 59, z 12 - z 60, z 13 - z 61, z 14 - z 62, z 15 - z 63,
     M_SQRT2 * z 0 - z 48, M_SQRT2 * z 1 - z 49, M_SQRT2 * z 2 - z 50, M_SQRT2 * z 3 - z 51, M_SQRT2 * z 4 - z 52, M_SQRT2 * z 5 - z 53, M_SQRT2 * z 6 - z 54, M_SQRT2 * z 7 - z 55,
     z 8 - z 40, z 9 - z 41, z 10 - z 42, z 11 - z 43, z 12 - z 44, z 13 - z 45, z 14 - z 46, z 15 - z 47,
     z 16 - z 32, z 17 - z 33, z 18 - z 34, z 19 - z 35, z 20 - z 36, z 21 - z 37, z 22 - z 38, z 23 - z 39]
  | 6 =>
    [M_SQRT2 * z 48, M_SQRT2 * z 49, M_SQRT2 * z 50, M_SQRT2 * z 51, M_SQRT2 * z 52, M_SQRT2 * z 53, M_SQRT2 * z 54, M_SQRT2 * z 55,
     z 40 + z 56, z 41 + z 57, z 42 + z 58, z 43 + z 59, z 44 + z 60, z 45 + z 61, z 46 + z 62, z 47 + z 63,
     z 32, z 33, z 34, z 35, z 36, z 37, z 38, z 39,
     z 24 - z 56, z 25 - z 57, z 26 - z 58, z 27 - z 59, z 28 - z 60, z 29 - z 61, z 30 - z 62, z 31 - z 63,
     z 16 - z 48, z 17 - z 49, z 18 - z 50, z 19 - z 51, z 20 - z 52, z 21 - z 53, z 22 - z 54, z 23 - z 55,
     z 8 - z 40, z 9 - z 41, z 10 - z 42, z 11 - z 43, z 12 - z 44, z 13 - z 45, z 14 - z 46, z 15 - z 47,
     M_SQRT2 * z 0 - z 32, M_SQRT2 * z 1 - z 33, M_SQRT2 * z 2 - z 34, M_SQRT2 * z 3 - z 35, M_SQRT2 * z 4 - z 36, M_SQRT2 * z 5 - z 37, M_SQRT2 * z 6 - z 38, M_SQRT2 * z 7 - z 39,
     z 8 - z 24, z 9 - z 25, z 10 - z 26, z 11 - z 27, z 12 - z 28, z 13 - z 29, z 14 - z 30, z 15 - z 31]
  | 7 =>
    [M_SQRT2 * z 56, M_SQRT2 * z 57, M_SQRT2 * z 58, M_SQRT2 * z 59, M_SQRT2 * z 60, M_SQRT2 * z 61, M_SQRT2 * z 62, M_SQRT2 * z 63,
     z 48, z 49, z 50, z 51, z 52, z 53, z 54, z 55,
     z 40 - z 56, z 41 - z 57, z 42 - z 58, z 43 - z 59, z 44 - z 60, z 45 - z 61, z 46 - z 62, z 47 - z 63,
     z 32 - z 48, z 33 - z 49, z 34 - z 50, z 35 - z 51, z 36 - z 52, z 37 - z 53, z 38 - z 54, z 39 - z 55,
     z 24 - z 40, z 25 - z 41, z 26 - z 42, z 27 - z 43, z 28 - z 44, z 29 - z 45, z 30 - z 46, z 31 - z 47,
     z 16 - z 32, z 17 - z 33, z 18 - z 34, z 19 - z 35, z 20 - z 36, z 21 - z 37, z 22 - z 38, z 23 - z 39,
     z 8 - z 24, z 9 - z 25, z 10 - z 26, z 11 - z 27, z 12 - z 28, z 13 - z 29, z 14 - z 30, z 15 - z 31,
     M_SQRT2 * z 0 - z 16, M_SQRT2 * z 1 - z 17, M_SQRT2 * z 2 - z 18, M_SQRT2 * z 3 - z 19, M_SQRT2 * z 4 - z 20, M_SQRT2 * z 5 - z 21, M_SQRT2 * z 6 - z 22, M_SQRT2 * z 7 - z 23]
  | _ => []

/-- Model of `mj_convolve(x, y, w, k, l)`: the accumulator `y` after the call. The array `z`
starts as zeros; `switch(l)` fills it from `x`, `switch(k)` adds to `y`. The block `x` is only
read. -/
def mj_convolve {R : Type} [Field R] [DecidableEq R] (M_SQRT2 : R) (x y : Nat → R) (w : R)
    (k l : Int) : Nat → R :=
  if w = 0 then y
  else
    let z : Nat → R := fun i =>
      if l < 0 then 0 else ((convolve_switch_l M_SQRT2 x l.toNat).get? i).getD 0
    fun i =>
      if k < 0 then y i
      else
        match (convolve_switch_k M_SQRT2 z k.toNat).get? i with
        | some e => y i + e * w
        | none => y i

/-! ## The mask operator of `mj_read_jpegmask_from_mem` -/

/-- Assignment `b[i] = v` to one entry of an array. -/
def store {α : Type} (b : Nat → α) (i : Nat) (v : α) : Nat → α :=
  fun n => if n = i then v else b n

/-- The body of the loop `for(i = 1; i < 8; i++)` of `mj_read_jpegmask_from_mem`: eight
assignments, each of them to the entry `(i << 3) + 0`. -/
def mask_row_step {R : Type} [Field R] (c0 : R) (coefs : Nat → Int) (b : Nat → R) (i : Nat) :
    Nat → R :=
  let b := store b ((i <<< 3) + 0) ((coefs ((i <<< 3) + 0) : R) * (0.5 * c0 / 1020))
  let b := store b ((i <<< 3) + 0) ((coefs ((i <<< 3) + 1) : R) * (0.5 * 0.5 / 1020))
  let b := store b ((i <<< 3) + 0) ((coefs ((i <<< 3) + 2) : R) * (0.5 * 0.5 / 1020))
  let b := store b ((i <<< 3) + 0) ((coefs ((i <<< 3) + 3) : R) * (0.5 * 0.5 / 1020))
  let b := store b ((i <<< 3) + 0) ((coefs ((i <<< 3) + 4) : R) * (0.5 * 0.5 / 1020))
  let b := store b ((i <<< 3) + 0) ((coefs ((i <<< 3) + 5) : R) * (0.5 * 0.5 / 1020))
  let b := store b ((i <<< 3) + 0) ((coefs ((i <<< 3) + 6) : R) * (0.5 * 0.5 / 1020))
  let b := store b ((i <<< 3) + 0) ((coefs ((i <<< 3) + 7) : R) * (0.5 * 0.5 / 1020))
  b

/-- The coefficient block of the alpha JPEG after `coefs[0] += 1024`. -/
def mask_shift_dc (coefs : Nat → Int) : Nat → Int :=
  store coefs 0 (coefs 0 + 1024)

/-- The operator `b` that `mj_read_jpegmask_from_mem` computes for one block of the alpha JPEG
with dequantised coefficients `coefs`; `c0` is the literal `0.3535534`. The block `b` comes from
`calloc`, so it starts as zeros. -/
def mask_operator {R : Type} [Field R] (c0 : R) (coefs : Nat → Int) : Nat → R :=
  let coefs := mask_shift_dc coefs
  let b : Nat → R := fun _ => 0
  let b := store b 0 ((coefs 0 : R) * (c0 * c0 / 1020))
  let b := store b 1 ((coefs 1 : R) * (c0 * 0.5 / 1020))
  let b := store b 2 ((coefs 2 : R) * (c0 * 0.5 / 1020))
  let b := store b 3 ((coefs 3 : R) * (c0 * 0.5 / 1020))
  let b := store b 4 ((coefs 4 : R) * (c0 * 0.5 / 1020))
  let b := store b 5 ((coefs 5 : R) * (c0 * 0.5 / 1020))
  let b := store b 6 ((coefs 6 : R) * (c0 * 0.5 / 1020))
  let b := store b 7 ((coefs 7 : R) * (c0 * 0.5 / 1020))
  (List.range' 1 7).foldl (mask_row_step c0 coefs) b

/-! ## The per-block blend of `mj_compose_with_mask` -/

/-- The cast `(int)y` of C: truncation toward zero. -/
def trunc {R : Type} [LinearOrderedField R] [FloorRing R] (y : R) : Int :=
  if 0 ≤ y then Int.floor y else Int.ceil y

/-- The body of the loop `for(i = 0; i < DCTSIZE; i++)` that calls `mj_convolve` eight times. -/
def convolve_row {R : Type} [Field R] [DecidableEq R] (M_SQRT2 : R) (X b : Nat → R)
    (Y : Nat → R) (i : Nat) : Nat → R :=
  let Y := mj_convolve M_SQRT2 X Y (b ((i <<< 3) + 0)) i 0
  let Y := mj_convolve M_SQRT2 X Y (b ((i <<< 3) + 1)) i 1
  let Y := mj_convolve M_SQRT2 X Y (b ((i <<< 3) + 2)) i 2
  let Y := mj_convolve M_SQRT2 X Y (b ((i <<< 3) + 3)) i 3
  let Y := mj_convolve M_SQRT2 X Y (b ((i <<< 3) + 4)) i 4
  let Y := mj_convolve M_SQRT2 X Y (b ((i <<< 3) + 5)) i 5
  let Y := mj_convolve M_SQRT2 X Y (b ((i <<< 3) + 6)) i 6
  let Y := mj_convolve M_SQRT2 X Y (b ((i <<< 3) + 7)) i 7
  Y

/-- The array `Y` of `mj_compose_with_mask` after the 64 calls of `mj_convolve` for one block:
`X = x0 - x1` with `x0 = coefs_x` the dropon block and `x1 = coefs_m` the host block, `Y`
starts as zeros (`memset`). -/
def blend_Y {R : Type} [Field R] [DecidableEq R] (M_SQRT2 : R) (b : Nat → R)
    (coefs_x coefs_m : Nat → Int) : Nat → R :=
  let X : Nat → R := fun i => ((coefs_x i - coefs_m i : Int) : R)
  let Y : Nat → R := fun _ => 0
  (List.range DCTSIZE).foldl (convolve_row M_SQRT2 X b) Y

/-- The host block after the blend of one block in `mj_compose_with_mask`:
`coefs_m[i] += (int)Y[i]` for the `DCTSIZE2` entries, with the sum kept as an integer;
`blend_block_JCOEF` adds the conversion to the 16-bit `JCOEF` of the store. -/
def blend_block {R : Type} [LinearOrderedField R] [FloorRing R] (M_SQRT2 : R) (b : Nat → R)
    (coefs_x coefs_m : Nat → Int) : Nat → Int :=
  let Y := blend_Y M_SQRT2 b coefs_x coefs_m
  fun i => if i < DCTSIZE2 then coefs_m i + trunc (Y i) else coefs_m i

/-! ## Images, masks and dropons -/

/-- The fields of `jpeg_component_info` that the program reads; `quantval` is
`quant_table->quantval`. -/
structure jpeg_component_info where
  h_samp_factor : Nat
  v_samp_factor : Nat
  quantval : Nat → Int

/-- The coefficient array of one component (`jvirt_barray_ptr`): `rows` and `cols` are the
numbers of block rows and of blocks per row that the codec allocated, `blk r c` is the block in
row `r` and column `c`. -/
structure BlockArray where
  rows : Nat
  cols : Nat
  blk : Nat → Nat → Nat → Int

/-- Sampling factors of one component, `modjpeg_jpegsampling_t`. -/
structure modjpeg_jpegsampling_t where
  h_samp_factor : Nat
  v_samp_factor : Nat

/-- A decoded image, `modjpeg_jpegimage_t`: the fields of `cinfo` that the program reads,
the coefficient arrays `coef` and the array `samp_factor`. -/
structure modjpeg_jpegimage_t where
  image_width : Nat
  image_height : Nat
  max_h_samp_factor : Nat
  max_v_samp_factor : Nat
  jpeg_color_space : Nat
  num_components : Nat
  comp_info : Nat → jpeg_component_info
  coef : Nat → BlockArray
  samp_factor : Nat → modjpeg_jpegsampling_t

/-- One component of a mask, `modjpeg_jpegcomponent_t`; `blocks i` is the pointer stored at
index `i` of the array `blocks`, `none` for a null pointer. -/
structure modjpeg_jpegcomponent_t (R : Type) where
  width_in_blocks : Nat
  height_in_blocks : Nat
  h_samp_factor : Nat
  v_samp_factor : Nat
  num_blocks : Nat
  blocks : Nat → Option (Nat → R)

/-- A mask, `modjpeg_jpegmask_t`. -/
structure modjpeg_jpegmask_t (R : Type) where
  num_components : Nat
  components : Nat → modjpeg_jpegcomponent_t R

/-- A dropon, `modjpeg_jpegdropon_t`; `none` stands for a null `image` or `alpha`. -/
structure modjpeg_jpegdropon_t (R : Type) where
  rawimage : Nat → Int
  rawalpha : Nat → Int
  blend : Int
  width : Nat
  height : Nat
  image : Option modjpeg_jpegimage_t
  alpha : Option (modjpeg_jpegmask_t R)

/-- The calls into the codec: `encode` stands for `mj_encode_jpeg_to_buffer` (raw samples,
colour space, sampling factors, width and height to a JPEG stream, `none` when it fails), and
`decode` for `jpeg_read_header` followed by `jpeg_read_coefficients` (a JPEG stream to an
image holding quantised coefficients, `none` when the codec reports an error). -/
structure Codec where
  encode : (Nat → Int) → Nat → (Nat → modjpeg_jpegsampling_t) → Nat → Nat → Option (List Nat)
  decode : List Nat → Option modjpeg_jpegimage_t

/-- The image with block `(row, col)` of component `c` replaced by `b`. -/
def write_block (m : modjpeg_jpegimage_t) (c row col : Nat) (b : Nat → Int) :
    modjpeg_jpegimage_t :=
  { m with coef := fun c' =>
      if c' = c then
        { rows := (m.coef c).rows, cols := (m.coef c).cols,
          blk := fun r k => if r = row ∧ k = col then b else (m.coef c).blk r k }
      else m.coef c' }

/-- Access to a row of the host's coefficient array of component `c`
(`access_virt_barray` on `m->coef[c]`): defined when the component and the row exist. -/
def host_row (m : modjpeg_jpegimage_t) (c : Nat) (row : Int) : Option Nat :=
  if c < m.num_components ∧ 0 ≤ row ∧ row < (m.coef c).rows then some row.toNat else none

/-- Access to the block `blocks_m[0][col]` of a host row: defined when the column exists. -/
def host_col (m : modjpeg_jpegimage_t) (c : Nat) (col : Int) : Option Nat :=
  if 0 ≤ col ∧ col < (m.coef c).cols then some col.toNat else none

/-! ## Reading and writing images -/

/-- The loop `for(i = 0; i < DCTSIZE2; i += 4)` of `mj_read_jpegimage_from_mem` on one block:
`coefs[i] = coefs[i] * quantval[i]` for the `DCTSIZE2` entries, with the product kept as an
integer; `dequantise_block_JCOEF` adds the conversion to the 16-bit `JCOEF` of the store. -/
def dequantise_block (quantval coefs : Nat → Int) : Nat → Int :=
  fun i => if i < DCTSIZE2 then coefs i * quantval i else coefs i

/-- The body of the loop over the components `c` of `mj_read_jpegimage_from_mem`:
`samp_factor[c]` is set and every block `(l, k)` with `l < height_in_blocks`,
`k < width_in_blocks` is dequantised. -/
def read_component (m : modjpeg_jpegimage_t) (c : Nat) : modjpeg_jpegimage_t :=
  let component := m.comp_info c
  let m : modjpeg_jpegimage_t :=
    { m with samp_factor := fun c' =>
        if c' = c then
          { h_samp_factor := component.h_samp_factor, v_samp_factor := component.v_samp_factor }
        else m.samp_factor c' }
  let width_in_blocks :=
    m.image_width / (m.max_h_samp_factor * DCTSIZE) * component.h_samp_factor
  let height_in_blocks :=
    m.image_height / (m.max_v_samp_factor * DCTSIZE) * component.v_samp_factor
  (List.range height_in_blocks).foldl
    (fun m l =>
      (List.range width_in_blocks).foldl
        (fun m k =>
          write_block m c l k (dequantise_block component.quantval ((m.coef c).blk l k)))
        m)
    m

/-- The loops of `mj_read_jpegimage_from_mem` over the decoded image. -/
def dequantise (m : modjpeg_jpegimage_t) : modjpeg_jpegimage_t :=
  (List.range m.num_components).foldl read_component m

/-- The loop `for(i = 0; i < DCTSIZE2; i += 4)` of `mj_write_jpegimage_to_buffer` on one
block: `coefs[i] = (int)coefs[i] / quantval[i]`, the integer division of C, for the
`DCTSIZE2` entries. -/
def requantise_block (quantval coefs : Nat → Int) : Nat → Int :=
  fun i => if i < DCTSIZE2 then Int.tdiv (coefs i) (quantval i) else coefs i

/-- The body of the loop over the components `c` of `mj_write_jpegimage_to_buffer`: every
block `(l, k)` with `l < height_in_blocks`, `k < width_in_blocks` is requantised. -/
def write_component (m : modjpeg_jpegimage_t) (c : Nat) : modjpeg_jpegimage_t :=
  let component := m.comp_info c
  let width_in_blocks :=
    m.image_width / (m.max_h_samp_factor * DCTSIZE) * component.h_samp_factor
  let height_in_blocks :=
    m.image_height / (m.max_v_samp_factor * DCTSIZE) * component.v_samp_factor
  (List.range height_in_blocks).foldl
    (fun m l =>
      (List.range width_in_blocks).foldl
        (fun m k =>
          write_block m c l k (requantise_block component.quantval ((m.coef c).blk l k)))
        m)
    m

/-- The loops of `mj_write_jpegimage_to_buffer` over the image, which change its coefficients
in place before the codec writes them. -/
def requantise (m : modjpeg_jpegimage_t) : modjpeg_jpegimage_t :=
  (List.range m.num_components).foldl write_component m

/-- Model of `mj_read_jpegimage_from_mem`: `none` stands for the result `NULL`. -/
def mj_read_jpegimage_from_mem (codec : Codec) (buffer : Option (List Nat)) :
    Option modjpeg_jpegimage_t :=
  match buffer with
  | none => none
  | some bytes =>
    if bytes.length = 0 then none
    else
      match codec.decode bytes with
      | none => none
      | some m => some (dequantise m)

/-- The index of the array `blocks` at which `mj_read_jpegmask_from_mem` stores, and
`mj_compose_with_mask` reads, the operator of block `(l, k)`:
`comp->height_in_blocks * l + k`. -/
def mask_block_index (height_in_blocks l k : Nat) : Nat :=
  height_in_blocks * l + k

/-- The loop `for(k = 0; k < comp->width_in_blocks; k++)` of `mj_read_jpegmask_from_mem` for
block row `l` of the coefficient array `a`: the operator of block `(l, k)` is stored. -/
def mask_row {R : Type} [Field R] (c0 : R) (a : BlockArray) (height_in_blocks width_in_blocks : Nat)
    (blocks : Nat → Option (Nat → R)) (l : Nat) : Nat → Option (Nat → R) :=
  (List.range width_in_blocks).foldl
    (fun blocks k =>
      store blocks (mask_block_index height_in_blocks l k) (some (mask_operator c0 (a.blk l k))))
    blocks

/-- The component `c` of the mask that `mj_read_jpegmask_from_mem` builds from the image `m`. -/
def mask_component {R : Type} [Field R] (c0 : R) (m : modjpeg_jpegimage_t) (c : Nat) :
    modjpeg_jpegcomponent_t R :=
  let component := m.comp_info c
  let width_in_blocks :=
    m.image_width / (m.max_h_samp_factor * DCTSIZE) * component.h_samp_factor
  let height_in_blocks :=
    m.image_height / (m.max_v_samp_factor * DCTSIZE) * component.v_samp_factor
  { width_in_blocks := width_in_blocks
    height_in_blocks := height_in_blocks
    h_samp_factor := component.h_samp_factor
    v_samp_factor := component.v_samp_factor
    num_blocks := width_in_blocks * height_in_blocks
    blocks :=
      (List.range height_in_blocks).foldl
        (mask_row c0 (m.coef c) height_in_blocks width_in_blocks) (fun _ => none) }

/-- The component of a mask before it is filled (`calloc`). -/
def mask_component_zero (R : Type) : modjpeg_jpegcomponent_t R :=
  { width_in_blocks := 0, height_in_blocks := 0, h_samp_factor := 0, v_samp_factor := 0,
    num_blocks := 0, blocks := fun _ => none }

/-- Model of `mj_read_jpegmask_from_mem`; `c0` is the literal `0.3535534`. -/
def mj_read_jpegmask_from_mem {R : Type} [Field R] (c0 : R) (codec : Codec)
    (buffer : Option (List Nat)) : Option (modjpeg_jpegmask_t R) :=
  match mj_read_jpegimage_from_mem codec buffer with
  | none => none
  | some m =>
    some
      { num_components := m.num_components
        components := fun c =>
          if c < m.num_components then mask_component c0 m c else mask_component_zero R }

/-- Model of `mj_update_jpegdropon` for a dropon that is not null: the cached image and mask
are rebuilt through the codec for the sampling factors `s`; the final
`mj_write_jpegimage_to_file` requantises the coefficients of the cached image in place. -/
def mj_update_jpegdropon {R : Type} [Field R] (c0 : R) (codec : Codec)
    (d : modjpeg_jpegdropon_t R) (s : Nat → modjpeg_jpegsampling_t) : modjpeg_jpegdropon_t R :=
  let image :=
    mj_read_jpegimage_from_mem codec
      (codec.encode d.rawimage MODJPEG_COLORSPACE_RGB s d.width d.height)
  let alpha :=
    mj_read_jpegmask_from_mem c0 codec
      (codec.encode d.rawalpha MODJPEG_COLORSPACE_YCC s d.width d.height)
  { d with image := image.map requantise, alpha := alpha }

/-! ## The compositor -/

/-- The host's extent `h_blocks` (and `v_blocks`) in units of `max_samp_factor * DCTSIZE`
samples, as both compositors compute it. The comparison of C is between `unsigned int`
values: both sides are reduced modulo `2^32`. -/
def host_blocks (image_dim max_samp_factor : Nat) : Nat :=
  let blocks := image_dim / (max_samp_factor * DCTSIZE)
  if ((blocks * max_samp_factor * DCTSIZE : Nat) : Int) % 4294967296
      < ((image_dim : Int) - ((max_samp_factor * DCTSIZE / 2 : Nat) : Int)) % 4294967296
  then blocks + 1
  else blocks

/-- The offset `width_offset` of a component: `samp_m` is the host component's
`h_samp_factor`. -/
def width_offset (align_h : Int) (samp_m h_blocks width_in_blocks : Nat) : Int :=
  if align_h = MODJPEG_ALIGN_LEFT then 0
  else if align_h = MODJPEG_ALIGN_CENTER then
    ((samp_m * h_blocks : Nat) : Int) / 2 - (width_in_blocks : Int)
  else ((samp_m * h_blocks : Nat) : Int) - (width_in_blocks : Int)

/-- The offset `height_offset` of a component: `samp_m` is the host component's
`v_samp_factor`. -/
def height_offset (align_v : Int) (samp_m v_blocks height_in_blocks : Nat) : Int :=
  if align_v = MODJPEG_ALIGN_TOP then 0
  else if align_v = MODJPEG_ALIGN_CENTER then
    ((samp_m * v_blocks : Nat) : Int) / 2 - (height_in_blocks : Int)
  else ((samp_m * v_blocks : Nat) : Int) - (height_in_blocks : Int)

/-- The copy of the `DCTSIZE2` coefficients of a dropon block into a host block. -/
def copy_block (coefs_x coefs_m : Nat → Int) : Nat → Int :=
  fun i => if i < DCTSIZE2 then coefs_x i else coefs_m i

/-- The body of the loop over `k` of `mj_compose_without_mask`: the dropon block `(l, k)` of
component `c` is copied to the host block `(rm, width_offset + k)`. -/
def without_mask_block (x : modjpeg_jpegimage_t) (c l rm : Nat) (width_offset : Int)
    (m : modjpeg_jpegimage_t) (k : Nat) : Option modjpeg_jpegimage_t :=
  match host_col m c (width_offset + (k : Int)) with
  | none => none
  | some cm =>
    some (write_block m c rm cm (copy_block ((x.coef c).blk l k) ((m.coef c).blk rm cm)))

/-- The body of the loop over `l` of `mj_compose_without_mask`. -/
def without_mask_row (x : modjpeg_jpegimage_t) (c : Nat) (height_offset width_offset : Int)
    (width_in_blocks : Nat) (m : modjpeg_jpegimage_t) (l : Nat) : Option modjpeg_jpegimage_t :=
  match host_row m c (height_offset + (l : Int)) with
  | none => none
  | some rm =>
    (List.range width_in_blocks).foldlM (without_mask_block x c l rm width_offset) m

/-- The body of the loop over the components `c` of `mj_compose_without_mask`. -/
def without_mask_component (x : modjpeg_jpegimage_t) (align_h align_v : Int)
    (h_blocks v_blocks : Nat) (m : modjpeg_jpegimage_t) (c : Nat) : Option modjpeg_jpegimage_t :=
  let component_m := m.comp_info c
  let component_x := x.comp_info c
  let width_in_blocks :=
    x.image_width / (x.max_h_samp_factor * DCTSIZE) * component_x.h_samp_factor
  let height_in_blocks :=
    x.image_height / (x.max_v_samp_factor * DCTSIZE) * component_x.v_samp_factor
  let wo := width_offset align_h component_m.h_samp_factor h_blocks width_in_blocks
  let ho := height_offset align_v component_m.v_samp_factor v_blocks height_in_blocks
  (List.range height_in_blocks).foldlM (without_mask_row x c ho wo width_in_blocks) m

/-- Model of `mj_compose_without_mask(m, x, align_h, align_v)`: the returned value and the
host after the call. -/
def mj_compose_without_mask (m x : modjpeg_jpegimage_t) (align_h align_v : Int) :
    Option (Int × modjpeg_jpegimage_t) :=
  let h_blocks := host_blocks m.image_width m.max_h_samp_factor
  let v_blocks := host_blocks m.image_height m.max_v_samp_factor
  match (List.range x.num_components).foldlM
      (without_mask_component x align_h align_v h_blocks v_blocks) m with
  | none => none
  | some m' => some (0, m')

/-- The body of the loop over `k` of `mj_compose_with_mask`: the host block
`(rm, width_offset + k)` is blended with the dropon block `(l, k)` through the operator stored
at index `comp->height_in_blocks * l + k`. -/
def with_mask_block {R : Type} [LinearOrderedField R] [FloorRing R] (M_SQRT2 : R)
    (x : modjpeg_jpegimage_t) (comp : modjpeg_jpegcomponent_t R) (c l rm : Nat)
    (width_offset : Int) (m : modjpeg_jpegimage_t) (k : Nat) : Option modjpeg_jpegimage_t :=
  match host_col m c (width_offset + (k : Int)) with
  | none => none
  | some cm =>
    match comp.blocks (mask_block_index comp.height_in_blocks l k) with
    | none => none
    | some b =>
      some (write_block m c rm cm
        (blend_block M_SQRT2 b ((x.coef c).blk l k) ((m.coef c).blk rm cm)))

/-- The body of the loop over `l` of `mj_compose_with_mask`. -/
def with_mask_row {R : Type} [LinearOrderedField R] [FloorRing R] (M_SQRT2 : R)
    (x : modjpeg_jpegimage_t) (comp : modjpeg_jpegcomponent_t R) (c : Nat)
    (height_offset width_offset : Int) (width_in_blocks : Nat) (m : modjpeg_jpegimage_t)
    (l : Nat) : Option modjpeg_jpegimage_t :=
  match host_row m c (height_offset + (l : Int)) with
  | none => none
  | some rm =>
    (List.range width_in_blocks).foldlM (with_mask_block M_SQRT2 x comp c l rm width_offset) m

/-- The body of the loop over the components `c` of `mj_compose_with_mask`. -/
def with_mask_component {R : Type} [LinearOrderedField R] [FloorRing R] (M_SQRT2 : R)
    (x : modjpeg_jpegimage_t) (w : modjpeg_jpegmask_t R) (align_h align_v : Int)
    (h_blocks v_blocks : Nat) (m : modjpeg_jpegimage_t) (c : Nat) : Option modjpeg_jpegimage_t :=
  let component_m := m.comp_info c
  let component_x := x.comp_info c
  let comp := w.components c
  let width_in_blocks :=
    x.image_width / (x.max_h_samp_factor * DCTSIZE) * component_x.h_samp_factor
  let height_in_blocks :=
    x.image_height / (x.max_v_samp_factor * DCTSIZE) * component_x.v_samp_factor
  let wo := width_offset align_h component_m.h_samp_factor h_blocks width_in_blocks
  let ho := height_offset align_v component_m.v_samp_factor v_blocks height_in_blocks
  (List.range height_in_blocks).foldlM (with_mask_row M_SQRT2 x comp c ho wo width_in_blocks) m

/-- Model of `mj_compose_with_mask(m, x, w, align_h, align_v)`: the returned value and the host
after the call. -/
def mj_compose_with_mask {R : Type} [LinearOrderedField R] [FloorRing R] (M_SQRT2 : R)
    (m x : modjpeg_jpegimage_t) (w : modjpeg_jpegmask_t R) (align_h align_v : Int) :
    Option (Int × modjpeg_jpegimage_t) :=
  let h_blocks := host_blocks m.image_width m.max_h_samp_factor
  let v_blocks := host_blocks m.image_height m.max_v_samp_factor
  match (List.range x.num_components).foldlM
      (with_mask_component M_SQRT2 x w align_h align_v h_blocks v_blocks) m with
  | none => none
  | some m' => some (0, m')

/-- The flag `reload` of `mj_compose`. -/
def needs_reload {R : Type} (m : modjpeg_jpegimage_t) (d : modjpeg_jpegdropon_t R) : Bool :=
  match d.image with
  | none => true
  | some image =>
    decide (m.jpeg_color_space ≠ image.jpeg_color_space)
      || (List.range m.num_components).any (fun c =>
        decide ((m.comp_info c).h_samp_factor ≠ (image.comp_info c).h_samp_factor)
          || decide ((m.comp_info c).v_samp_factor ≠ (image.comp_info c).v_samp_factor))

/-- The dropon after the first part of `mj_compose`: `mj_update_jpegdropon` is called with the
host's `samp_factor` when the flag `reload` is set. -/
def dropon_after_reload {R : Type} [Field R] (c0 : R) (codec : Codec) (m : modjpeg_jpegimage_t)
    (d : modjpeg_jpegdropon_t R) : modjpeg_jpegdropon_t R :=
  if needs_reload m d then mj_update_jpegdropon c0 codec d m.samp_factor else d

/-- Model of `mj_compose(m, d, align_h, align_v, offset_x, offset_y)`: the returned value, the
host and the dropon after the call. The values returned by the two compositors are discarded.
A null `d->image` or `d->alpha` passed to a compositor is dereferenced there: no result. -/
def mj_compose {R : Type} [LinearOrderedField R] [FloorRing R] (M_SQRT2 c0 : R) (codec : Codec)
    (m : modjpeg_jpegimage_t) (d : modjpeg_jpegdropon_t R)
    (align_h align_v offset_x offset_y : Int) :
    Option (Int × modjpeg_jpegimage_t × modjpeg_jpegdropon_t R) :=
  let d := dropon_after_reload c0 codec m d
  if d.blend = MODJPEG_BLEND_NONE then some (0, m, d)
  else if d.blend ≠ MODJPEG_BLEND_FULL then
    match d.image, d.alpha with
    | some x, some w =>
      match mj_compose_with_mask M_SQRT2 m x w align_h align_v with
      | none => none
      | some r => some (0, r.2, d)
    | _, _ => none
  else
    match d.image with
    | some x =>
      match mj_compose_without_mask m x align_h align_v with
      | none => none
      | some r => some (0, r.2, d)
    | none => none

/-! ## Quantities the statements refer to -/

/-- The dropon's extent `w_c` of component `c` in blocks, `width_in_blocks` in both
compositors. -/
def dropon_width (x : modjpeg_jpegimage_t) (c : Nat) : Nat :=
  x.image_width / (x.max_h_samp_factor * DCTSIZE) * (x.comp_info c).h_samp_factor

/-- The dropon's extent `h_c` of component `c` in blocks, `height_in_blocks` in both
compositors. -/
def dropon_height (x : modjpeg_jpegimage_t) (c : Nat) : Nat :=
  x.image_height / (x.max_v_samp_factor * DCTSIZE) * (x.comp_info c).v_samp_factor

/-- The offset `width_offset` that both compositors compute for component `c`. -/
def placed_width_offset (m x : modjpeg_jpegimage_t) (align_h : Int) (c : Nat) : Int :=
  width_offset align_h (m.comp_info c).h_samp_factor
    (host_blocks m.image_width m.max_h_samp_factor) (dropon_width x c)

/-- The offset `height_offset` that both compositors compute for component `c`. -/
def placed_height_offset (m x : modjpeg_jpegimage_t) (align_v : Int) (c : Nat) : Int :=
  height_offset align_v (m.comp_info c).v_samp_factor
    (host_blocks m.image_height m.max_v_samp_factor) (dropon_height x c)

/-- The host block `(row, col)` of component `c` lies in the placed dropon rectangle
`[height_offset, height_offset + h_c) × [width_offset, width_offset + w_c)`. -/
def in_rectangle (m x : modjpeg_jpegimage_t) (align_h align_v : Int) (c row col : Nat) : Prop :=
  c < x.num_components
    ∧ placed_height_offset m x align_v c ≤ (row : Int)
    ∧ (row : Int) < placed_height_offset m x align_v c + (dropon_height x c : Int)
    ∧ placed_width_offset m x align_h c ≤ (col : Int)
    ∧ (col : Int) < placed_width_offset m x align_h c + (dropon_width x c : Int)

instance (m x : modjpeg_jpegimage_t) (align_h align_v : Int) (c row col : Nat) :
    Decidable (in_rectangle m x align_h align_v c row col) := by
  unfold in_rectangle; infer_instance

/-- The placement lies inside the host grid: for every dropon component the host has the
component and the placed rectangle lies inside the host's coefficient array. -/
def placement_inside (m x : modjpeg_jpegimage_t) (align_h align_v : Int) : Prop :=
  ∀ c, c < x.num_components →
    c < m.num_components
      ∧ 0 ≤ placed_height_offset m x align_v c
      ∧ placed_height_offset m x align_v c + (dropon_height x c : Int) ≤ ((m.coef c).rows : Int)
      ∧ 0 ≤ placed_width_offset m x align_h c
      ∧ placed_width_offset m x align_h c + (dropon_width x c : Int) ≤ ((m.coef c).cols : Int)

instance (m x : modjpeg_jpegimage_t) (align_h align_v : Int) :
    Decidable (placement_inside m x align_h align_v) := by
  unfold placement_inside; infer_instance

/-- Two images agree in everything but the coefficients: the fields of `cinfo`, the sampling
factors and the sizes of the coefficient arrays. -/
def same_header (m s : modjpeg_jpegimage_t) : Prop :=
  s.image_width = m.image_width ∧ s.image_height = m.image_height
    ∧ s.max_h_samp_factor = m.max_h_samp_factor ∧ s.max_v_samp_factor = m.max_v_samp_factor
    ∧ s.jpeg_color_space = m.jpeg_color_space ∧ s.num_components = m.num_components
    ∧ s.comp_info = m.comp_info ∧ s.samp_factor = m.samp_factor
    ∧ ∀ c, (s.coef c).rows = (m.coef c).rows ∧ (s.coef c).cols = (m.coef c).cols

/-- The image `s` has the header of `m` and the coefficients of `m` in every block outside the
placed dropon rectangle of `x`. -/
def unchanged_outside (m x : modjpeg_jpegimage_t) (align_h align_v : Int)
    (s : modjpeg_jpegimage_t) : Prop :=
  same_header m s
    ∧ ∀ c row col, ¬ in_rectangle m x align_h align_v c row col →
        (s.coef c).blk row col = (m.coef c).blk row col

/-- The coefficient `i` of the host block `(row, col)` of component `c` after an opaque
composition: the dropon's coefficient inside the placed rectangle, the host's elsewhere. -/
def composed_coef (m x : modjpeg_jpegimage_t) (align_h align_v : Int) (c row col i : Nat) : Int :=
  if in_rectangle m x align_h align_v c row col ∧ i < DCTSIZE2 then
    (x.coef c).blk ((row : Int) - placed_height_offset m x align_v c).toNat
      ((col : Int) - placed_width_offset m x align_h c).toNat i
  else (m.coef c).blk row col i

/-- The state of an opaque composition that has finished the components below `c`, the block
rows below `l` of component `c` and the blocks below `k` of row `l`: the finished blocks hold
the composed coefficients, the others those of the host `m`. -/
def composed_upto (m x : modjpeg_jpegimage_t) (align_h align_v : Int) (c l k : Nat)
    (s : modjpeg_jpegimage_t) : Prop :=
  same_header m s
    ∧ ∀ c' row col i, (s.coef c').blk row col i
        = if c' < c ∨ (c' = c ∧ ((row : Int) < placed_height_offset m x align_v c + (l : Int)
              ∨ ((row : Int) = placed_height_offset m x align_v c + (l : Int)
                  ∧ (col : Int) < placed_width_offset m x align_h c + (k : Int))))
          then composed_coef m x align_h align_v c' row col i
          else (m.coef c').blk row col i

/-- The mask `w` holds an operator for every block `(l, k)` of every component of the dropon
image `x`, at the index `mj_compose_with_mask` reads. -/
def mask_present {R : Type} (w : modjpeg_jpegmask_t R) (x : modjpeg_jpegimage_t) : Prop :=
  ∀ c, c < x.num_components → ∀ l, l < dropon_height x c → ∀ k, k < dropon_width x c →
    ((w.components c).blocks
      (mask_block_index (w.components c).height_in_blocks l k)).isSome = true

instance {R : Type} (w : modjpeg_jpegmask_t R) (x : modjpeg_jpegimage_t) :
    Decidable (mask_present w x) := by
  unfold mask_present; infer_instance

/-! ## Small concrete inputs -/

/-- A one-component image of `width × height` samples whose coefficient array has
`rows × cols` blocks; coefficient `i` of block `(r, k)` is `base + 100 * r + 10 * k + i`. -/
def sample_image (width height rows cols : Nat) (base : Int) : modjpeg_jpegimage_t :=
  { image_width := width
    image_height := height
    max_h_samp_factor := 1
    max_v_samp_factor := 1
    jpeg_color_space := 1
    num_components := 1
    comp_info := fun _ => { h_samp_factor := 1, v_samp_factor := 1, quantval := fun _ => 1 }
    coef := fun _ =>
      { rows := rows, cols := cols
        blk := fun r k i => base + 100 * (r : Int) + 10 * (k : Int) + (i : Int) }
    samp_factor := fun _ => { h_samp_factor := 1, v_samp_factor := 1 } }

/-- A host of `16 × 16` samples: two by two blocks. -/
def sample_host : modjpeg_jpegimage_t := sample_image 16 16 2 2 0

/-- An adapted dropon of `8 × 8` samples: one block. -/
def sample_logo : modjpeg_jpegimage_t := sample_image 8 8 1 1 5000

/-- An adapted dropon of `24 × 8` samples: three blocks in a row, wider than `sample_host`. -/
def sample_wide_logo : modjpeg_jpegimage_t := sample_image 24 8 1 3 5000

/-- A codec whose calls all fail. -/
def failing_codec : Codec :=
  { encode := fun _ _ _ _ _ => none, decode := fun _ => none }

/-- A dropon over `ℚ` with the cached image `x`, no mask and the blend value `blend`. -/
def sample_dropon (x : modjpeg_jpegimage_t) (blend : Int) : modjpeg_jpegdropon_t ℚ :=
  { rawimage := fun _ => 0, rawalpha := fun _ => 0, blend := blend, width := x.image_width,
    height := x.image_height, image := some x, alpha := none }

/-- The composition `mj_compose` applied `n` times in a row to the same host, with the dropon
each call leaves behind: the host and the dropon after the last call. -/
def mj_compose_repeat {R : Type} [LinearOrderedField R] [FloorRing R] (M_SQRT2 c0 : R)
    (codec : Codec) (align_h align_v offset_x offset_y : Int) :
    Nat → modjpeg_jpegimage_t → modjpeg_jpegdropon_t R →
      Option (modjpeg_jpegimage_t × modjpeg_jpegdropon_t R)
  | 0, m, d => some (m, d)
  | n + 1, m, d =>
    match mj_compose M_SQRT2 c0 codec m d align_h align_v offset_x offset_y with
    | none => none
    | some r => mj_compose_repeat M_SQRT2 c0 codec align_h align_v offset_x offset_y n r.2.1 r.2.2

/-- A mask over `ℚ` whose every block is the operator with all weights `0`. -/
def sample_mask : modjpeg_jpegmask_t ℚ :=
  { num_components := 1
    components := fun _ =>
      { width_in_blocks := 1, height_in_blocks := 1, h_samp_factor := 1, v_samp_factor := 1,
        num_blocks := 1, blocks := fun _ => some (fun _ => 0) } }

/-! ## The stencils of `mj_convolve` as data -/

/-- The seven shapes of the right-hand sides in the two `switch` statements of `mj_convolve`;
the arguments are the indices of the entries read. -/
inductive Rhs where
  | two (i : Nat)
  | sqrt (i : Nat)
  | var (i : Nat)
  | add (i j : Nat)
  | sub (i j : Nat)
  | sqrt_add (i j : Nat)
  | sqrt_sub (i j : Nat)

/-- The value of a right-hand side: `2.0 * x[i]`, `M_SQRT2 * x[i]`, `x[i]`, `x[i] + x[j]`,
`x[i] - x[j]`, `(M_SQRT2 * x[i]) + x[j]`, `(M_SQRT2 * x[i]) - x[j]`. -/
def Rhs.eval {R : Type} [Field R] (M_SQRT2 : R) (x : Nat → R) : Rhs → R
  | .two i => 2 * x i
  | .sqrt i => M_SQRT2 * x i
  | .var i => x i
  | .add i j => x i + x j
  | .sub i j => x i - x j
  | .sqrt_add i j => M_SQRT2 * x i + x j
  | .sqrt_sub i j => M_SQRT2 * x i - x j

/-- The indices of the entries a right-hand side reads. -/
def Rhs.indices : Rhs → List Nat
  | .two i => [i]
  | .sqrt i => [i]
  | .var i => [i]
  | .add i j => [i, j]
  | .sub i j => [i, j]
  | .sqrt_add i j => [i, j]
  | .sqrt_sub i j => [i, j]

/-- The indicator of `n = i`. -/
def unit_at (i n : Nat) : Int := if n = i then 1 else 0

/-- The rational part of the coefficient of `x[n]` in a right-hand side. -/
def Rhs.rat : Rhs → Nat → Int
  | .two i, n => 2 * unit_at i n
  | .sqrt _, _ => 0
  | .var i, n => unit_at i n
  | .add i j, n => unit_at i n + unit_at j n
  | .sub i j, n => unit_at i n - unit_at j n
  | .sqrt_add _ j, n => unit_at j n
  | .sqrt_sub _ j, n => - unit_at j n

/-- The multiple of `M_SQRT2` in the coefficient of `x[n]` in a right-hand side. -/
def Rhs.irr : Rhs → Nat → Int
  | .two _, _ => 0
  | .sqrt i, n => unit_at i n
  | .var _, _ => 0
  | .add _ _, _ => 0
  | .sub _ _, _ => 0
  | .sqrt_add i _, n => unit_at i n
  | .sqrt_sub i _, n => unit_at i n

/-- The right-hand sides of `switch(l)`, case by case, as data. -/
def rhs_switch_l : Nat → List Rhs
  | 0 =>
    [Rhs.two 0, Rhs.two 1, Rhs.two 2, Rhs.two 3, Rhs.two 4, Rhs.two 5, Rhs.two 6, Rhs.two 7,
     Rhs.two 8, Rhs.two 9, Rhs.two 10, Rhs.two 11, Rhs.two 12, Rhs.two 13, Rhs.two 14, Rhs.two 15,
     Rhs.two 16, Rhs.two 17, Rhs.two 18, Rhs.two 19, Rhs.two 20, Rhs.two 21, Rhs.two 22, Rhs.two 23,
     Rhs.two 24, Rhs.two 25, Rhs.two 26, Rhs.two 27, Rhs.two 28, Rhs.two 29, Rhs.two 30, Rhs.two 31,
     Rhs.two 32, Rhs.two 33, Rhs.two 34, Rhs.two 35, Rhs.two 36, Rhs.two 37, Rhs.two 38, Rhs.two 39,
     Rhs.two 40, Rhs.two 41, Rhs.two 42, Rhs.two 43, Rhs.two 44, Rhs.two 45, Rhs.two 46, Rhs.two 47,
     Rhs.two 48, Rhs.two 49, Rhs.two 50, Rhs.two 51, Rhs.two 52, Rhs.two 53, Rhs.two 54, Rhs.two 55,
     Rhs.two 56, Rhs.two 57, Rhs.two 58, Rhs.two 59, Rhs.two 60, Rhs.two 61, Rhs.two 62, Rhs.two 63]
  | 1 =>
    [Rhs.sqrt 1, Rhs.sqrt_add 0 2, Rhs.add 1 3, Rhs.add 2 4, Rhs.add 3 5, Rhs.add 4 6, Rhs.add 5 7, Rhs.var 6,
     Rhs.sqrt 9, Rhs.sqrt_add 8 10, Rhs.add 9 11, Rhs.add 10 12, Rhs.add 11 13, Rhs.add 12 14, Rhs.add 13 15, Rhs.var 14,
     Rhs.sqrt 17, Rhs.sqrt_add 16 18, Rhs.add 17 19, Rhs.add 18 20, Rhs.add 19 21, Rhs.add 20 22, Rhs.add 21 23, Rhs.var 22,
     Rhs.sqrt 25, Rhs.sqrt_add 24 26, Rhs.add 25 27, Rhs.add 26 28, Rhs.add 27 29, Rhs.add 28 30, Rhs.add 29 31, Rhs.var 30,
     Rhs.sqrt 33, Rhs.sqrt_add 32 34, Rhs.add 33 35, Rhs.add 34 36, Rhs.add 35 37, Rhs.add 36 38, Rhs.add 37 39, Rhs.var 38,
     Rhs.sqrt 41, Rhs.sqrt_add 40 42, Rhs.add 41 43, Rhs.add 42 44, Rhs.add 43 45, Rhs.add 44 46, Rhs.add 45 47, Rhs.var 46,
     Rhs.sqrt 49, Rhs.sqrt_add 48 50, Rhs.add 49 51, Rhs.add 50 52, Rhs.add 51 53, Rhs.add 52 54, Rhs.add 53 55, Rhs.var 54,
     Rhs.sqrt 57, Rhs.sqrt_add 56 58, Rhs.add 57 59, Rhs.add 58 60, Rhs.add 59 61, Rhs.add 60 62, Rhs.add 61 63, Rhs.var 62]
  | 2 =>
    [Rhs.sqrt 2, Rhs.add 1 3, Rhs.sqrt_add 0 4, Rhs.add 1 5, Rhs.add 2 6, Rhs.add 3 7, Rhs.var 4, Rhs.sub 5 7,
     Rhs.sqrt 10, Rhs.add 9 11, Rhs.sqrt_add 8 12, Rhs.add 9 13, Rhs.add 10 14, Rhs.add 11 15, Rhs.var 12, Rhs.sub 13 15,
     Rhs.sqrt 18, Rhs.add 17 19, Rhs.sqrt_add 16 20, Rhs.add 17 21, Rhs.add 18 22, Rhs.add 19 23, Rhs.var 20, Rhs.sub 21 23,
     Rhs.sqrt 26, Rhs.add 25 27, Rhs.sqrt_add 24 28, Rhs.add 25 29, Rhs.add 26 30, Rhs.add 27 31, Rhs.var 28, Rhs.sub 29 31,
     Rhs.sqrt 34, Rhs.add 33 35, Rhs.sqrt_add 32 36, Rhs.add 33 37, Rhs.add 34 38, Rhs.add 35 39, Rhs.var 36, Rhs.sub 37 39,
     Rhs.sqrt 42, Rhs.add 41 43, Rhs.sqrt_add 40 44, Rhs.add 41 45, Rhs.add 42 46, Rhs.add 43 47, Rhs.var 44, Rhs.sub 45 47,
     Rhs.sqrt 50, Rhs.add 49 51, Rhs.sqrt_add 48 52, Rhs.add 49 53, Rhs.add 50 54, Rhs.add 51 55, Rhs.var 52, Rhs.sub 53 55,
     Rhs.sqrt 58, Rhs.add 57 59, Rhs.sqrt_add 56 60, Rhs.add 57 61, Rhs.add 58 62, Rhs.add 59 63, Rhs.var 60, Rhs.sub 61 63]
  | 3 =>
    [Rhs.sqrt 3, Rhs.add 2 4, Rhs.add 1 5, Rhs.sqrt_add 0 6, Rhs.add 1 7, Rhs.var 2, Rhs.sub 3 7, Rhs.sub 4 6,
     Rhs.sqrt 11, Rhs.add 10 12, Rhs.add 9 13, Rhs.sqrt_add 8 14, Rhs.add 9 15, Rhs.var 10, Rhs.sub 11 15, Rhs.sub 12 14,
     Rhs.sqrt 19, Rhs.add 18 20, Rhs.add 17 21, Rhs.sqrt_add 16 22, Rhs.add 17 23, Rhs.var 18, Rhs.sub 19 23, Rhs.sub 20 22,
     Rhs.sqrt 27, Rhs.add 26 28, Rhs.add 25 29, Rhs.sqrt_add 24 30, Rhs.add 25 31, Rhs.var 26, Rhs.sub 27 31, Rhs.sub 28 30,
     Rhs.sqrt 35, Rhs.add 34 36, Rhs.add 33 37, Rhs.sqrt_add 32 38, Rhs.add 33 39, Rhs.var 34, Rhs.sub 35 39, Rhs.sub 36 38,
     Rhs.sqrt 43, Rhs.add 42 44, Rhs.add 41 45, Rhs.sqrt_add 40 46, Rhs.add 41 47, Rhs.var 42, Rhs.sub 43 47, Rhs.sub 44 46,
     Rhs.sqrt 51, Rhs.add 50 52, Rhs.add 49 53, Rhs.sqrt_add 48 54, Rhs.add 49 55, Rhs.var 50, Rhs.sub 51 55, Rhs.sub 52 54,
     Rhs.sqrt 59, Rhs.add 58 60, Rhs.add 57 61, Rhs.sqrt_add 56 62, Rhs.add 57 63, Rhs.var 58, Rhs.sub 59 63, Rhs.sub 60 62]
  | 4 =>
    [Rhs.sqrt 4, Rhs.add 3 5, Rhs.add 2 6, Rhs.add 1 7, Rhs.sqrt 0, Rhs.sub 1 7, Rhs.sub 2 6, Rhs.sub 3 5,
     Rhs.sqrt 12, Rhs.add 11 13, Rhs.add 10 14, Rhs.add 9 15, Rhs.sqrt 8, Rhs.sub 9 15, Rhs.sub 10 14, Rhs.sub 11 13,
     Rhs.sqrt 20, Rhs.add 19 21, Rhs.add 18 22, Rhs.add 17 23, Rhs.sqrt 16, Rhs.sub 17 23, Rhs.sub 18 22, Rhs.sub 19 21,
     Rhs.sqrt 28, Rhs.add 27 29, Rhs.add 26 30, Rhs.add 25 31, Rhs.sqrt 24, Rhs.sub 25 31, Rhs.sub 26 30, Rhs.sub 27 29,
     Rhs.sqrt 36, Rhs.add 35 37, Rhs.add 34 38, Rhs.add 33 39, Rhs.sqrt 32, Rhs.sub 33 39, Rhs.sub 34 38, Rhs.sub 35 37,
     Rhs.sqrt 44, Rhs.add 43 45, Rhs.add 42 46, Rhs.add 41 47, Rhs.sqrt 40, Rhs.sub 41 47, Rhs.sub 42 46, Rhs.sub 43 45,
     Rhs.sqrt 52, Rhs.add 51 53, Rhs.add 50 54, Rhs.add 49 55, Rhs.sqrt 48, Rhs.sub 49 55, Rhs.sub 50 54, Rhs.sub 51 53,
     Rhs.sqrt 60, Rhs.add 59 61, Rhs.add 58 62, Rhs.add 57 63, Rhs.sqrt 56, Rhs.sub 57 63, Rhs.sub 58 62, Rhs.sub 59 61]
  | 5 =>
    [Rhs.sqrt 5, Rhs.add 4 6, Rhs.add 3 7, Rhs.var 2, Rhs.sub 1 7, Rhs.sqrt_sub 0 6, Rhs.sub 1 5, Rhs.sub 2 4,
     Rhs.sqrt 13, Rhs.add 12 14, Rhs.add 11 15, Rhs.var 10, Rhs.sub 9 15, Rhs.sqrt_sub 8 14, Rhs.sub 9 13, Rhs.sub 10 12,
     Rhs.sqrt 21, Rhs.add 20 22, Rhs.add 19 23, Rhs.var 18, Rhs.sub 17 23, Rhs.sqrt_sub 16 22, Rhs.sub 17 21, Rhs.sub 18 20,
     Rhs.sqrt 29, Rhs.add 28 30, Rhs.add 27 31, Rhs.var 26, Rhs.sub 25 31, Rhs.sqrt_sub 24 30, Rhs.sub 25 29, Rhs.sub 26 28,
     Rhs.sqrt 37, Rhs.add 36 38, Rhs.add 35 39, Rhs.var 34, Rhs.sub 33 39, Rhs.sqrt_sub 32 38, Rhs.sub 33 37, Rhs.sub 34 36,
     Rhs.sqrt 45, Rhs.add 44 46, Rhs.add 43 47, Rhs.var 42, Rhs.sub 41 47, Rhs.sqrt_sub 40 46, Rhs.sub 41 45, Rhs.sub 42 44,
     Rhs.sqrt 53, Rhs.add 52 54, Rhs.add 51 55, Rhs.var 50, Rhs.sub 49 55, Rhs.sqrt_sub 48 54, Rhs.sub 49 53, Rhs.sub 50 52,
     Rhs.sqrt 61, Rhs.add 60 62, Rhs.add 59 63, Rhs.var 58, Rhs.sub 57 63, Rhs.sqrt_sub 56 62, Rhs.sub 57 61, Rhs.sub 58 60]
  | 6 =>
    [Rhs.sqrt 6, Rhs.add 5 7, Rhs.var 4, Rhs.sub 3 7, Rhs.sub 2 6, Rhs.sub 1 5, Rhs.sqrt_sub 0 4, Rhs.sub 1 3,
     Rhs.sqrt 14, Rhs.add 13 15, Rhs.var 12, Rhs.sub 11 15, Rhs.sub 10 14, Rhs.sub 9 13, Rhs.sqrt_sub 8 12, Rhs.sub 9 11,
     Rhs.sqrt 22, Rhs.add 21 23, Rhs.var 20, Rhs.sub 19 23, Rhs.sub 18 22, Rhs.sub 17 21, Rhs.sqrt_sub 16 20, Rhs.sub 17 19,
     Rhs.sqrt 30, Rhs.add 29 31, Rhs.var 28, Rhs.sub 27 31, Rhs.sub 26 30, Rhs.sub 25 29, Rhs.sqrt_sub 24 28, Rhs.sub 25 27,
     Rhs.sqrt 38, Rhs.add 37 39, Rhs.var 36, Rhs.sub 35 39, Rhs.sub 34 38, Rhs.sub 33 37, Rhs.sqrt_sub 32 36, Rhs.sub 33 35,
     Rhs.sqrt 46, Rhs.add 45 47, Rhs.var 44, Rhs.sub 43 47, Rhs.sub 42 46, Rhs.sub 41 45, Rhs.sqrt_sub 40 44, Rhs.sub 41 43,
     Rhs.sqrt 54, Rhs.add 53 55, Rhs.var 52, Rhs.sub 51 55, Rhs.sub 50 54, Rhs.sub 49 53, Rhs.sqrt_sub 48 52, Rhs.sub 49 51,
     Rhs.sqrt 62, Rhs.add 61 63, Rhs.var 60, Rhs.sub 59 63, Rhs.sub 58 62, Rhs.sub 57 61, Rhs.sqrt_sub 56 60, Rhs.sub 57 59]
  | 7 =>
    [Rhs.sqrt 7, Rhs.var 6, Rhs.sub 5 7, Rhs.sub 4 6, Rhs.sub 3 5, Rhs.sub 2 4, Rhs.sub 1 3, Rhs.sqrt_sub 0 2,
     Rhs.sqrt 15, Rhs.var 14, Rhs.sub 13 15, Rhs.sub 12 14, Rhs.sub 11 13, Rhs.sub 10 12, Rhs.sub 9 11, Rhs.sqrt_sub 8 10,
     Rhs.sqrt 23, Rhs.var 22, Rhs.sub 21 23, Rhs.sub 20 22, Rhs.sub 19 21, Rhs.sub 18 20, Rhs.sub 17 19, Rhs.sqrt_sub 16 18,
     Rhs.sqrt 31, Rhs.var 30, Rhs.sub 29 31, Rhs.sub 28 30, Rhs.sub 27 29, Rhs.sub 26 28, Rhs.sub 25 27, Rhs.sqrt_sub 24 26,
     Rhs.sqrt 39, Rhs.var 38, Rhs.sub 37 39, Rhs.sub 36 38, Rhs.sub 35 37, Rhs.sub 34 36, Rhs.sub 33 35, Rhs.sqrt_sub 32 34,
     Rhs.sqrt 47, Rhs.var 46, Rhs.sub 45 47, Rhs.sub 44 46, Rhs.sub 43 45, Rhs.sub 42 44, Rhs.sub 41 43, Rhs.sqrt_sub 40 42,
     Rhs.sqrt 55, Rhs.var 54, Rhs.sub 53 55, Rhs.sub 52 54, Rhs.sub 51 53, Rhs.sub 50 52, Rhs.sub 49 51, Rhs.sqrt_sub 48 50,
     Rhs.sqrt 63, Rhs.var 62, Rhs.sub 61 63, Rhs.sub 60 62, Rhs.sub 59 61, Rhs.sub 58 60, Rhs.sub 57 59, Rhs.sqrt_sub 56 58]
  | _ => []

/-- The right-hand sides of `switch(k)`, case by case, as data. -/
def rhs_switch_k : Nat → List Rhs
  | 0 =>
    [Rhs.two 0, Rhs.two 1, Rhs.two 2, Rhs.two 3, Rhs.two 4, Rhs.two 5, Rhs.two 6, Rhs.two 7,
     Rhs.two 8, Rhs.two 9, Rhs.two 10, Rhs.two 11, Rhs.two 12, Rhs.two 13, Rhs.two 14, Rhs.two 15,
     Rhs.two 16, Rhs.two 17, Rhs.two 18, Rhs.two 19, Rhs.two 20, Rhs.two 21, Rhs.two 22, Rhs.two 23,
     Rhs.two 24, Rhs.two 25, Rhs.two 26, Rhs.two 27, Rhs.two 28, Rhs.two 29, Rhs.two 30, Rhs.two 31,
     Rhs.two 32, Rhs.two 33, Rhs.two 34, Rhs.two 35, Rhs.two 36, Rhs.two 37, Rhs.two 38, Rhs.two 39,
     Rhs.two 40, Rhs.two 41, Rhs.two 42, Rhs.two 43, Rhs.two 44, Rhs.two 45, Rhs.two 46, Rhs.two 47,
     Rhs.two 48, Rhs.two 49, Rhs.two 50, Rhs.two 51, Rhs.two 52, Rhs.two 53, Rhs.two 54, Rhs.two 55,
     Rhs.two 56, Rhs.two 57, Rhs.two 58, Rhs.two 59, Rhs.two 60, Rhs.two 61, Rhs.two 62, Rhs.two 63]
  | 1 =>
    [Rhs.sqrt 8, Rhs.sqrt 9, Rhs.sqrt 10, Rhs.sqrt 11, Rhs.sqrt 12, Rhs.sqrt 13, Rhs.sqrt 14, Rhs.sqrt 15,
     Rhs.sqrt_add 0 16, Rhs.sqrt_add 1 17, Rhs.sqrt_add 2 18, Rhs.sqrt_add 3 19, Rhs.sqrt_add 4 20, Rhs.sqrt_add 5 21, Rhs.sqrt_add 6 22, Rhs.sqrt_add 7 23,
     Rhs.add 8 24, Rhs.add 9 25, Rhs.add 10 26, Rhs.add 11 27, Rhs.add 12 28, Rhs.add 13 29, Rhs.add 14 30, Rhs.add 15 31,
     Rhs.add 16 32, Rhs.add 17 33, Rhs.add 18 34, Rhs.add 19 35, Rhs.add 20 36, Rhs.add 21 37, Rhs.add 22 38, Rhs.add 23 39,
     Rhs.add 24 40, Rhs.add 25 41, Rhs.add 26 42, Rhs.add 27 43, Rhs.add 28 44, Rhs.add 29 45, Rhs.add 30 46, Rhs.add 31 47,
     Rhs.add 32 48, Rhs.add 33 49, Rhs.add 34 50, Rhs.add 35 51, Rhs.add 36 52, Rhs.add 37 53, Rhs.add 38 54, Rhs.add 39 55,
     Rhs.add 40 56, Rhs.add 41 57, Rhs.add 42 58, Rhs.add 43 59, Rhs.add 44 60, Rhs.add 45 61, Rhs.add 46 62, Rhs.add 47 63,
     Rhs.var 48, Rhs.var 49, Rhs.var 50, Rhs.var 51, Rhs.var 52, Rhs.var 53, Rhs.var 54, Rhs.var 55]
  | 2 =>
    [Rhs.sqrt 16, Rhs.sqrt 17, Rhs.sqrt 18, Rhs.sqrt 19, Rhs.sqrt 20, Rhs.sqrt 21, Rhs.sqrt 22, Rhs.sqrt 23,
     Rhs.add 8 24, Rhs.add 9 25, Rhs.add 10 26, Rhs.add 11 27, Rhs.add 12 28, Rhs.add 13 29, Rhs.add 14 30, Rhs.add 15 31,
     Rhs.sqrt_add 0 32, Rhs.sqrt_add 1 33, Rhs.sqrt_add 2 34, Rhs.sqrt_add 3 35, Rhs.sqrt_add 4 36, Rhs.sqrt_add 5 37, Rhs.sqrt_add 6 38, Rhs.sqrt_add 7 39,
     Rhs.add 8 40, Rhs.add 9 41, Rhs.add 10 42, Rhs.add 11 43, Rhs.add 12 44, Rhs.add 13 45, Rhs.add 14 46, Rhs.add 15 47,
     Rhs.add 16 48, Rhs.add 17 49, Rhs.add 18 50, Rhs.add 19 51, Rhs.add 20 52, Rhs.add 21 53, Rhs.add 22 54, Rhs.add 23 55,
     Rhs.add 24 56, Rhs.add 25 57, Rhs.add 26 58, Rhs.add 27 59, Rhs.add 28 60, Rhs.add 29 61, Rhs.add 30 62, Rhs.add 31 63,
     Rhs.var 32, Rhs.var 33, Rhs.var 34, Rhs.var 35, Rhs.var 36, Rhs.var 37, Rhs.var 38, Rhs.var 39,
     Rhs.sub 40 56, Rhs.sub 41 57, Rhs.sub 42 58, Rhs.sub 43 59, Rhs.sub 44 60, Rhs.sub 45 61, Rhs.sub 46 62, Rhs.sub 47 63]
  | 3 =>
    [Rhs.sqrt 24, Rhs.sqrt 25, Rhs.sqrt 26, Rhs.sqrt 27, Rhs.sqrt 28, Rhs.sqrt 29, Rhs.sqrt 30, Rhs.sqrt 31,
     Rhs.add 16 32, Rhs.add 17 33, Rhs.add 18 34, Rhs.add 19 35, Rhs.add 20 36, Rhs.add 21 37, Rhs.add 22 38, Rhs.add 23 39,
     Rhs.add 8 40, Rhs.add 9 41, Rhs.add 10 42, Rhs.add 11 43, Rhs.add 12 44, Rhs.add 13 45, Rhs.add 14 46, Rhs.add 15 47,
     Rhs.sqrt_add 0 48, Rhs.sqrt_add 1 49, Rhs.sqrt_add 2 50, Rhs.sqrt_add 3 51, Rhs.sqrt_add 4 52, Rhs.sqrt_add 5 53, Rhs.sqrt_add 6 54, Rhs.sqrt_add 7 55,
     Rhs.add 8 56, Rhs.add 9 57, Rhs.add 10 58, Rhs.add 11 59, Rhs.add 12 60, Rhs.add 13 61, Rhs.add 14 62, Rhs.add 15 63,
     Rhs.var 16, Rhs.var 17, Rhs.var 18, Rhs.var 19, Rhs.var 20, Rhs.var 21, Rhs.var 22, Rhs.var 23,
     Rhs.sub 24 56, Rhs.sub 25 57, Rhs.sub 26 58, Rhs.sub 27 59, Rhs.sub 28 60, Rhs.sub 29 61, Rhs.sub 30 62, Rhs.sub 31 63,
     Rhs.sub 32 48, Rhs.sub 33 49, Rhs.sub 34 50, Rhs.sub 35 51, Rhs.sub 36 52, Rhs.sub 37 53, Rhs.sub 38 54, Rhs.sub 39 55]
  | 4 =>
    [Rhs.sqrt 32, Rhs.sqrt 33, Rhs.sqrt 34, Rhs.sqrt 35, Rhs.sqrt 36, Rhs.sqrt 37, Rhs.sqrt 38, Rhs.sqrt 39,
     Rhs.add 24 40, Rhs.add 25 41, Rhs.add 26 42, Rhs.add 27 43, Rhs.add 28 44, Rhs.add 29 45, Rhs.add 30 46, Rhs.add 31 47,
     Rhs.add 16 48, Rhs.add 17 49, Rhs.add 18 50, Rhs.add 19 51, Rhs.add 20 52, Rhs.add 21 53, Rhs.add 22 54, Rhs.add 23 55,
     Rhs.add 8 56, Rhs.add 9 57, Rhs.add 10 58, Rhs.add 11 59, Rhs.add 12 60, Rhs.add 13 61, Rhs.add 14 62, Rhs.add 15 63,
     Rhs.sqrt 0, Rhs.sqrt 1, Rhs.sqrt 2, Rhs.sqrt 3, Rhs.sqrt 4, Rhs.sqrt 5, Rhs.sqrt 6, Rhs.sqrt 7,
     Rhs.sub 8 56, Rhs.sub 9 57, Rhs.sub 10 58, Rhs.sub 11 59, Rhs.sub 12 60, Rhs.sub 13 61, Rhs.sub 14 62, Rhs.sub 15 63,
     Rhs.sub 16 48, Rhs.sub 17 49, Rhs.sub 18 50, Rhs.sub 19 51, Rhs.sub 20 52, Rhs.sub 21 53, Rhs.sub 22 54, Rhs.sub 23 55,
     Rhs.sub 24 40, Rhs.sub 25 41, Rhs.sub 26 42, Rhs.sub 27 43, Rhs.sub 28 44, Rhs.sub 29 45, Rhs.sub 30 46, Rhs.sub 31 47]
  | 5 =>
    [Rhs.sqrt 40, Rhs.sqrt 41, Rhs.sqrt 42, Rhs.sqrt 43, Rhs.sqrt 44, Rhs.sqrt 45, Rhs.sqrt 46, Rhs.sqrt 47,
     Rhs.add 32 48, Rhs.add 33 49, Rhs.add 34 50, Rhs.add 35 51, Rhs.add 36 52, Rhs.add 37 53, Rhs.add 38 54, Rhs.add 39 55,
     Rhs.add 24 56, Rhs.add 25 57, Rhs.add 26 58, Rhs.add 27 59, Rhs.add 28 60, Rhs.add 29 61, Rhs.add 30 62, Rhs.add 31 63,
     Rhs.var 16, Rhs.var 17, Rhs.var 18, Rhs.var 19, Rhs.var 20, Rhs.var 21, Rhs.var 22, Rhs.var 23,
     Rhs.sub 8 56, Rhs.sub 9 57, Rhs.sub 10 58, Rhs.sub 11 59, Rhs.sub 12 60, Rhs.sub 13 61, Rhs.sub 14 62, Rhs.sub 15 63,
     Rhs.sqrt_sub 0 48, Rhs.sqrt_sub 1 49, Rhs.sqrt_sub 2 50, Rhs.sqrt_sub 3 51, Rhs.sqrt_sub 4 52, Rhs.sqrt_sub 5 53, Rhs.sqrt_sub 6 54, Rhs.sqrt_sub 7 55,
     Rhs.sub 8 40, Rhs.sub 9 41, Rhs.sub 10 42, Rhs.sub 11 43, Rhs.sub 12 44, Rhs.sub 13 45, Rhs.sub 14 46, Rhs.sub 15 47,
     Rhs.sub 16 32, Rhs.sub 17 33, Rhs.sub 18 34, Rhs.sub 19 35, Rhs.sub 20 36, Rhs.sub 21 37, Rhs.sub 22 38, Rhs.sub 23 39]
  | 6 =>
    [Rhs.sqrt 48, Rhs.sqrt 49, Rhs.sqrt 50, Rhs.sqrt 51, Rhs.sqrt 52, Rhs.sqrt 53, Rhs.sqrt 54, Rhs.sqrt 55,
     Rhs.add 40 56, Rhs.add 41 57, Rhs.add 42 58, Rhs.add 43 59, Rhs.add 44 60, Rhs.add 45 61, Rhs.add 46 62, Rhs.add 47 63,
     Rhs.var 32, Rhs.var 33, Rhs.var 34, Rhs.var 35, Rhs.var 36, Rhs.var 37, Rhs.var 38, Rhs.var 39,
     Rhs.sub 24 56, Rhs.sub 25 57, Rhs.sub 26 58, Rhs.sub 27 59, Rhs.sub 28 60, Rhs.sub 29 61, Rhs.sub 30 62, Rhs.sub 31 63,
     Rhs.sub 16 48, Rhs.sub 17 49, Rhs.sub 18 50, Rhs.sub 19 51, Rhs.sub 20 52, Rhs.sub 21 53, Rhs.sub 22 54, Rhs.sub 23 55,
     Rhs.sub 8 40, Rhs.sub 9 41, Rhs.sub 10 42, Rhs.sub 11 43, Rhs.sub 12 44, Rhs.sub 13 45, Rhs.sub 14 46, Rhs.sub 15 47,
     Rhs.sqrt_sub 0 32, Rhs.sqrt_sub 1 33, Rhs.sqrt_sub 2 34, Rhs.sqrt_sub 3 35, Rhs.sqrt_sub 4 36, Rhs.sqrt_sub 5 37, Rhs.sqrt_sub 6 38, Rhs.sqrt_sub 7 39,
     Rhs.sub 8 24, Rhs.sub 9 25, Rhs.sub 10 26, Rhs.sub 11 27, Rhs.sub 12 28, Rhs.sub 13 29, Rhs.sub 14 30, Rhs.sub 15 31]
  | 7 =>
    [Rhs.sqrt 56, Rhs.sqrt 57, Rhs.sqrt 58, Rhs.sqrt 59, Rhs.sqrt 60, Rhs.sqrt 61, Rhs.sqrt 62, Rhs.sqrt 63,
     Rhs.var 48, Rhs.var 49, Rhs.var 50, Rhs.var 51, Rhs.var 52, Rhs.var 53, Rhs.var 54, Rhs.var 55,
     Rhs.sub 40 56, Rhs.sub 41 57, Rhs.sub 42 58, Rhs.sub 43 59, Rhs.sub 44 60, Rhs.sub 45 61, Rhs.sub 46 62, Rhs.sub 47 63,
     Rhs.sub 32 48, Rhs.sub 33 49, Rhs.sub 34 50, Rhs.sub 35 51, Rhs.sub 36 52, Rhs.sub 37 53, Rhs.sub 38 54, Rhs.sub 39 55,
     Rhs.sub 24 40, Rhs.sub 25 41, Rhs.sub 26 42, Rhs.sub 27 43, Rhs.sub 28 44, Rhs.sub 29 45, Rhs.sub 30 46, Rhs.sub 31 47,
     Rhs.sub 16 32, Rhs.sub 17 33, Rhs.sub 18 34, Rhs.sub 19 35, Rhs.sub 20 36, Rhs.sub 21 37, Rhs.sub 22 38, Rhs.sub 23 39,
     Rhs.sub 8 24, Rhs.sub 9 25, Rhs.sub 10 26, Rhs.sub 11 27, Rhs.sub 12 28, Rhs.sub 13 29, Rhs.sub 14 30, Rhs.sub 15 31,
     Rhs.sqrt_sub 0 16, Rhs.sqrt_sub 1 17, Rhs.sqrt_sub 2 18, Rhs.sqrt_sub 3 19, Rhs.sqrt_sub 4 20, Rhs.sqrt_sub 5 21, Rhs.sqrt_sub 6 22, Rhs.sqrt_sub 7 23]
  | _ => []

/-- The sign with which the frequency `m` folds onto the frequencies `0..7` at sum `0`: `1`
at `m = 0`, `-1` at `m = ±16`, `0` otherwise (for `|m| < 32`). -/
def fold_sign (m : Int) : Int :=
  if m = 0 then 1 else if m = 16 ∨ m = -16 then -1 else 0

/-- The number of ways, with signs, in which the frequencies `u`, `l` and `v` cancel:
`Σ_q cos(u θ_q) cos(l θ_q) cos(v θ_q) = 2 * stencil_count l v u` for `θ_q = (2q+1)π/16`. -/
def stencil_count (l v u : Nat) : Int :=
  fold_sign ((u : Int) + l + v) + fold_sign ((u : Int) + l - v) + fold_sign ((u : Int) - l + v)
    + fold_sign (-(u : Int) + l + v)

/-- The rational part of the stencil coefficient with which entry `u` of a row enters entry
`v` of the row's product with the basis function of index `l`. -/
def stencil_rat (l v u : Nat) : Int :=
  if v = 0 ∧ u = 0 then stencil_count l v u / 2
  else if v = 0 ∨ u = 0 then 0
  else stencil_count l v u

/-- The multiple of `√2` in the stencil coefficient. -/
def stencil_irr (l v u : Nat) : Int :=
  if v = 0 ∧ u = 0 then 0
  else if v = 0 ∨ u = 0 then stencil_count l v u / 2
  else 0

/-- The stencil coefficient `stencil_rat + stencil_irr * M_SQRT2`. -/
def stencil_coef {R : Type} [Field R] (M_SQRT2 : R) (l v u : Nat) : R :=
  (stencil_rat l v u : R) + (stencil_irr l v u : R) * M_SQRT2

/-! ## The orthonormal 8×8 DCT of the specification

The definitions take the cosine table `cs p u = cos((2p+1)uπ/16)` and the value `s = √2` as
parameters; the statements instantiate them over `ℝ`. -/

/-- The scale factors of the orthonormal DCT-II: `c(0) = √2/4`, `c(u) = 1/2` for `u ≥ 1`. -/
def dct_scale {R : Type} [Field R] (s : R) (u : Nat) : R :=
  if u = 0 then s / 4 else 1 / 2

/-- The inverse transform `iDCT2D`: the sample `(p, q)` of the block with coefficients `X`,
`Σ_a Σ_b c(a) c(b) X[8a+b] cos((2p+1)aπ/16) cos((2q+1)bπ/16)`. -/
def idct2d {R : Type} [Field R] (cs : Nat → Nat → R) (s : R) (X : Nat → R) (p q : Nat) : R :=
  ∑ a in Finset.range 8, ∑ b in Finset.range 8,
    dct_scale s a * dct_scale s b * X (8 * a + b) * cs p a * cs q b

/-- The forward transform `DCT2D`: the coefficient `(v1, v2)` of the samples `f`,
`c(v1) c(v2) Σ_p Σ_q f(p,q) cos((2p+1)v1π/16) cos((2q+1)v2π/16)`. -/
def dct2d {R : Type} [Field R] (cs : Nat → Nat → R) (s : R) (f : Nat → Nat → R)
    (v1 v2 : Nat) : R :=
  dct_scale s v1 * dct_scale s v2
    * ∑ p in Finset.range 8, ∑ q in Finset.range 8, f p q * cs p v1 * cs q v2

/-- The coefficients of `DCT2D(iDCT2D(X) ⊙ φ_{k,l})`, the transform of the samples of `X`
multiplied pointwise by the basis function `φ_{k,l}(p,q) = cos((2p+1)kπ/16) cos((2q+1)lπ/16)`,
at the index `n = 8 * v1 + v2`. -/
def dct_of_product {R : Type} [Field R] (cs : Nat → Nat → R) (s : R) (X : Nat → R)
    (k l n : Nat) : R :=
  dct2d cs s (fun p q => idct2d cs s X p q * (cs p k * cs q l)) (n / 8) (n % 8)

/-- The unit impulse at index `a`. -/
def impulse {R : Type} [Field R] (a : Nat) : Nat → R :=
  fun n => if n = a then 1 else 0

/-- The mask pixel of the specification scaled to `[0, 1]`: `alpha(p,q) = (iDCT2D(A)(p,q) +
128) / 255` for the dequantised coefficients `A` of the alpha JPEG, before the DC shift. -/
def spec_alpha {R : Type} [Field R] (cs : Nat → Nat → R) (s : R) (A : Nat → Int)
    (p q : Nat) : R :=
  (idct2d cs s (fun i => (A i : R)) p q + 128) / 255

/-- The array `Y` of the specification: `DCT2D(alpha ⊙ iDCT2D(x0 - x1))`, the pointwise alpha
product in the sample domain, at index `n`. -/
def spec_blend_Y {R : Type} [Field R] (cs : Nat → Nat → R) (s : R) (A x0 x1 : Nat → Int)
    (n : Nat) : R :=
  dct2d cs s
    (fun p q => spec_alpha cs s A p q * idct2d cs s (fun i => ((x0 i - x1 i : Int) : R)) p q)
    (n / 8) (n % 8)

/-- An alpha block with one non-zero coefficient, `8` at index `9` (row `1`, column `1`). -/
def ripple_mask : Nat → Int := fun i => if i = 9 then 8 else 0

/-- A dropon block with one non-zero coefficient, `2040` at index `0`. -/
def flat_dropon_block : Nat → Int := fun i => if i = 0 then 2040 else 0

/-- A host block of zeros. -/
def zero_block : Nat → Int := fun _ => 0

/-- The mask operator of the specification, with all 64 entries:
`B[i*8+j] = coef[i*8+j] * c(i) * c(j) / 1020`, where `coef` is the alpha block after the DC
shift; `s` stands for `√2`. -/
def spec_mask_operator {R : Type} [Field R] (s : R) (A : Nat → Int) : Nat → R :=
  fun n => (mask_shift_dc A n : R) * (dct_scale s (n / 8) * dct_scale s (n % 8) / 1020)

/-! ## Dropons from raw samples and from files -/

/-- The conversion `(char)` of a `short` to one byte. Bytes are read as values in `0..255`, as
the encoder reads them through `(unsigned char *)d->rawalpha`. -/
def to_char (v : Int) : Int := v % 256

/-- The state of the unpacking loops of `mj_read_jpegdropon_from_raw`: the buffers `rawimage`
and `rawalpha`, and the offsets of the pointers `p`, `pimage` and `palpha` from the starts of
`rawdata`, `rawimage` and `rawalpha`. -/
structure unpack_state where
  rawimage : Nat → Int
  rawalpha : Nat → Int
  p : Nat
  pimage : Nat
  palpha : Nat

/-- The statement `*pimage++ = *p++;`. -/
def copy_sample (rawdata : Nat → Int) (s : unpack_state) : unpack_state :=
  { s with rawimage := store s.rawimage s.pimage (rawdata s.p), pimage := s.pimage + 1,
           p := s.p + 1 }

/-- The statement `*palpha++ = *p;`. -/
def copy_alpha (rawdata : Nat → Int) (s : unpack_state) : unpack_state :=
  { s with rawalpha := store s.rawalpha s.palpha (rawdata s.p), palpha := s.palpha + 1 }

/-- The statement `*palpha++ = *p++;`. -/
def copy_alpha_next (rawdata : Nat → Int) (s : unpack_state) : unpack_state :=
  { s with rawalpha := store s.rawalpha s.palpha (rawdata s.p), palpha := s.palpha + 1,
           p := s.p + 1 }

/-- The statement `*palpha++ = (char)d->blend;`. -/
def fill_alpha (blend : Int) (s : unpack_state) : unpack_state :=
  { s with rawalpha := store s.rawalpha s.palpha (to_char blend), palpha := s.palpha + 1 }

/-- The body of the loop over the pixels of an RGBA buffer. -/
def unpack_rgba (rawdata : Nat → Int) (s : unpack_state) : unpack_state :=
  let s := copy_sample rawdata s
  let s := copy_sample rawdata s
  let s := copy_sample rawdata s
  let s := copy_alpha rawdata s
  let s := copy_alpha rawdata s
  let s := copy_alpha_next rawdata s
  s

/-- The body of the loop over the pixels of an RGB buffer; `blend` is `d->blend`. -/
def unpack_rgb (rawdata : Nat → Int) (blend : Int) (s : unpack_state) : unpack_state :=
  let s := copy_sample rawdata s
  let s := copy_sample rawdata s
  let s := copy_sample rawdata s
  let s := fill_alpha blend s
  let s := fill_alpha blend s
  let s := fill_alpha blend s
  s

/-- The state before the unpacking loops: both buffers come from `calloc`. -/
def unpack_start : unpack_state :=
  { rawimage := fun _ => 0, rawalpha := fun _ => 0, p := 0, pimage := 0, palpha := 0 }

/-- Model of `mj_read_jpegdropon_from_raw` when every allocation succeeds: `rawdata` is `none`
for a null pointer, and the result `none` stands for `NULL`. The fields `image` and `alpha`
of the new dropon are null (`calloc`). -/
def mj_read_jpegdropon_from_raw {R : Type} (rawdata : Option (Nat → Int)) (blend : Int)
    (colorspace width height : Nat) : Option (modjpeg_jpegdropon_t R) :=
  match rawdata with
  | none => none
  | some rawdata =>
    let blend := if blend < MODJPEG_BLEND_NONE then MODJPEG_BLEND_NONE else blend
    let blend := if blend > MODJPEG_BLEND_FULL then MODJPEG_BLEND_FULL else blend
    if colorspace = MODJPEG_COLORSPACE_RGB ∨ colorspace = MODJPEG_COLORSPACE_RGBA then
      if colorspace = MODJPEG_COLORSPACE_RGBA then
        let s := (List.range (width * height)).foldl (fun s _ => unpack_rgba rawdata s)
          unpack_start
        some { rawimage := s.rawimage, rawalpha := s.rawalpha,
               blend := MODJPEG_BLEND_NONUNIFORM, width := width, height := height,
               image := none, alpha := none }
      else
        let s := (List.range (width * height)).foldl (fun s _ => unpack_rgb rawdata blend s)
          unpack_start
        some { rawimage := s.rawimage, rawalpha := s.rawalpha, blend := blend,
               width := width, height := height, image := none, alpha := none }
    else none

/-- What `mj_decode_jpeg_to_buffer` hands back when it returns `0`: the buffer of samples, the
colour space and the size. -/
structure decoded_jpeg where
  buffer : Nat → Int
  colorspace : Nat
  width : Nat
  height : Nat

/-- Model of `mj_decode_jpeg_to_buffer`: `read_rgb` stands for the file access and the calls
into the codec, which give the RGB samples and the size of the picture in a file, or fail;
`none` stands for the result `-1`. The colour space handed back is always
`MODJPEG_COLORSPACE_RGB`. -/
def mj_decode_jpeg_to_buffer (read_rgb : String → Option ((Nat → Int) × Nat × Nat))
    (filename : String) : Option decoded_jpeg :=
  match read_rgb filename with
  | none => none
  | some r =>
    some { buffer := r.1, colorspace := MODJPEG_COLORSPACE_RGB, width := r.2.1, height := r.2.2 }

/-- Model of `mj_read_jpegdropon_from_jpeg_file`; `mask` is `none` for a null pointer. A run
that ends in `exit(1)` has no result, and neither has one that returns `NULL`: both are
`none`. The body of `if(mask != NULL)` is empty in the source, so `mask` is not used. -/
def mj_read_jpegdropon_from_jpeg_file {R : Type}
    (read_rgb : String → Option ((Nat → Int) × Nat × Nat)) (filename : String)
    (mask : Option String) (blend : Int) : Option (modjpeg_jpegdropon_t R) :=
  match mj_decode_jpeg_to_buffer read_rgb filename with
  | none => none
  | some decoded =>
    mj_read_jpegdropon_from_raw (some decoded.buffer) blend decoded.colorspace decoded.width
      decoded.height

/-! ## The blocks that reading and writing visit -/

/-- The block `(row, col)` of component `c` is one that the loops of
`mj_read_jpegimage_from_mem` and of `mj_write_jpegimage_to_buffer` visit. -/
def visited (m : modjpeg_jpegimage_t) (c row col : Nat) : Prop :=
  c < m.num_components
    ∧ row < m.image_height / (m.max_v_samp_factor * DCTSIZE) * (m.comp_info c).v_samp_factor
    ∧ col < m.image_width / (m.max_h_samp_factor * DCTSIZE) * (m.comp_info c).h_samp_factor

instance (m : modjpeg_jpegimage_t) (c row col : Nat) : Decidable (visited m c row col) := by
  unfold visited
  infer_instance

/-- Two images agree in the fields of `cinfo` and in the sizes of the coefficient arrays. -/
def same_geometry (m s : modjpeg_jpegimage_t) : Prop :=
  s.image_width = m.image_width ∧ s.image_height = m.image_height
    ∧ s.max_h_samp_factor = m.max_h_samp_factor ∧ s.max_v_samp_factor = m.max_v_samp_factor
    ∧ s.jpeg_color_space = m.jpeg_color_space ∧ s.num_components = m.num_components
    ∧ s.comp_info = m.comp_info
    ∧ ∀ c, (s.coef c).rows = (m.coef c).rows ∧ (s.coef c).cols = (m.coef c).cols

/-! ## More concrete inputs -/

/-- The value of `JCS_RGB` in `jpeglib.h`. -/
def JCS_RGB : Nat := 2

/-- The value of `JCS_YCbCr` in `jpeglib.h`. -/
def JCS_YCbCr : Nat := 3

/-- A decoded image of `16 × 8` samples with one component, two blocks in a row and the
quantisation value `i + 2` at index `i`; coefficient `i` of block `(0, k)` is `10 * k + i - 7`. -/
def sample_quantised : modjpeg_jpegimage_t :=
  { image_width := 16
    image_height := 8
    max_h_samp_factor := 1
    max_v_samp_factor := 1
    jpeg_color_space := 1
    num_components := 1
    comp_info := fun _ =>
      { h_samp_factor := 1, v_samp_factor := 1, quantval := fun i => (i : Int) + 2 }
    coef := fun _ =>
      { rows := 1, cols := 2, blk := fun _ k i => 10 * (k : Int) + (i : Int) - 7 }
    samp_factor := fun _ => { h_samp_factor := 0, v_samp_factor := 0 } }

/-- A raw buffer whose byte at offset `i` is `i % 256`. -/
def sample_rawdata : Nat → Int := fun i => ((i % 256 : Nat) : Int)

/-- A file system with one picture, `./images/logo.jpg`, of `2 × 1` pixels. -/
def sample_files (filename : String) : Option ((Nat → Int) × Nat × Nat) :=
  if filename = "./images/logo.jpg" then some (sample_rawdata, 2, 1) else none

/-- A codec for examples. Its streams record the size and the sampling factors `s[0..2]` that
`mj_encode_jpeg_to_buffer` is given; a decoded stream is an image in the colour space
`JCS_YCbCr` with three components of these sampling factors, quantisation values `1` and
coefficients `0`, which is what the defaults of libjpeg give for RGB input. -/
def sample_codec : Codec :=
  { encode := fun _ _ s width height =>
      some [width, height, (s 0).h_samp_factor, (s 0).v_samp_factor, (s 1).h_samp_factor,
        (s 1).v_samp_factor, (s 2).h_samp_factor, (s 2).v_samp_factor]
    decode := fun bytes =>
      match bytes with
      | [width, height, h0, v0, h1, v1, h2, v2] =>
        some
          { image_width := width
            image_height := height
            max_h_samp_factor := max h0 (max h1 h2)
            max_v_samp_factor := max v0 (max v1 v2)
            jpeg_color_space := JCS_YCbCr
            num_components := 3
            comp_info := fun c =>
              if c = 0 then { h_samp_factor := h0, v_samp_factor := v0, quantval := fun _ => 1 }
              else if c = 1 then
                { h_samp_factor := h1, v_samp_factor := v1, quantval := fun _ => 1 }
              else { h_samp_factor := h2, v_samp_factor := v2, quantval := fun _ => 1 }
            coef := fun _ => { rows := height / 8, cols := width / 8, blk := fun _ _ _ => 0 }
            samp_factor := fun _ => { h_samp_factor := 0, v_samp_factor := 0 } }
      | _ => none }

/-- A host of `16 × 16` samples in the colour space `JCS_RGB`: three components with the
sampling factors `1 × 1`, two by two blocks each. -/
def sample_rgb_host : modjpeg_jpegimage_t :=
  { image_width := 16
    image_height := 16
    max_h_samp_factor := 1
    max_v_samp_factor := 1
    jpeg_color_space := JCS_RGB
    num_components := 3
    comp_info := fun _ => { h_samp_factor := 1, v_samp_factor := 1, quantval := fun _ => 1 }
    coef := fun _ => { rows := 2, cols := 2, blk := fun _ _ _ => 0 }
    samp_factor := fun c =>
      if c < 3 then { h_samp_factor := 1, v_samp_factor := 1 }
      else { h_samp_factor := 0, v_samp_factor := 0 } }

/-- The host `m` with another colour space. -/
def with_color_space (m : modjpeg_jpegimage_t) (jpeg_color_space : Nat) : modjpeg_jpegimage_t :=
  { m with jpeg_color_space := jpeg_color_space }

/-! ## The destination manager -/

/-- The chunk by which the output buffer grows, `MODJPEG_DESTBUFFER_CHUNKSIZE`. -/
def MODJPEG_DESTBUFFER_CHUNKSIZE : Nat := 2048

/-- The state of the destination manager, `struct modjpeg_dest_mgr`: `allocated` is the number
of bytes of the block that `buf` points to, `size` is the field `size`, `next_output_byte` is
the offset of `pub.next_output_byte` from `buf`, and `free_in_buffer` is
`pub.free_in_buffer`. Allocations succeed and sizes stay in the range of `size_t`. -/
structure modjpeg_dest_mgr where
  allocated : Nat
  size : Nat
  next_output_byte : Nat
  free_in_buffer : Nat

/-- The destination manager that `mj_encode_jpeg_to_buffer` and `mj_write_jpegimage_to_buffer`
hand to the codec: `dest.buf = NULL`, `dest.size = 0`. -/
def dest_start : modjpeg_dest_mgr :=
  { allocated := 0, size := 0, next_output_byte := 0, free_in_buffer := 0 }

/-- Model of `modjpeg_init_destination`. -/
def modjpeg_init_destination (_dest : modjpeg_dest_mgr) : modjpeg_dest_mgr :=
  { allocated := MODJPEG_DESTBUFFER_CHUNKSIZE
    size := MODJPEG_DESTBUFFER_CHUNKSIZE
    next_output_byte := 0
    free_in_buffer := MODJPEG_DESTBUFFER_CHUNKSIZE }

/-- Model of `modjpeg_empty_output_buffer`. -/
def modjpeg_empty_output_buffer (dest : modjpeg_dest_mgr) : modjpeg_dest_mgr :=
  let allocated := dest.size + MODJPEG_DESTBUFFER_CHUNKSIZE
  let size := dest.size + MODJPEG_DESTBUFFER_CHUNKSIZE
  { allocated := allocated
    size := size
    next_output_byte := size - MODJPEG_DESTBUFFER_CHUNKSIZE
    free_in_buffer := MODJPEG_DESTBUFFER_CHUNKSIZE }

/-- Model of `modjpeg_term_destination`. -/
def modjpeg_term_destination (dest : modjpeg_dest_mgr) : modjpeg_dest_mgr :=
  { dest with size := dest.size - dest.free_in_buffer }

/-- The codec's side of the protocol of a destination manager: it stores `k` bytes at
`next_output_byte`, advancing the pointer and lowering `free_in_buffer`. -/
def emit_bytes (dest : modjpeg_dest_mgr) (k : Nat) : modjpeg_dest_mgr :=
  { dest with next_output_byte := dest.next_output_byte + k
              free_in_buffer := dest.free_in_buffer - k }

/-- The codec fills what is free of the buffer and calls `modjpeg_empty_output_buffer`. -/
def fill_and_empty (dest : modjpeg_dest_mgr) : modjpeg_dest_mgr :=
  modjpeg_empty_output_buffer (emit_bytes dest dest.free_in_buffer)

/-- The destination manager after `modjpeg_init_destination` and `n` full buffers. -/
def dest_after (n : Nat) : modjpeg_dest_mgr :=
  Nat.iterate fill_and_empty n (modjpeg_init_destination dest_start)

/-- A whole run of the codec over the destination manager: `n` full buffers, then a last
buffer in which `f` bytes stay free, then `modjpeg_term_destination`. -/
def dest_run (n f : Nat) : modjpeg_dest_mgr :=
  modjpeg_term_destination (emit_bytes (dest_after n) (MODJPEG_DESTBUFFER_CHUNKSIZE - f))

/-! ## Quantities of the block grid -/

/-- The number of `unit`-sized pieces that cover `dim` samples, `⌈dim / unit⌉`. -/
def ceil_div (dim unit : Nat) : Nat := (dim + unit - 1) / unit

/-- The block `(row, col)` of component `c` belongs to the coefficient plane of an image of
the given size: `⌈width / (max_h·8)⌉ · h_samp` blocks per row, and as many rows as the height
gives. -/
def in_plane (m : modjpeg_jpegimage_t) (c row col : Nat) : Prop :=
  c < m.num_components
    ∧ row < ceil_div m.image_height (m.max_v_samp_factor * DCTSIZE)
        * (m.comp_info c).v_samp_factor
    ∧ col < ceil_div m.image_width (m.max_h_samp_factor * DCTSIZE)
        * (m.comp_info c).h_samp_factor

instance (m : modjpeg_jpegimage_t) (c row col : Nat) : Decidable (in_plane m c row col) := by
  unfold in_plane
  infer_instance

/-! ## Concrete inputs for the geometry -/

/-- The value of `JCS_GRAYSCALE` in `jpeglib.h`. -/
def JCS_GRAYSCALE : Nat := 1

/-- A grayscale host of `16 × 16` samples as `mj_read_jpegimage_from_mem` leaves it: one
component, and the entries of `samp_factor` above it still `0` from `calloc`. -/
def sample_gray_host : modjpeg_jpegimage_t :=
  { image_width := 16
    image_height := 16
    max_h_samp_factor := 1
    max_v_samp_factor := 1
    jpeg_color_space := JCS_GRAYSCALE
    num_components := 1
    comp_info := fun _ => { h_samp_factor := 1, v_samp_factor := 1, quantval := fun _ => 1 }
    coef := fun _ => { rows := 2, cols := 2, blk := fun _ _ _ => 0 }
    samp_factor := fun c =>
      if c = 0 then { h_samp_factor := 1, v_samp_factor := 1 }
      else { h_samp_factor := 0, v_samp_factor := 0 } }

/-- An image of `8 × 8` samples with three components of sampling `1 × 1`, one block each. -/
def sample_color_logo : modjpeg_jpegimage_t :=
  { image_width := 8
    image_height := 8
    max_h_samp_factor := 1
    max_v_samp_factor := 1
    jpeg_color_space := JCS_YCbCr
    num_components := 3
    comp_info := fun _ => { h_samp_factor := 1, v_samp_factor := 1, quantval := fun _ => 1 }
    coef := fun _ => { rows := 1, cols := 1, blk := fun _ _ i => 5000 + (i : Int) }
    samp_factor := fun _ => { h_samp_factor := 1, v_samp_factor := 1 } }

/-- An image of `width × height` samples in the colour space `JCS_YCbCr` with the sampling
4:2:0: the luma component has the sampling factors `2 × 2`, the two chroma components `1 × 1`;
the coefficient arrays have the sizes the codec allocates, and coefficient `i` of each block
is `base + i`. -/
def image_420 (width height : Nat) (base : Int) : modjpeg_jpegimage_t :=
  { image_width := width
    image_height := height
    max_h_samp_factor := 2
    max_v_samp_factor := 2
    jpeg_color_space := JCS_YCbCr
    num_components := 3
    comp_info := fun c =>
      if c = 0 then { h_samp_factor := 2, v_samp_factor := 2, quantval := fun _ => 1 }
      else { h_samp_factor := 1, v_samp_factor := 1, quantval := fun _ => 1 }
    coef := fun c =>
      if c = 0 then
        { rows := ceil_div height 16 * 2, cols := ceil_div width 16 * 2,
          blk := fun _ _ i => base + (i : Int) }
      else
        { rows := ceil_div height 16, cols := ceil_div width 16,
          blk := fun _ _ i => base + (i : Int) }
    samp_factor := fun c =>
      if c = 0 then { h_samp_factor := 2, v_samp_factor := 2 }
      else if c < 3 then { h_samp_factor := 1, v_samp_factor := 1 }
      else { h_samp_factor := 0, v_samp_factor := 0 } }

/-- A host of `640 × 480` samples with the sampling 4:2:0. -/
def sample_host_420 : modjpeg_jpegimage_t := image_420 640 480 0

/-- An adapted logo of `128 × 64` samples with the sampling 4:2:0. -/
def sample_logo_420 : modjpeg_jpegimage_t := image_420 128 64 1000

/-- A decoded image of `12 × 8` samples with one component: the plane has two blocks in its
one row, the quantisation value is `i + 2` at index `i`, and coefficient `i` of block `(0, k)`
is `10 * k + i - 7`. -/
def sample_cropped : modjpeg_jpegimage_t :=
  { image_width := 12
    image_height := 8
    max_h_samp_factor := 1
    max_v_samp_factor := 1
    jpeg_color_space := JCS_GRAYSCALE
    num_components := 1
    comp_info := fun _ =>
      { h_samp_factor := 1, v_samp_factor := 1, quantval := fun i => (i : Int) + 2 }
    coef := fun _ =>
      { rows := 1, cols := 2, blk := fun _ k i => 10 * (k : Int) + (i : Int) - 7 }
    samp_factor := fun _ => { h_samp_factor := 0, v_samp_factor := 0 } }

/-- An alpha image of `24 × 16` samples: three blocks in each of two rows. -/
def sample_alpha_wide : modjpeg_jpegimage_t := sample_image 24 16 2 3 0

/-- An alpha image of `8 × 24` samples: one block in each of three rows. -/
def sample_alpha_tall : modjpeg_jpegimage_t := sample_image 8 24 3 1 0

/-! ## Transposition and further concrete inputs -/

/-- The transpose of a block of `8 × 8` values stored row by row: entry `(v, u)` of the result,
at index `8 * v + u`, is entry `(u, v)` of `X`. -/
def transpose {R : Type} (X : Nat → R) : Nat → R := fun n => X (8 * (n % 8) + n / 8)

/-- A host of `656 × 480` samples with the sampling 4:2:0: `41` units of `16` columns. -/
def sample_host_odd : modjpeg_jpegimage_t := image_420 656 480 0

/-- A host of `13 × 8` samples with one component: the plane has two blocks in its one row,
every quantisation value is `2`, and coefficient `i` of both blocks is `2 * i`. -/
def sample_narrow_host : modjpeg_jpegimage_t :=
  { image_width := 13
    image_height := 8
    max_h_samp_factor := 1
    max_v_samp_factor := 1
    jpeg_color_space := JCS_GRAYSCALE
    num_components := 1
    comp_info := fun _ => { h_samp_factor := 1, v_samp_factor := 1, quantval := fun _ => 2 }
    coef := fun _ => { rows := 1, cols := 2, blk := fun _ _ i => 2 * (i : Int) }
    samp_factor := fun c =>
      if c = 0 then { h_samp_factor := 1, v_samp_factor := 1 }
      else { h_samp_factor := 0, v_samp_factor := 0 } }

/-! ## The store into the 16-bit coefficients

`JCOEF`, the type of a coefficient, is a 16-bit `short` in the headers of the codec. The
arithmetic of the program on coefficients is done in `int`; the assignment to a coefficient
converts the result to `JCOEF`. The definitions `dequantise_block` and `blend_block` above give
the values of the right-hand sides as integers; the definitions of this section are the same
statements of the source with the conversion of the assignment. Both agree as long as the
assigned value lies in `−32768..32767`. -/

/-- The conversion of an `int` to `JCOEF` in an assignment to a coefficient: a value outside
`−32768..32767` is reduced modulo `2^16` into this range. -/
def to_JCOEF (v : Int) : Int := (v + 32768) % 65536 - 32768

/-- The loop `for(i = 0; i < DCTSIZE2; i += 4)` of `mj_read_jpegimage_from_mem` on one block
with the store: `coefs[i] = coefs[i] * quantval[i]` assigns the product to the 16-bit
`coefs[i]`, for the `DCTSIZE2` entries. -/
def dequantise_block_JCOEF (quantval coefs : Nat → Int) : Nat → Int :=
  fun i => if i < DCTSIZE2 then to_JCOEF (coefs i * quantval i) else coefs i

/-- The body of the loop over the components `c` of `mj_read_jpegimage_from_mem` with the
store into 16-bit coefficients: `samp_factor[c]` is set and every block `(l, k)` with
`l < height_in_blocks`, `k < width_in_blocks` is dequantised. -/
def read_component_JCOEF (m : modjpeg_jpegimage_t) (c : Nat) : modjpeg_jpegimage_t :=
  let component := m.comp_info c
  let m : modjpeg_jpegimage_t :=
    { m with samp_factor := fun c' =>
        if c' = c then
          { h_samp_factor := component.h_samp_factor, v_samp_factor := component.v_samp_factor }
        else m.samp_factor c' }
  let width_in_blocks :=
    m.image_width / (m.max_h_samp_factor * DCTSIZE) * component.h_samp_factor
  let height_in_blocks :=
    m.image_height / (m.max_v_samp_factor * DCTSIZE) * component.v_samp_factor
  (List.range height_in_blocks).foldl
    (fun m l =>
      (List.range width_in_blocks).foldl
        (fun m k =>
          write_block m c l k (dequantise_block_JCOEF component.quantval ((m.coef c).blk l k)))
        m)
    m

/-- The loops of `mj_read_jpegimage_from_mem` over the decoded image, with the store into
16-bit coefficients. -/
def dequantise_JCOEF (m : modjpeg_jpegimage_t) : modjpeg_jpegimage_t :=
  (List.range m.num_components).foldl read_component_JCOEF m

/-- The host block after the blend of one block in `mj_compose_with_mask`, with the store:
`coefs_m[i] += (int)Y[i]` assigns the sum to the 16-bit `coefs_m[i]`, for the `DCTSIZE2`
entries. -/
def blend_block_JCOEF {R : Type} [LinearOrderedField R] [FloorRing R] (M_SQRT2 : R)
    (b : Nat → R) (coefs_x coefs_m : Nat → Int) : Nat → Int :=
  let Y := blend_Y M_SQRT2 b coefs_x coefs_m
  fun i => if i < DCTSIZE2 then to_JCOEF (coefs_m i + trunc (Y i)) else coefs_m i

/-- The body of the loop over `k` of `mj_compose_with_mask` with the store into 16-bit
coefficients: the host block `(rm, width_offset + k)` is blended with the dropon block
`(l, k)` through the operator stored at index `comp->height_in_blocks * l + k`. -/
def with_mask_block_JCOEF {R : Type} [LinearOrderedField R] [FloorRing R] (M_SQRT2 : R)
    (x : modjpeg_jpegimage_t) (comp : modjpeg_jpegcomponent_t R) (c l rm : Nat)
    (width_offset : Int) (m : modjpeg_jpegimage_t) (k : Nat) : Option modjpeg_jpegimage_t :=
  match host_col m c (width_offset + (k : Int)) with
  | none => none
  | some cm =>
    match comp.blocks (mask_block_index comp.height_in_blocks l k) with
    | none => none
    | some b =>
      some (write_block m c rm cm
        (blend_block_JCOEF M_SQRT2 b ((x.coef c).blk l k) ((m.coef c).blk rm cm)))

/-- A decoded image of `8 × 8` samples with one component and one block: every quantisation
value is `255`, coefficient `0` is `300` and coefficient `i ≥ 1` is `i`. -/
def sample_steep : modjpeg_jpegimage_t :=
  { image_width := 8
    image_height := 8
    max_h_samp_factor := 1
    max_v_samp_factor := 1
    jpeg_color_space := JCS_GRAYSCALE
    num_components := 1
    comp_info := fun _ => { h_samp_factor := 1, v_samp_factor := 1, quantval := fun _ => 255 }
    coef := fun _ =>
      { rows := 1, cols := 1, blk := fun _ _ i => if i = 0 then 300 else (i : Int) }
    samp_factor := fun _ => { h_samp_factor := 0, v_samp_factor := 0 } }

/-- A dropon block with the coefficient `20000` at index `0`. -/
def loud_dropon_block : Nat → Int := fun i => if i = 0 then 20000 else 0

/-- An operator with the single weight `1` at index `0`. -/
def unit_operator {R : Type} [Field R] : Nat → R := fun n => if n = 0 then 1 else 0
/-! # Theorems -/

/-! ## Loops -/

/-- A property that every successful step of a loop preserves holds after the loop. -/
theorem foldlM_preserves {σ ι : Type} (f : σ → ι → Option σ) (J : σ → Prop) (l : List ι)
    (hstep : ∀ s i s', i ∈ l → J s → f s i = some s' → J s') (s0 s1 : σ) (h0 : J s0)
    (h : l.foldlM f s0 = some s1) : J s1 := by
  induction l generalizing s0 with
  | nil =>
    simp only [List.foldlM, pure, Option.some.injEq] at h
    exact h ▸ h0
  | cons a t ih =>
    rw [List.foldlM_cons] at h
    cases hfa : f s0 a with
    | none => rw [hfa] at h; simp at h
    | some s' =>
      rw [hfa] at h
      exact ih (fun s i s'' hi => hstep s i s'' (List.mem_cons_of_mem a hi)) s'
        (hstep s0 a s' (List.mem_cons_self a t) h0 hfa) h

/-- A counting loop succeeds, and establishes `P n`, when each step succeeds and takes `P i`
to `P (i + 1)`. -/
theorem foldlM_range_total {σ : Type} (f : σ → Nat → Option σ) (P : Nat → σ → Prop) (n : Nat)
    (s0 : σ) (h0 : P 0 s0)
    (hstep : ∀ i s, i < n → P i s → ∃ s', f s i = some s' ∧ P (i + 1) s') :
    ∃ s1, (List.range n).foldlM f s0 = some s1 ∧ P n s1 := by
  induction n with
  | zero => exact ⟨s0, rfl, h0⟩
  | succ n ih =>
    obtain ⟨s1, h1, hP⟩ := ih (fun i s hi => hstep i s (Nat.lt_succ_of_lt hi))
    obtain ⟨s2, h2, hP2⟩ := hstep n s1 (Nat.lt_succ_self n) hP
    refine ⟨s2, ?_, hP2⟩
    rw [List.range_succ, List.foldlM_append, h1]
    simp [h2]

/-! ## The compositor: placement and frame -/

theorem same_header_refl (m : modjpeg_jpegimage_t) : same_header m m :=
  ⟨rfl, rfl, rfl, rfl, rfl, rfl, rfl, rfl, fun _ => ⟨rfl, rfl⟩⟩

theorem same_header_trans {m s t : modjpeg_jpegimage_t} (h1 : same_header m s)
    (h2 : same_header s t) : same_header m t := by
  obtain ⟨a1, a2, a3, a4, a5, a6, a7, a8, a9⟩ := h1
  obtain ⟨b1, b2, b3, b4, b5, b6, b7, b8, b9⟩ := h2
  exact ⟨b1.trans a1, b2.trans a2, b3.trans a3, b4.trans a4, b5.trans a5, b6.trans a6,
    b7.trans a7, b8.trans a8, fun c => ⟨(b9 c).1.trans (a9 c).1, (b9 c).2.trans (a9 c).2⟩⟩

theorem same_header_write_block (m : modjpeg_jpegimage_t) (c row col : Nat) (b : Nat → Int) :
    same_header m (write_block m c row col b) := by
  refine ⟨rfl, rfl, rfl, rfl, rfl, rfl, rfl, rfl, fun c' => ?_⟩
  by_cases h : c' = c
  · subst h; simp [write_block]
  · simp [write_block, h]

theorem write_block_blk (m : modjpeg_jpegimage_t) (c row col : Nat) (b : Nat → Int)
    (c' r k : Nat) :
    ((write_block m c row col b).coef c').blk r k
      = if c' = c ∧ r = row ∧ k = col then b else (m.coef c').blk r k := by
  by_cases h : c' = c
  · subst h
    by_cases h2 : r = row ∧ k = col
    · simp [write_block, h2]
    · simp [write_block, h2]
  · simp [write_block, h]

theorem host_col_eq_some {m : modjpeg_jpegimage_t} {c : Nat} {col : Int} {cm : Nat}
    (h : host_col m c col = some cm) : col = (cm : Int) ∧ cm < (m.coef c).cols := by
  unfold host_col at h
  split at h
  · rename_i hc
    simp only [Option.some.injEq] at h
    omega
  · simp at h

theorem host_row_eq_some {m : modjpeg_jpegimage_t} {c : Nat} {row : Int} {rm : Nat}
    (h : host_row m c row = some rm) :
    row = (rm : Int) ∧ rm < (m.coef c).rows ∧ c < m.num_components := by
  unfold host_row at h
  split at h
  · rename_i hc
    simp only [Option.some.injEq] at h
    omega
  · simp at h

theorem host_col_of_lt (m : modjpeg_jpegimage_t) (c n : Nat) (h : n < (m.coef c).cols) :
    host_col m c (n : Int) = some n := by
  unfold host_col
  rw [if_pos ⟨by omega, by omega⟩]
  simp

theorem host_row_of_lt (m : modjpeg_jpegimage_t) (c n : Nat) (hc : c < m.num_components)
    (h : n < (m.coef c).rows) : host_row m c (n : Int) = some n := by
  unfold host_row
  rw [if_pos ⟨hc, by omega, by omega⟩]
  simp

theorem unchanged_outside_write (m x : modjpeg_jpegimage_t) (ah av : Int) (c rm cm : Nat)
    (b : Nat → Int) (s : modjpeg_jpegimage_t) (hJ : unchanged_outside m x ah av s)
    (hin : in_rectangle m x ah av c rm cm) :
    unchanged_outside m x ah av (write_block s c rm cm b) := by
  refine ⟨same_header_trans hJ.1 (same_header_write_block s c rm cm b), ?_⟩
  intro c' r col hout
  rw [write_block_blk]
  by_cases h : c' = c ∧ r = rm ∧ col = cm
  · obtain ⟨h1, h2, h3⟩ := h
    subst h1 h2 h3
    exact absurd hin hout
  · rw [if_neg h]
    exact hJ.2 c' r col hout

theorem without_mask_block_some {x : modjpeg_jpegimage_t} {c l rm : Nat} {wo : Int}
    {s s' : modjpeg_jpegimage_t} {k : Nat} (h : without_mask_block x c l rm wo s k = some s') :
    ∃ (cm : Nat) (b : Nat → Int), wo + (k : Int) = (cm : Int) ∧ cm < (s.coef c).cols
      ∧ s' = write_block s c rm cm b := by
  unfold without_mask_block at h
  cases hcol : host_col s c (wo + (k : Int)) with
  | none => rw [hcol] at h; simp at h
  | some cm =>
    rw [hcol] at h
    simp only [Option.some.injEq] at h
    exact ⟨cm, _, (host_col_eq_some hcol).1, (host_col_eq_some hcol).2, h.symm⟩

theorem with_mask_block_some {R : Type} [LinearOrderedField R] [FloorRing R] {M_SQRT2 : R}
    {x : modjpeg_jpegimage_t} {comp : modjpeg_jpegcomponent_t R} {c l rm : Nat} {wo : Int}
    {s s' : modjpeg_jpegimage_t} {k : Nat}
    (h : with_mask_block M_SQRT2 x comp c l rm wo s k = some s') :
    ∃ (cm : Nat) (b : Nat → Int), wo + (k : Int) = (cm : Int) ∧ cm < (s.coef c).cols
      ∧ s' = write_block s c rm cm b := by
  unfold with_mask_block at h
  cases hcol : host_col s c (wo + (k : Int)) with
  | none => rw [hcol] at h; simp at h
  | some cm =>
    rw [hcol] at h
    cases hb : comp.blocks (mask_block_index comp.height_in_blocks l k) with
    | none => rw [hb] at h; simp at h
    | some b =>
      rw [hb] at h
      simp only [Option.some.injEq] at h
      exact ⟨cm, _, (host_col_eq_some hcol).1, (host_col_eq_some hcol).2, h.symm⟩

/-- A row of block writes at the placed offsets keeps everything outside the rectangle. -/
theorem unchanged_outside_row (m x : modjpeg_jpegimage_t) (ah av : Int) (c l : Nat)
    (step : Nat → modjpeg_jpegimage_t → Nat → Option modjpeg_jpegimage_t)
    (hstep : ∀ rm s k s', step rm s k = some s' →
      ∃ (cm : Nat) (b : Nat → Int), placed_width_offset m x ah c + (k : Int) = (cm : Int)
        ∧ cm < (s.coef c).cols ∧ s' = write_block s c rm cm b)
    (hc : c < x.num_components) (hl : l < dropon_height x c)
    (s s' : modjpeg_jpegimage_t) (hJ : unchanged_outside m x ah av s)
    (h : (match host_row s c (placed_height_offset m x av c + (l : Int)) with
          | none => none
          | some rm => (List.range (dropon_width x c)).foldlM (step rm) s) = some s') :
    unchanged_outside m x ah av s' := by
  cases hrow : host_row s c (placed_height_offset m x av c + (l : Int)) with
  | none => rw [hrow] at h; simp at h
  | some rm =>
    rw [hrow] at h
    have hrm := (host_row_eq_some hrow).1
    refine foldlM_preserves (step rm) (unchanged_outside m x ah av) _ ?_ s s' hJ h
    intro t k t' hk hJt ht
    obtain ⟨cm, b, hcm, _, rfl⟩ := hstep rm t k t' ht
    have hk' : k < dropon_width x c := List.mem_range.mp hk
    exact unchanged_outside_write m x ah av c rm cm b t hJt
      ⟨hc, by omega, by omega, by omega, by omega⟩

theorem placed_offsets_of_same_header {m s : modjpeg_jpegimage_t} (h : same_header m s)
    (x : modjpeg_jpegimage_t) (ah av : Int) (c : Nat) :
    width_offset ah (s.comp_info c).h_samp_factor
        (host_blocks m.image_width m.max_h_samp_factor)
        (x.image_width / (x.max_h_samp_factor * DCTSIZE) * (x.comp_info c).h_samp_factor)
      = placed_width_offset m x ah c
    ∧ height_offset av (s.comp_info c).v_samp_factor
        (host_blocks m.image_height m.max_v_samp_factor)
        (x.image_height / (x.max_v_samp_factor * DCTSIZE) * (x.comp_info c).v_samp_factor)
      = placed_height_offset m x av c := by
  obtain ⟨_, _, _, _, _, _, h7, _⟩ := h
  simp [placed_width_offset, placed_height_offset, dropon_width, dropon_height, h7]

theorem without_mask_component_frame (m x : modjpeg_jpegimage_t) (ah av : Int) (c : Nat)
    (hc : c < x.num_components) (s s' : modjpeg_jpegimage_t)
    (hJ : unchanged_outside m x ah av s)
    (h : without_mask_component x ah av (host_blocks m.image_width m.max_h_samp_factor)
      (host_blocks m.image_height m.max_v_samp_factor) s c = some s') :
    unchanged_outside m x ah av s' := by
  unfold without_mask_component at h
  simp only at h
  refine foldlM_preserves _ (unchanged_outside m x ah av) _ ?_ s s' hJ h
  intro t l t' hl hJt ht
  have hl' : l < dropon_height x c := List.mem_range.mp hl
  obtain ⟨hw, hh⟩ := placed_offsets_of_same_header hJ.1 x ah av c
  unfold without_mask_row at ht
  rw [hw, hh] at ht
  exact unchanged_outside_row m x ah av c l
    (fun rm => without_mask_block x c l rm (placed_width_offset m x ah c))
    (fun rm u k u' hu => without_mask_block_some hu) hc hl' t t' hJt ht

theorem with_mask_component_frame {R : Type} [LinearOrderedField R] [FloorRing R] (M_SQRT2 : R)
    (m x : modjpeg_jpegimage_t) (w : modjpeg_jpegmask_t R) (ah av : Int) (c : Nat)
    (hc : c < x.num_components) (s s' : modjpeg_jpegimage_t)
    (hJ : unchanged_outside m x ah av s)
    (h : with_mask_component M_SQRT2 x w ah av (host_blocks m.image_width m.max_h_samp_factor)
      (host_blocks m.image_height m.max_v_samp_factor) s c = some s') :
    unchanged_outside m x ah av s' := by
  unfold with_mask_component at h
  simp only at h
  refine foldlM_preserves _ (unchanged_outside m x ah av) _ ?_ s s' hJ h
  intro t l t' hl hJt ht
  have hl' : l < dropon_height x c := List.mem_range.mp hl
  obtain ⟨hw, hh⟩ := placed_offsets_of_same_header hJ.1 x ah av c
  unfold with_mask_row at ht
  rw [hw, hh] at ht
  exact unchanged_outside_row m x ah av c l
    (fun rm => with_mask_block M_SQRT2 x (w.components c) c l rm (placed_width_offset m x ah c))
    (fun rm u k u' hu => with_mask_block_some hu) hc hl' t t' hJt ht

theorem mj_compose_without_mask_frame (m x : modjpeg_jpegimage_t) (ah av : Int) (r : Int)
    (m' : modjpeg_jpegimage_t) (h : mj_compose_without_mask m x ah av = some (r, m')) :
    r = 0 ∧ unchanged_outside m x ah av m' := by
  unfold mj_compose_without_mask at h
  simp only at h
  split at h
  · simp at h
  · rename_i s hs
    simp only [Option.some.injEq, Prod.mk.injEq] at h
    obtain ⟨h0, rfl⟩ := h
    refine ⟨h0.symm, ?_⟩
    refine foldlM_preserves _ (unchanged_outside m x ah av) _ ?_ m s
      ⟨same_header_refl m, fun _ _ _ _ => rfl⟩ hs
    intro t c t' hc hJt ht
    exact without_mask_component_frame m x ah av c (List.mem_range.mp hc) t t' hJt ht

theorem mj_compose_with_mask_frame {R : Type} [LinearOrderedField R] [FloorRing R] (M_SQRT2 : R)
    (m x : modjpeg_jpegimage_t) (w : modjpeg_jpegmask_t R) (ah av : Int) (r : Int)
    (m' : modjpeg_jpegimage_t) (h : mj_compose_with_mask M_SQRT2 m x w ah av = some (r, m')) :
    r = 0 ∧ unchanged_outside m x ah av m' := by
  unfold mj_compose_with_mask at h
  simp only at h
  split at h
  · simp at h
  · rename_i s hs
    simp only [Option.some.injEq, Prod.mk.injEq] at h
    obtain ⟨h0, rfl⟩ := h
    refine ⟨h0.symm, ?_⟩
    refine foldlM_preserves _ (unchanged_outside m x ah av) _ ?_ m s
      ⟨same_header_refl m, fun _ _ _ _ => rfl⟩ hs
    intro t c t' hc hJt ht
    exact with_mask_component_frame M_SQRT2 m x w ah av c (List.mem_range.mp hc) t t' hJt ht

theorem composed_coef_outside (m x : modjpeg_jpegimage_t) (ah av : Int) (c r col i : Nat)
    (h : ¬ in_rectangle m x ah av c r col) :
    composed_coef m x ah av c r col i = (m.coef c).blk r col i := by
  unfold composed_coef
  rw [if_neg (fun hh => h hh.1)]

/-- Changing the progress marker of `composed_upto` over blocks outside the rectangle. -/
theorem composed_upto_mono (m x : modjpeg_jpegimage_t) (ah av : Int) (c l k c2 l2 k2 : Nat)
    (s : modjpeg_jpegimage_t) (h : composed_upto m x ah av c l k s)
    (hiff : ∀ c' r col, in_rectangle m x ah av c' r col →
      ((c' < c ∨ (c' = c ∧ ((r : Int) < placed_height_offset m x av c + (l : Int)
              ∨ ((r : Int) = placed_height_offset m x av c + (l : Int)
                  ∧ (col : Int) < placed_width_offset m x ah c + (k : Int)))))
        ↔ (c' < c2 ∨ (c' = c2 ∧ ((r : Int) < placed_height_offset m x av c2 + (l2 : Int)
              ∨ ((r : Int) = placed_height_offset m x av c2 + (l2 : Int)
                  ∧ (col : Int) < placed_width_offset m x ah c2 + (k2 : Int))))))) :
    composed_upto m x ah av c2 l2 k2 s := by
  refine ⟨h.1, ?_⟩
  intro c' r col i
  rw [h.2 c' r col i]
  by_cases hin : in_rectangle m x ah av c' r col
  · have := hiff c' r col hin
    by_cases hc : (c' < c ∨ (c' = c ∧ ((r : Int) < placed_height_offset m x av c + (l : Int)
              ∨ ((r : Int) = placed_height_offset m x av c + (l : Int)
                  ∧ (col : Int) < placed_width_offset m x ah c + (k : Int)))))
    · rw [if_pos hc, if_pos (this.mp hc)]
    · rw [if_neg hc, if_neg (fun h2 => hc (this.mpr h2))]
  · rw [composed_coef_outside m x ah av c' r col i hin]
    simp

theorem without_mask_block_total (m x : modjpeg_jpegimage_t) (ah av : Int)
    (hin : placement_inside m x ah av) (c l k : Nat) (hc : c < x.num_components)
    (hl : l < dropon_height x c) (hk : k < dropon_width x c) (rm : Nat)
    (hrm : placed_height_offset m x av c + (l : Int) = (rm : Int))
    (s : modjpeg_jpegimage_t) (hs : composed_upto m x ah av c l k s) :
    ∃ s', without_mask_block x c l rm (placed_width_offset m x ah c) s k = some s'
      ∧ composed_upto m x ah av c l (k + 1) s' := by
  obtain ⟨hcm, hho, hrows, hwo, hcols⟩ := hin c hc
  obtain ⟨wn, hwn⟩ := Int.eq_ofNat_of_zero_le hwo
  have hcols_s : (s.coef c).cols = (m.coef c).cols := (hs.1.2.2.2.2.2.2.2.2 c).2
  have hcol : host_col s c (placed_width_offset m x ah c + (k : Int)) = some (wn + k) := by
    rw [hwn]
    have := host_col_of_lt s c (wn + k) (by rw [hcols_s]; omega)
    simpa using this
  refine ⟨_, by unfold without_mask_block; rw [hcol], ?_⟩
  refine ⟨same_header_trans hs.1 (same_header_write_block _ _ _ _ _), ?_⟩
  intro c' r col i
  rw [write_block_blk]
  by_cases hit : c' = c ∧ r = rm ∧ col = wn + k
  · obtain ⟨rfl, rfl, rfl⟩ := hit
    rw [if_pos ⟨rfl, rfl, rfl⟩, if_pos (Or.inr ⟨rfl, Or.inr ⟨hrm.symm, by push_cast; omega⟩⟩)]
    have hrect : in_rectangle m x ah av c' r (wn + k) :=
      ⟨hc, by omega, by omega, by push_cast; omega, by push_cast; omega⟩
    unfold composed_coef copy_block
    by_cases hi : i < DCTSIZE2
    · rw [if_pos hi, if_pos ⟨hrect, hi⟩]
      have e1 : ((r : Int) - placed_height_offset m x av c').toNat = l := by omega
      have e2 : (((wn + k : Nat) : Int) - placed_width_offset m x ah c').toNat = k := by
        push_cast; omega
      rw [e1, e2]
    · rw [if_neg hi, if_neg (fun hh => hi hh.2), hs.2 c' r (wn + k) i]
      rw [if_neg]
      push_cast
      omega
  · rw [if_neg hit, hs.2 c' r col i]
    by_cases hcc : c' = c
    · subst hcc
      have : ¬ (r = rm ∧ col = wn + k) := fun hh => hit ⟨rfl, hh.1, hh.2⟩
      by_cases hcond : (c' < c' ∨ (c' = c' ∧ ((r : Int) < placed_height_offset m x av c' + (l : Int)
              ∨ ((r : Int) = placed_height_offset m x av c' + (l : Int)
                  ∧ (col : Int) < placed_width_offset m x ah c' + (k : Int)))))
      · rw [if_pos hcond, if_pos]
        rcases hcond with h1 | ⟨_, h2 | h3⟩
        · omega
        · exact Or.inr ⟨rfl, Or.inl h2⟩
        · exact Or.inr ⟨rfl, Or.inr ⟨h3.1, by push_cast; omega⟩⟩
      · rw [if_neg hcond, if_neg]
        intro hcond2
        apply hcond
        rcases hcond2 with h1 | ⟨_, h2 | h3⟩
        · omega
        · exact Or.inr ⟨rfl, Or.inl h2⟩
        · refine Or.inr ⟨rfl, Or.inr ⟨h3.1, ?_⟩⟩
          have h4 := h3.2
          push_cast at h4
          have : col ≠ wn + k := fun hh => this ⟨by omega, hh⟩
          omega
    · have e : (c' < c ∨ (c' = c ∧ ((r : Int) < placed_height_offset m x av c + (l : Int)
              ∨ ((r : Int) = placed_height_offset m x av c + (l : Int)
                  ∧ (col : Int) < placed_width_offset m x ah c + ((k + 1 : Nat) : Int)))))
          ↔ (c' < c ∨ (c' = c ∧ ((r : Int) < placed_height_offset m x av c + (l : Int)
              ∨ ((r : Int) = placed_height_offset m x av c + (l : Int)
                  ∧ (col : Int) < placed_width_offset m x ah c + (k : Int))))) := by
        constructor
        · rintro (h1 | ⟨h1, _⟩)
          · exact Or.inl h1
          · exact absurd h1 hcc
        · rintro (h1 | ⟨h1, _⟩)
          · exact Or.inl h1
          · exact absurd h1 hcc
      simp only [e]

theorem without_mask_row_total (m x : modjpeg_jpegimage_t) (ah av : Int)
    (hin : placement_inside m x ah av) (c l : Nat) (hc : c < x.num_components)
    (hl : l < dropon_height x c) (s : modjpeg_jpegimage_t)
    (hs : composed_upto m x ah av c l 0 s) :
    ∃ s', without_mask_row x c (placed_height_offset m x av c) (placed_width_offset m x ah c)
        (dropon_width x c) s l = some s'
      ∧ composed_upto m x ah av c (l + 1) 0 s' := by
  obtain ⟨hcm, hho, hrows, hwo, hcols⟩ := hin c hc
  obtain ⟨hn, hhn⟩ := Int.eq_ofNat_of_zero_le hho
  have hrows_s : (s.coef c).rows = (m.coef c).rows := (hs.1.2.2.2.2.2.2.2.2 c).1
  have hnc : s.num_components = m.num_components := hs.1.2.2.2.2.2.1
  have hrow : host_row s c (placed_height_offset m x av c + (l : Int)) = some (hn + l) := by
    rw [hhn]
    have := host_row_of_lt s c (hn + l) (by rw [hnc]; exact hcm) (by rw [hrows_s]; omega)
    simpa using this
  obtain ⟨s', hs', hP⟩ := foldlM_range_total
    (without_mask_block x c l (hn + l) (placed_width_offset m x ah c))
    (fun k t => composed_upto m x ah av c l k t) (dropon_width x c) s hs
    (fun k t hk ht => without_mask_block_total m x ah av hin c l k hc hl hk (hn + l)
      (by rw [hhn]; push_cast; rfl) t ht)
  refine ⟨s', by unfold without_mask_row; rw [hrow]; exact hs', ?_⟩
  refine composed_upto_mono m x ah av c l (dropon_width x c) c (l + 1) 0 s' hP ?_
  intro c' r col hrect
  obtain ⟨_, h1, h2, h3, h4⟩ := hrect
  constructor
  · rintro (h | ⟨rfl, h | h⟩)
    · exact Or.inl h
    · exact Or.inr ⟨rfl, Or.inl (by push_cast; omega)⟩
    · exact Or.inr ⟨rfl, Or.inl (by push_cast; omega)⟩
  · rintro (h | ⟨rfl, h | h⟩)
    · exact Or.inl h
    · push_cast at h
      by_cases hr : (r : Int) < placed_height_offset m x av c' + (l : Int)
      · exact Or.inr ⟨rfl, Or.inl hr⟩
      · exact Or.inr ⟨rfl, Or.inr ⟨by omega, h4⟩⟩
    · exfalso
      have := h.2
      push_cast at this
      omega

theorem without_mask_component_total (m x : modjpeg_jpegimage_t) (ah av : Int)
    (hin : placement_inside m x ah av) (c : Nat) (hc : c < x.num_components)
    (s : modjpeg_jpegimage_t) (hs : composed_upto m x ah av c 0 0 s) :
    ∃ s', without_mask_component x ah av (host_blocks m.image_width m.max_h_samp_factor)
        (host_blocks m.image_height m.max_v_samp_factor) s c = some s'
      ∧ composed_upto m x ah av (c + 1) 0 0 s' := by
  obtain ⟨hw, hh⟩ := placed_offsets_of_same_header hs.1 x ah av c
  obtain ⟨s', hs', hP⟩ := foldlM_range_total
    (without_mask_row x c (placed_height_offset m x av c) (placed_width_offset m x ah c)
      (dropon_width x c))
    (fun l t => composed_upto m x ah av c l 0 t) (dropon_height x c) s hs
    (fun l t hl ht => without_mask_row_total m x ah av hin c l hc hl t ht)
  refine ⟨s', ?_, ?_⟩
  · unfold without_mask_component
    simp only
    rw [hw, hh]
    exact hs'
  · refine composed_upto_mono m x ah av c (dropon_height x c) 0 (c + 1) 0 0 s' hP ?_
    intro c' r col hrect
    obtain ⟨_, h1, h2, h3, h4⟩ := hrect
    constructor
    · rintro (h | ⟨rfl, _⟩)
      · exact Or.inl (by omega)
      · exact Or.inl (by omega)
    · rintro (h | ⟨rfl, h | h⟩)
      · by_cases hcc : c' = c
        · subst hcc
          exact Or.inr ⟨rfl, Or.inl h2⟩
        · exact Or.inl (by omega)
      · push_cast at h
        omega
      · have := h.2
        push_cast at this
        omega

/-- An opaque composition of a dropon placed inside the host grid returns `0` and leaves the
host with the composed coefficients. -/
theorem mj_compose_without_mask_total (m x : modjpeg_jpegimage_t) (ah av : Int)
    (hin : placement_inside m x ah av) :
    ∃ m', mj_compose_without_mask m x ah av = some (0, m') ∧ same_header m m'
      ∧ ∀ c r col i, (m'.coef c).blk r col i = composed_coef m x ah av c r col i := by
  have h0 : composed_upto m x ah av 0 0 0 m := by
    refine ⟨same_header_refl m, ?_⟩
    intro c' r col i
    by_cases hrect : in_rectangle m x ah av c' r col
    · rw [if_neg]
      obtain ⟨_, h1, h2, h3, h4⟩ := hrect
      rintro (h | ⟨rfl, h | h⟩)
      · omega
      · push_cast at h; omega
      · have := h.2
        push_cast at this
        omega
    · rw [composed_coef_outside m x ah av c' r col i hrect]
      simp
  obtain ⟨s', hs', hP⟩ := foldlM_range_total
    (without_mask_component x ah av (host_blocks m.image_width m.max_h_samp_factor)
      (host_blocks m.image_height m.max_v_samp_factor))
    (fun c t => composed_upto m x ah av c 0 0 t) x.num_components m h0
    (fun c t hc ht => without_mask_component_total m x ah av hin c hc t ht)
  refine ⟨s', ?_, hP.1, ?_⟩
  · unfold mj_compose_without_mask
    simp only
    rw [hs']
  · intro c r col i
    rw [hP.2 c r col i]
    by_cases hrect : in_rectangle m x ah av c r col
    · rw [if_pos (Or.inl hrect.1)]
    · rw [composed_coef_outside m x ah av c r col i hrect]
      simp

theorem same_header_symm_offsets {m s : modjpeg_jpegimage_t} (h : same_header m s)
    (x : modjpeg_jpegimage_t) (ah av : Int) (c : Nat) :
    placed_width_offset s x ah c = placed_width_offset m x ah c
      ∧ placed_height_offset s x av c = placed_height_offset m x av c := by
  obtain ⟨h1, h2, h3, h4, _, _, h7, _⟩ := h
  simp [placed_width_offset, placed_height_offset, h1, h2, h3, h4, h7]

theorem in_rectangle_of_same_header {m s : modjpeg_jpegimage_t} (h : same_header m s)
    (x : modjpeg_jpegimage_t) (ah av : Int) (c r col : Nat) :
    in_rectangle s x ah av c r col ↔ in_rectangle m x ah av c r col := by
  obtain ⟨hw, hh⟩ := same_header_symm_offsets h x ah av c
  unfold in_rectangle
  rw [hw, hh]

theorem placement_inside_of_same_header {m s : modjpeg_jpegimage_t} (h : same_header m s)
    (x : modjpeg_jpegimage_t) (ah av : Int) (hin : placement_inside m x ah av) :
    placement_inside s x ah av := by
  intro c hc
  obtain ⟨hw, hh⟩ := same_header_symm_offsets h x ah av c
  obtain ⟨h1, h2, h3, h4, h5⟩ := hin c hc
  have hnc : s.num_components = m.num_components := h.2.2.2.2.2.1
  have hsz := h.2.2.2.2.2.2.2.2 c
  rw [hw, hh, hnc, hsz.1, hsz.2]
  exact ⟨h1, h2, h3, h4, h5⟩

theorem image_ext {m s : modjpeg_jpegimage_t} (h : same_header m s)
    (hc : ∀ c r col i, (s.coef c).blk r col i = (m.coef c).blk r col i) : s = m := by
  obtain ⟨h1, h2, h3, h4, h5, h6, h7, h8, h9⟩ := h
  have hcoef : s.coef = m.coef := by
    funext c
    have hb : (s.coef c).blk = (m.coef c).blk := by
      funext r col i
      exact hc c r col i
    cases hs : s.coef c with
    | mk rows cols blk =>
      cases hm : m.coef c with
      | mk rows' cols' blk' =>
        have e1 := (h9 c).1
        have e2 := (h9 c).2
        rw [hs, hm] at e1 e2 hb
        simp only at e1 e2 hb
        subst e1 e2 hb
        rfl
  cases s
  cases m
  simp only at h1 h2 h3 h4 h5 h6 h7 h8 hcoef
  subst h1 h2 h3 h4 h5 h6 h7 h8 hcoef
  rfl

/-- A loop that succeeds has run each of its steps, from a state that satisfies every
property the steps preserve. -/
theorem foldlM_step_defined {σ ι : Type} (f : σ → ι → Option σ) (J : σ → Prop) (l : List ι)
    (hstep : ∀ s i s', i ∈ l → J s → f s i = some s' → J s') (s0 s1 : σ) (h0 : J s0)
    (h : l.foldlM f s0 = some s1) (i : ι) (hi : i ∈ l) :
    ∃ s s', J s ∧ f s i = some s' := by
  induction l generalizing s0 with
  | nil => simp at hi
  | cons a t ih =>
    rw [List.foldlM_cons] at h
    cases hfa : f s0 a with
    | none => rw [hfa] at h; simp at h
    | some s' =>
      rw [hfa] at h
      rcases List.mem_cons.mp hi with rfl | hit
      · exact ⟨s0, s', h0, hfa⟩
      · exact ih (fun s j s'' hj => hstep s j s'' (List.mem_cons_of_mem a hj)) s'
          (hstep s0 a s' (List.mem_cons_self a t) h0 hfa) h hit

/-- The block that a generic row of block writes indexes lies in the host grid when the row
succeeds. -/
theorem row_defined_in_grid (m x : modjpeg_jpegimage_t) (ah av : Int) (c l k : Nat)
    (step : Nat → modjpeg_jpegimage_t → Nat → Option modjpeg_jpegimage_t)
    (hstep : ∀ rm s j s', step rm s j = some s' →
      ∃ (cm : Nat) (b : Nat → Int), placed_width_offset m x ah c + (j : Int) = (cm : Int)
        ∧ cm < (s.coef c).cols ∧ s' = write_block s c rm cm b)
    (hc : c < x.num_components) (hl : l < dropon_height x c) (hk : k < dropon_width x c)
    (s s' : modjpeg_jpegimage_t) (hJ : unchanged_outside m x ah av s)
    (h : (match host_row s c (placed_height_offset m x av c + (l : Int)) with
          | none => none
          | some rm => (List.range (dropon_width x c)).foldlM (step rm) s) = some s') :
    c < m.num_components
      ∧ 0 ≤ placed_height_offset m x av c + (l : Int)
      ∧ placed_height_offset m x av c + (l : Int) < ((m.coef c).rows : Int)
      ∧ 0 ≤ placed_width_offset m x ah c + (k : Int)
      ∧ placed_width_offset m x ah c + (k : Int) < ((m.coef c).cols : Int) := by
  cases hrow : host_row s c (placed_height_offset m x av c + (l : Int)) with
  | none => rw [hrow] at h; simp at h
  | some rm =>
    rw [hrow] at h
    obtain ⟨hrm, hrm2, hcs⟩ := host_row_eq_some hrow
    have hpres : ∀ t j t', j ∈ List.range (dropon_width x c) → unchanged_outside m x ah av t →
        step rm t j = some t' → unchanged_outside m x ah av t' := by
      intro t j t' hj hJt ht
      obtain ⟨cm, b, hcm, _, rfl⟩ := hstep rm t j t' ht
      have hj' : j < dropon_width x c := List.mem_range.mp hj
      exact unchanged_outside_write m x ah av c rm cm b t hJt
        ⟨hc, by omega, by omega, by omega, by omega⟩
    obtain ⟨t, t', hJt, ht⟩ := foldlM_step_defined (step rm) (unchanged_outside m x ah av) _
      hpres s s' hJ h k (List.mem_range.mpr hk)
    obtain ⟨cm, b, hcm, hlt, _⟩ := hstep rm t k t' ht
    have e1 := (hJ.1.2.2.2.2.2.2.2.2 c).1
    have e2 := (hJt.1.2.2.2.2.2.2.2.2 c).2
    have e3 : s.num_components = m.num_components := hJ.1.2.2.2.2.2.1
    refine ⟨by omega, by omega, by omega, by omega, by omega⟩

theorem mj_compose_without_mask_in_grid (m x : modjpeg_jpegimage_t) (ah av : Int)
    (r : Int × modjpeg_jpegimage_t) (h : mj_compose_without_mask m x ah av = some r)
    (c l k : Nat) (hc : c < x.num_components) (hl : l < dropon_height x c)
    (hk : k < dropon_width x c) :
    c < m.num_components
      ∧ 0 ≤ placed_height_offset m x av c + (l : Int)
      ∧ placed_height_offset m x av c + (l : Int) < ((m.coef c).rows : Int)
      ∧ 0 ≤ placed_width_offset m x ah c + (k : Int)
      ∧ placed_width_offset m x ah c + (k : Int) < ((m.coef c).cols : Int) := by
  unfold mj_compose_without_mask at h
  simp only at h
  split at h
  · simp at h
  · rename_i s1 hs1
    obtain ⟨s, s', hJ, hs⟩ := foldlM_step_defined _ (unchanged_outside m x ah av) _
      (fun t c' t' hc' hJt ht =>
        without_mask_component_frame m x ah av c' (List.mem_range.mp hc') t t' hJt ht)
      m s1 ⟨same_header_refl m, fun _ _ _ _ => rfl⟩ hs1 c (List.mem_range.mpr hc)
    obtain ⟨hw, hh⟩ := placed_offsets_of_same_header hJ.1 x ah av c
    unfold without_mask_component at hs
    simp only at hs
    rw [hw, hh] at hs
    have hrowpres : ∀ t l' t', l' ∈ List.range (dropon_height x c) →
        unchanged_outside m x ah av t →
        without_mask_row x c (placed_height_offset m x av c) (placed_width_offset m x ah c)
          (dropon_width x c) t l' = some t' → unchanged_outside m x ah av t' := by
      intro t l' t' hl' hJt ht
      unfold without_mask_row at ht
      exact unchanged_outside_row m x ah av c l'
        (fun rm => without_mask_block x c l' rm (placed_width_offset m x ah c))
        (fun rm u j u' hu => without_mask_block_some hu) hc (List.mem_range.mp hl') t t' hJt ht
    obtain ⟨t, t', hJt, ht⟩ := foldlM_step_defined _ (unchanged_outside m x ah av) _
      hrowpres s s' hJ hs l (List.mem_range.mpr hl)
    unfold without_mask_row at ht
    exact row_defined_in_grid m x ah av c l k
      (fun rm => without_mask_block x c l rm (placed_width_offset m x ah c))
      (fun rm u j u' hu => without_mask_block_some hu) hc hl hk t t' hJt ht

theorem mj_compose_with_mask_in_grid {R : Type} [LinearOrderedField R] [FloorRing R]
    (M_SQRT2 : R) (m x : modjpeg_jpegimage_t) (w : modjpeg_jpegmask_t R) (ah av : Int)
    (r : Int × modjpeg_jpegimage_t) (h : mj_compose_with_mask M_SQRT2 m x w ah av = some r)
    (c l k : Nat) (hc : c < x.num_components) (hl : l < dropon_height x c)
    (hk : k < dropon_width x c) :
    c < m.num_components
      ∧ 0 ≤ placed_height_offset m x av c + (l : Int)
      ∧ placed_height_offset m x av c + (l : Int) < ((m.coef c).rows : Int)
      ∧ 0 ≤ placed_width_offset m x ah c + (k : Int)
      ∧ placed_width_offset m x ah c + (k : Int) < ((m.coef c).cols : Int) := by
  unfold mj_compose_with_mask at h
  simp only at h
  split at h
  · simp at h
  · rename_i s1 hs1
    obtain ⟨s, s', hJ, hs⟩ := foldlM_step_defined _ (unchanged_outside m x ah av) _
      (fun t c' t' hc' hJt ht =>
        with_mask_component_frame M_SQRT2 m x w ah av c' (List.mem_range.mp hc') t t' hJt ht)
      m s1 ⟨same_header_refl m, fun _ _ _ _ => rfl⟩ hs1 c (List.mem_range.mpr hc)
    obtain ⟨hw, hh⟩ := placed_offsets_of_same_header hJ.1 x ah av c
    unfold with_mask_component at hs
    simp only at hs
    rw [hw, hh] at hs
    have hrowpres : ∀ t l' t', l' ∈ List.range (dropon_height x c) →
        unchanged_outside m x ah av t →
        with_mask_row M_SQRT2 x (w.components c) c (placed_height_offset m x av c)
          (placed_width_offset m x ah c) (dropon_width x c) t l' = some t' →
        unchanged_outside m x ah av t' := by
      intro t l' t' hl' hJt ht
      unfold with_mask_row at ht
      exact unchanged_outside_row m x ah av c l'
        (fun rm => with_mask_block M_SQRT2 x (w.components c) c l' rm
          (placed_width_offset m x ah c))
        (fun rm u j u' hu => with_mask_block_some hu) hc (List.mem_range.mp hl') t t' hJt ht
    obtain ⟨t, t', hJt, ht⟩ := foldlM_step_defined _ (unchanged_outside m x ah av) _
      hrowpres s s' hJ hs l (List.mem_range.mpr hl)
    unfold with_mask_row at ht
    exact row_defined_in_grid m x ah av c l k
      (fun rm => with_mask_block M_SQRT2 x (w.components c) c l rm
        (placed_width_offset m x ah c))
      (fun rm u j u' hu => with_mask_block_some hu) hc hl hk t t' hJt ht

theorem mj_update_jpegdropon_blend {R : Type} [Field R] (c0 : R) (codec : Codec)
    (d : modjpeg_jpegdropon_t R) (s : Nat → modjpeg_jpegsampling_t) :
    (mj_update_jpegdropon c0 codec d s).blend = d.blend := rfl

theorem dropon_after_reload_blend {R : Type} [Field R] (c0 : R) (codec : Codec)
    (m : modjpeg_jpegimage_t) (d : modjpeg_jpegdropon_t R) :
    (dropon_after_reload c0 codec m d).blend = d.blend := by
  unfold dropon_after_reload
  split
  · rfl
  · rfl

/-- The value that `mj_compose` returns, when it returns, is `0`. -/
theorem mj_compose_status {R : Type} [LinearOrderedField R] [FloorRing R] (M_SQRT2 c0 : R)
    (codec : Codec) (m : modjpeg_jpegimage_t) (d : modjpeg_jpegdropon_t R)
    (ah av ox oy : Int) (r : Int × modjpeg_jpegimage_t × modjpeg_jpegdropon_t R)
    (h : mj_compose M_SQRT2 c0 codec m d ah av ox oy = some r) : r.1 = 0 := by
  unfold mj_compose at h
  simp only at h
  generalize dropon_after_reload c0 codec m d = d' at h
  split at h
  · simp only [Option.some.injEq] at h
    rw [← h]
  · split at h
    · split at h
      · split at h
        · simp at h
        · simp only [Option.some.injEq] at h
          rw [← h]
      · simp at h
    · split at h
      · split at h
        · simp at h
        · simp only [Option.some.injEq] at h
          rw [← h]
      · simp at h

theorem with_mask_row_total {R : Type} [LinearOrderedField R] [FloorRing R] (M_SQRT2 : R)
    (m x : modjpeg_jpegimage_t) (w : modjpeg_jpegmask_t R) (ah av : Int)
    (hin : placement_inside m x ah av) (hw : mask_present w x) (c l : Nat)
    (hc : c < x.num_components) (hl : l < dropon_height x c) (s : modjpeg_jpegimage_t)
    (hs : unchanged_outside m x ah av s) :
    ∃ s', with_mask_row M_SQRT2 x (w.components c) c (placed_height_offset m x av c)
        (placed_width_offset m x ah c) (dropon_width x c) s l = some s'
      ∧ unchanged_outside m x ah av s' := by
  obtain ⟨hcm, hho, hrows, hwo, hcols⟩ := hin c hc
  obtain ⟨hn, hhn⟩ := Int.eq_ofNat_of_zero_le hho
  obtain ⟨wn, hwn⟩ := Int.eq_ofNat_of_zero_le hwo
  have hrows_s : (s.coef c).rows = (m.coef c).rows := (hs.1.2.2.2.2.2.2.2.2 c).1
  have hnc : s.num_components = m.num_components := hs.1.2.2.2.2.2.1
  have hrow : host_row s c (placed_height_offset m x av c + (l : Int)) = some (hn + l) := by
    rw [hhn]
    have := host_row_of_lt s c (hn + l) (by rw [hnc]; exact hcm) (by rw [hrows_s]; omega)
    simpa using this
  obtain ⟨s', hs', hP⟩ := foldlM_range_total
    (with_mask_block M_SQRT2 x (w.components c) c l (hn + l) (placed_width_offset m x ah c))
    (fun _ t => unchanged_outside m x ah av t) (dropon_width x c) s hs
    (fun k t hk ht => by
      have hcols_t : (t.coef c).cols = (m.coef c).cols := (ht.1.2.2.2.2.2.2.2.2 c).2
      have hcol : host_col t c (placed_width_offset m x ah c + (k : Int)) = some (wn + k) := by
        rw [hwn]
        have := host_col_of_lt t c (wn + k) (by rw [hcols_t]; omega)
        simpa using this
      obtain ⟨b, hb⟩ := Option.isSome_iff_exists.mp (hw c hc l hl k hk)
      refine ⟨_, by unfold with_mask_block; rw [hcol]; simp only; rw [hb], ?_⟩
      exact unchanged_outside_write m x ah av c (hn + l) (wn + k) _ t ht
        ⟨hc, by omega, by omega, by push_cast; omega, by push_cast; omega⟩)
  exact ⟨s', by unfold with_mask_row; rw [hrow]; exact hs', hP⟩

/-- A masked composition of a dropon placed inside the host grid, with an operator for each
of its blocks, returns `0`. -/
theorem mj_compose_with_mask_total {R : Type} [LinearOrderedField R] [FloorRing R]
    (M_SQRT2 : R) (m x : modjpeg_jpegimage_t) (w : modjpeg_jpegmask_t R) (ah av : Int)
    (hin : placement_inside m x ah av) (hw : mask_present w x) :
    ∃ m', mj_compose_with_mask M_SQRT2 m x w ah av = some (0, m') := by
  obtain ⟨s', hs', _⟩ := foldlM_range_total
    (with_mask_component M_SQRT2 x w ah av (host_blocks m.image_width m.max_h_samp_factor)
      (host_blocks m.image_height m.max_v_samp_factor))
    (fun _ t => unchanged_outside m x ah av t) x.num_components m
    ⟨same_header_refl m, fun _ _ _ _ => rfl⟩
    (fun c t hc ht => by
      obtain ⟨ew, eh⟩ := placed_offsets_of_same_header ht.1 x ah av c
      obtain ⟨t', ht', hP⟩ := foldlM_range_total
        (with_mask_row M_SQRT2 x (w.components c) c (placed_height_offset m x av c)
          (placed_width_offset m x ah c) (dropon_width x c))
        (fun _ u => unchanged_outside m x ah av u) (dropon_height x c) t ht
        (fun l u hl hu => with_mask_row_total M_SQRT2 m x w ah av hin hw c l hc hl u hu)
      refine ⟨t', ?_, hP⟩
      unfold with_mask_component
      simp only
      rw [ew, eh]
      exact ht')
  exact ⟨s', by unfold mj_compose_with_mask; simp only; rw [hs']⟩

/-! ## The kernel `mj_convolve`: from the unrolled code to stencils -/

theorem convolve_switch_l_eq_rhs {R : Type} [Field R] (s : R) (x : Nat → R) (l : Nat) :
    convolve_switch_l s x l = (rhs_switch_l l).map (Rhs.eval s x) := by
  match l with
  | 0 => rfl
  | 1 => rfl
  | 2 => rfl
  | 3 => rfl
  | 4 => rfl
  | 5 => rfl
  | 6 => rfl
  | 7 => rfl
  | n + 8 => rfl

theorem convolve_switch_k_eq_rhs {R : Type} [Field R] (s : R) (z : Nat → R) (k : Nat) :
    convolve_switch_k s z k = (rhs_switch_k k).map (Rhs.eval s z) := by
  match k with
  | 0 => rfl
  | 1 => rfl
  | 2 => rfl
  | 3 => rfl
  | 4 => rfl
  | 5 => rfl
  | 6 => rfl
  | 7 => rfl
  | n + 8 => rfl

set_option maxRecDepth 100000 in
/-- Every right-hand side of `switch(l)` reads entries of its own row only, with the stencil
coefficients. -/
theorem rhs_switch_l_check :
    ∀ l, l < 8 → ∀ i, i < 64 → ∃ f, (rhs_switch_l l).get? i = some f
      ∧ (∀ j, j ∈ f.indices → j / 8 = i / 8)
      ∧ ∀ u, u < 8 →
        f.rat (8 * (i / 8) + u) = stencil_rat l (i % 8) u
          ∧ f.irr (8 * (i / 8) + u) = stencil_irr l (i % 8) u := by
  decide!

set_option maxRecDepth 100000 in
/-- Every right-hand side of `switch(k)` reads entries of its own column only, with the
stencil coefficients. -/
theorem rhs_switch_k_check :
    ∀ k, k < 8 → ∀ i, i < 64 → ∃ f, (rhs_switch_k k).get? i = some f
      ∧ (∀ j, j ∈ f.indices → j % 8 = i % 8 ∧ j < 64)
      ∧ ∀ a, a < 8 →
        f.rat (8 * a + i % 8) = stencil_rat k (i / 8) a
          ∧ f.irr (8 * a + i % 8) = stencil_irr k (i / 8) a := by
  decide!

theorem unit_at_sum {R : Type} [Field R] (e : Nat → Nat)
    (hinj : ∀ u u', u < 8 → u' < 8 → e u = e u' → u = u') (j : Nat)
    (hj : ∃ u, u < 8 ∧ e u = j) (g : Nat → R) :
    ∑ u in Finset.range 8, ((unit_at j (e u) : Int) : R) * g (e u) = g j := by
  obtain ⟨u0, hu0, rfl⟩ := hj
  rw [Finset.sum_eq_single u0]
  · simp [unit_at]
  · intro u hu hne
    have : e u ≠ e u0 := fun h => hne (hinj u u0 (Finset.mem_range.mp hu) hu0 h)
    simp [unit_at, this]
  · intro h
    exact absurd (Finset.mem_range.mpr hu0) h

/-- A right-hand side is the linear form of its coefficients. -/
theorem Rhs.eval_eq_sum {R : Type} [Field R] (s : R) (x : Nat → R) (f : Rhs) (e : Nat → Nat)
    (hinj : ∀ u u', u < 8 → u' < 8 → e u = e u' → u = u')
    (hidx : ∀ j, j ∈ f.indices → ∃ u, u < 8 ∧ e u = j) :
    f.eval s x
      = ∑ u in Finset.range 8, ((f.rat (e u) : R) + (f.irr (e u) : R) * s) * x (e u) := by
  have key : ∀ j, j ∈ f.indices →
      ∑ u in Finset.range 8, ((unit_at j (e u) : Int) : R) * x (e u) = x j :=
    fun j hj => unit_at_sum e hinj j (hidx j hj) x
  cases f with
  | two i =>
    have h := key i (by simp [Rhs.indices])
    simp only [Rhs.eval, Rhs.rat, Rhs.irr]
    rw [← h, Finset.mul_sum]
    refine Finset.sum_congr rfl (fun u _ => ?_)
    push_cast
    ring
  | sqrt i =>
    have h := key i (by simp [Rhs.indices])
    simp only [Rhs.eval, Rhs.rat, Rhs.irr]
    rw [← h, Finset.mul_sum]
    refine Finset.sum_congr rfl (fun u _ => ?_)
    push_cast
    ring
  | var i =>
    have h := key i (by simp [Rhs.indices])
    simp only [Rhs.eval, Rhs.rat, Rhs.irr]
    rw [← h]
    refine Finset.sum_congr rfl (fun u _ => ?_)
    ring
  | add i j =>
    have h := key i (by simp [Rhs.indices])
    have h' := key j (by simp [Rhs.indices])
    simp only [Rhs.eval, Rhs.rat, Rhs.irr]
    rw [← h, ← h', ← Finset.sum_add_distrib]
    refine Finset.sum_congr rfl (fun u _ => ?_)
    push_cast
    ring
  | sub i j =>
    have h := key i (by simp [Rhs.indices])
    have h' := key j (by simp [Rhs.indices])
    simp only [Rhs.eval, Rhs.rat, Rhs.irr]
    rw [← h, ← h', ← Finset.sum_sub_distrib]
    refine Finset.sum_congr rfl (fun u _ => ?_)
    push_cast
    ring
  | sqrt_add i j =>
    have h := key i (by simp [Rhs.indices])
    have h' := key j (by simp [Rhs.indices])
    simp only [Rhs.eval, Rhs.rat, Rhs.irr]
    rw [← h, ← h', Finset.mul_sum, ← Finset.sum_add_distrib]
    refine Finset.sum_congr rfl (fun u _ => ?_)
    ring
  | sqrt_sub i j =>
    have h := key i (by simp [Rhs.indices])
    have h' := key j (by simp [Rhs.indices])
    simp only [Rhs.eval, Rhs.rat, Rhs.irr]
    rw [← h, ← h', Finset.mul_sum, ← Finset.sum_sub_distrib]
    refine Finset.sum_congr rfl (fun u _ => ?_)
    push_cast
    ring

/-- The array `z` of `mj_convolve` after `switch(l)`: each row of `x` goes through the stencil
of index `l`. -/
theorem convolve_switch_l_stencil {R : Type} [Field R] (s : R) (x : Nat → R) (l i : Nat)
    (hl : l < 8) (hi : i < 64) :
    (convolve_switch_l s x l).get? i
      = some (∑ u in Finset.range 8, stencil_coef s l (i % 8) u * x (8 * (i / 8) + u)) := by
  obtain ⟨f, hf, hidx, hco⟩ := rhs_switch_l_check l hl i hi
  rw [convolve_switch_l_eq_rhs, List.get?_eq_getElem?, List.getElem?_map, ← List.get?_eq_getElem?, hf,
    Option.map_some']
  congr 1
  rw [Rhs.eval_eq_sum s x f (fun u => 8 * (i / 8) + u) (fun u u' _ _ h => by simp only at h; omega)
    (fun j hj => ⟨j % 8, Nat.mod_lt j (by decide), by have := hidx j hj; simp only; omega⟩)]
  refine Finset.sum_congr rfl (fun u hu => ?_)
  obtain ⟨h1, h2⟩ := hco u (Finset.mem_range.mp hu)
  rw [h1, h2]
  rfl

/-- The increments of `switch(k)` of `mj_convolve`, before the factor `w`: each column of `z`
goes through the stencil of index `k`. -/
theorem convolve_switch_k_stencil {R : Type} [Field R] (s : R) (z : Nat → R) (k i : Nat)
    (hk : k < 8) (hi : i < 64) :
    (convolve_switch_k s z k).get? i
      = some (∑ a in Finset.range 8, stencil_coef s k (i / 8) a * z (8 * a + i % 8)) := by
  obtain ⟨f, hf, hidx, hco⟩ := rhs_switch_k_check k hk i hi
  rw [convolve_switch_k_eq_rhs, List.get?_eq_getElem?, List.getElem?_map, ← List.get?_eq_getElem?, hf,
    Option.map_some']
  congr 1
  rw [Rhs.eval_eq_sum s z f (fun a => 8 * a + i % 8) (fun u u' _ _ h => by simp only at h; omega)
    (fun j hj => ⟨j / 8, by have := hidx j hj; omega, by have := hidx j hj; simp only; omega⟩)]
  refine Finset.sum_congr rfl (fun a ha => ?_)
  obtain ⟨h1, h2⟩ := hco a (Finset.mem_range.mp ha)
  rw [h1, h2]
  rfl

/-- The kernel in closed form: for `k, l` in `0..7` and a weight `w`, `mj_convolve` adds to
entry `8 * v1 + v2` of `y` the weight times the two stencils applied to `x`. -/
theorem mj_convolve_stencil {R : Type} [Field R] [DecidableEq R] (s : R) (x y : Nat → R)
    (w : R) (k l : Nat) (hk : k < 8) (hl : l < 8) (i : Nat) (hi : i < 64) :
    mj_convolve s x y w (k : Int) (l : Int) i
      = y i + w * ∑ a in Finset.range 8, stencil_coef s k (i / 8) a
          * ∑ u in Finset.range 8, stencil_coef s l (i % 8) u * x (8 * a + u) := by
  unfold mj_convolve
  by_cases hw : w = 0
  · rw [if_pos hw, hw]
    simp
  · rw [if_neg hw]
    show (if (k : Int) < 0 then y i else _) = _
    rw [if_neg (by omega)]
    simp only [Int.toNat_ofNat]
    rw [convolve_switch_k_stencil s _ k i hk hi]
    show y i + _ * w = _
    rw [mul_comm w]
    congr 2
    refine Finset.sum_congr rfl (fun a ha => ?_)
    have ha' : a < 8 := Finset.mem_range.mp ha
    rw [if_neg (by omega), convolve_switch_l_stencil s x l (8 * a + i % 8) hl (by omega)]
    have e1 : (8 * a + i % 8) % 8 = i % 8 := by omega
    have e2 : (8 * a + i % 8) / 8 = a := by omega
    rw [e1, e2]
    rfl

/-! ## Cosine sums -/

theorem two_sin_mul_cos (a : ℝ) (q : ℕ) :
    2 * Real.sin a * Real.cos ((2 * (q : ℝ) + 1) * a)
      = Real.sin (2 * ((q + 1 : ℕ) : ℝ) * a) - Real.sin (2 * (q : ℝ) * a) := by
  have e1 : 2 * ((q + 1 : ℕ) : ℝ) * a = (2 * (q : ℝ) + 1) * a + a := by push_cast; ring
  have e2 : 2 * (q : ℝ) * a = (2 * (q : ℝ) + 1) * a - a := by ring
  rw [e1, e2, Real.sin_add, Real.sin_sub]
  ring

theorem sin_mul_sum_cos (a : ℝ) (n : ℕ) :
    2 * Real.sin a * ∑ q in Finset.range n, Real.cos ((2 * (q : ℝ) + 1) * a)
      = Real.sin (2 * (n : ℝ) * a) := by
  rw [Finset.mul_sum]
  have h : ∀ q ∈ Finset.range n, 2 * Real.sin a * Real.cos ((2 * (q : ℝ) + 1) * a)
      = Real.sin (2 * ((q + 1 : ℕ) : ℝ) * a) - Real.sin (2 * (q : ℝ) * a) :=
    fun q _ => two_sin_mul_cos a q
  rw [Finset.sum_congr rfl h, Finset.sum_range_sub (fun q => Real.sin (2 * (q : ℝ) * a))]
  simp

/-- The samples of a cosine of frequency `m` that is no multiple of `16` sum to `0`. -/
theorem sum_cos_eq_zero (m : ℤ) (hm : ¬ (16 : ℤ) ∣ m) :
    ∑ q in Finset.range 8, Real.cos ((2 * (q : ℝ) + 1) * ((m : ℝ) * Real.pi / 16)) = 0 := by
  have h := sin_mul_sum_cos ((m : ℝ) * Real.pi / 16) 8
  have e : 2 * ((8 : ℕ) : ℝ) * ((m : ℝ) * Real.pi / 16) = (m : ℝ) * Real.pi := by
    push_cast; ring
  rw [e, Real.sin_int_mul_pi] at h
  have hsin : Real.sin ((m : ℝ) * Real.pi / 16) ≠ 0 := by
    intro h0
    obtain ⟨n, hn⟩ := Real.sin_eq_zero_iff.mp h0
    apply hm
    have hpi : Real.pi ≠ 0 := Real.pi_ne_zero
    have h16 : (16 : ℝ) * (n : ℝ) = (m : ℝ) := by
      field_simp at hn
      have := mul_right_cancel₀ hpi (by linarith : (n : ℝ) * 16 * Real.pi = (m : ℝ) * Real.pi)
      linarith
    have h16' : (16 : ℤ) * n = m := by exact_mod_cast h16
    exact ⟨n, h16'.symm⟩
  rcases mul_eq_zero.mp h with h1 | h1
  · rcases mul_eq_zero.mp h1 with h2 | h2
    · norm_num at h2
    · exact absurd h2 hsin
  · exact h1

/-- The samples of a cosine of frequency `m`, `|m| < 32`, sum to `8 * fold_sign m`. -/
theorem sum_cos_eq_fold_sign (m : ℤ) (h1 : -32 < m) (h2 : m < 32) :
    ∑ q in Finset.range 8, Real.cos ((2 * (q : ℝ) + 1) * ((m : ℝ) * Real.pi / 16))
      = 8 * (fold_sign m : ℝ) := by
  unfold fold_sign
  by_cases h0 : m = 0
  · subst h0
    simp
  · rw [if_neg h0]
    by_cases h16 : m = 16 ∨ m = -16
    · rw [if_pos h16]
      have hc : ∀ q : ℕ, Real.cos ((2 * (q : ℝ) + 1) * ((m : ℝ) * Real.pi / 16)) = -1 := by
        intro q
        rcases h16 with rfl | rfl
        · have e : (2 * (q : ℝ) + 1) * (((16 : ℤ) : ℝ) * Real.pi / 16)
              = Real.pi + (q : ℝ) * (2 * Real.pi) := by push_cast; ring
          rw [e, Real.cos_add_nat_mul_two_pi, Real.cos_pi]
        · have e : (2 * (q : ℝ) + 1) * (((-16 : ℤ) : ℝ) * Real.pi / 16)
              = -(Real.pi + (q : ℝ) * (2 * Real.pi)) := by push_cast; ring
          rw [e, Real.cos_neg, Real.cos_add_nat_mul_two_pi, Real.cos_pi]
      rw [Finset.sum_congr rfl (fun q _ => hc q)]
      simp
    · rw [if_neg h16, sum_cos_eq_zero m (by omega)]
      simp

theorem cos_mul_cos (a b : ℝ) :
    Real.cos a * Real.cos b = (Real.cos (a + b) + Real.cos (a - b)) / 2 := by
  rw [Real.cos_add, Real.cos_sub]
  ring

theorem cos_mul_cos_mul_cos (a b c : ℝ) :
    Real.cos a * Real.cos b * Real.cos c
      = (Real.cos (a + b + c) + Real.cos (a + b - c) + Real.cos (a - b + c)
          + Real.cos (-a + b + c)) / 4 := by
  have e : Real.cos (-a + b + c) = Real.cos (a - b - c) := by
    rw [← Real.cos_neg]
    congr 1
    ring
  rw [cos_mul_cos a b, add_div, add_mul, div_mul_eq_mul_div, div_mul_eq_mul_div,
    cos_mul_cos (a + b) c, cos_mul_cos (a - b) c, e]
  ring

/-- The sum over the eight samples of the product of three cosines of the table. -/
theorem sum_cos_triple (cs : ℕ → ℕ → ℝ)
    (hcs : ∀ p u, cs p u = Real.cos ((2 * (p : ℝ) + 1) * (u : ℝ) * Real.pi / 16))
    (l v u : ℕ) (hl : l < 8) (hv : v < 8) (hu : u < 8) :
    ∑ q in Finset.range 8, cs q u * cs q l * cs q v = 2 * (stencil_count l v u : ℝ) := by
  have h : ∀ q ∈ Finset.range 8, cs q u * cs q l * cs q v
      = (Real.cos ((2 * (q : ℝ) + 1) * ((((u : ℤ) + l + v : ℤ) : ℝ) * Real.pi / 16))
        + Real.cos ((2 * (q : ℝ) + 1) * ((((u : ℤ) + l - v : ℤ) : ℝ) * Real.pi / 16))
        + Real.cos ((2 * (q : ℝ) + 1) * ((((u : ℤ) - l + v : ℤ) : ℝ) * Real.pi / 16))
        + Real.cos ((2 * (q : ℝ) + 1) * (((-(u : ℤ) + l + v : ℤ) : ℝ) * Real.pi / 16))) / 4 := by
    intro q _
    rw [hcs, hcs, hcs, cos_mul_cos_mul_cos]
    push_cast
    congr 2
    · congr 1
      · congr 1
        · congr 1; ring
        · congr 1; ring
      · congr 1; ring
    · congr 1; ring
  rw [Finset.sum_congr rfl h, ← Finset.sum_div, Finset.sum_add_distrib, Finset.sum_add_distrib,
    Finset.sum_add_distrib, sum_cos_eq_fold_sign _ (by omega) (by omega),
    sum_cos_eq_fold_sign _ (by omega) (by omega), sum_cos_eq_fold_sign _ (by omega) (by omega),
    sum_cos_eq_fold_sign _ (by omega) (by omega)]
  unfold stencil_count
  push_cast
  ring

set_option maxRecDepth 100000 in
theorem stencil_count_even :
    ∀ l, l < 8 → ∀ v, v < 8 → ∀ u, u < 8 → (v = 0 ∨ u = 0) →
      2 * (stencil_count l v u / 2) = stencil_count l v u := by
  decide!

/-- The stencil coefficient in terms of the scale factors of the DCT. -/
theorem stencil_coef_eq_scale (l v u : ℕ) (hl : l < 8) (hv : v < 8) (hu : u < 8) :
    stencil_coef (Real.sqrt 2) l v u
      = 4 * dct_scale (Real.sqrt 2) v * dct_scale (Real.sqrt 2) u * (stencil_count l v u : ℝ) := by
  have hs : Real.sqrt 2 * Real.sqrt 2 = 2 := Real.mul_self_sqrt (by norm_num)
  unfold stencil_coef stencil_rat stencil_irr dct_scale
  by_cases h0 : v = 0 ∧ u = 0
  · have he := stencil_count_even l hl v hv u hu (Or.inl h0.1)
    have he' : (2 : ℝ) * ((stencil_count l v u / 2 : ℤ) : ℝ) = (stencil_count l v u : ℝ) := by
      exact_mod_cast he
    rw [if_pos h0, if_pos h0, if_pos h0.1, if_pos h0.2, ← he']
    push_cast
    linear_combination (-(1 / 2 : ℝ) * ((stencil_count l v u / 2 : ℤ) : ℝ)) * hs
  · rw [if_neg h0, if_neg h0]
    by_cases h1 : v = 0 ∨ u = 0
    · have he := stencil_count_even l hl v hv u hu h1
      have he' : (2 : ℝ) * ((stencil_count l v u / 2 : ℤ) : ℝ) = (stencil_count l v u : ℝ) := by
        exact_mod_cast he
      rw [if_pos h1, if_pos h1, ← he']
      rcases h1 with h1 | h1
      · have hu0 : ¬ u = 0 := fun h => h0 ⟨h1, h⟩
        rw [if_pos h1, if_neg hu0]
        push_cast
        ring
      · have hv0 : ¬ v = 0 := fun h => h0 ⟨h, h1⟩
        rw [if_neg hv0, if_pos h1]
        push_cast
        ring
    · have hv0 : ¬ v = 0 := fun h => h1 (Or.inl h)
      have hu0 : ¬ u = 0 := fun h => h1 (Or.inr h)
      rw [if_neg h1, if_neg h1, if_neg hv0, if_neg hu0]
      push_cast
      ring

/-- The stencil of index `l` is twice the matrix of "transform back, multiply by the cosine of
frequency `l`, transform forth" in one dimension. -/
theorem stencil_coef_eq_dct (cs : ℕ → ℕ → ℝ)
    (hcs : ∀ p u, cs p u = Real.cos ((2 * (p : ℝ) + 1) * (u : ℝ) * Real.pi / 16))
    (l v u : ℕ) (hl : l < 8) (hv : v < 8) (hu : u < 8) :
    stencil_coef (Real.sqrt 2) l v u
      = 2 * (dct_scale (Real.sqrt 2) v * dct_scale (Real.sqrt 2) u
          * ∑ q in Finset.range 8, cs q u * cs q l * cs q v) := by
  rw [stencil_coef_eq_scale l v u hl hv hu, sum_cos_triple cs hcs l v u hl hv hu]
  ring

theorem sum_comm4 (F : ℕ → ℕ → ℕ → ℕ → ℝ) (s : Finset ℕ) :
    ∑ p in s, ∑ q in s, ∑ a in s, ∑ b in s, F p q a b
      = ∑ a in s, ∑ b in s, ∑ p in s, ∑ q in s, F p q a b := by
  calc ∑ p in s, ∑ q in s, ∑ a in s, ∑ b in s, F p q a b
      = ∑ p in s, ∑ a in s, ∑ q in s, ∑ b in s, F p q a b :=
        Finset.sum_congr rfl (fun p _ => Finset.sum_comm)
    _ = ∑ a in s, ∑ p in s, ∑ q in s, ∑ b in s, F p q a b := Finset.sum_comm
    _ = ∑ a in s, ∑ p in s, ∑ b in s, ∑ q in s, F p q a b :=
        Finset.sum_congr rfl (fun a _ => Finset.sum_congr rfl (fun p _ => Finset.sum_comm))
    _ = ∑ a in s, ∑ b in s, ∑ p in s, ∑ q in s, F p q a b :=
        Finset.sum_congr rfl (fun a _ => Finset.sum_comm)

/-- The two stencils applied to a block give four times the transform of the block's samples
multiplied by the basis function. -/
theorem stencils_eq_dct_of_product (cs : ℕ → ℕ → ℝ)
    (hcs : ∀ p u, cs p u = Real.cos ((2 * (p : ℝ) + 1) * (u : ℝ) * Real.pi / 16))
    (x : ℕ → ℝ) (k l n : ℕ) (hk : k < 8) (hl : l < 8) (hn : n < 64) :
    ∑ a in Finset.range 8, stencil_coef (Real.sqrt 2) k (n / 8) a
        * ∑ u in Finset.range 8, stencil_coef (Real.sqrt 2) l (n % 8) u * x (8 * a + u)
      = 4 * dct_of_product cs (Real.sqrt 2) x k l n := by
  have hv1 : n / 8 < 8 := by omega
  have hv2 : n % 8 < 8 := by omega
  unfold dct_of_product dct2d idct2d
  have hL : ∀ a ∈ Finset.range 8, stencil_coef (Real.sqrt 2) k (n / 8) a
        * ∑ u in Finset.range 8, stencil_coef (Real.sqrt 2) l (n % 8) u * x (8 * a + u)
      = ∑ b in Finset.range 8, ∑ p in Finset.range 8, ∑ q in Finset.range 8,
          4 * (dct_scale (Real.sqrt 2) (n / 8) * dct_scale (Real.sqrt 2) (n % 8))
            * (dct_scale (Real.sqrt 2) a * dct_scale (Real.sqrt 2) b * x (8 * a + b)
              * cs p a * cs q b * (cs p k * cs q l) * cs p (n / 8) * cs q (n % 8)) := by
    intro a ha
    rw [Finset.mul_sum]
    refine Finset.sum_congr rfl (fun b hb => ?_)
    rw [stencil_coef_eq_dct cs hcs k (n / 8) a hk hv1 (Finset.mem_range.mp ha),
      stencil_coef_eq_dct cs hcs l (n % 8) b hl hv2 (Finset.mem_range.mp hb)]
    have e : 2 * (dct_scale (Real.sqrt 2) (n / 8) * dct_scale (Real.sqrt 2) a
          * ∑ q in Finset.range 8, cs q a * cs q k * cs q (n / 8))
        * (2 * (dct_scale (Real.sqrt 2) (n % 8) * dct_scale (Real.sqrt 2) b
          * ∑ q in Finset.range 8, cs q b * cs q l * cs q (n % 8)) * x (8 * a + b))
        = (∑ p in Finset.range 8, cs p a * cs p k * cs p (n / 8))
          * (∑ q in Finset.range 8, cs q b * cs q l * cs q (n % 8))
          * (4 * dct_scale (Real.sqrt 2) (n / 8) * dct_scale (Real.sqrt 2) a
            * dct_scale (Real.sqrt 2) (n % 8) * dct_scale (Real.sqrt 2) b * x (8 * a + b)) := by
      ring
    rw [e, Finset.sum_mul_sum, Finset.sum_mul]
    refine Finset.sum_congr rfl (fun p _ => ?_)
    rw [Finset.sum_mul]
    refine Finset.sum_congr rfl (fun q _ => ?_)
    ring
  rw [Finset.sum_congr rfl hL]
  rw [← sum_comm4 (fun p q a b =>
      4 * (dct_scale (Real.sqrt 2) (n / 8) * dct_scale (Real.sqrt 2) (n % 8))
            * (dct_scale (Real.sqrt 2) a * dct_scale (Real.sqrt 2) b * x (8 * a + b)
              * cs p a * cs q b * (cs p k * cs q l) * cs p (n / 8) * cs q (n % 8)))
    (Finset.range 8)]
  simp only [Finset.mul_sum, Finset.sum_mul]
  refine Finset.sum_congr rfl (fun p _ => ?_)
  refine Finset.sum_congr rfl (fun q _ => ?_)
  refine Finset.sum_congr rfl (fun a _ => ?_)
  refine Finset.sum_congr rfl (fun b _ => ?_)
  ring

/-- The kernel over the reals: for `k, l` in `0..7`, `mj_convolve` adds to `y` four times the
weight times `DCT2D(iDCT2D(x) ⊙ φ_{k,l})`. -/
theorem mj_convolve_eq_dct (cs : ℕ → ℕ → ℝ)
    (hcs : ∀ p u, cs p u = Real.cos ((2 * (p : ℝ) + 1) * (u : ℝ) * Real.pi / 16))
    (x y : ℕ → ℝ) (w : ℝ) (k l n : ℕ) (hk : k < 8) (hl : l < 8) (hn : n < 64) :
    mj_convolve (Real.sqrt 2) x y w (k : ℤ) (l : ℤ) n
      = y n + 4 * w * dct_of_product cs (Real.sqrt 2) x k l n := by
  rw [mj_convolve_stencil (Real.sqrt 2) x y w k l hk hl n hn,
    stencils_eq_dct_of_product cs hcs x k l n hk hl hn]
  ring

/-! ## The kernel and the blend: special cases -/

theorem mj_convolve_weight_zero {R : Type} [Field R] [DecidableEq R] (s : R) (x y : Nat → R)
    (k l : Int) : mj_convolve s x y 0 k l = y := by
  unfold mj_convolve
  rw [if_pos rfl]

set_option maxRecDepth 100000 in
theorem stencil_zero_check :
    ∀ v, v < 8 → ∀ u, u < 8 →
      stencil_rat 0 v u = (if v = u then 2 else 0) ∧ stencil_irr 0 v u = 0 := by
  decide!

/-- The call with `k = l = 0` adds `4 * w * x`. -/
theorem mj_convolve_dc {R : Type} [Field R] [DecidableEq R] (s : R) (x y : Nat → R) (w : R)
    (n : Nat) (hn : n < 64) : mj_convolve s x y w 0 0 n = y n + 4 * w * x n := by
  have h := mj_convolve_stencil s x y w 0 0 (by decide) (by decide) n hn
  rw [Nat.cast_zero] at h
  rw [h]
  have hc : ∀ v u, v < 8 → u < 8 → stencil_coef s 0 v u = if v = u then 2 else 0 := by
    intro v u hv hu
    obtain ⟨h1, h2⟩ := stencil_zero_check v hv u hu
    unfold stencil_coef
    rw [h1, h2]
    split <;> simp
  have hv1 : n / 8 < 8 := by omega
  have hv2 : n % 8 < 8 := by omega
  have hin : ∀ a ∈ Finset.range 8,
      ∑ u in Finset.range 8, stencil_coef s 0 (n % 8) u * x (8 * a + u)
        = 2 * x (8 * a + n % 8) := by
    intro a _
    rw [Finset.sum_eq_single (n % 8)]
    · rw [hc _ _ hv2 hv2, if_pos rfl]
    · intro u hu hne
      rw [hc _ _ hv2 (Finset.mem_range.mp hu), if_neg (fun h => hne h.symm), zero_mul]
    · intro h
      exact absurd (Finset.mem_range.mpr hv2) h
  have hout : ∑ a in Finset.range 8, stencil_coef s 0 (n / 8) a
        * ∑ u in Finset.range 8, stencil_coef s 0 (n % 8) u * x (8 * a + u)
      = 4 * x n := by
    rw [Finset.sum_eq_single (n / 8)]
    · rw [hc _ _ hv1 hv1, if_pos rfl, hin _ (Finset.mem_range.mpr hv1)]
      have e : 8 * (n / 8) + n % 8 = n := by omega
      rw [e]
      ring
    · intro a ha hne
      rw [hc _ _ hv1 (Finset.mem_range.mp ha), if_neg (fun h => hne h.symm), zero_mul]
    · intro h
      exact absurd (Finset.mem_range.mpr hv1) h
  rw [hout]
  ring

/-- The operator of a mask block whose coefficients other than the first are `0`: a single
weight, at index `0`. -/
theorem mask_operator_constant {R : Type} [Field R] (c0 : R) (A : Nat → Int)
    (hA : ∀ i, 1 ≤ i → i < 64 → A i = 0) (n : Nat) :
    mask_operator c0 A n
      = if n = 0 then ((A 0 + 1024 : Int) : R) * (c0 * c0 / 1020) else 0 := by
  have hr : List.range' 1 7 = [1, 2, 3, 4, 5, 6, 7] := rfl
  unfold mask_operator
  simp only [hr, List.foldl, mask_row_step, store, mask_shift_dc]
  by_cases h0 : n = 0
  · subst h0
    simp
  · rw [if_neg h0]
    simp only [Nat.shiftLeft_eq]
    norm_num [h0, hA]

/-- The array `Y` of the blend for an operator with a single weight, at index `0`. -/
theorem blend_Y_single_weight {R : Type} [Field R] [DecidableEq R] (s : R) (b : Nat → R)
    (hb : ∀ n, 1 ≤ n → b n = 0) (cx cm : Nat → Int) (n : Nat) (hn : n < 64) :
    blend_Y s b cx cm n = 4 * b 0 * ((cx n - cm n : Int) : R) := by
  have hr : List.range DCTSIZE = [0, 1, 2, 3, 4, 5, 6, 7] := rfl
  unfold blend_Y
  simp only [hr, List.foldl, convolve_row, Nat.shiftLeft_eq]
  norm_num [hb, mj_convolve_weight_zero]
  rw [mj_convolve_dc s _ _ _ n hn]
  simp

theorem trunc_intCast (k : ℤ) : trunc ((k : ℝ)) = k := by
  unfold trunc
  split <;> simp

/-- The operator that `mj_read_jpegmask_from_mem` computes, entry by entry: row `0` holds the
eight scaled coefficients of row `0`; of each further row only the first entry is written,
last with the scaled coefficient of column `7`. -/
theorem mask_operator_entries {R : Type} [Field R] (c0 : R) (A : Nat → Int) (n : Nat) :
    mask_operator c0 A n
      = if n = 0 then ((A 0 + 1024 : Int) : R) * (c0 * c0 / 1020)
        else if n < 8 then (A n : R) * (c0 * 0.5 / 1020)
        else if n < 64 ∧ n % 8 = 0 then (A (n + 7) : R) * (0.5 * 0.5 / 1020)
        else 0 := by
  have hr : List.range' 1 7 = [1, 2, 3, 4, 5, 6, 7] := rfl
  unfold mask_operator
  simp only [hr, List.foldl, mask_row_step, store, mask_shift_dc, Nat.shiftLeft_eq]
  rcases Nat.lt_or_ge n 64 with h | h
  · interval_cases n <;> simp
  · have h1 : ¬ n < 8 := by omega
    have h2 : ¬ (n < 64 ∧ n % 8 = 0) := by omega
    have h3 : n ≠ 0 := by omega
    have hne : ∀ m, m < 64 → (n = m ↔ False) := fun m hm => ⟨fun e => by omega, False.elim⟩
    rw [if_neg h3, if_neg h1, if_neg h2]
    norm_num [hne]

theorem idct2d_single (cs : ℕ → ℕ → ℝ) (s : ℝ) (a0 b0 : ℕ) (ha : a0 < 8) (hb : b0 < 8)
    (X : ℕ → ℝ) (hX : ∀ i, i ≠ 8 * a0 + b0 → X i = 0) (p q : ℕ) :
    idct2d cs s X p q
      = dct_scale s a0 * dct_scale s b0 * X (8 * a0 + b0) * cs p a0 * cs q b0 := by
  unfold idct2d
  rw [Finset.sum_eq_single a0]
  · rw [Finset.sum_eq_single b0]
    · intro b hb' hne
      rw [hX (8 * a0 + b) (by omega)]
      ring
    · intro h
      exact absurd (Finset.mem_range.mpr hb) h
  · intro a ha' hne
    refine Finset.sum_eq_zero (fun b hb' => ?_)
    have := Finset.mem_range.mp hb'
    rw [hX (8 * a + b) (by omega)]
    ring
  · intro h
    exact absurd (Finset.mem_range.mpr ha) h

theorem cos_table_zero (cs : ℕ → ℕ → ℝ)
    (hcs : ∀ p u, cs p u = Real.cos ((2 * (p : ℝ) + 1) * (u : ℝ) * Real.pi / 16)) (p : ℕ) :
    cs p 0 = 1 := by
  rw [hcs]
  simp

/-- The array `Y` of the specification for the mask with a ripple, at index `9`. -/
theorem spec_blend_ripple (cs : ℕ → ℕ → ℝ)
    (hcs : ∀ p u, cs p u = Real.cos ((2 * (p : ℝ) + 1) * (u : ℝ) * Real.pi / 16)) :
    spec_blend_Y cs (Real.sqrt 2) ripple_mask flat_dropon_block zero_block 9 = 8 := by
  have hs : Real.sqrt 2 * Real.sqrt 2 = 2 := Real.mul_self_sqrt (by norm_num)
  have hsc0 : dct_scale (Real.sqrt 2) 0 = Real.sqrt 2 / 4 := by simp [dct_scale]
  have hsc1 : dct_scale (Real.sqrt 2) 1 = 1 / 2 := by simp [dct_scale]
  have h1 : ∀ p q, idct2d cs (Real.sqrt 2) (fun i => ((ripple_mask i : ℤ) : ℝ)) p q
      = 2 * cs p 1 * cs q 1 := by
    intro p q
    rw [idct2d_single cs (Real.sqrt 2) 1 1 (by decide) (by decide) _
      (fun i hi => by simp [ripple_mask]; omega)]
    have hv : ((ripple_mask (8 * 1 + 1) : ℤ) : ℝ) = 8 := by simp [ripple_mask]
    rw [hv, hsc1]
    ring
  have h2 : ∀ p q, idct2d cs (Real.sqrt 2)
      (fun i => ((flat_dropon_block i - zero_block i : ℤ) : ℝ)) p q = 255 := by
    intro p q
    rw [idct2d_single cs (Real.sqrt 2) 0 0 (by decide) (by decide) _
      (fun i hi => by simp [flat_dropon_block, zero_block]; omega)]
    have hv : ((flat_dropon_block (8 * 0 + 0) - zero_block (8 * 0 + 0) : ℤ) : ℝ) = 2040 := by
      simp [flat_dropon_block, zero_block]
    rw [hv, hsc0, cos_table_zero cs hcs, cos_table_zero cs hcs]
    linear_combination (2040 / 16 : ℝ) * hs
  have hsq : ∑ q in Finset.range 8, cs q 1 * cs q 1 = 4 := by
    have := sum_cos_triple cs hcs 1 0 1 (by decide) (by decide) (by decide)
    simp only [cos_table_zero cs hcs, mul_one] at this
    rw [this]
    have : stencil_count 1 0 1 = 2 := by decide
    rw [this]
    norm_num
  have hlin : ∑ q in Finset.range 8, cs q 1 = 0 := by
    have := sum_cos_triple cs hcs 0 0 1 (by decide) (by decide) (by decide)
    simp only [cos_table_zero cs hcs, mul_one] at this
    rw [this]
    have : stencil_count 0 0 1 = 0 := by decide
    rw [this]
    norm_num
  unfold spec_blend_Y dct2d spec_alpha
  simp only [h1, h2]
  have hsum : ∑ p in Finset.range 8, ∑ q in Finset.range 8,
      (2 * cs p 1 * cs q 1 + 128) / 255 * 255 * cs p (9 / 8) * cs q (9 % 8) = 32 := by
    have e : ∀ p ∈ Finset.range 8, ∑ q in Finset.range 8,
        (2 * cs p 1 * cs q 1 + 128) / 255 * 255 * cs p (9 / 8) * cs q (9 % 8)
        = 8 * (cs p 1 * cs p 1) := by
      intro p _
      have e2 : ∀ q ∈ Finset.range 8,
          (2 * cs p 1 * cs q 1 + 128) / 255 * 255 * cs p (9 / 8) * cs q (9 % 8)
          = 2 * (cs p 1 * cs p 1) * (cs q 1 * cs q 1) + 128 * cs p 1 * cs q 1 := by
        intro q _
        norm_num
        ring
      rw [Finset.sum_congr rfl e2, Finset.sum_add_distrib, ← Finset.mul_sum, ← Finset.mul_sum,
        hsq, hlin]
      ring
    rw [Finset.sum_congr rfl e, ← Finset.mul_sum, hsq]
    norm_num
  rw [hsum, show 9 / 8 = 1 from rfl, show 9 % 8 = 1 from rfl, hsc1]
  norm_num

/-- The array `Y` that the code computes for the mask with a ripple, at index `9`. -/
theorem blend_Y_ripple :
    blend_Y (Real.sqrt 2) (mask_operator (Real.sqrt 2 / 4) ripple_mask) flat_dropon_block
      zero_block 9 = 0 := by
  rw [blend_Y_single_weight (Real.sqrt 2) _ _ flat_dropon_block zero_block 9 (by decide)]
  · simp [flat_dropon_block, zero_block]
  · intro n hn
    rw [mask_operator_entries]
    have h0 : n ≠ 0 := by omega
    rw [if_neg h0]
    split
    · rename_i h8
      have : ripple_mask n = 0 := by
        unfold ripple_mask
        rw [if_neg (by omega)]
      rw [this]
      simp
    · split
      · rename_i h64
        have : ripple_mask (n + 7) = 0 := by
          unfold ripple_mask
          rw [if_neg (by omega)]
        rw [this]
        simp
      · rfl

/-! ## The blend as a sum over the 64 basis pairs -/

/-- One row of eight calls of `mj_convolve` adds the eight weighted products. -/
theorem convolve_row_eq_sum (cs : ℕ → ℕ → ℝ)
    (hcs : ∀ p u, cs p u = Real.cos ((2 * (p : ℝ) + 1) * (u : ℝ) * Real.pi / 16))
    (X b Y : ℕ → ℝ) (i n : ℕ) (hi : i < 8) (hn : n < 64) :
    convolve_row (Real.sqrt 2) X b Y i n
      = Y n + ∑ j in Finset.range 8,
          4 * b (8 * i + j) * dct_of_product cs (Real.sqrt 2) X i j n := by
  have h : ∀ (Y' : ℕ → ℝ) (w : ℝ) (j : ℕ), j < 8 →
      mj_convolve (Real.sqrt 2) X Y' w (i : ℤ) (j : ℤ) n
        = Y' n + 4 * w * dct_of_product cs (Real.sqrt 2) X i j n :=
    fun Y' w j hj => mj_convolve_eq_dct cs hcs X Y' w i j n hi hj hn
  have h0 := fun Y' w => h Y' w 0 (by decide)
  have h1 := fun Y' w => h Y' w 1 (by decide)
  have h2 := fun Y' w => h Y' w 2 (by decide)
  have h3 := fun Y' w => h Y' w 3 (by decide)
  have h4 := fun Y' w => h Y' w 4 (by decide)
  have h5 := fun Y' w => h Y' w 5 (by decide)
  have h6 := fun Y' w => h Y' w 6 (by decide)
  have h7 := fun Y' w => h Y' w 7 (by decide)
  simp only [Nat.cast_zero, Nat.cast_one, Nat.cast_ofNat] at h0 h1 h2 h3 h4 h5 h6 h7
  unfold convolve_row
  simp only [Nat.shiftLeft_eq]
  rw [h7, h6, h5, h4, h3, h2, h1, h0]
  simp only [Finset.sum_range_succ, Finset.sum_range_zero]
  have e : i * 2 ^ 3 = 8 * i := by omega
  rw [e]
  ring

/-- The array `Y` of the blend: the sum of the 64 weighted products. -/
theorem blend_Y_eq_sum (cs : ℕ → ℕ → ℝ)
    (hcs : ∀ p u, cs p u = Real.cos ((2 * (p : ℝ) + 1) * (u : ℝ) * Real.pi / 16))
    (b : ℕ → ℝ) (cx cm : ℕ → ℤ) (n : ℕ) (hn : n < 64) :
    blend_Y (Real.sqrt 2) b cx cm n
      = ∑ i in Finset.range 8, ∑ j in Finset.range 8,
          4 * b (8 * i + j)
            * dct_of_product cs (Real.sqrt 2) (fun i => ((cx i - cm i : ℤ) : ℝ)) i j n := by
  have hr : List.range DCTSIZE = [0, 1, 2, 3, 4, 5, 6, 7] := rfl
  unfold blend_Y
  simp only [hr, List.foldl]
  rw [convolve_row_eq_sum cs hcs _ b _ 7 n (by decide) hn,
    convolve_row_eq_sum cs hcs _ b _ 6 n (by decide) hn,
    convolve_row_eq_sum cs hcs _ b _ 5 n (by decide) hn,
    convolve_row_eq_sum cs hcs _ b _ 4 n (by decide) hn,
    convolve_row_eq_sum cs hcs _ b _ 3 n (by decide) hn,
    convolve_row_eq_sum cs hcs _ b _ 2 n (by decide) hn,
    convolve_row_eq_sum cs hcs _ b _ 1 n (by decide) hn,
    convolve_row_eq_sum cs hcs _ b _ 0 n (by decide) hn]
  simp only [Finset.sum_range_succ, Finset.sum_range_zero]

theorem idct2d_add (cs : ℕ → ℕ → ℝ) (s : ℝ) (X X' : ℕ → ℝ) (p q : ℕ) :
    idct2d cs s (fun i => X i + X' i) p q = idct2d cs s X p q + idct2d cs s X' p q := by
  unfold idct2d
  rw [← Finset.sum_add_distrib]
  refine Finset.sum_congr rfl (fun a _ => ?_)
  rw [← Finset.sum_add_distrib]
  refine Finset.sum_congr rfl (fun b _ => ?_)
  ring

/-- The mask pixel of the specification in terms of the coefficients after the DC shift. -/
theorem spec_alpha_eq (cs : ℕ → ℕ → ℝ)
    (hcs : ∀ p u, cs p u = Real.cos ((2 * (p : ℝ) + 1) * (u : ℝ) * Real.pi / 16))
    (A : ℕ → ℤ) (p q : ℕ) :
    spec_alpha cs (Real.sqrt 2) A p q
      = idct2d cs (Real.sqrt 2) (fun i => (mask_shift_dc A i : ℝ)) p q / 255 := by
  have hs : Real.sqrt 2 * Real.sqrt 2 = 2 := Real.mul_self_sqrt (by norm_num)
  have hsc0 : dct_scale (Real.sqrt 2) 0 = Real.sqrt 2 / 4 := by simp [dct_scale]
  have hX : (fun i => (mask_shift_dc A i : ℝ))
      = fun i => (A i : ℝ) + (if i = 0 then (1024 : ℝ) else 0) := by
    funext i
    unfold mask_shift_dc store
    by_cases h : i = 0
    · subst h
      simp
    · simp [h]
  have h128 : idct2d cs (Real.sqrt 2) (fun i => if i = 0 then (1024 : ℝ) else 0) p q = 128 := by
    rw [idct2d_single cs (Real.sqrt 2) 0 0 (by decide) (by decide) _
      (fun i hi => by simp at hi; simp [hi])]
    simp only [hsc0, cos_table_zero cs hcs]
    norm_num
    linear_combination (64 : ℝ) * hs
  unfold spec_alpha
  rw [hX, idct2d_add, h128]

/-- Linearity of `DCT2D` in the mask: the transform of a product with the samples of a block
`B` is the sum over the basis pairs of the scaled coefficient times the transform of the
product with the basis function. -/
theorem dct2d_mul_idct2d (cs : ℕ → ℕ → ℝ) (s : ℝ) (B X : ℕ → ℝ) (n : ℕ) :
    dct2d cs s (fun p q => idct2d cs s B p q * idct2d cs s X p q) (n / 8) (n % 8)
      = ∑ i in Finset.range 8, ∑ j in Finset.range 8,
          dct_scale s i * dct_scale s j * B (8 * i + j) * dct_of_product cs s X i j n := by
  unfold dct_of_product dct2d
  have hL : dct_scale s (n / 8) * dct_scale s (n % 8)
        * ∑ p in Finset.range 8, ∑ q in Finset.range 8,
            idct2d cs s B p q * idct2d cs s X p q * cs p (n / 8) * cs q (n % 8)
      = ∑ p in Finset.range 8, ∑ q in Finset.range 8, ∑ i in Finset.range 8,
          ∑ j in Finset.range 8,
            dct_scale s i * dct_scale s j * B (8 * i + j)
              * (dct_scale s (n / 8) * dct_scale s (n % 8)
                * (idct2d cs s X p q * (cs p i * cs q j) * cs p (n / 8) * cs q (n % 8))) := by
    rw [Finset.mul_sum]
    refine Finset.sum_congr rfl (fun p _ => ?_)
    rw [Finset.mul_sum]
    refine Finset.sum_congr rfl (fun q _ => ?_)
    have e : idct2d cs s B p q
        = ∑ i in Finset.range 8, ∑ j in Finset.range 8,
            dct_scale s i * dct_scale s j * B (8 * i + j) * cs p i * cs q j := rfl
    rw [e, Finset.sum_mul, Finset.sum_mul, Finset.sum_mul, Finset.mul_sum]
    refine Finset.sum_congr rfl (fun i _ => ?_)
    rw [Finset.sum_mul, Finset.sum_mul, Finset.sum_mul, Finset.mul_sum]
    refine Finset.sum_congr rfl (fun j _ => ?_)
    ring
  rw [hL, sum_comm4 (fun p q i j =>
      dct_scale s i * dct_scale s j * B (8 * i + j)
        * (dct_scale s (n / 8) * dct_scale s (n % 8)
          * (idct2d cs s X p q * (cs p i * cs q j) * cs p (n / 8) * cs q (n % 8))))
    (Finset.range 8)]
  refine Finset.sum_congr rfl (fun i _ => ?_)
  refine Finset.sum_congr rfl (fun j _ => ?_)
  simp only [Finset.mul_sum]

/-- The array `Y` of the specification as a sum over the 64 basis pairs. -/
theorem spec_blend_Y_eq_sum (cs : ℕ → ℕ → ℝ)
    (hcs : ∀ p u, cs p u = Real.cos ((2 * (p : ℝ) + 1) * (u : ℝ) * Real.pi / 16))
    (A x0 x1 : ℕ → ℤ) (n : ℕ) :
    spec_blend_Y cs (Real.sqrt 2) A x0 x1 n
      = ∑ i in Finset.range 8, ∑ j in Finset.range 8,
          4 * ((mask_shift_dc A (8 * i + j) : ℝ)
              * (dct_scale (Real.sqrt 2) i * dct_scale (Real.sqrt 2) j / 1020))
            * dct_of_product cs (Real.sqrt 2) (fun i => ((x0 i - x1 i : ℤ) : ℝ)) i j n := by
  unfold spec_blend_Y
  have e : (fun p q => spec_alpha cs (Real.sqrt 2) A p q
        * idct2d cs (Real.sqrt 2) (fun i => ((x0 i - x1 i : ℤ) : ℝ)) p q)
      = fun p q => idct2d cs (Real.sqrt 2) (fun i => (mask_shift_dc A i : ℝ) / 255) p q
        * idct2d cs (Real.sqrt 2) (fun i => ((x0 i - x1 i : ℤ) : ℝ)) p q := by
    funext p q
    rw [spec_alpha_eq cs hcs]
    congr 1
    unfold idct2d
    rw [Finset.sum_div]
    refine Finset.sum_congr rfl (fun a _ => ?_)
    rw [Finset.sum_div]
    refine Finset.sum_congr rfl (fun b _ => ?_)
    ring
  rw [e, dct2d_mul_idct2d]
  refine Finset.sum_congr rfl (fun i _ => ?_)
  refine Finset.sum_congr rfl (fun j _ => ?_)
  ring

/-- With the operator of the specification, all 64 entries, the 64 calls of `mj_convolve`
compute the pointwise alpha product of the specification. -/
theorem blend_Y_spec_operator (cs : ℕ → ℕ → ℝ)
    (hcs : ∀ p u, cs p u = Real.cos ((2 * (p : ℝ) + 1) * (u : ℝ) * Real.pi / 16))
    (A x0 x1 : ℕ → ℤ) (n : ℕ) (hn : n < 64) :
    blend_Y (Real.sqrt 2) (spec_mask_operator (Real.sqrt 2) A) x0 x1 n
      = spec_blend_Y cs (Real.sqrt 2) A x0 x1 n := by
  rw [blend_Y_eq_sum cs hcs _ x0 x1 n hn, spec_blend_Y_eq_sum cs hcs A x0 x1 n]
  refine Finset.sum_congr rfl (fun i hi => ?_)
  refine Finset.sum_congr rfl (fun j hj => ?_)
  have hj' : j < 8 := Finset.mem_range.mp hj
  have e1 : (8 * i + j) / 8 = i := by omega
  have e2 : (8 * i + j) % 8 = j := by omega
  unfold spec_mask_operator
  simp only [e1, e2]

/-- The operator of the code agrees with the operator of the specification on the 64 entries
when rows `1..7` of the alpha block are zero. -/
theorem mask_operator_eq_spec (A : ℕ → ℤ) (hA : ∀ i, 8 ≤ i → i < 64 → A i = 0) (n : ℕ)
    (hn : n < 64) :
    mask_operator (Real.sqrt 2 / 4) A n = spec_mask_operator (Real.sqrt 2) A n := by
  rw [mask_operator_entries]
  unfold spec_mask_operator mask_shift_dc store dct_scale
  by_cases h0 : n = 0
  · subst h0
    simp
  · rw [if_neg h0, if_neg h0]
    by_cases h8 : n < 8
    · have e1 : n / 8 = 0 := by omega
      have e2 : n % 8 = n := by omega
      rw [if_pos h8, e1, e2, if_pos rfl, if_neg h0]
      norm_num
    · rw [if_neg h8, hA n (by omega) hn]
      split
      · rename_i h
        rw [hA (n + 7) (by omega) (by omega)]
        simp
      · simp

/-- The blend of the code is the pointwise alpha product of the specification for the alpha
blocks whose rows `1..7` are zero. -/
theorem blend_block_rows_zero (cs : ℕ → ℕ → ℝ)
    (hcs : ∀ p u, cs p u = Real.cos ((2 * (p : ℝ) + 1) * (u : ℝ) * Real.pi / 16))
    (A x0 x1 : ℕ → ℤ) (hA : ∀ i, 8 ≤ i → i < 64 → A i = 0) (n : ℕ) (hn : n < 64) :
    blend_block (Real.sqrt 2) (mask_operator (Real.sqrt 2 / 4) A) x0 x1 n
      = x1 n + trunc (spec_blend_Y cs (Real.sqrt 2) A x0 x1 n) := by
  have hY : blend_Y (Real.sqrt 2) (mask_operator (Real.sqrt 2 / 4) A) x0 x1 n
      = blend_Y (Real.sqrt 2) (spec_mask_operator (Real.sqrt 2) A) x0 x1 n := by
    rw [blend_Y_eq_sum cs hcs _ x0 x1 n hn, blend_Y_eq_sum cs hcs _ x0 x1 n hn]
    refine Finset.sum_congr rfl (fun i hi => ?_)
    refine Finset.sum_congr rfl (fun j hj => ?_)
    have hi' : i < 8 := Finset.mem_range.mp hi
    have hj' : j < 8 := Finset.mem_range.mp hj
    rw [mask_operator_eq_spec A hA (8 * i + j) (by omega)]
  unfold blend_block
  rw [if_pos (show n < DCTSIZE2 from hn), hY, blend_Y_spec_operator cs hcs A x0 x1 n hn]

/-! ## The kernel and the blend: the claims -/

/-- C1, evaluated at a failing input. Mask block with the single coefficient `8` at index `9`,
dropon block with the single coefficient `2040` at index `0`, host block of zeros: the code
leaves coefficient `9` of the host at `0`, while `x1[9] + trunc(Y[9])` with
`Y = DCT2D(alpha ⊙ iDCT2D(x0 - x1))` is `8`. -/
theorem mask_blend_diverges :
    blend_block (Real.sqrt 2) (mask_operator (Real.sqrt 2 / 4) ripple_mask) flat_dropon_block
        zero_block 9 = 0
      ∧ zero_block 9
          + trunc (spec_blend_Y
              (fun p u => Real.cos ((2 * (p : ℝ) + 1) * (u : ℝ) * Real.pi / 16))
              (Real.sqrt 2) ripple_mask flat_dropon_block zero_block 9) = 8 := by
  constructor
  · unfold blend_block
    rw [if_pos (by decide), blend_Y_ripple]
    simp [trunc, zero_block]
  · rw [spec_blend_ripple _ (fun _ _ => rfl)]
    have : trunc (8 : ℝ) = 8 := by
      have := trunc_intCast 8
      simpa using this
    rw [this]
    simp [zero_block]

/-- C2, as stated, fails: for the unit impulse at index `0`, `Y = 0`, `w = 1` and
`k = l = 0`, the call leaves `Y[0] = 4`, not `Y[0] + w * DCT2D(iDCT2D(X) ⊙ φ_{0,0})[0]`,
which is `1`. -/
theorem convolve_not_unscaled :
    mj_convolve (Real.sqrt 2) (impulse 0) (fun _ => 0) 1 0 0 0 = 4
      ∧ mj_convolve (Real.sqrt 2) (impulse 0) (fun _ => 0) 1 0 0 0
          ≠ (fun _ => (0 : ℝ)) 0
            + 1 * dct_of_product
                (fun p u => Real.cos ((2 * (p : ℝ) + 1) * (u : ℝ) * Real.pi / 16))
                (Real.sqrt 2) (impulse 0) 0 0 0 := by
  have hcode : mj_convolve (Real.sqrt 2) (impulse 0) (fun _ => 0) 1 0 0 0 = 4 := by
    rw [mj_convolve_dc (Real.sqrt 2) _ _ _ 0 (by decide)]
    simp [impulse]
  have h := mj_convolve_eq_dct
    (fun p u => Real.cos ((2 * (p : ℝ) + 1) * (u : ℝ) * Real.pi / 16)) (fun _ _ => rfl)
    (impulse 0) (fun _ => 0) 1 0 0 0 (by decide) (by decide) (by decide)
  rw [Nat.cast_zero, hcode] at h
  refine ⟨hcode, ?_⟩
  rw [hcode]
  intro hc
  simp only at h hc
  linarith

/-- C2, amended. Over the reals, with `M_SQRT2 = √2`, for `k, l` in `0..7` and every entry
`n < 64`, `mj_convolve(X, Y, w, k, l)` leaves `Y[n]` equal to
`Y_before[n] + 4 * w * DCT2D(iDCT2D(X) ⊙ φ_{k,l})[n]`; in particular for a unit impulse `X`,
`w = 1` and `Y = 0` the result is four times the DCT of `iDCT(X) ⊙ φ_{k,l}`. -/
theorem convolve_adds_scaled_product (cs : ℕ → ℕ → ℝ)
    (hcs : ∀ p u, cs p u = Real.cos ((2 * (p : ℝ) + 1) * (u : ℝ) * Real.pi / 16))
    (X Y : ℕ → ℝ) (w : ℝ) (k l n : ℕ) (hk : k < 8) (hl : l < 8) (hn : n < 64) :
    mj_convolve (Real.sqrt 2) X Y w (k : ℤ) (l : ℤ) n
        = Y n + 4 * w * dct_of_product cs (Real.sqrt 2) X k l n
      ∧ ∀ a, a < 64 →
          mj_convolve (Real.sqrt 2) (impulse a) (fun _ => 0) 1 (k : ℤ) (l : ℤ) n
            = 4 * dct_of_product cs (Real.sqrt 2) (impulse a) k l n := by
  refine ⟨mj_convolve_eq_dct cs hcs X Y w k l n hk hl hn, ?_⟩
  intro a _
  rw [mj_convolve_eq_dct cs hcs (impulse a) (fun _ => 0) 1 k l n hk hl hn]
  ring

/-- Witness of C2, amended: the call with `k = 1`, `l = 2` at entry `10`. -/
theorem convolve_adds_scaled_product_witness :
    mj_convolve (Real.sqrt 2) (impulse 3) (fun _ => 5) 7 ((1 : ℕ) : ℤ) ((2 : ℕ) : ℤ) 10
        = (fun _ => (5 : ℝ)) 10 + 4 * 7 * dct_of_product
            (fun p u => Real.cos ((2 * (p : ℝ) + 1) * (u : ℝ) * Real.pi / 16))
            (Real.sqrt 2) (impulse 3) 1 2 10
      ∧ ∀ a, a < 64 →
          mj_convolve (Real.sqrt 2) (impulse a) (fun _ => 0) 1 ((1 : ℕ) : ℤ) ((2 : ℕ) : ℤ) 10
            = 4 * dct_of_product
                (fun p u => Real.cos ((2 * (p : ℝ) + 1) * (u : ℝ) * Real.pi / 16))
                (Real.sqrt 2) (impulse a) 1 2 10 :=
  convolve_adds_scaled_product
    (fun p u => Real.cos ((2 * (p : ℝ) + 1) * (u : ℝ) * Real.pi / 16)) (fun _ _ => rfl)
    (impulse 3) (fun _ => 5) 7 1 2 10 (by decide) (by decide) (by decide)

/-- C4 (full replacement). For a dropon with blend `FULL` whose adapted image `x` is placed
inside the host grid, `mj_compose` takes the path of `mj_compose_without_mask`, both return
`0`, and afterwards every coefficient `n < 64` of the host block
`(height_offset + l, width_offset + k)` of every dropon component `c` equals the coefficient
`n` of the dropon block `(l, k)`. -/
theorem full_replacement {R : Type} [LinearOrderedField R] [FloorRing R] (M_SQRT2 c0 : R)
    (codec : Codec) (m x : modjpeg_jpegimage_t) (d : modjpeg_jpegdropon_t R)
    (align_h align_v offset_x offset_y : Int) (hblend : d.blend = MODJPEG_BLEND_FULL)
    (himage : (dropon_after_reload c0 codec m d).image = some x)
    (hin : placement_inside m x align_h align_v) :
    ∃ m', mj_compose_without_mask m x align_h align_v = some (0, m')
      ∧ mj_compose M_SQRT2 c0 codec m d align_h align_v offset_x offset_y
          = some (0, m', dropon_after_reload c0 codec m d)
      ∧ ∀ c l k n, c < x.num_components → l < dropon_height x c → k < dropon_width x c →
          n < 64 →
          (m'.coef c).blk (placed_height_offset m x align_v c + (l : Int)).toNat
              (placed_width_offset m x align_h c + (k : Int)).toNat n
            = (x.coef c).blk l k n := by
  obtain ⟨m', hm', _, hval⟩ := mj_compose_without_mask_total m x align_h align_v hin
  refine ⟨m', hm', ?_, ?_⟩
  · have hb := dropon_after_reload_blend c0 codec m d
    unfold mj_compose
    simp only
    rw [if_neg (by rw [hb, hblend]; decide), if_neg (by rw [hb, hblend]; simp), himage]
    simp only
    rw [hm']
  · intro c l k n hc hl hk hn
    obtain ⟨_, hho, _, hwo, _⟩ := hin c hc
    rw [hval]
    unfold composed_coef
    have hrect : in_rectangle m x align_h align_v c
        (placed_height_offset m x align_v c + (l : Int)).toNat
        (placed_width_offset m x align_h c + (k : Int)).toNat :=
      ⟨hc, by omega, by omega, by omega, by omega⟩
    rw [if_pos ⟨hrect, hn⟩]
    have e1 : (((placed_height_offset m x align_v c + (l : Int)).toNat : Int)
        - placed_height_offset m x align_v c).toNat = l := by omega
    have e2 : (((placed_width_offset m x align_h c + (k : Int)).toNat : Int)
        - placed_width_offset m x align_h c).toNat = k := by omega
    rw [e1, e2]

/-- Witness of C4: the one-block logo placed bottom right on the two-by-two host. -/
theorem full_replacement_witness :
    ∃ m', mj_compose_without_mask sample_host sample_logo MODJPEG_ALIGN_RIGHT
          MODJPEG_ALIGN_BOTTOM = some (0, m')
      ∧ mj_compose (1 : ℚ) 1 failing_codec sample_host (sample_dropon sample_logo 255)
          MODJPEG_ALIGN_RIGHT MODJPEG_ALIGN_BOTTOM 0 0
          = some (0, m', dropon_after_reload (1 : ℚ) failing_codec sample_host
              (sample_dropon sample_logo 255))
      ∧ ∀ c l k n, c < sample_logo.num_components → l < dropon_height sample_logo c →
          k < dropon_width sample_logo c → n < 64 →
          (m'.coef c).blk
              (placed_height_offset sample_host sample_logo MODJPEG_ALIGN_BOTTOM c
                + (l : Int)).toNat
              (placed_width_offset sample_host sample_logo MODJPEG_ALIGN_RIGHT c
                + (k : Int)).toNat n
            = (sample_logo.coef c).blk l k n :=
  full_replacement (1 : ℚ) 1 failing_codec sample_host sample_logo
    (sample_dropon sample_logo 255) MODJPEG_ALIGN_RIGHT MODJPEG_ALIGN_BOTTOM 0 0 rfl rfl
    (by decide)

theorem mj_compose_blend_none {R : Type} [LinearOrderedField R] [FloorRing R] (M_SQRT2 c0 : R)
    (codec : Codec) (m : modjpeg_jpegimage_t) (d : modjpeg_jpegdropon_t R)
    (ah av ox oy : Int) (hblend : d.blend = MODJPEG_BLEND_NONE) :
    mj_compose M_SQRT2 c0 codec m d ah av ox oy = some (0, m, dropon_after_reload c0 codec m d) := by
  unfold mj_compose
  simp only
  rw [if_pos (by rw [dropon_after_reload_blend, hblend])]

theorem mj_compose_repeat_blend_none {R : Type} [LinearOrderedField R] [FloorRing R]
    (M_SQRT2 c0 : R) (codec : Codec) (m : modjpeg_jpegimage_t) (ah av ox oy : Int) (n : Nat) :
    ∀ d : modjpeg_jpegdropon_t R, d.blend = MODJPEG_BLEND_NONE →
      ∃ d', mj_compose_repeat M_SQRT2 c0 codec ah av ox oy n m d = some (m, d')
        ∧ d'.blend = MODJPEG_BLEND_NONE := by
  induction n with
  | zero => intro d hd; exact ⟨d, rfl, hd⟩
  | succ n ih =>
    intro d hd
    obtain ⟨d', h1, h2⟩ := ih (dropon_after_reload c0 codec m d)
      (by rw [dropon_after_reload_blend, hd])
    refine ⟨d', ?_, h2⟩
    rw [mj_compose_repeat, mj_compose_blend_none M_SQRT2 c0 codec m d ah av ox oy hd]
    exact h1

/-- C5 (blend `0` is the identity). For a dropon with blend `MODJPEG_BLEND_NONE`, whatever the
alignment and the offsets, `mj_compose` returns `0` and the host it leaves is the host it
received; hence any number of such calls in a row leaves the host as it was. -/
theorem blend_none_identity {R : Type} [LinearOrderedField R] [FloorRing R] (M_SQRT2 c0 : R)
    (codec : Codec) (m : modjpeg_jpegimage_t) (d : modjpeg_jpegdropon_t R)
    (align_h align_v offset_x offset_y : Int) (hblend : d.blend = MODJPEG_BLEND_NONE) :
    (∃ d', mj_compose M_SQRT2 c0 codec m d align_h align_v offset_x offset_y = some (0, m, d'))
      ∧ ∀ n, ∃ d', mj_compose_repeat M_SQRT2 c0 codec align_h align_v offset_x offset_y n m d
          = some (m, d') := by
  refine ⟨⟨_, mj_compose_blend_none M_SQRT2 c0 codec m d align_h align_v offset_x offset_y
    hblend⟩, ?_⟩
  intro n
  obtain ⟨d', h1, _⟩ := mj_compose_repeat_blend_none M_SQRT2 c0 codec m align_h align_v
    offset_x offset_y n d hblend
  exact ⟨d', h1⟩

/-- Witness of C5: a dropon with blend `0` on the sample host, centred, with offsets. -/
theorem blend_none_identity_witness :
    (∃ d', mj_compose (1 : ℚ) 1 failing_codec sample_host (sample_dropon sample_wide_logo 0)
        MODJPEG_ALIGN_CENTER MODJPEG_ALIGN_CENTER 7 (-3) = some (0, sample_host, d'))
      ∧ ∀ n, ∃ d', mj_compose_repeat (1 : ℚ) 1 failing_codec MODJPEG_ALIGN_CENTER
          MODJPEG_ALIGN_CENTER 7 (-3) n sample_host (sample_dropon sample_wide_logo 0)
          = some (sample_host, d') :=
  blend_none_identity (1 : ℚ) 1 failing_codec sample_host (sample_dropon sample_wide_logo 0)
    MODJPEG_ALIGN_CENTER MODJPEG_ALIGN_CENTER 7 (-3) rfl

/-- C6, as stated, fails: the claim is made for every call. The dropon `sample_wide_logo` of
three blocks in a row does not fit the host `sample_host` of two blocks per row, so the
placement is not inside the host grid; both compositors index the host's row past its end at
the third block, and neither call has a result in which the host blocks outside the placed
rectangle, such as block `(1, 0)`, hold the coefficients they held before. -/
theorem frame_fails_off_grid :
    dropon_width sample_wide_logo 0 = 3 ∧ (sample_host.coef 0).cols = 2
      ∧ ¬ placement_inside sample_host sample_wide_logo MODJPEG_ALIGN_LEFT MODJPEG_ALIGN_TOP
      ∧ ¬ in_rectangle sample_host sample_wide_logo MODJPEG_ALIGN_LEFT MODJPEG_ALIGN_TOP 0 1 0
      ∧ mask_present sample_mask sample_wide_logo
      ∧ mj_compose_without_mask sample_host sample_wide_logo MODJPEG_ALIGN_LEFT
          MODJPEG_ALIGN_TOP = none
      ∧ mj_compose_with_mask (1 : ℚ) sample_host sample_wide_logo sample_mask
          MODJPEG_ALIGN_LEFT MODJPEG_ALIGN_TOP = none
      ∧ (¬ ∃ r m', mj_compose_without_mask sample_host sample_wide_logo MODJPEG_ALIGN_LEFT
            MODJPEG_ALIGN_TOP = some (r, m')
          ∧ ∀ c row col, ¬ in_rectangle sample_host sample_wide_logo MODJPEG_ALIGN_LEFT
              MODJPEG_ALIGN_TOP c row col →
            ∀ i, (m'.coef c).blk row col i = (sample_host.coef c).blk row col i)
      ∧ ¬ ∃ r m', mj_compose_with_mask (1 : ℚ) sample_host sample_wide_logo sample_mask
            MODJPEG_ALIGN_LEFT MODJPEG_ALIGN_TOP = some (r, m')
          ∧ ∀ c row col, ¬ in_rectangle sample_host sample_wide_logo MODJPEG_ALIGN_LEFT
              MODJPEG_ALIGN_TOP c row col →
            ∀ i, (m'.coef c).blk row col i = (sample_host.coef c).blk row col i := by
  have h1 : mj_compose_without_mask sample_host sample_wide_logo MODJPEG_ALIGN_LEFT
      MODJPEG_ALIGN_TOP = none := rfl
  have h2 : mj_compose_with_mask (1 : ℚ) sample_host sample_wide_logo sample_mask
      MODJPEG_ALIGN_LEFT MODJPEG_ALIGN_TOP = none := rfl
  refine ⟨by decide, rfl, by decide, by decide, by decide, h1, h2, ?_, ?_⟩
  · rintro ⟨r, m', h, -⟩
    rw [h1] at h
    exact Option.noConfusion h
  · rintro ⟨r, m', h, -⟩
    rw [h2] at h
    exact Option.noConfusion h

/-- C6, amended (unaltered regions). When the placement lies inside the host grid,
`mj_compose_without_mask` returns `0`, and so does `mj_compose_with_mask` for a mask that holds
an operator for every dropon block; after either call every host block `(row, col)` of a
component `c` that lies outside the placed dropon rectangle of its component holds the same
64 coefficients as before the call, and the host keeps its header. The blocks of a component
that the dropon does not have lie outside the rectangle. -/
theorem unaltered_regions {R : Type} [LinearOrderedField R] [FloorRing R] (M_SQRT2 : R)
    (m x : modjpeg_jpegimage_t) (w : modjpeg_jpegmask_t R) (align_h align_v : Int)
    (hin : placement_inside m x align_h align_v) :
    (∃ m', mj_compose_without_mask m x align_h align_v = some (0, m')
        ∧ same_header m m'
        ∧ ∀ c row col, ¬ in_rectangle m x align_h align_v c row col →
            ∀ i, (m'.coef c).blk row col i = (m.coef c).blk row col i)
      ∧ (mask_present w x →
          ∃ m', mj_compose_with_mask M_SQRT2 m x w align_h align_v = some (0, m')
            ∧ same_header m m'
            ∧ ∀ c row col, ¬ in_rectangle m x align_h align_v c row col →
                ∀ i, (m'.coef c).blk row col i = (m.coef c).blk row col i)
      ∧ ∀ c row col, x.num_components ≤ c → ¬ in_rectangle m x align_h align_v c row col := by
  refine ⟨?_, fun hw => ?_, fun c row col hc hr => ?_⟩
  · obtain ⟨m', hm', -, -⟩ := mj_compose_without_mask_total m x align_h align_v hin
    obtain ⟨-, hh, hf⟩ := mj_compose_without_mask_frame m x align_h align_v 0 m' hm'
    exact ⟨m', hm', hh, fun c row col hout i => by rw [hf c row col hout]⟩
  · obtain ⟨m', hm'⟩ := mj_compose_with_mask_total M_SQRT2 m x w align_h align_v hin hw
    obtain ⟨-, hh, hf⟩ := mj_compose_with_mask_frame M_SQRT2 m x w align_h align_v 0 m' hm'
    exact ⟨m', hm', hh, fun c row col hout i => by rw [hf c row col hout]⟩
  · exact absurd hr.1 (by omega)

/-- Witness of C6, amended: the logo placed bottom right leaves the top left block of the
host, in a run of each compositor. -/
theorem unaltered_regions_witness :
    (∃ m', mj_compose_without_mask sample_host sample_logo MODJPEG_ALIGN_RIGHT
          MODJPEG_ALIGN_BOTTOM = some (0, m')
        ∧ same_header sample_host m'
        ∧ ∀ c row col, ¬ in_rectangle sample_host sample_logo MODJPEG_ALIGN_RIGHT
            MODJPEG_ALIGN_BOTTOM c row col →
            ∀ i, (m'.coef c).blk row col i = (sample_host.coef c).blk row col i)
      ∧ (∃ m', mj_compose_with_mask (1 : ℚ) sample_host sample_logo sample_mask
          MODJPEG_ALIGN_RIGHT MODJPEG_ALIGN_BOTTOM = some (0, m')
        ∧ same_header sample_host m'
        ∧ ∀ c row col, ¬ in_rectangle sample_host sample_logo MODJPEG_ALIGN_RIGHT
            MODJPEG_ALIGN_BOTTOM c row col →
            ∀ i, (m'.coef c).blk row col i = (sample_host.coef c).blk row col i)
      ∧ ¬ in_rectangle sample_host sample_logo MODJPEG_ALIGN_RIGHT MODJPEG_ALIGN_BOTTOM 0 0 0
      ∧ in_rectangle sample_host sample_logo MODJPEG_ALIGN_RIGHT MODJPEG_ALIGN_BOTTOM 0 1 1 :=
  ⟨(unaltered_regions (1 : ℚ) sample_host sample_logo sample_mask MODJPEG_ALIGN_RIGHT
      MODJPEG_ALIGN_BOTTOM (by decide)).1,
    (unaltered_regions (1 : ℚ) sample_host sample_logo sample_mask MODJPEG_ALIGN_RIGHT
      MODJPEG_ALIGN_BOTTOM (by decide)).2.1 (by decide),
    by decide, by decide⟩

/-- C7 (opaque composition is idempotent). For a dropon image placed inside the host grid,
`mj_compose_without_mask` applied to the host it produced gives that same host again. -/
theorem opaque_composition_idempotent (m x : modjpeg_jpegimage_t) (align_h align_v : Int)
    (hin : placement_inside m x align_h align_v) :
    ∃ m1, mj_compose_without_mask m x align_h align_v = some (0, m1)
      ∧ mj_compose_without_mask m1 x align_h align_v = some (0, m1) := by
  obtain ⟨m1, h1, hh1, hv1⟩ := mj_compose_without_mask_total m x align_h align_v hin
  obtain ⟨m2, h2, hh2, hv2⟩ := mj_compose_without_mask_total m1 x align_h align_v
    (placement_inside_of_same_header hh1 x align_h align_v hin)
  have e : m2 = m1 := by
    refine image_ext hh2 ?_
    intro c r col i
    rw [hv2, hv1]
    obtain ⟨hw, hh⟩ := same_header_symm_offsets hh1 x align_h align_v c
    unfold composed_coef
    rw [hw, hh]
    by_cases hrect : in_rectangle m x align_h align_v c r col ∧ i < DCTSIZE2
    · rw [if_pos hrect,
        if_pos ⟨(in_rectangle_of_same_header hh1 x align_h align_v c r col).mpr hrect.1,
          hrect.2⟩]
    · rw [if_neg hrect, if_neg (fun h => hrect
        ⟨(in_rectangle_of_same_header hh1 x align_h align_v c r col).mp h.1, h.2⟩), hv1]
      unfold composed_coef
      rw [if_neg hrect]
  exact ⟨m1, h1, e ▸ h2⟩

/-- Witness of C7: the one-block logo placed bottom right on the two-by-two host. -/
theorem opaque_composition_idempotent_witness :
    ∃ m1, mj_compose_without_mask sample_host sample_logo MODJPEG_ALIGN_RIGHT
          MODJPEG_ALIGN_BOTTOM = some (0, m1)
      ∧ mj_compose_without_mask m1 sample_logo MODJPEG_ALIGN_RIGHT MODJPEG_ALIGN_BOTTOM
          = some (0, m1) :=
  opaque_composition_idempotent sample_host sample_logo MODJPEG_ALIGN_RIGHT
    MODJPEG_ALIGN_BOTTOM (by decide)

/-- C8, as stated, fails: the dropon of three blocks in a row is wider than the host of two
blocks per row and its blend is not `NONE`, yet `mj_compose` does not return a non-zero value
with the host unchanged; the call has no defined result. -/
theorem invalid_placement_not_rejected :
    dropon_width sample_wide_logo 0 = 3 ∧ (sample_host.coef 0).cols = 2
      ∧ (sample_dropon sample_wide_logo 255).blend ≠ MODJPEG_BLEND_NONE
      ∧ mj_compose (1 : ℚ) 1 failing_codec sample_host (sample_dropon sample_wide_logo 255)
          MODJPEG_ALIGN_LEFT MODJPEG_ALIGN_TOP 0 0 = none
      ∧ ¬ ∃ r d', r ≠ 0
          ∧ mj_compose (1 : ℚ) 1 failing_codec sample_host (sample_dropon sample_wide_logo 255)
              MODJPEG_ALIGN_LEFT MODJPEG_ALIGN_TOP 0 0 = some (r, sample_host, d') := by
  have h : mj_compose (1 : ℚ) 1 failing_codec sample_host (sample_dropon sample_wide_logo 255)
      MODJPEG_ALIGN_LEFT MODJPEG_ALIGN_TOP 0 0 = none := rfl
  refine ⟨by decide, rfl, by decide, h, ?_⟩
  rintro ⟨r, d', _, h2⟩
  rw [h] at h2
  exact Option.noConfusion h2

/-- C8, amended. `mj_compose` has no placement check: the value it returns, whenever it
returns, is `0`; and when the blend is not `NONE` and some block `(l, k)` of a component `c`
of the adapted dropon `x` would fall outside the host's block grid, the host's coefficient
array is indexed out of bounds and the call has no defined result. -/
theorem no_placement_check {R : Type} [LinearOrderedField R] [FloorRing R] (M_SQRT2 c0 : R)
    (codec : Codec) (m : modjpeg_jpegimage_t) (d : modjpeg_jpegdropon_t R)
    (align_h align_v offset_x offset_y : Int) :
    (∀ r, mj_compose M_SQRT2 c0 codec m d align_h align_v offset_x offset_y = some r → r.1 = 0)
      ∧ ∀ x c l k, d.blend ≠ MODJPEG_BLEND_NONE →
          (dropon_after_reload c0 codec m d).image = some x →
          c < x.num_components → l < dropon_height x c → k < dropon_width x c →
          ¬ (c < m.num_components
              ∧ 0 ≤ placed_height_offset m x align_v c + (l : Int)
              ∧ placed_height_offset m x align_v c + (l : Int) < ((m.coef c).rows : Int)
              ∧ 0 ≤ placed_width_offset m x align_h c + (k : Int)
              ∧ placed_width_offset m x align_h c + (k : Int) < ((m.coef c).cols : Int)) →
          mj_compose M_SQRT2 c0 codec m d align_h align_v offset_x offset_y = none := by
  refine ⟨fun r h => mj_compose_status M_SQRT2 c0 codec m d align_h align_v offset_x offset_y
    r h, ?_⟩
  intro x c l k hblend himage hc hl hk hoff
  have hb := dropon_after_reload_blend c0 codec m d
  unfold mj_compose
  simp only
  rw [if_neg (by rw [hb]; exact hblend), himage]
  by_cases hfull : (dropon_after_reload c0 codec m d).blend = MODJPEG_BLEND_FULL
  · rw [if_neg (by simp [hfull])]
    simp only
    cases hres : mj_compose_without_mask m x align_h align_v with
    | none => rfl
    | some r =>
      exact absurd (mj_compose_without_mask_in_grid m x align_h align_v r hres c l k hc hl hk)
        hoff
  · rw [if_pos hfull]
    cases halpha : (dropon_after_reload c0 codec m d).alpha with
    | none => rfl
    | some w =>
      simp only
      cases hres : mj_compose_with_mask M_SQRT2 m x w align_h align_v with
      | none => rfl
      | some r =>
        exact absurd (mj_compose_with_mask_in_grid M_SQRT2 m x w align_h align_v r hres c l k
          hc hl hk) hoff

/-- C9, as stated, fails: with `RIGHT` alignment the dropon of three blocks in a row on the
host of two blocks per row gets the offset `-1`. -/
theorem offsets_not_clamped :
    placed_width_offset sample_host sample_wide_logo MODJPEG_ALIGN_RIGHT 0 = -1
      ∧ ¬ (0 ≤ placed_width_offset sample_host sample_wide_logo MODJPEG_ALIGN_RIGHT 0
          ∧ placed_width_offset sample_host sample_wide_logo MODJPEG_ALIGN_RIGHT 0
            ≤ (((sample_host.comp_info 0).h_samp_factor
                * host_blocks sample_host.image_width sample_host.max_h_samp_factor : Nat) : Int)
              - (dropon_width sample_wide_logo 0 : Int)) := by
  decide

/-- C9, amended. The offsets are not clamped. For an alignment other than `CENTER` (`LEFT` or
`RIGHT`, `TOP` or `BOTTOM`) the offset the compositors use lies in
`[0, h_samp_c * H_blocks - w_c]` (vertically `[0, v_samp_c * V_blocks - h_c]`) exactly when
the dropon's extent does not exceed the host's, `w_c ≤ h_samp_c * H_blocks`
(`h_c ≤ v_samp_c * V_blocks`). -/
theorem offsets_in_range_iff (m x : modjpeg_jpegimage_t) (align_h align_v : Int) (c : Nat) :
    (align_h ≠ MODJPEG_ALIGN_CENTER →
        ((0 ≤ placed_width_offset m x align_h c
            ∧ placed_width_offset m x align_h c
              ≤ (((m.comp_info c).h_samp_factor
                  * host_blocks m.image_width m.max_h_samp_factor : Nat) : Int)
                - (dropon_width x c : Int))
          ↔ dropon_width x c
              ≤ (m.comp_info c).h_samp_factor * host_blocks m.image_width m.max_h_samp_factor))
      ∧ (align_v ≠ MODJPEG_ALIGN_CENTER →
        ((0 ≤ placed_height_offset m x align_v c
            ∧ placed_height_offset m x align_v c
              ≤ (((m.comp_info c).v_samp_factor
                  * host_blocks m.image_height m.max_v_samp_factor : Nat) : Int)
                - (dropon_height x c : Int))
          ↔ dropon_height x c
              ≤ (m.comp_info c).v_samp_factor
                * host_blocks m.image_height m.max_v_samp_factor)) := by
  constructor
  · intro hne
    unfold placed_width_offset width_offset
    rw [if_neg hne]
    split <;> omega
  · intro hne
    unfold placed_height_offset height_offset
    rw [if_neg hne]
    split <;> omega

/-- C10 (exact fit at `RIGHT` / `BOTTOM`). When the extent of the dropon's component `c` does
not exceed the host's, `w_c ≤ h_samp_c * H_blocks` and `h_c ≤ v_samp_c * V_blocks`, then with
`RIGHT` / `BOTTOM` alignment every host block index `width_offset + k`, `k < w_c`, lies in
`[0, h_samp_c * H_blocks)` and every `height_offset + l`, `l < h_c`, in
`[0, v_samp_c * V_blocks)`; with equality the offsets are `0`. -/
theorem exact_fit_right_bottom (m x : modjpeg_jpegimage_t) (c : Nat)
    (hw : dropon_width x c
      ≤ (m.comp_info c).h_samp_factor * host_blocks m.image_width m.max_h_samp_factor)
    (hh : dropon_height x c
      ≤ (m.comp_info c).v_samp_factor * host_blocks m.image_height m.max_v_samp_factor) :
    (∀ k, k < dropon_width x c →
        0 ≤ placed_width_offset m x MODJPEG_ALIGN_RIGHT c + (k : Int)
          ∧ placed_width_offset m x MODJPEG_ALIGN_RIGHT c + (k : Int)
            < (((m.comp_info c).h_samp_factor
                * host_blocks m.image_width m.max_h_samp_factor : Nat) : Int))
      ∧ (∀ l, l < dropon_height x c →
        0 ≤ placed_height_offset m x MODJPEG_ALIGN_BOTTOM c + (l : Int)
          ∧ placed_height_offset m x MODJPEG_ALIGN_BOTTOM c + (l : Int)
            < (((m.comp_info c).v_samp_factor
                * host_blocks m.image_height m.max_v_samp_factor : Nat) : Int))
      ∧ (dropon_width x c
            = (m.comp_info c).h_samp_factor * host_blocks m.image_width m.max_h_samp_factor →
          placed_width_offset m x MODJPEG_ALIGN_RIGHT c = 0)
      ∧ (dropon_height x c
            = (m.comp_info c).v_samp_factor * host_blocks m.image_height m.max_v_samp_factor →
          placed_height_offset m x MODJPEG_ALIGN_BOTTOM c = 0) := by
  have e1 : placed_width_offset m x MODJPEG_ALIGN_RIGHT c
      = (((m.comp_info c).h_samp_factor
          * host_blocks m.image_width m.max_h_samp_factor : Nat) : Int)
        - (dropon_width x c : Int) := by
    unfold placed_width_offset width_offset
    rw [if_neg (by decide), if_neg (by decide)]
  have e2 : placed_height_offset m x MODJPEG_ALIGN_BOTTOM c
      = (((m.comp_info c).v_samp_factor
          * host_blocks m.image_height m.max_v_samp_factor : Nat) : Int)
        - (dropon_height x c : Int) := by
    unfold placed_height_offset height_offset
    rw [if_neg (by decide), if_neg (by decide)]
  rw [e1, e2]
  refine ⟨fun k hk => ⟨by omega, by omega⟩, fun l hl => ⟨by omega, by omega⟩, fun h => by omega,
    fun h => by omega⟩

/-- Witness of C10: a host and a dropon of the same size, `16 × 16` samples. -/
theorem exact_fit_right_bottom_witness :
    (∀ k, k < dropon_width sample_host 0 →
        0 ≤ placed_width_offset sample_host sample_host MODJPEG_ALIGN_RIGHT 0 + (k : Int)
          ∧ placed_width_offset sample_host sample_host MODJPEG_ALIGN_RIGHT 0 + (k : Int)
            < (((sample_host.comp_info 0).h_samp_factor
                * host_blocks sample_host.image_width sample_host.max_h_samp_factor : Nat) : Int))
      ∧ (∀ l, l < dropon_height sample_host 0 →
        0 ≤ placed_height_offset sample_host sample_host MODJPEG_ALIGN_BOTTOM 0 + (l : Int)
          ∧ placed_height_offset sample_host sample_host MODJPEG_ALIGN_BOTTOM 0 + (l : Int)
            < (((sample_host.comp_info 0).v_samp_factor
                * host_blocks sample_host.image_height sample_host.max_v_samp_factor : Nat)
                : Int))
      ∧ (dropon_width sample_host 0
            = (sample_host.comp_info 0).h_samp_factor
              * host_blocks sample_host.image_width sample_host.max_h_samp_factor →
          placed_width_offset sample_host sample_host MODJPEG_ALIGN_RIGHT 0 = 0)
      ∧ (dropon_height sample_host 0
            = (sample_host.comp_info 0).v_samp_factor
              * host_blocks sample_host.image_height sample_host.max_v_samp_factor →
          placed_height_offset sample_host sample_host MODJPEG_ALIGN_BOTTOM 0 = 0) :=
  exact_fit_right_bottom sample_host sample_host 0 (by decide) (by decide)

/-! ## Dropons from raw samples -/

/-- The loop over the pixels of an RGBA buffer, after `n` pixels: the pointers have advanced
by `4 * n`, `3 * n` and `3 * n`, and the first `3 * n` bytes of both buffers are written. -/
theorem unpack_rgba_loop (rawdata : Nat → Int) (n : Nat) :
    let s := (List.range n).foldl (fun s _ => unpack_rgba rawdata s) unpack_start
    s.p = 4 * n ∧ s.pimage = 3 * n ∧ s.palpha = 3 * n
      ∧ (∀ j, s.rawimage j = if j < 3 * n then rawdata (4 * (j / 3) + j % 3) else 0)
      ∧ ∀ j, s.rawalpha j = if j < 3 * n then rawdata (4 * (j / 3) + 3) else 0 := by
  induction n with
  | zero =>
    refine ⟨rfl, rfl, rfl, fun j => ?_, fun j => ?_⟩
    · simp [unpack_start]
    · simp [unpack_start]
  | succ n ih =>
    simp only [List.range_succ, List.foldl_append, List.foldl_cons, List.foldl_nil]
    simp only at ih
    generalize (List.range n).foldl (fun s _ => unpack_rgba rawdata s) unpack_start = s at ih
    obtain ⟨hp, hi, ha, himg, halpha⟩ := ih
    refine ⟨?_, ?_, ?_, fun j => ?_, fun j => ?_⟩
    · simp only [unpack_rgba, copy_sample, copy_alpha, copy_alpha_next]
      omega
    · simp only [unpack_rgba, copy_sample, copy_alpha, copy_alpha_next]
      omega
    · simp only [unpack_rgba, copy_sample, copy_alpha, copy_alpha_next]
      omega
    · simp only [unpack_rgba, copy_sample, copy_alpha, copy_alpha_next, store, hp, hi, himg]
      by_cases h2 : j = 3 * n + 1 + 1
      · have e1 : j / 3 = n := by omega
        have e2 : j % 3 = 2 := by omega
        have e3 : j < 3 * (n + 1) := by omega
        rw [if_pos h2, if_pos e3, e1, e2]
      · rw [if_neg h2]
        by_cases h1 : j = 3 * n + 1
        · have e1 : j / 3 = n := by omega
          have e2 : j % 3 = 1 := by omega
          have e3 : j < 3 * (n + 1) := by omega
          rw [if_pos h1, if_pos e3, e1, e2]
        · rw [if_neg h1]
          by_cases h0 : j = 3 * n
          · have e1 : j / 3 = n := by omega
            have e2 : j % 3 = 0 := by omega
            have e3 : j < 3 * (n + 1) := by omega
            rw [if_pos h0, if_pos e3, e1, e2]
            rfl
          · rw [if_neg h0]
            by_cases hlt : j < 3 * n
            · rw [if_pos hlt, if_pos (by omega)]
            · rw [if_neg hlt, if_neg (by omega)]
    · simp only [unpack_rgba, copy_sample, copy_alpha, copy_alpha_next, store, hp, ha, halpha]
      by_cases h2 : j = 3 * n + 1 + 1
      · have e1 : j / 3 = n := by omega
        have e3 : j < 3 * (n + 1) := by omega
        rw [if_pos h2, if_pos e3, e1]
      · rw [if_neg h2]
        by_cases h1 : j = 3 * n + 1
        · have e1 : j / 3 = n := by omega
          have e3 : j < 3 * (n + 1) := by omega
          rw [if_pos h1, if_pos e3, e1]
        · rw [if_neg h1]
          by_cases h0 : j = 3 * n
          · have e1 : j / 3 = n := by omega
            have e3 : j < 3 * (n + 1) := by omega
            rw [if_pos h0, if_pos e3, e1]
          · rw [if_neg h0]
            by_cases hlt : j < 3 * n
            · rw [if_pos hlt, if_pos (by omega)]
            · rw [if_neg hlt, if_neg (by omega)]

/-- The loop over the pixels of an RGB buffer, after `n` pixels: the first `3 * n` bytes of
`rawimage` are those of `rawdata`, the first `3 * n` bytes of `rawalpha` are the blend value. -/
theorem unpack_rgb_loop (rawdata : Nat → Int) (blend : Int) (n : Nat) :
    let s := (List.range n).foldl (fun s _ => unpack_rgb rawdata blend s) unpack_start
    s.p = 3 * n ∧ s.pimage = 3 * n ∧ s.palpha = 3 * n
      ∧ (∀ j, s.rawimage j = if j < 3 * n then rawdata j else 0)
      ∧ ∀ j, s.rawalpha j = if j < 3 * n then to_char blend else 0 := by
  induction n with
  | zero =>
    refine ⟨rfl, rfl, rfl, fun j => ?_, fun j => ?_⟩
    · simp [unpack_start]
    · simp [unpack_start]
  | succ n ih =>
    simp only [List.range_succ, List.foldl_append, List.foldl_cons, List.foldl_nil]
    simp only at ih
    generalize (List.range n).foldl (fun s _ => unpack_rgb rawdata blend s) unpack_start = s
      at ih
    obtain ⟨hp, hi, ha, himg, halpha⟩ := ih
    refine ⟨?_, ?_, ?_, fun j => ?_, fun j => ?_⟩
    · simp only [unpack_rgb, copy_sample, fill_alpha]
      omega
    · simp only [unpack_rgb, copy_sample, fill_alpha]
      omega
    · simp only [unpack_rgb, copy_sample, fill_alpha]
      omega
    · simp only [unpack_rgb, copy_sample, fill_alpha, store, hp, hi, himg]
      by_cases h2 : j = 3 * n + 1 + 1
      · rw [if_pos h2, if_pos (by omega), h2]
      · rw [if_neg h2]
        by_cases h1 : j = 3 * n + 1
        · rw [if_pos h1, if_pos (by omega), h1]
        · rw [if_neg h1]
          by_cases h0 : j = 3 * n
          · rw [if_pos h0, if_pos (by omega), h0]
          · rw [if_neg h0]
            by_cases hlt : j < 3 * n
            · rw [if_pos hlt, if_pos (by omega)]
            · rw [if_neg hlt, if_neg (by omega)]
    · simp only [unpack_rgb, copy_sample, fill_alpha, store, ha, halpha]
      by_cases h2 : j = 3 * n + 1 + 1
      · rw [if_pos h2, if_pos (by omega)]
      · rw [if_neg h2]
        by_cases h1 : j = 3 * n + 1
        · rw [if_pos h1, if_pos (by omega)]
        · rw [if_neg h1]
          by_cases h0 : j = 3 * n
          · rw [if_pos h0, if_pos (by omega)]
          · rw [if_neg h0]
            by_cases hlt : j < 3 * n
            · rw [if_pos hlt, if_pos (by omega)]
            · rw [if_neg hlt, if_neg (by omega)]

/-- The dropon that `mj_read_jpegdropon_from_raw` returns for an RGBA buffer. -/
theorem mj_read_jpegdropon_from_raw_rgba {R : Type} (rawdata : Nat → Int) (blend : Int)
    (width height : Nat) :
    ∃ d : modjpeg_jpegdropon_t R,
      mj_read_jpegdropon_from_raw (some rawdata) blend MODJPEG_COLORSPACE_RGBA width height
        = some d
      ∧ d.width = width ∧ d.height = height ∧ d.blend = MODJPEG_BLEND_NONUNIFORM
      ∧ d.image = none ∧ d.alpha = none
      ∧ (∀ j, d.rawimage j
          = if j < 3 * (width * height) then rawdata (4 * (j / 3) + j % 3) else 0)
      ∧ ∀ j, d.rawalpha j = if j < 3 * (width * height) then rawdata (4 * (j / 3) + 3) else 0 := by
  obtain ⟨-, -, -, himg, halpha⟩ := unpack_rgba_loop rawdata (width * height)
  unfold mj_read_jpegdropon_from_raw
  simp only
  rw [if_pos (Or.inr trivial), if_pos trivial]
  exact ⟨_, rfl, rfl, rfl, rfl, rfl, rfl, himg, halpha⟩

/-- The dropon that `mj_read_jpegdropon_from_raw` returns for an RGB buffer. -/
theorem mj_read_jpegdropon_from_raw_rgb {R : Type} (rawdata : Nat → Int) (blend : Int)
    (width height : Nat) :
    ∃ d : modjpeg_jpegdropon_t R,
      mj_read_jpegdropon_from_raw (some rawdata) blend MODJPEG_COLORSPACE_RGB width height
        = some d
      ∧ d.width = width ∧ d.height = height ∧ d.blend = max 0 (min blend 255)
      ∧ d.image = none ∧ d.alpha = none
      ∧ (∀ j, d.rawimage j = if j < 3 * (width * height) then rawdata j else 0)
      ∧ ∀ j, d.rawalpha j = if j < 3 * (width * height) then max 0 (min blend 255) else 0 := by
  have hclamp : (if (if blend < MODJPEG_BLEND_NONE then MODJPEG_BLEND_NONE else blend)
        > MODJPEG_BLEND_FULL then MODJPEG_BLEND_FULL
      else (if blend < MODJPEG_BLEND_NONE then MODJPEG_BLEND_NONE else blend))
      = max 0 (min blend 255) := by
    unfold MODJPEG_BLEND_NONE MODJPEG_BLEND_FULL
    split_ifs <;> omega
  obtain ⟨-, -, -, himg, halpha⟩ :=
    unpack_rgb_loop rawdata (max 0 (min blend 255)) (width * height)
  have hbyte : to_char (max 0 (min blend 255)) = max 0 (min blend 255) := by
    unfold to_char
    omega
  rw [hbyte] at halpha
  unfold mj_read_jpegdropon_from_raw
  simp only
  rw [if_pos (Or.inl trivial), if_neg (by decide), hclamp]
  exact ⟨_, rfl, rfl, rfl, rfl, rfl, rfl, himg, halpha⟩

/-- C15, RGBA unpacking: for every width `W`, height `H`, RGBA buffer and blend argument,
`mj_read_jpegdropon_from_raw` with the colour space RGBA returns a dropon of width `W` and
height `H` whose blend is `MODJPEG_BLEND_NONUNIFORM` (`-1`), whatever the blend argument, and
in which, for every pixel `v < W * H` and `i` in `0..2`, `rawimage[3v + i] = rawdata[4v + i]`
and `rawalpha[3v + i] = rawdata[4v + 3]`. -/
theorem rgba_unpacking {R : Type} (rawdata : Nat → Int) (blend : Int) (W H : Nat) :
    ∃ d : modjpeg_jpegdropon_t R,
      mj_read_jpegdropon_from_raw (some rawdata) blend MODJPEG_COLORSPACE_RGBA W H = some d
      ∧ d.width = W ∧ d.height = H
      ∧ d.blend = MODJPEG_BLEND_NONUNIFORM ∧ d.blend = -1
      ∧ ∀ v, v < W * H → ∀ i, i < 3 →
          d.rawimage (3 * v + i) = rawdata (4 * v + i)
          ∧ d.rawalpha (3 * v + i) = rawdata (4 * v + 3) := by
  obtain ⟨d, hd, hw, hh, hb, -, -, himg, halpha⟩ :=
    mj_read_jpegdropon_from_raw_rgba (R := R) rawdata blend W H
  refine ⟨d, hd, hw, hh, hb, hb, fun v hv i hi => ?_⟩
  have e1 : (3 * v + i) / 3 = v := by omega
  have e2 : (3 * v + i) % 3 = i := by omega
  have e3 : 3 * v + i < 3 * (W * H) := by omega
  rw [himg, halpha, if_pos e3, if_pos e3, e1, e2]
  exact ⟨rfl, rfl⟩

/-- C16, RGB unpacking with uniform alpha: for every `W`, `H`, RGB buffer and blend argument
`b`, `mj_read_jpegdropon_from_raw` with the colour space RGB returns a dropon whose `rawimage`
holds the `3 * W * H` input bytes, whose blend is `b` clamped to `[0, 255]`, and whose
`rawalpha` has each of its `3 * W * H` bytes equal to that blend value, which is its own byte
value; with the blend argument `0`, `mj_compose` on the returned dropon returns `0` and leaves
the host as it was. -/
theorem rgb_unpacking {R : Type} [LinearOrderedField R] [FloorRing R] (rawdata : Nat → Int)
    (b : Int) (W H : Nat) :
    (∃ d : modjpeg_jpegdropon_t R,
      mj_read_jpegdropon_from_raw (some rawdata) b MODJPEG_COLORSPACE_RGB W H = some d
      ∧ d.width = W ∧ d.height = H
      ∧ d.blend = max 0 (min b 255)
      ∧ (∀ j, j < 3 * (W * H) → d.rawimage j = rawdata j)
      ∧ (∀ j, j < 3 * (W * H) → d.rawalpha j = to_char d.blend)
      ∧ to_char d.blend = d.blend)
    ∧ ∀ d : modjpeg_jpegdropon_t R,
        mj_read_jpegdropon_from_raw (some rawdata) 0 MODJPEG_COLORSPACE_RGB W H = some d →
        ∀ (M_SQRT2 c0 : R) (codec : Codec) (m : modjpeg_jpegimage_t) (ah av ox oy : Int),
          mj_compose M_SQRT2 c0 codec m d ah av ox oy
            = some (0, m, dropon_after_reload c0 codec m d) := by
  constructor
  · obtain ⟨d, hd, hw, hh, hb, -, -, himg, halpha⟩ :=
      mj_read_jpegdropon_from_raw_rgb (R := R) rawdata b W H
    have hbyte : to_char d.blend = d.blend := by
      rw [hb]
      unfold to_char
      omega
    refine ⟨d, hd, hw, hh, hb, fun j hj => ?_, fun j hj => ?_, hbyte⟩
    · rw [himg, if_pos hj]
    · rw [halpha, if_pos hj, hbyte, hb]
  · intro d hd M_SQRT2 c0 codec m ah av ox oy
    obtain ⟨d', hd', -, -, hb, -⟩ := mj_read_jpegdropon_from_raw_rgb (R := R) rawdata 0 W H
    rw [hd] at hd'
    cases hd'
    exact mj_compose_blend_none M_SQRT2 c0 codec m d ah av ox oy hb

/-- C17: when every allocation succeeds, `mj_read_jpegdropon_from_raw` returns `NULL` if and
only if `rawdata` is `NULL` or the colour space is neither `MODJPEG_COLORSPACE_RGB` nor
`MODJPEG_COLORSPACE_RGBA`; so the colour spaces GRAYSCALE, GRAYSCALEA, YCC and YCCA are
rejected. -/
theorem from_raw_accepts_rgb_and_rgba {R : Type} (rawdata : Option (Nat → Int)) (blend : Int)
    (colorspace W H : Nat) :
    ((mj_read_jpegdropon_from_raw rawdata blend colorspace W H : Option (modjpeg_jpegdropon_t R))
        = none
      ↔ rawdata = none
        ∨ (colorspace ≠ MODJPEG_COLORSPACE_RGB ∧ colorspace ≠ MODJPEG_COLORSPACE_RGBA))
    ∧ (mj_read_jpegdropon_from_raw rawdata blend MODJPEG_COLORSPACE_GRAYSCALE W H
        : Option (modjpeg_jpegdropon_t R)) = none
    ∧ (mj_read_jpegdropon_from_raw rawdata blend MODJPEG_COLORSPACE_GRAYSCALEA W H
        : Option (modjpeg_jpegdropon_t R)) = none
    ∧ (mj_read_jpegdropon_from_raw rawdata blend MODJPEG_COLORSPACE_YCC W H
        : Option (modjpeg_jpegdropon_t R)) = none
    ∧ (mj_read_jpegdropon_from_raw rawdata blend MODJPEG_COLORSPACE_YCCA W H
        : Option (modjpeg_jpegdropon_t R)) = none := by
  have key : ∀ cs : Nat,
      ((mj_read_jpegdropon_from_raw rawdata blend cs W H : Option (modjpeg_jpegdropon_t R))
          = none
        ↔ rawdata = none ∨ (cs ≠ MODJPEG_COLORSPACE_RGB ∧ cs ≠ MODJPEG_COLORSPACE_RGBA)) := by
    intro cs
    cases rawdata with
    | none => exact ⟨fun _ => Or.inl rfl, fun _ => rfl⟩
    | some rawdata =>
      unfold mj_read_jpegdropon_from_raw
      simp only
      by_cases h1 : cs = MODJPEG_COLORSPACE_RGB ∨ cs = MODJPEG_COLORSPACE_RGBA
      · rw [if_pos h1]
        constructor
        · intro h
          split at h <;> exact absurd h (by simp)
        · rintro (h | ⟨h2, h3⟩)
          · exact absurd h (by simp)
          · rcases h1 with h1 | h1
            · exact absurd h1 h2
            · exact absurd h1 h3
      · rw [if_neg h1]
        exact ⟨fun _ => Or.inr ⟨fun e => h1 (Or.inl e), fun e => h1 (Or.inr e)⟩, fun _ => rfl⟩
  refine ⟨key colorspace, ?_, ?_, ?_, ?_⟩
  · exact (key _).2 (Or.inr ⟨by decide, by decide⟩)
  · exact (key _).2 (Or.inr ⟨by decide, by decide⟩)
  · exact (key _).2 (Or.inr ⟨by decide, by decide⟩)
  · exact (key _).2 (Or.inr ⟨by decide, by decide⟩)

/-- C18: `mj_read_jpegdropon_from_jpeg_file` does not use its argument `mask`. With a mask
path it returns what it returns without one: a dropon whose blend is the blend argument
clamped to `[0, 255]`, never `MODJPEG_BLEND_NONUNIFORM`, and whose `rawalpha` bytes all hold
that blend value. For the call of `main`, with the logo `./images/logo.jpg`, the mask
`./images/mask.jpg` and the blend `255`, the dropon has the blend `255` and the alpha `255` in
every byte. -/
theorem mask_path_ignored {R : Type} (read_rgb : String → Option ((Nat → Int) × Nat × Nat))
    (filename mask : String) (blend : Int) :
    (mj_read_jpegdropon_from_jpeg_file read_rgb filename (some mask) blend
        : Option (modjpeg_jpegdropon_t R))
      = mj_read_jpegdropon_from_jpeg_file read_rgb filename none blend
    ∧ (∀ d : modjpeg_jpegdropon_t R,
        mj_read_jpegdropon_from_jpeg_file read_rgb filename (some mask) blend = some d →
          d.blend = max 0 (min blend 255) ∧ d.blend ≠ MODJPEG_BLEND_NONUNIFORM
          ∧ ∀ j, j < 3 * (d.width * d.height) → d.rawalpha j = d.blend)
    ∧ ∃ d : modjpeg_jpegdropon_t R,
        mj_read_jpegdropon_from_jpeg_file sample_files "./images/logo.jpg"
          (some "./images/mask.jpg") 255 = some d
        ∧ d.blend = 255 ∧ d.width = 2 ∧ d.height = 1
        ∧ ∀ j, j < 6 → d.rawalpha j = 255 := by
  have key : ∀ (files : String → Option ((Nat → Int) × Nat × Nat)) (f : String)
      (mk : Option String) (bl : Int) (d : modjpeg_jpegdropon_t R),
      mj_read_jpegdropon_from_jpeg_file files f mk bl = some d →
        d.blend = max 0 (min bl 255)
        ∧ ∀ j, j < 3 * (d.width * d.height) → d.rawalpha j = d.blend := by
    intro files f mk bl d hd
    unfold mj_read_jpegdropon_from_jpeg_file mj_decode_jpeg_to_buffer at hd
    cases hr : files f with
    | none =>
      rw [hr] at hd
      exact absurd hd (by simp)
    | some r =>
      rw [hr] at hd
      simp only at hd
      obtain ⟨d', hd', hw, hh, hb, -, -, -, halpha⟩ :=
        mj_read_jpegdropon_from_raw_rgb (R := R) r.1 bl r.2.1 r.2.2
      rw [hd] at hd'
      cases hd'
      refine ⟨hb, fun j hj => ?_⟩
      rw [hw, hh] at hj
      rw [halpha, if_pos hj, hb]
  refine ⟨rfl, fun d hd => ?_, ?_⟩
  · obtain ⟨hb, halpha⟩ := key read_rgb filename (some mask) blend d hd
    refine ⟨hb, ?_, halpha⟩
    rw [hb]
    unfold MODJPEG_BLEND_NONUNIFORM
    omega
  · obtain ⟨d, hd, hw, hh, -⟩ :=
      mj_read_jpegdropon_from_raw_rgb (R := R) sample_rawdata 255 2 1
    have hfile : mj_read_jpegdropon_from_jpeg_file sample_files "./images/logo.jpg"
        (some "./images/mask.jpg") 255 = some d := by
      unfold mj_read_jpegdropon_from_jpeg_file mj_decode_jpeg_to_buffer sample_files
      rw [if_pos rfl]
      exact hd
    obtain ⟨hb, halpha⟩ := key _ _ _ _ d hfile
    have hb' : d.blend = 255 := by
      rw [hb]
      decide
    refine ⟨d, hfile, hb', hw, hh, fun j hj => ?_⟩
    rw [halpha j (by rw [hw, hh]; omega), hb']

/-! ## Reading and writing: the loops over the blocks -/

theorem same_geometry_refl (m : modjpeg_jpegimage_t) : same_geometry m m :=
  ⟨rfl, rfl, rfl, rfl, rfl, rfl, rfl, fun _ => ⟨rfl, rfl⟩⟩

theorem same_geometry_trans {m s t : modjpeg_jpegimage_t} (h1 : same_geometry m s)
    (h2 : same_geometry s t) : same_geometry m t := by
  obtain ⟨a1, a2, a3, a4, a5, a6, a7, a9⟩ := h1
  obtain ⟨b1, b2, b3, b4, b5, b6, b7, b9⟩ := h2
  exact ⟨b1.trans a1, b2.trans a2, b3.trans a3, b4.trans a4, b5.trans a5, b6.trans a6,
    b7.trans a7, fun c => ⟨(b9 c).1.trans (a9 c).1, (b9 c).2.trans (a9 c).2⟩⟩

theorem same_geometry_of_same_header {m s : modjpeg_jpegimage_t} (h : same_header m s) :
    same_geometry m s := by
  obtain ⟨a1, a2, a3, a4, a5, a6, a7, -, a9⟩ := h
  exact ⟨a1, a2, a3, a4, a5, a6, a7, a9⟩

/-- Images of the same geometry have the same visited blocks. -/
theorem visited_of_same_geometry {m s : modjpeg_jpegimage_t} (h : same_geometry m s)
    (c row col : Nat) : visited s c row col ↔ visited m c row col := by
  obtain ⟨a1, a2, a3, a4, -, a6, a7, -⟩ := h
  unfold visited
  rw [a1, a2, a3, a4, a6, a7]

/-- A loop over the blocks `k < w` of row `l` of component `c` that replaces each block by
`op` of it: the blocks of the row are replaced, every other block is left. -/
theorem visit_row (op : (Nat → Int) → Nat → Int) (c l : Nat) (m : modjpeg_jpegimage_t)
    (w : Nat) :
    same_header m
        ((List.range w).foldl (fun m k => write_block m c l k (op ((m.coef c).blk l k))) m)
      ∧ ∀ c' row col,
        ((((List.range w).foldl (fun m k => write_block m c l k (op ((m.coef c).blk l k))) m).coef
            c').blk row col)
          = if c' = c ∧ row = l ∧ col < w then op ((m.coef c).blk row col)
            else (m.coef c').blk row col := by
  induction w with
  | zero =>
    refine ⟨same_header_refl m, fun c' row col => ?_⟩
    rw [if_neg (by omega)]
    rfl
  | succ w ih =>
    simp only [List.range_succ, List.foldl_append, List.foldl_cons, List.foldl_nil]
    generalize (List.range w).foldl
      (fun m k => write_block m c l k (op ((m.coef c).blk l k))) m = r at ih
    obtain ⟨hh, hb⟩ := ih
    refine ⟨same_header_trans hh (same_header_write_block _ _ _ _ _), fun c' row col => ?_⟩
    rw [write_block_blk, hb c l w, hb c' row col]
    by_cases h1 : c' = c ∧ row = l ∧ col = w
    · obtain ⟨e1, e2, e3⟩ := h1
      subst e1 e2 e3
      rw [if_pos ⟨rfl, rfl, rfl⟩, if_neg (by omega), if_pos ⟨rfl, rfl, by omega⟩]
    · rw [if_neg h1]
      by_cases h2 : c' = c ∧ row = l ∧ col < w
      · rw [if_pos h2, if_pos ⟨h2.1, h2.2.1, by omega⟩]
      · rw [if_neg h2, if_neg (fun h3 => ?_)]
        obtain ⟨e1, e2, e3⟩ := h3
        rcases Nat.lt_succ_iff_lt_or_eq.mp e3 with e4 | e4
        · exact h2 ⟨e1, e2, e4⟩
        · exact h1 ⟨e1, e2, e4⟩

/-- The two nested loops over the blocks `l < h`, `k < w` of component `c`. -/
theorem visit_rows (op : (Nat → Int) → Nat → Int) (c w : Nat) (m : modjpeg_jpegimage_t)
    (h : Nat) :
    same_header m
        ((List.range h).foldl
          (fun m l =>
            (List.range w).foldl (fun m k => write_block m c l k (op ((m.coef c).blk l k))) m)
          m)
      ∧ ∀ c' row col,
        ((((List.range h).foldl
          (fun m l =>
            (List.range w).foldl (fun m k => write_block m c l k (op ((m.coef c).blk l k))) m)
          m).coef c').blk row col)
          = if c' = c ∧ row < h ∧ col < w then op ((m.coef c).blk row col)
            else (m.coef c').blk row col := by
  induction h with
  | zero =>
    refine ⟨same_header_refl m, fun c' row col => ?_⟩
    rw [if_neg (by omega)]
    rfl
  | succ h ih =>
    simp only [List.range_succ, List.foldl_append, List.foldl_cons, List.foldl_nil]
    generalize (List.range h).foldl
      (fun m l =>
        (List.range w).foldl (fun m k => write_block m c l k (op ((m.coef c).blk l k))) m)
      m = r at ih
    obtain ⟨hh, hb⟩ := ih
    obtain ⟨hh2, hb2⟩ := visit_row op c h r w
    refine ⟨same_header_trans hh hh2, fun c' row col => ?_⟩
    rw [hb2 c' row col, hb c' row col, hb c row col]
    by_cases h1 : c' = c ∧ row = h ∧ col < w
    · obtain ⟨e1, e2, e3⟩ := h1
      subst e1 e2
      rw [if_pos ⟨rfl, rfl, e3⟩, if_neg (by omega), if_pos ⟨rfl, by omega, e3⟩]
    · rw [if_neg h1]
      by_cases h2 : c' = c ∧ row < h ∧ col < w
      · rw [if_pos h2, if_pos ⟨h2.1, by omega, h2.2.2⟩]
      · rw [if_neg h2, if_neg (fun h3 => ?_)]
        obtain ⟨e1, e2, e3⟩ := h3
        rcases Nat.lt_succ_iff_lt_or_eq.mp e2 with e4 | e4
        · exact h2 ⟨e1, e4, e3⟩
        · exact h1 ⟨e1, e4, e3⟩

/-- One component of `mj_read_jpegimage_from_mem`: the blocks of the component that the loops
visit are dequantised, every other block is left. -/
theorem read_component_blocks (m : modjpeg_jpegimage_t) (c : Nat) :
    same_geometry m (read_component m c)
      ∧ ∀ c' row col,
        ((read_component m c).coef c').blk row col
          = if c' = c
              ∧ row < m.image_height / (m.max_v_samp_factor * DCTSIZE)
                  * (m.comp_info c).v_samp_factor
              ∧ col < m.image_width / (m.max_h_samp_factor * DCTSIZE)
                  * (m.comp_info c).h_samp_factor
            then dequantise_block (m.comp_info c).quantval ((m.coef c).blk row col)
            else (m.coef c').blk row col := by
  unfold read_component
  simp only
  obtain ⟨hh, hb⟩ := visit_rows (dequantise_block (m.comp_info c).quantval) c
    (m.image_width / (m.max_h_samp_factor * DCTSIZE) * (m.comp_info c).h_samp_factor)
    { m with samp_factor := fun c' =>
        if c' = c then
          { h_samp_factor := (m.comp_info c).h_samp_factor,
            v_samp_factor := (m.comp_info c).v_samp_factor }
        else m.samp_factor c' }
    (m.image_height / (m.max_v_samp_factor * DCTSIZE) * (m.comp_info c).v_samp_factor)
  have hg := same_geometry_of_same_header hh
  refine ⟨same_geometry_trans ?_ hg, hb⟩
  exact ⟨rfl, rfl, rfl, rfl, rfl, rfl, rfl, fun _ => ⟨rfl, rfl⟩⟩

/-- One component of `mj_write_jpegimage_to_buffer`: the blocks of the component that the
loops visit are requantised, every other block is left. -/
theorem write_component_blocks (m : modjpeg_jpegimage_t) (c : Nat) :
    same_geometry m (write_component m c)
      ∧ ∀ c' row col,
        ((write_component m c).coef c').blk row col
          = if c' = c
              ∧ row < m.image_height / (m.max_v_samp_factor * DCTSIZE)
                  * (m.comp_info c).v_samp_factor
              ∧ col < m.image_width / (m.max_h_samp_factor * DCTSIZE)
                  * (m.comp_info c).h_samp_factor
            then requantise_block (m.comp_info c).quantval ((m.coef c).blk row col)
            else (m.coef c').blk row col := by
  unfold write_component
  simp only
  obtain ⟨hh, hb⟩ := visit_rows (requantise_block (m.comp_info c).quantval) c
    (m.image_width / (m.max_h_samp_factor * DCTSIZE) * (m.comp_info c).h_samp_factor) m
    (m.image_height / (m.max_v_samp_factor * DCTSIZE) * (m.comp_info c).v_samp_factor)
  exact ⟨same_geometry_of_same_header hh, hb⟩

/-- A loop over the components `c < n` whose step replaces each visited block of component
`c` by `op` of the component's quantisation values and the block. -/
theorem visit_components (step : modjpeg_jpegimage_t → Nat → modjpeg_jpegimage_t)
    (op : (Nat → Int) → (Nat → Int) → Nat → Int)
    (hstep : ∀ m c, same_geometry m (step m c)
      ∧ ∀ c' row col,
        ((step m c).coef c').blk row col
          = if c' = c
              ∧ row < m.image_height / (m.max_v_samp_factor * DCTSIZE)
                  * (m.comp_info c).v_samp_factor
              ∧ col < m.image_width / (m.max_h_samp_factor * DCTSIZE)
                  * (m.comp_info c).h_samp_factor
            then op (m.comp_info c).quantval ((m.coef c).blk row col)
            else (m.coef c').blk row col)
    (m : modjpeg_jpegimage_t) (n : Nat) :
    same_geometry m ((List.range n).foldl step m)
      ∧ ∀ c' row col,
        (((List.range n).foldl step m).coef c').blk row col
          = if c' < n
              ∧ row < m.image_height / (m.max_v_samp_factor * DCTSIZE)
                  * (m.comp_info c').v_samp_factor
              ∧ col < m.image_width / (m.max_h_samp_factor * DCTSIZE)
                  * (m.comp_info c').h_samp_factor
            then op (m.comp_info c').quantval ((m.coef c').blk row col)
            else (m.coef c').blk row col := by
  induction n with
  | zero =>
    refine ⟨same_geometry_refl m, fun c' row col => ?_⟩
    rw [if_neg (by omega)]
    rfl
  | succ n ih =>
    simp only [List.range_succ, List.foldl_append, List.foldl_cons, List.foldl_nil]
    generalize (List.range n).foldl step m = r at ih
    obtain ⟨hg, hb⟩ := ih
    obtain ⟨hg2, hb2⟩ := hstep r n
    refine ⟨same_geometry_trans hg hg2, fun c' row col => ?_⟩
    obtain ⟨a1, a2, a3, a4, -, -, a7, -⟩ := hg
    rw [hb2 c' row col, hb c' row col, hb n row col, a1, a2, a3, a4, a7]
    by_cases h1 : c' = n
    · subst h1
      rw [if_neg (fun h3 : c' < c' ∧ _ => absurd h3.1 (Nat.lt_irrefl _))]
      by_cases h2 : row < m.image_height / (m.max_v_samp_factor * DCTSIZE)
            * (m.comp_info c').v_samp_factor
          ∧ col < m.image_width / (m.max_h_samp_factor * DCTSIZE)
            * (m.comp_info c').h_samp_factor
      · rw [if_pos ⟨rfl, h2⟩, if_pos ⟨Nat.lt_succ_self _, h2⟩]
      · rw [if_neg (fun h3 => h2 h3.2), if_neg (fun h3 => h2 h3.2)]
    · rw [if_neg (fun h3 => h1 h3.1)]
      by_cases h2 : c' < n
          ∧ row < m.image_height / (m.max_v_samp_factor * DCTSIZE)
            * (m.comp_info c').v_samp_factor
          ∧ col < m.image_width / (m.max_h_samp_factor * DCTSIZE)
            * (m.comp_info c').h_samp_factor
      · rw [if_pos h2, if_pos ⟨Nat.lt_succ_of_lt h2.1, h2.2⟩]
      · rw [if_neg h2, if_neg (fun h3 => h2 ⟨by omega, h3.2⟩)]

/-- The loops of `mj_read_jpegimage_from_mem`: every visited block is dequantised, every
other block is left. -/
theorem dequantise_blocks (m : modjpeg_jpegimage_t) :
    same_geometry m (dequantise m)
      ∧ ∀ c row col,
        ((dequantise m).coef c).blk row col
          = if visited m c row col
            then dequantise_block (m.comp_info c).quantval ((m.coef c).blk row col)
            else (m.coef c).blk row col :=
  visit_components read_component dequantise_block read_component_blocks m m.num_components

/-- The loops of `mj_write_jpegimage_to_buffer`: every visited block is requantised, every
other block is left. -/
theorem requantise_blocks (m : modjpeg_jpegimage_t) :
    same_geometry m (requantise m)
      ∧ ∀ c row col,
        ((requantise m).coef c).blk row col
          = if visited m c row col
            then requantise_block (m.comp_info c).quantval ((m.coef c).blk row col)
            else (m.coef c).blk row col :=
  visit_components write_component requantise_block write_component_blocks m m.num_components

/-- Dividing the dequantised coefficient by a quantisation value that is not `0` gives the
coefficient back. -/
theorem requantise_dequantise_block (quantval coefs : Nat → Int) (i : Nat)
    (hq : quantval i ≠ 0) :
    requantise_block quantval (dequantise_block quantval coefs) i = coefs i := by
  unfold requantise_block dequantise_block
  by_cases hi : i < DCTSIZE2
  · rw [if_pos hi, if_pos hi]
    exact Int.mul_tdiv_cancel _ hq
  · rw [if_neg hi, if_neg hi]

/-- C14, decoding and encoding without a change in between is the identity on coefficients:
for every component, block and index `i` with the quantisation value `q[i] ≥ 1`, the
coefficient that the loops of `mj_write_jpegimage_to_buffer` leave for the encoder, after the
loops of `mj_read_jpegimage_from_mem`, is the decoded coefficient; and the write loops visit
exactly the blocks that the read loops visited. Coefficients are unbounded integers here, so
the product `c[i] * q[i]` is stored as it is. -/
theorem decode_encode_identity (m : modjpeg_jpegimage_t) (c row col i : Nat)
    (hq : 1 ≤ (m.comp_info c).quantval i) :
    ((requantise (dequantise m)).coef c).blk row col i = (m.coef c).blk row col i
      ∧ (visited (dequantise m) c row col ↔ visited m c row col) := by
  obtain ⟨hg, hb⟩ := dequantise_blocks m
  obtain ⟨-, hb2⟩ := requantise_blocks (dequantise m)
  have hv := visited_of_same_geometry hg c row col
  refine ⟨?_, hv⟩
  rw [hb2 c row col, hb c row col]
  by_cases h : visited m c row col
  · rw [if_pos (hv.2 h), if_pos h, hg.2.2.2.2.2.2.1]
    exact requantise_dequantise_block _ _ i (by omega)
  · rw [if_neg (fun h2 => h (hv.1 h2)), if_neg h]

theorem decode_encode_identity_witness :
    (1 : Int) ≤ (sample_quantised.comp_info 0).quantval 5
      ∧ ((dequantise sample_quantised).coef 0).blk 0 1 5 = 56
      ∧ ((requantise (dequantise sample_quantised)).coef 0).blk 0 1 5 = 8
      ∧ (sample_quantised.coef 0).blk 0 1 5 = 8 :=
  ⟨by decide, by decide,
    ((decode_encode_identity sample_quantised 0 0 1 5 (by decide)).1.trans (by decide)),
    by decide⟩

/-! ## The mask operator and the kernel: further claims -/

/-- C11, evaluated: the operator that `mj_read_jpegmask_from_mem` computes does not have the
64 entries `b[i*8+j] = coef[i*8+j] * c(i) * c(j) / 1020`. Whatever the alpha block, entry
`b[9]` is `0` and entry `b[8]` holds `coef[15] * (1/2) * (1/2) / 1020`; for the alpha block
with the single coefficient `8` at index `9` the formula gives `b[9] = 1/510`. The entries
`b[0..7]` of row `0` are those of the formula. -/
theorem mask_operator_misses_rows (A : Nat → Int) :
    mask_operator (Real.sqrt 2 / 4) A 9 = 0
      ∧ mask_operator (Real.sqrt 2 / 4) A 8 = (A 15 : ℝ) * (0.5 * 0.5 / 1020)
      ∧ mask_operator (Real.sqrt 2 / 4) ripple_mask 9 = 0
      ∧ spec_mask_operator (Real.sqrt 2) ripple_mask 9 = 1 / 510
      ∧ ∀ n, n < 8 →
          mask_operator (Real.sqrt 2 / 4) A n = spec_mask_operator (Real.sqrt 2) A n := by
  refine ⟨?_, ?_, ?_, ?_, fun n hn => ?_⟩
  · rw [mask_operator_entries]
    simp
  · rw [mask_operator_entries]
    simp
  · rw [mask_operator_entries]
    simp
  · unfold spec_mask_operator mask_shift_dc store dct_scale ripple_mask
    norm_num
  · rw [mask_operator_entries]
    unfold spec_mask_operator mask_shift_dc store dct_scale
    by_cases h0 : n = 0
    · subst h0
      simp
    · have e1 : n / 8 = 0 := by omega
      have e2 : n % 8 = n := by omega
      rw [if_neg h0, if_pos hn, e1, e2, if_pos rfl, if_neg h0, if_neg h0]
      norm_num

/-- C12, linearity of the kernel: for all blocks `X`, `X'`, scalars `α`, `β`, every weight `w`
and `k`, `l` in `0..7`, over the reals, the amount that `mj_convolve(αX + βX', Y, w, k, l)`
adds to an entry of `Y` is `α` times the amount added for `X` plus `β` times the amount added
for `X'`; and the amount added with the weight `w` is `w` times the amount added with the
weight `1`. -/
theorem convolve_linear (X X' Y : Nat → ℝ) (α β w : ℝ) (k l n : Nat) (hk : k < 8) (hl : l < 8)
    (hn : n < 64) :
    mj_convolve (Real.sqrt 2) (fun i => α * X i + β * X' i) Y w (k : Int) (l : Int) n - Y n
        = α * (mj_convolve (Real.sqrt 2) X Y w (k : Int) (l : Int) n - Y n)
          + β * (mj_convolve (Real.sqrt 2) X' Y w (k : Int) (l : Int) n - Y n)
      ∧ mj_convolve (Real.sqrt 2) X Y w (k : Int) (l : Int) n - Y n
        = w * (mj_convolve (Real.sqrt 2) X Y 1 (k : Int) (l : Int) n - Y n) := by
  have hlin : (∑ a in Finset.range 8, stencil_coef (Real.sqrt 2) k (n / 8) a
        * ∑ u in Finset.range 8, stencil_coef (Real.sqrt 2) l (n % 8) u
          * (α * X (8 * a + u) + β * X' (8 * a + u)))
      = α * (∑ a in Finset.range 8, stencil_coef (Real.sqrt 2) k (n / 8) a
          * ∑ u in Finset.range 8, stencil_coef (Real.sqrt 2) l (n % 8) u * X (8 * a + u))
        + β * (∑ a in Finset.range 8, stencil_coef (Real.sqrt 2) k (n / 8) a
          * ∑ u in Finset.range 8, stencil_coef (Real.sqrt 2) l (n % 8) u * X' (8 * a + u)) := by
    simp only [Finset.mul_sum, ← Finset.sum_add_distrib]
    refine Finset.sum_congr rfl fun a _ => ?_
    refine Finset.sum_congr rfl fun u _ => ?_
    ring
  rw [mj_convolve_stencil _ _ Y w k l hk hl n hn, mj_convolve_stencil _ X Y w k l hk hl n hn,
    mj_convolve_stencil _ X' Y w k l hk hl n hn, mj_convolve_stencil _ X Y 1 k l hk hl n hn]
  constructor
  · simp only [add_sub_cancel_left]
    rw [hlin]
    ring
  · ring

theorem convolve_linear_witness :
    mj_convolve (Real.sqrt 2) (fun i => 2 * impulse 0 i + 3 * impulse 1 i) (fun _ => 0) 5
        ((1 : Nat) : Int) ((2 : Nat) : Int) 7 - (fun _ => (0 : ℝ)) 7
      = 2 * (mj_convolve (Real.sqrt 2) (impulse 0) (fun _ => 0) 5 ((1 : Nat) : Int)
            ((2 : Nat) : Int) 7 - (fun _ => (0 : ℝ)) 7)
        + 3 * (mj_convolve (Real.sqrt 2) (impulse 1) (fun _ => 0) 5 ((1 : Nat) : Int)
            ((2 : Nat) : Int) 7 - (fun _ => (0 : ℝ)) 7) :=
  (convolve_linear (impulse 0) (impulse 1) (fun _ => 0) 2 3 5 1 2 7 (by decide) (by decide)
    (by decide)).1

/-- C13, zero weight: for every `X`, `Y` and every `k`, `l`, in or out of `0..7`,
`mj_convolve(X, Y, 0, k, l)` returns with `Y` unchanged. The block `X` is only read by
`mj_convolve`, for every weight. -/
theorem zero_weight_noop {R : Type} [Field R] [DecidableEq R] (M_SQRT2 : R) (X Y : Nat → R)
    (k l : Int) : mj_convolve M_SQRT2 X Y 0 k l = Y :=
  mj_convolve_weight_zero M_SQRT2 X Y k l

/-! ## The reload check of `mj_compose` -/

/-- The flag `reload` of `mj_compose` is set exactly when the dropon has no cached image, or
the colour spaces differ, or the sampling factors of some component of the host differ. -/
theorem needs_reload_iff {R : Type} (m : modjpeg_jpegimage_t) (d : modjpeg_jpegdropon_t R) :
    needs_reload m d = true
      ↔ d.image = none
        ∨ ∃ x, d.image = some x
          ∧ (m.jpeg_color_space ≠ x.jpeg_color_space
            ∨ ∃ c, c < m.num_components
              ∧ ((m.comp_info c).h_samp_factor ≠ (x.comp_info c).h_samp_factor
                ∨ (m.comp_info c).v_samp_factor ≠ (x.comp_info c).v_samp_factor)) := by
  unfold needs_reload
  cases hx : d.image with
  | none => simp
  | some x =>
    simp only [Bool.or_eq_true, decide_eq_true_eq, List.any_eq_true, List.mem_range, false_or,
      Option.some.injEq, exists_eq_left', reduceCtorEq]

/-- C19, the reload check: `mj_compose` calls `mj_update_jpegdropon` with the host's sampling
factors if and only if the dropon has no cached image, or the host's colour space differs
from the cached image's, or for some component `c < num_components` of the host the sampling
factors differ from those of component `c` of the cached image; otherwise the dropon, with its
cached image and mask, is used as it is. The dropon that `mj_compose` composes with, and
hands back, is the one after this check. -/
theorem reload_check {R : Type} [LinearOrderedField R] [FloorRing R] (M_SQRT2 c0 : R)
    (codec : Codec) (m : modjpeg_jpegimage_t) (d : modjpeg_jpegdropon_t R)
    (ah av ox oy : Int) :
    (needs_reload m d = true
      ↔ d.image = none
        ∨ ∃ x, d.image = some x
          ∧ (m.jpeg_color_space ≠ x.jpeg_color_space
            ∨ ∃ c, c < m.num_components
              ∧ ((m.comp_info c).h_samp_factor ≠ (x.comp_info c).h_samp_factor
                ∨ (m.comp_info c).v_samp_factor ≠ (x.comp_info c).v_samp_factor)))
    ∧ (needs_reload m d = true →
        dropon_after_reload c0 codec m d = mj_update_jpegdropon c0 codec d m.samp_factor)
    ∧ (needs_reload m d = false → dropon_after_reload c0 codec m d = d)
    ∧ (∀ r, mj_compose M_SQRT2 c0 codec m d ah av ox oy = some r →
        r.2.2 = dropon_after_reload c0 codec m d) := by
  have hkeep : needs_reload m d = false → dropon_after_reload c0 codec m d = d := by
    intro h
    unfold dropon_after_reload
    rw [h]
    rfl
  refine ⟨needs_reload_iff m d, ?_, hkeep, ?_⟩
  · intro h
    unfold dropon_after_reload
    rw [h]
    rfl
  · intro r hr
    unfold mj_compose at hr
    simp only at hr
    generalize dropon_after_reload c0 codec m d = d' at hr
    split at hr
    · simp only [Option.some.injEq] at hr
      rw [← hr]
    · split at hr
      · split at hr
        · split at hr
          · simp at hr
          · simp only [Option.some.injEq] at hr
            rw [← hr]
        · simp at hr
      · split at hr
        · split at hr
          · simp at hr
          · simp only [Option.some.injEq] at hr
            rw [← hr]
        · simp at hr

/-! ## Repeated calls of `mj_compose` -/

/-- The adapter is not told the host's colour space: hosts with the same array `samp_factor`
get the same dropon from `mj_update_jpegdropon`. -/
theorem mj_update_jpegdropon_color_space {R : Type} [Field R] (c0 : R) (codec : Codec)
    (d : modjpeg_jpegdropon_t R) (m : modjpeg_jpegimage_t) (jpeg_color_space : Nat) :
    mj_update_jpegdropon c0 codec d (with_color_space m jpeg_color_space).samp_factor
      = mj_update_jpegdropon c0 codec d m.samp_factor := rfl

/-- After a reload, the check of the next call cannot pass both for a host and for the host
with the next colour space. -/
theorem reload_again {R : Type} [Field R] (c0 : R) (codec : Codec)
    (d : modjpeg_jpegdropon_t R) (m : modjpeg_jpegimage_t) :
    needs_reload m (mj_update_jpegdropon c0 codec d m.samp_factor) = true
      ∨ needs_reload (with_color_space m (m.jpeg_color_space + 1))
          (mj_update_jpegdropon c0 codec d
            (with_color_space m (m.jpeg_color_space + 1)).samp_factor) = true := by
  rw [mj_update_jpegdropon_color_space]
  generalize mj_update_jpegdropon c0 codec d m.samp_factor = d'
  unfold needs_reload with_color_space
  cases d'.image with
  | none => exact Or.inl rfl
  | some x =>
    simp only
    by_cases h : m.jpeg_color_space = x.jpeg_color_space
    · right
      have h2 : m.jpeg_color_space + 1 ≠ x.jpeg_color_space := by omega
      simp [h2]
    · left
      simp [h]

/-- C20, evaluated: the adapter does not run once per host signature. For every codec and
every dropon, of a host and the host that differs from it in the colour space alone at least
one is reloaded again by the call that follows a reload for it: `mj_update_jpegdropon` is
given the sampling factors only, so the cached image cannot have the colour space of both.
With a codec that encodes RGB samples as `JCS_YCbCr`, as libjpeg does by default, a host in
the colour space `JCS_RGB` with three components of sampling `1 × 1` is reloaded by the first
call and again by the second call on the same host, and the cached image has the colour space
`JCS_YCbCr` after each. -/
theorem adapter_runs_again :
    (∀ (codec : Codec) (d : modjpeg_jpegdropon_t ℚ) (m : modjpeg_jpegimage_t),
      needs_reload m (mj_update_jpegdropon (1 : ℚ) codec d m.samp_factor) = true
        ∨ needs_reload (with_color_space m (m.jpeg_color_space + 1))
            (mj_update_jpegdropon (1 : ℚ) codec d
              (with_color_space m (m.jpeg_color_space + 1)).samp_factor) = true)
    ∧ ∃ d0 d1 d2 : modjpeg_jpegdropon_t ℚ,
        mj_read_jpegdropon_from_raw (some sample_rawdata) 0 MODJPEG_COLORSPACE_RGB 8 8 = some d0
        ∧ needs_reload sample_rgb_host d0 = true
        ∧ mj_compose (1 : ℚ) 1 sample_codec sample_rgb_host d0 MODJPEG_ALIGN_LEFT
            MODJPEG_ALIGN_TOP 0 0 = some (0, sample_rgb_host, d1)
        ∧ needs_reload sample_rgb_host d1 = true
        ∧ mj_compose (1 : ℚ) 1 sample_codec sample_rgb_host d1 MODJPEG_ALIGN_LEFT
            MODJPEG_ALIGN_TOP 0 0 = some (0, sample_rgb_host, d2)
        ∧ needs_reload sample_rgb_host d2 = true
        ∧ d1.image.map (fun x => x.jpeg_color_space) = some JCS_YCbCr
        ∧ d2.image.map (fun x => x.jpeg_color_space) = some JCS_YCbCr
        ∧ sample_rgb_host.jpeg_color_space = JCS_RGB := by
  refine ⟨fun codec d m => reload_again 1 codec d m, ?_⟩
  obtain ⟨d0, hd0, -, -, hb, himage, -⟩ :=
    mj_read_jpegdropon_from_raw_rgb (R := ℚ) sample_rawdata 0 8 8
  have hb0 : d0.blend = MODJPEG_BLEND_NONE := by
    rw [hb]
    decide
  have hr0 : needs_reload sample_rgb_host d0 = true := by
    unfold needs_reload
    rw [himage]
  have hstep : ∀ d : modjpeg_jpegdropon_t ℚ, d.width = 8 → d.height = 8 →
      needs_reload sample_rgb_host d = true →
      (dropon_after_reload 1 sample_codec sample_rgb_host d).width = 8
      ∧ (dropon_after_reload 1 sample_codec sample_rgb_host d).height = 8
      ∧ needs_reload sample_rgb_host (dropon_after_reload 1 sample_codec sample_rgb_host d)
          = true
      ∧ (dropon_after_reload 1 sample_codec sample_rgb_host d).image.map
          (fun x => x.jpeg_color_space) = some JCS_YCbCr := by
    intro d hw hh hr
    unfold dropon_after_reload
    rw [if_pos hr]
    unfold mj_update_jpegdropon
    simp only [hw, hh]
    exact ⟨trivial, trivial, rfl, rfl⟩
  obtain ⟨hw1, hh1, hr1, hc1⟩ := hstep d0 (by
    obtain ⟨d', hd', hw, -⟩ := mj_read_jpegdropon_from_raw_rgb (R := ℚ) sample_rawdata 0 8 8
    rw [hd0] at hd'
    cases hd'
    exact hw) (by
    obtain ⟨d', hd', -, hh, -⟩ := mj_read_jpegdropon_from_raw_rgb (R := ℚ) sample_rawdata 0 8 8
    rw [hd0] at hd'
    cases hd'
    exact hh) hr0
  have hb1 : (dropon_after_reload 1 sample_codec sample_rgb_host d0).blend
      = MODJPEG_BLEND_NONE := by
    rw [dropon_after_reload_blend, hb0]
  obtain ⟨-, -, hr2, hc2⟩ := hstep _ hw1 hh1 hr1
  exact ⟨d0, _, _, hd0, hr0, mj_compose_blend_none 1 1 sample_codec sample_rgb_host d0 _ _ 0 0 hb0,
    hr1, mj_compose_blend_none 1 1 sample_codec sample_rgb_host _ _ _ 0 0 hb1, hr2, hc1, hc2, rfl⟩

/-! ## The host's extent and the offsets -/

/-- The comparison of `unsigned int` values in the computation of the host's extent: for
`a ≤ dim < 2^32` and `half < 2^32`, `a < dim - half` modulo `2^32` holds exactly when the
subtraction wraps or `a + half < dim`. -/
theorem unsigned_lt_iff (a dim half : Nat) (ha : a ≤ dim) (hdim : dim < 4294967296)
    (hhalf : half < 4294967296) :
    ((a : Int) % 4294967296 < ((dim : Int) - (half : Int)) % 4294967296)
      ↔ (dim < half ∨ a + half < dim) := by
  have h1 : (a : Int) % 4294967296 = (a : Int) :=
    Int.emod_eq_of_lt (by omega) (by omega)
  rw [h1]
  by_cases h : dim < half
  · have h2 : ((dim : Int) - (half : Int)) % 4294967296
        = (dim : Int) - (half : Int) + 4294967296 := by
      rw [← Int.add_mul_emod_self (a := (dim : Int) - (half : Int)) (b := 1) (c := 4294967296)]
      rw [one_mul]
      exact Int.emod_eq_of_lt (by omega) (by omega)
    rw [h2]
    constructor
    · intro _
      exact Or.inl h
    · intro _
      omega
  · have h2 : ((dim : Int) - (half : Int)) % 4294967296 = (dim : Int) - (half : Int) :=
      Int.emod_eq_of_lt (by omega) (by omega)
    rw [h2]
    constructor
    · intro h3
      right
      omega
    · rintro (h3 | h3)
      · exact absurd h3 h
      · omega

/-- The extent that both compositors compute for a host dimension below `2^32` and a maximum
sampling factor up to `4`: the floor of `dim / (8·max)`, raised by one when `dim` is below
half a unit or the remainder exceeds half a unit. -/
theorem host_blocks_eq (dim max_samp_factor : Nat) (h4 : max_samp_factor ≤ 4)
    (hdim : dim < 4294967296) :
    host_blocks dim max_samp_factor
      = if dim < 4 * max_samp_factor ∨ 4 * max_samp_factor < dim % (8 * max_samp_factor)
        then dim / (8 * max_samp_factor) + 1
        else dim / (8 * max_samp_factor) := by
  unfold host_blocks DCTSIZE
  simp only
  have hdm := Nat.div_add_mod dim (8 * max_samp_factor)
  have hp : dim / (max_samp_factor * 8) * max_samp_factor * 8
      = 8 * max_samp_factor * (dim / (8 * max_samp_factor)) := by
    rw [Nat.mul_comm max_samp_factor 8]
    ring
  have hq : dim / (max_samp_factor * 8) = dim / (8 * max_samp_factor) := by
    rw [Nat.mul_comm]
  rw [hq]
  refine if_congr ?_ rfl rfl
  rw [← hq, unsigned_lt_iff _ dim _ (by rw [hp]; omega) hdim (by omega), hp]
  generalize 8 * max_samp_factor * (dim / (8 * max_samp_factor)) = p at hdm
  generalize dim % (8 * max_samp_factor) = r at hdm
  omega

/-- C23, as stated, fails: for a host of width `9` with the maximum sampling factor `1` both
compositors compute `H_blocks = 1`, while `⌈9 / 8⌉ = 2`; the same holds for a height of `9`. -/
theorem host_extent_not_ceiling :
    host_blocks 9 1 = 1 ∧ ceil_div 9 (8 * 1) = 2 ∧ host_blocks 9 1 ≠ ceil_div 9 (8 * 1) := by
  decide

/-- C23, amended: for every host dimension `W < 2^32` (width or height) and maximum sampling
factor in `1..4`, the extent that both compositors compute is `⌊W / (8·max)⌋ + 1` when
`W < 4·max` or the remainder `W mod (8·max)` exceeds `4·max`, and `⌊W / (8·max)⌋` otherwise;
it is the ceiling `⌈W / (8·max)⌉` exactly when, for `W ≥ 4·max`, the remainder is `0` or exceeds
`4·max`. -/
theorem host_extent_rounds (W max_samp_factor : Nat) (h1 : 1 ≤ max_samp_factor)
    (h4 : max_samp_factor ≤ 4) (hW : W < 4294967296) :
    host_blocks W max_samp_factor
        = (if W < 4 * max_samp_factor ∨ 4 * max_samp_factor < W % (8 * max_samp_factor)
          then W / (8 * max_samp_factor) + 1
          else W / (8 * max_samp_factor))
      ∧ (4 * max_samp_factor ≤ W →
          (host_blocks W max_samp_factor = ceil_div W (8 * max_samp_factor)
            ↔ W % (8 * max_samp_factor) = 0
              ∨ 4 * max_samp_factor < W % (8 * max_samp_factor))) := by
  refine ⟨host_blocks_eq W max_samp_factor h4 hW, fun hge => ?_⟩
  rw [host_blocks_eq W max_samp_factor h4 hW]
  unfold ceil_div
  have hcases : max_samp_factor = 1 ∨ max_samp_factor = 2 ∨ max_samp_factor = 3
      ∨ max_samp_factor = 4 := by omega
  rcases hcases with rfl | rfl | rfl | rfl
  all_goals
    simp only [Nat.reduceMul] at hge ⊢
    split
    · omega
    · omega

theorem host_extent_rounds_witness :
    host_blocks 645 2 = 40 ∧ host_blocks 650 2 = 41 ∧ ceil_div 645 16 = 41 :=
  ⟨((host_extent_rounds 645 2 (by decide) (by decide) (by decide)).1.trans (by decide)),
    by decide, by decide⟩

/-! ## The destination manager -/

/-- The destination manager after `modjpeg_init_destination` and `n` full buffers. -/
theorem dest_after_eq (n : Nat) :
    dest_after n
      = { allocated := 2048 * (n + 1), size := 2048 * (n + 1), next_output_byte := 2048 * n,
          free_in_buffer := 2048 } := by
  unfold dest_after
  induction n with
  | zero => rfl
  | succ n ih =>
    rw [Function.iterate_succ_apply', ih]
    simp only [fill_and_empty, modjpeg_empty_output_buffer, emit_bytes,
      MODJPEG_DESTBUFFER_CHUNKSIZE, modjpeg_dest_mgr.mk.injEq]
    exact ⟨by omega, by omega, by omega, trivial⟩

/-- C30, output buffer accounting: after `modjpeg_init_destination` and `n` calls of
`modjpeg_empty_output_buffer`, each on a full buffer, `size = 2048·(n + 1)`, the write offset is
`size − 2048` and `free_in_buffer = 2048`; after `modjpeg_term_destination` with `f ≤ 2048`
bytes still free the reported length `size` is `2048·(n + 1) − f`, which is the number of bytes
the codec has stored, `2048·n` in the full buffers and `2048 − f` in the last one, it is the
write offset, and it does not exceed the allocated size. -/
theorem output_buffer_accounting (n f : Nat) (hf : f ≤ 2048) :
    (dest_after n).size = 2048 * (n + 1)
      ∧ (dest_after n).next_output_byte = (dest_after n).size - 2048
      ∧ (dest_after n).free_in_buffer = 2048
      ∧ (emit_bytes (dest_after n) (2048 - f)).free_in_buffer = f
      ∧ (dest_run n f).size = 2048 * (n + 1) - f
      ∧ (dest_run n f).size = 2048 * n + (2048 - f)
      ∧ (dest_run n f).size = (dest_run n f).next_output_byte
      ∧ (dest_run n f).size ≤ (dest_run n f).allocated
      ∧ (dest_run n f).allocated = 2048 * (n + 1) := by
  unfold dest_run
  rw [dest_after_eq]
  simp only [modjpeg_term_destination, emit_bytes, MODJPEG_DESTBUFFER_CHUNKSIZE]
  refine ⟨trivial, by omega, trivial, by omega, by omega, by omega, by omega, by omega, trivial⟩

theorem output_buffer_accounting_witness :
    (dest_run 2 100).size = 6044 ∧ (dest_run 2 100).allocated = 6144
      ∧ (dest_after 2).next_output_byte = 4096 :=
  ⟨(output_buffer_accounting 2 100 (by decide)).2.2.2.2.1.trans (by decide),
    by decide, by decide⟩

/-- C24, the placement formula: for every component the horizontal offset is `0` for LEFT,
`(h_samp·H_blocks)/2 − w_c` for CENTER and `h_samp·H_blocks − w_c` for RIGHT, the vertical
offset is `0` for TOP, `(v_samp·V_blocks)/2 − h_c` for CENTER and `v_samp·V_blocks − h_c` for
BOTTOM. Both compositors run their loops over the blocks of a component with these same
offsets: an opaque composition inside the host grid copies the dropon block `(l, k)` to the
host block `(height_offset + l, width_offset + k)`, and a masked composition that returns
leaves every block outside the rectangle that starts at these offsets. -/
theorem placement_formula {R : Type} [LinearOrderedField R] [FloorRing R] (M_SQRT2 : R)
    (m x : modjpeg_jpegimage_t) (w : modjpeg_jpegmask_t R) (align_h align_v : Int)
    (samp blocks extent c : Nat) :
    width_offset MODJPEG_ALIGN_LEFT samp blocks extent = 0
      ∧ width_offset MODJPEG_ALIGN_CENTER samp blocks extent
          = ((samp * blocks : Nat) : Int) / 2 - (extent : Int)
      ∧ width_offset MODJPEG_ALIGN_RIGHT samp blocks extent
          = ((samp * blocks : Nat) : Int) - (extent : Int)
      ∧ height_offset MODJPEG_ALIGN_TOP samp blocks extent = 0
      ∧ height_offset MODJPEG_ALIGN_CENTER samp blocks extent
          = ((samp * blocks : Nat) : Int) / 2 - (extent : Int)
      ∧ height_offset MODJPEG_ALIGN_BOTTOM samp blocks extent
          = ((samp * blocks : Nat) : Int) - (extent : Int)
      ∧ without_mask_component x align_h align_v
            (host_blocks m.image_width m.max_h_samp_factor)
            (host_blocks m.image_height m.max_v_samp_factor) m c
          = (List.range (dropon_height x c)).foldlM
              (without_mask_row x c
                (height_offset align_v (m.comp_info c).v_samp_factor
                  (host_blocks m.image_height m.max_v_samp_factor) (dropon_height x c))
                (width_offset align_h (m.comp_info c).h_samp_factor
                  (host_blocks m.image_width m.max_h_samp_factor) (dropon_width x c))
                (dropon_width x c)) m
      ∧ with_mask_component M_SQRT2 x w align_h align_v
            (host_blocks m.image_width m.max_h_samp_factor)
            (host_blocks m.image_height m.max_v_samp_factor) m c
          = (List.range (dropon_height x c)).foldlM
              (with_mask_row M_SQRT2 x (w.components c) c
                (height_offset align_v (m.comp_info c).v_samp_factor
                  (host_blocks m.image_height m.max_v_samp_factor) (dropon_height x c))
                (width_offset align_h (m.comp_info c).h_samp_factor
                  (host_blocks m.image_width m.max_h_samp_factor) (dropon_width x c))
                (dropon_width x c)) m
      ∧ (placement_inside m x align_h align_v →
          ∃ m', mj_compose_without_mask m x align_h align_v = some (0, m')
            ∧ ∀ l k i, c < x.num_components → l < dropon_height x c → k < dropon_width x c →
                i < DCTSIZE2 →
                (m'.coef c).blk
                    (height_offset align_v (m.comp_info c).v_samp_factor
                      (host_blocks m.image_height m.max_v_samp_factor) (dropon_height x c)
                      + (l : Int)).toNat
                    (width_offset align_h (m.comp_info c).h_samp_factor
                      (host_blocks m.image_width m.max_h_samp_factor) (dropon_width x c)
                      + (k : Int)).toNat i
                  = (x.coef c).blk l k i)
      ∧ (∀ r m', mj_compose_with_mask M_SQRT2 m x w align_h align_v = some (r, m') →
          ∀ row col : Nat,
            ¬ (c < x.num_components
              ∧ height_offset align_v (m.comp_info c).v_samp_factor
                  (host_blocks m.image_height m.max_v_samp_factor) (dropon_height x c)
                ≤ (row : Int)
              ∧ (row : Int) < height_offset align_v (m.comp_info c).v_samp_factor
                  (host_blocks m.image_height m.max_v_samp_factor) (dropon_height x c)
                  + (dropon_height x c : Int)
              ∧ width_offset align_h (m.comp_info c).h_samp_factor
                  (host_blocks m.image_width m.max_h_samp_factor) (dropon_width x c)
                ≤ (col : Int)
              ∧ (col : Int) < width_offset align_h (m.comp_info c).h_samp_factor
                  (host_blocks m.image_width m.max_h_samp_factor) (dropon_width x c)
                  + (dropon_width x c : Int)) →
            (m'.coef c).blk row col = (m.coef c).blk row col) := by
  refine ⟨rfl, rfl, rfl, rfl, rfl, rfl, rfl, rfl, ?_, ?_⟩
  · intro hin
    obtain ⟨m', hm', -, hcoef⟩ := mj_compose_without_mask_total m x align_h align_v hin
    refine ⟨m', hm', fun l k i hc hl hk hi => ?_⟩
    obtain ⟨-, h1, -, h3, -⟩ := hin c hc
    have hrect : in_rectangle m x align_h align_v c
        (placed_height_offset m x align_v c + (l : Int)).toNat
        (placed_width_offset m x align_h c + (k : Int)).toNat := by
      refine ⟨hc, ?_, ?_, ?_, ?_⟩ <;> omega
    have := hcoef c (placed_height_offset m x align_v c + (l : Int)).toNat
      (placed_width_offset m x align_h c + (k : Int)).toNat i
    unfold composed_coef at this
    rw [if_pos ⟨hrect, hi⟩] at this
    have e1 : (((placed_height_offset m x align_v c + (l : Int)).toNat : Int)
        - placed_height_offset m x align_v c).toNat = l := by omega
    have e2 : (((placed_width_offset m x align_h c + (k : Int)).toNat : Int)
        - placed_width_offset m x align_h c).toNat = k := by omega
    rw [e1, e2] at this
    exact this
  · intro r m' h row col hout
    obtain ⟨-, -, hframe⟩ := mj_compose_with_mask_frame M_SQRT2 m x w align_h align_v r m' h
    exact hframe c row col hout

/-! ## Components of the host and of the dropon -/

/-- C21, evaluated: the compositors loop over the components of the dropon and index the
host's arrays with them, and the adapter always encodes three components. For the grayscale
host `sample_gray_host` and a codec that stores RGB input in three components, the adapted
dropon has three components, not one. Whenever a compositor returns, every dropon component
that has a block is a component of the host; composing the one-component host with the
three-component logo `sample_color_logo` reaches component `1` of the host and has no defined
result, with and without a mask. -/
theorem grayscale_host_not_adapted :
    sample_gray_host.num_components = 1
      ∧ (∃ d0 : modjpeg_jpegdropon_t ℚ,
          mj_read_jpegdropon_from_raw (some sample_rawdata) 255 MODJPEG_COLORSPACE_RGB 8 8
            = some d0
          ∧ (mj_update_jpegdropon (1 : ℚ) sample_codec d0 sample_gray_host.samp_factor).image.map
              (fun x => x.num_components) = some 3)
      ∧ (∀ (m x : modjpeg_jpegimage_t) (ah av : Int) (r : Int × modjpeg_jpegimage_t),
          mj_compose_without_mask m x ah av = some r →
          ∀ c, c < x.num_components → 0 < dropon_height x c → 0 < dropon_width x c →
            c < m.num_components)
      ∧ (∀ (m x : modjpeg_jpegimage_t) (w : modjpeg_jpegmask_t ℚ) (ah av : Int)
          (r : Int × modjpeg_jpegimage_t),
          mj_compose_with_mask (1 : ℚ) m x w ah av = some r →
          ∀ c, c < x.num_components → 0 < dropon_height x c → 0 < dropon_width x c →
            c < m.num_components)
      ∧ sample_color_logo.num_components = 3
      ∧ mj_compose_without_mask sample_gray_host sample_color_logo MODJPEG_ALIGN_LEFT
          MODJPEG_ALIGN_TOP = none
      ∧ mj_compose_with_mask (1 : ℚ) sample_gray_host sample_color_logo sample_mask
          MODJPEG_ALIGN_LEFT MODJPEG_ALIGN_TOP = none := by
  refine ⟨rfl, ?_, ?_, ?_, rfl, ?_, ?_⟩
  · obtain ⟨d0, hd0, hw, hh, -⟩ :=
      mj_read_jpegdropon_from_raw_rgb (R := ℚ) sample_rawdata 255 8 8
    refine ⟨d0, hd0, ?_⟩
    unfold mj_update_jpegdropon
    simp only [hw, hh]
    rfl
  · intro m x ah av r h c hc hl hk
    exact (mj_compose_without_mask_in_grid m x ah av r h c 0 0 hc hl hk).1
  · intro m x w ah av r h c hc hl hk
    exact (mj_compose_with_mask_in_grid 1 m x w ah av r h c 0 0 hc hl hk).1
  · cases h : mj_compose_without_mask sample_gray_host sample_color_logo MODJPEG_ALIGN_LEFT
        MODJPEG_ALIGN_TOP with
    | none => rfl
    | some r =>
      have := (mj_compose_without_mask_in_grid _ _ _ _ r h 1 0 0 (by decide) (by decide)
        (by decide)).1
      exact absurd this (by decide)
  · cases h : mj_compose_with_mask (1 : ℚ) sample_gray_host sample_color_logo sample_mask
        MODJPEG_ALIGN_LEFT MODJPEG_ALIGN_TOP with
    | none => rfl
    | some r =>
      have := (mj_compose_with_mask_in_grid 1 _ _ _ _ _ r h 1 0 0 (by decide) (by decide)
        (by decide)).1
      exact absurd this (by decide)

/-! ## The CENTER alignment -/

/-- C22, evaluated on the claim's own example: for the `640 × 480` host with the sampling 4:2:0
and the `128 × 64` logo, aligned CENTER/CENTER, the luma offsets of the code are `24` and `22`
(the blocks written are the columns `24..39` and the rows `22..29`), while the centred
offsets `(h_samp·H_blocks − w_c)/2` and `(v_samp·V_blocks − h_c)/2` are `32` and `26`. The
block `(26, 40)`, inside the central rectangle, keeps the host's coefficients. For every
extent of at least two blocks that fits the host, the offset of the code is below the centred
one. -/
theorem center_not_centred :
    host_blocks 640 2 = 40 ∧ host_blocks 480 2 = 30
      ∧ dropon_width sample_logo_420 0 = 16 ∧ dropon_height sample_logo_420 0 = 8
      ∧ placed_width_offset sample_host_420 sample_logo_420 MODJPEG_ALIGN_CENTER 0 = 24
      ∧ placed_height_offset sample_host_420 sample_logo_420 MODJPEG_ALIGN_CENTER 0 = 22
      ∧ (((2 * 40 : Nat) : Int) - ((16 : Nat) : Int)) / 2 = 32
      ∧ (((2 * 30 : Nat) : Int) - ((8 : Nat) : Int)) / 2 = 26
      ∧ (∃ m', mj_compose_without_mask sample_host_420 sample_logo_420 MODJPEG_ALIGN_CENTER
            MODJPEG_ALIGN_CENTER = some (0, m')
          ∧ (m'.coef 0).blk 22 24 0 = 1000 ∧ (m'.coef 0).blk 29 39 0 = 1000
          ∧ (m'.coef 0).blk 26 40 0 = 0 ∧ (m'.coef 0).blk 33 47 0 = 0)
      ∧ ∀ samp blocks extent : Nat, 2 ≤ extent → extent ≤ samp * blocks →
          width_offset MODJPEG_ALIGN_CENTER samp blocks extent
              < (((samp * blocks : Nat) : Int) - (extent : Int)) / 2
            ∧ height_offset MODJPEG_ALIGN_CENTER samp blocks extent
              < (((samp * blocks : Nat) : Int) - (extent : Int)) / 2 := by
  refine ⟨by decide, by decide, by decide, by decide, by decide, by decide, by decide,
    by decide, ?_, ?_⟩
  · obtain ⟨m', hm', -, hcoef⟩ := mj_compose_without_mask_total sample_host_420
      sample_logo_420 MODJPEG_ALIGN_CENTER MODJPEG_ALIGN_CENTER (by decide)
    refine ⟨m', hm', ?_, ?_, ?_, ?_⟩
    · rw [hcoef]
      decide
    · rw [hcoef]
      decide
    · rw [hcoef]
      decide
    · rw [hcoef]
      decide
  · intro samp blocks extent h2 hle
    unfold width_offset height_offset
    rw [if_neg (by decide), if_pos rfl, if_neg (by decide)]
    constructor <;> omega

/-! ## The store into the 16-bit coefficients -/

/-- A value in the range of `JCOEF` is stored as it is. -/
theorem to_JCOEF_of_range (v : Int) (h1 : -32768 ≤ v) (h2 : v ≤ 32767) : to_JCOEF v = v := by
  unfold to_JCOEF
  omega

/-- A stored value lies in the range of `JCOEF` and differs from the assigned value by a
multiple of `2^16`. -/
theorem to_JCOEF_range (v : Int) :
    -32768 ≤ to_JCOEF v ∧ to_JCOEF v ≤ 32767 ∧ (v - to_JCOEF v) % 65536 = 0 := by
  unfold to_JCOEF
  omega

/-- One component of `mj_read_jpegimage_from_mem` with the store into 16-bit coefficients:
the blocks of the component that the loops visit are dequantised, every other block is
left. -/
theorem read_component_JCOEF_blocks (m : modjpeg_jpegimage_t) (c : Nat) :
    same_geometry m (read_component_JCOEF m c)
      ∧ ∀ c' row col,
        ((read_component_JCOEF m c).coef c').blk row col
          = if c' = c
              ∧ row < m.image_height / (m.max_v_samp_factor * DCTSIZE)
                  * (m.comp_info c).v_samp_factor
              ∧ col < m.image_width / (m.max_h_samp_factor * DCTSIZE)
                  * (m.comp_info c).h_samp_factor
            then dequantise_block_JCOEF (m.comp_info c).quantval ((m.coef c).blk row col)
            else (m.coef c').blk row col := by
  unfold read_component_JCOEF
  simp only
  obtain ⟨hh, hb⟩ := visit_rows (dequantise_block_JCOEF (m.comp_info c).quantval) c
    (m.image_width / (m.max_h_samp_factor * DCTSIZE) * (m.comp_info c).h_samp_factor)
    { m with samp_factor := fun c' =>
        if c' = c then
          { h_samp_factor := (m.comp_info c).h_samp_factor,
            v_samp_factor := (m.comp_info c).v_samp_factor }
        else m.samp_factor c' }
    (m.image_height / (m.max_v_samp_factor * DCTSIZE) * (m.comp_info c).v_samp_factor)
  have hg := same_geometry_of_same_header hh
  refine ⟨same_geometry_trans ?_ hg, hb⟩
  exact ⟨rfl, rfl, rfl, rfl, rfl, rfl, rfl, fun _ => ⟨rfl, rfl⟩⟩

/-- The loops of `mj_read_jpegimage_from_mem` with the store into 16-bit coefficients: every
visited block is dequantised, every other block is left. -/
theorem dequantise_JCOEF_blocks (m : modjpeg_jpegimage_t) :
    same_geometry m (dequantise_JCOEF m)
      ∧ ∀ c row col,
        ((dequantise_JCOEF m).coef c).blk row col
          = if visited m c row col
            then dequantise_block_JCOEF (m.comp_info c).quantval ((m.coef c).blk row col)
            else (m.coef c).blk row col :=
  visit_components read_component_JCOEF dequantise_block_JCOEF read_component_JCOEF_blocks m
    m.num_components

/-- The stored coefficient after reading, entry by entry: the product reduced into the range
of `JCOEF` on a visited block, the decoded coefficient elsewhere. -/
theorem dequantise_JCOEF_entry (m : modjpeg_jpegimage_t) (c row col i : Nat) :
    ((dequantise_JCOEF m).coef c).blk row col i
      = if visited m c row col ∧ i < DCTSIZE2
        then to_JCOEF ((m.coef c).blk row col i * (m.comp_info c).quantval i)
        else (m.coef c).blk row col i := by
  rw [(dequantise_JCOEF_blocks m).2 c row col]
  by_cases hv : visited m c row col
  · rw [if_pos hv]
    unfold dequantise_block_JCOEF
    by_cases hi : i < DCTSIZE2
    · rw [if_pos hi, if_pos ⟨hv, hi⟩]
    · rw [if_neg hi, if_neg (fun h => hi h.2)]
  · rw [if_neg hv, if_neg (fun h => hv h.1)]

/-- Where the product lies in the range of `JCOEF`, or the block is not visited, the stored
coefficient is the one of the loops that keep the product as an integer. -/
theorem dequantise_JCOEF_agrees (m : modjpeg_jpegimage_t) (c row col i : Nat)
    (h : visited m c row col → i < DCTSIZE2 →
      -32768 ≤ (m.coef c).blk row col i * (m.comp_info c).quantval i
        ∧ (m.coef c).blk row col i * (m.comp_info c).quantval i ≤ 32767) :
    ((dequantise_JCOEF m).coef c).blk row col i = ((dequantise m).coef c).blk row col i := by
  rw [dequantise_JCOEF_entry, (dequantise_blocks m).2 c row col]
  by_cases hv : visited m c row col
  · rw [if_pos hv]
    unfold dequantise_block
    by_cases hi : i < DCTSIZE2
    · rw [if_pos ⟨hv, hi⟩, if_pos hi, to_JCOEF_of_range _ (h hv hi).1 (h hv hi).2]
    · rw [if_neg (fun h2 => hi h2.2), if_neg hi]
  · rw [if_neg (fun h2 => hv h2.1), if_neg hv]

/-! ## The blocks that reading visits -/

/-- C25, as stated, fails, in two ways. In the decoded image `sample_cropped`, `12` samples
wide, the plane has the two blocks `(0, 0)` and `(0, 1)`; the loops of
`mj_read_jpegimage_from_mem` visit block `(0, 0)` only, and coefficient `5` of block `(0, 1)`
stays `8`, the quantised value, while the dequantised value is `8 * 7 = 56`. In the decoded
image `sample_steep` the visited block `(0, 0)` has the coefficient `300` with the quantisation
value `255`: the product is `76500`, and the 16-bit coefficient holds `10964` after
reading. -/
theorem edge_block_left_quantised :
    in_plane sample_cropped 0 0 1 ∧ ¬ visited sample_cropped 0 0 1
      ∧ ((dequantise_JCOEF sample_cropped).coef 0).blk 0 1 5 = 8
      ∧ (sample_cropped.coef 0).blk 0 1 5 * (sample_cropped.comp_info 0).quantval 5 = 56
      ∧ (sample_cropped.coef 0).blk 0 0 5 = -2
      ∧ ((dequantise_JCOEF sample_cropped).coef 0).blk 0 0 5 = -14
      ∧ visited sample_steep 0 0 0
      ∧ (sample_steep.coef 0).blk 0 0 0 * (sample_steep.comp_info 0).quantval 0 = 76500
      ∧ ((dequantise_JCOEF sample_steep).coef 0).blk 0 0 0 = 10964 := by
  decide

/-- The number of whole units in a dimension is at most the number of units that cover it. -/
theorem div_le_ceil_div (dim unit : Nat) : dim / unit ≤ ceil_div dim unit := by
  unfold ceil_div
  rcases Nat.eq_zero_or_pos unit with h | h
  · subst h
    simp
  · exact Nat.div_le_div_right (by omega)

/-- For a dimension that is a multiple of the unit, the whole units cover it. -/
theorem ceil_div_of_dvd (dim unit : Nat) (hpos : 0 < unit) (h : unit ∣ dim) :
    ceil_div dim unit = dim / unit := by
  obtain ⟨q, rfl⟩ := h
  unfold ceil_div
  rw [Nat.mul_div_cancel_left q hpos]
  have e : unit * q + unit - 1 = unit - 1 + unit * q := by omega
  rw [e, Nat.add_mul_div_left _ _ hpos, Nat.div_eq_of_lt (by omega)]
  omega

/-- C25, amended: after the loops of `mj_read_jpegimage_from_mem` every block `(l, k)` of a
component with `l < ⌊height/(max_v·8)⌋·v_samp` and `k < ⌊width/(max_h·8)⌋·h_samp` holds the
dequantised coefficients as the 16-bit coefficient stores them: the decoded coefficient times
the quantisation value reduced modulo `2^16` into `−32768..32767`, which is the product itself
when the product lies in this range; every other block is left in its quantised form. The
visited blocks belong to the plane, and they are the whole plane when the width and the height
are multiples of `8·max_h` and `8·max_v`. -/
theorem visited_blocks_dequantised (m : modjpeg_jpegimage_t) (c row col i : Nat) :
    (visited m c row col → i < DCTSIZE2 →
        ((dequantise_JCOEF m).coef c).blk row col i
            = to_JCOEF ((m.coef c).blk row col i * (m.comp_info c).quantval i)
          ∧ (-32768 ≤ (m.coef c).blk row col i * (m.comp_info c).quantval i →
              (m.coef c).blk row col i * (m.comp_info c).quantval i ≤ 32767 →
              ((dequantise_JCOEF m).coef c).blk row col i
                = (m.coef c).blk row col i * (m.comp_info c).quantval i))
      ∧ (¬ visited m c row col →
          ((dequantise_JCOEF m).coef c).blk row col = (m.coef c).blk row col)
      ∧ (visited m c row col → in_plane m c row col)
      ∧ (0 < m.max_h_samp_factor → 0 < m.max_v_samp_factor →
          m.max_h_samp_factor * DCTSIZE ∣ m.image_width →
          m.max_v_samp_factor * DCTSIZE ∣ m.image_height →
          (in_plane m c row col ↔ visited m c row col)) := by
  obtain ⟨-, hb⟩ := dequantise_JCOEF_blocks m
  refine ⟨fun hv hi => ?_, fun hv => ?_, fun hv => ?_, fun hh hv hdw hdh => ?_⟩
  · have e : ((dequantise_JCOEF m).coef c).blk row col i
        = to_JCOEF ((m.coef c).blk row col i * (m.comp_info c).quantval i) := by
      rw [dequantise_JCOEF_entry, if_pos ⟨hv, hi⟩]
    refine ⟨e, fun h1 h2 => ?_⟩
    rw [e, to_JCOEF_of_range _ h1 h2]
  · rw [hb, if_neg hv]
  · obtain ⟨h1, h2, h3⟩ := hv
    refine ⟨h1, lt_of_lt_of_le h2 ?_, lt_of_lt_of_le h3 ?_⟩
    · exact Nat.mul_le_mul_right _ (div_le_ceil_div _ _)
    · exact Nat.mul_le_mul_right _ (div_le_ceil_div _ _)
  · unfold in_plane visited
    rw [ceil_div_of_dvd _ _ (Nat.mul_pos hh (by decide)) hdw,
      ceil_div_of_dvd _ _ (Nat.mul_pos hv (by decide)) hdh]

/-! ## The quantisation arithmetic -/

/-- The integer division of C truncates toward zero: it is the floor for a dividend that is
not negative and the negated floor of the negated dividend otherwise. -/
theorem tdiv_truncates (v q : Int) (hq : 1 ≤ q) :
    (0 ≤ v → Int.tdiv v q = v / q) ∧ (v ≤ 0 → Int.tdiv v q = -((-v) / q))
      ∧ (|v| < q → Int.tdiv v q = 0) := by
  have hneg : v ≤ 0 → Int.tdiv v q = -((-v) / q) := by
    intro hv
    have h := Int.neg_tdiv (-v) q
    rw [neg_neg] at h
    rw [h, Int.tdiv_eq_ediv (by omega) (by omega)]
  refine ⟨fun hv => Int.tdiv_eq_ediv hv (by omega), hneg, fun hlt => ?_⟩
  rcases le_total 0 v with hv | hv
  · rw [abs_of_nonneg hv] at hlt
    exact Int.tdiv_eq_zero_of_lt hv hlt
  · rw [abs_of_nonpos hv] at hlt
    rw [hneg hv, Int.ediv_eq_zero_of_lt (by omega) hlt]
    rfl

/-- C29, as stated, fails: in the decoded image `sample_steep` the visited block `(0, 0)` has
the coefficient `c = 300` at index `0`, with the quantisation value `q = 255 ≥ 1`. Reading
assigns the product `76500` to the 16-bit coefficient, which then holds `10964`, not `c·q`;
writing it back gives `10964 / 255 = 42`, not `300`. -/
theorem read_product_wraps :
    visited sample_steep 0 0 0 ∧ (1 : Int) ≤ (sample_steep.comp_info 0).quantval 0
      ∧ (sample_steep.coef 0).blk 0 0 0 = 300 ∧ (sample_steep.comp_info 0).quantval 0 = 255
      ∧ ((dequantise_JCOEF sample_steep).coef 0).blk 0 0 0 = 10964
      ∧ ((dequantise_JCOEF sample_steep).coef 0).blk 0 0 0
          ≠ (sample_steep.coef 0).blk 0 0 0 * (sample_steep.comp_info 0).quantval 0
      ∧ ((requantise (dequantise_JCOEF sample_steep)).coef 0).blk 0 0 0 = 42 := by
  decide

/-- C29, amended: on a block that the loops visit, for every index `i` with the quantisation
value `q[i] ≥ 1`, reading turns the coefficient `c` into `c·q[i]` reduced modulo `2^16` into
the range `−32768..32767` of the 16-bit coefficient, which is `c·q[i]` itself when the product
lies in this range; and writing turns the coefficient `v` into `v / q[i]`, the integer
division that truncates toward zero for both signs: the floor of `v / q[i]` for `v ≥ 0`, minus
the floor of `(−v) / q[i]` for `v ≤ 0`, and `0` for `|v| < q[i]`; `−7` with `q = 2` gives
`−3`. -/
theorem quantisation_arithmetic (m : modjpeg_jpegimage_t) (c row col i : Nat)
    (hv : visited m c row col) (hi : i < DCTSIZE2) (hq : 1 ≤ (m.comp_info c).quantval i) :
    ((dequantise_JCOEF m).coef c).blk row col i
        = to_JCOEF ((m.coef c).blk row col i * (m.comp_info c).quantval i)
      ∧ (-32768 ≤ (m.coef c).blk row col i * (m.comp_info c).quantval i →
          (m.coef c).blk row col i * (m.comp_info c).quantval i ≤ 32767 →
          ((dequantise_JCOEF m).coef c).blk row col i
            = (m.coef c).blk row col i * (m.comp_info c).quantval i)
      ∧ ((requantise m).coef c).blk row col i
        = Int.tdiv ((m.coef c).blk row col i) ((m.comp_info c).quantval i)
      ∧ (0 ≤ (m.coef c).blk row col i →
          ((requantise m).coef c).blk row col i
            = (m.coef c).blk row col i / (m.comp_info c).quantval i)
      ∧ ((m.coef c).blk row col i ≤ 0 →
          ((requantise m).coef c).blk row col i
            = -((-(m.coef c).blk row col i) / (m.comp_info c).quantval i))
      ∧ (|(m.coef c).blk row col i| < (m.comp_info c).quantval i →
          ((requantise m).coef c).blk row col i = 0)
      ∧ Int.tdiv (-7) 2 = -3 ∧ Int.tdiv 7 2 = 3 := by
  obtain ⟨-, hb2⟩ := requantise_blocks m
  have hd : ((dequantise_JCOEF m).coef c).blk row col i
      = to_JCOEF ((m.coef c).blk row col i * (m.comp_info c).quantval i) := by
    rw [dequantise_JCOEF_entry, if_pos ⟨hv, hi⟩]
  have hr : ((requantise m).coef c).blk row col i
      = Int.tdiv ((m.coef c).blk row col i) ((m.comp_info c).quantval i) := by
    rw [hb2, if_pos hv]
    unfold requantise_block
    rw [if_pos hi]
  obtain ⟨t1, t2, t3⟩ := tdiv_truncates ((m.coef c).blk row col i) _ hq
  refine ⟨hd, fun h1 h2 => ?_, hr, fun h => ?_, fun h => ?_, fun h => ?_, by decide,
    by decide⟩
  · rw [hd, to_JCOEF_of_range _ h1 h2]
  · rw [hr, t1 h]
  · rw [hr, t2 h]
  · rw [hr, t3 h]

theorem quantisation_arithmetic_witness :
    ((dequantise_JCOEF sample_quantised).coef 0).blk 0 0 2 = -20
      ∧ ((dequantise_JCOEF sample_steep).coef 0).blk 0 0 0 = to_JCOEF (300 * 255)
      ∧ ((requantise sample_quantised).coef 0).blk 0 0 2 = -1
      ∧ (sample_quantised.coef 0).blk 0 0 2 = -5
      ∧ (sample_quantised.comp_info 0).quantval 2 = 4 :=
  ⟨(quantisation_arithmetic sample_quantised 0 0 0 2 (by decide) (by decide) (by decide)).1.trans
      (by decide),
    (quantisation_arithmetic sample_steep 0 0 0 0 (by decide) (by decide) (by decide)).1,
    by decide, by decide, by decide⟩

/-! ## The index of the mask operators -/

/-- The square of the literal `0.3535534`, read as `√2 / 4`, over `1020`. -/
theorem mask_dc_scale : (Real.sqrt 2 / 4 * (Real.sqrt 2 / 4) / 1020 : ℝ) = 1 / 8160 := by
  have h : Real.sqrt 2 * Real.sqrt 2 = 2 := Real.mul_self_sqrt (by norm_num)
  have e : (Real.sqrt 2 / 4 * (Real.sqrt 2 / 4) / 1020 : ℝ)
      = Real.sqrt 2 * Real.sqrt 2 / 16320 := by ring
  rw [e, h]
  norm_num

/-- C26, evaluated: the operator of block `(l, k)` is stored at, and read from, index
`height_in_blocks·l + k`, not `l·W_blk + k`. For the alpha image `sample_alpha_wide`, with
three blocks in each of two rows, the blocks `(0, 2)` and `(1, 0)` share index `2`, which
ends up holding the operator of block `(1, 0)`: the dropon block `(0, 2)` is blended with an
operator that is not built from its own alpha block, and index `3 = 1·W_blk + 0` holds the
operator of block `(1, 1)`. For `sample_alpha_tall`, with one block in each of three rows, the
operator of block `(2, 0)` is stored at index `6`, beyond `num_blocks = 3`. -/
theorem mask_index_collides :
    (mask_component (Real.sqrt 2 / 4) sample_alpha_wide 0).width_in_blocks = 3
      ∧ (mask_component (Real.sqrt 2 / 4) sample_alpha_wide 0).height_in_blocks = 2
      ∧ (mask_component (Real.sqrt 2 / 4) sample_alpha_wide 0).num_blocks = 6
      ∧ mask_block_index 2 0 2 = 2 ∧ mask_block_index 2 1 0 = 2
      ∧ (mask_component (Real.sqrt 2 / 4) sample_alpha_wide 0).blocks 2
          = some (mask_operator (Real.sqrt 2 / 4) ((sample_alpha_wide.coef 0).blk 1 0))
      ∧ mask_operator (Real.sqrt 2 / 4) ((sample_alpha_wide.coef 0).blk 1 0) 0
          ≠ mask_operator (Real.sqrt 2 / 4) ((sample_alpha_wide.coef 0).blk 0 2) 0
      ∧ (mask_component (Real.sqrt 2 / 4) sample_alpha_wide 0).blocks 3
          = some (mask_operator (Real.sqrt 2 / 4) ((sample_alpha_wide.coef 0).blk 1 1))
      ∧ (mask_component (Real.sqrt 2 / 4) sample_alpha_tall 0).width_in_blocks = 1
      ∧ (mask_component (Real.sqrt 2 / 4) sample_alpha_tall 0).height_in_blocks = 3
      ∧ (mask_component (Real.sqrt 2 / 4) sample_alpha_tall 0).num_blocks = 3
      ∧ mask_block_index 3 2 0 = 6
      ∧ (mask_component (Real.sqrt 2 / 4) sample_alpha_tall 0).blocks 6
          = some (mask_operator (Real.sqrt 2 / 4) ((sample_alpha_tall.coef 0).blk 2 0)) := by
  refine ⟨rfl, rfl, rfl, rfl, rfl, rfl, ?_, rfl, rfl, rfl, rfl, rfl, rfl⟩
  rw [mask_operator_entries, mask_operator_entries, if_pos rfl, if_pos rfl, mask_dc_scale]
  have e1 : (sample_alpha_wide.coef 0).blk 1 0 0 = 100 := by decide
  have e2 : (sample_alpha_wide.coef 0).blk 0 2 0 = 20 := by decide
  rw [e1, e2]
  norm_num

/-! ## The size of the adapted dropon -/

/-- C27, as stated, fails: the adapter does not pad. For a raw dropon of `12 × 8` pixels and a
codec that keeps the size it is given, the adapted image is `12` samples wide, not a multiple
of `8·max_h = 8`; the composited extent of its component `0` is one block, which covers `8` of
the `12` pixel columns. -/
theorem adapter_does_not_pad :
    ∃ d0 : modjpeg_jpegdropon_t ℚ,
      mj_read_jpegdropon_from_raw (some sample_rawdata) 255 MODJPEG_COLORSPACE_RGB 12 8
        = some d0
      ∧ (mj_update_jpegdropon (1 : ℚ) sample_codec d0 sample_rgb_host.samp_factor).image.map
          (fun x => (x.image_width, x.max_h_samp_factor, (x.comp_info 0).h_samp_factor,
            dropon_width x 0))
        = some (12, 1, 1, 1)
      ∧ 12 % (8 * 1) = 4
      ∧ 1 * (8 * 1) / 1 = 8
      ∧ (mj_update_jpegdropon (1 : ℚ) sample_codec d0 sample_rgb_host.samp_factor).image.map
          (fun x => decide (dropon_width x 0 * (8 * x.max_h_samp_factor)
            / (x.comp_info 0).h_samp_factor < x.image_width))
        = some true := by
  obtain ⟨d0, hd0, hw, hh, -⟩ :=
    mj_read_jpegdropon_from_raw_rgb (R := ℚ) sample_rawdata 255 12 8
  refine ⟨d0, hd0, ?_, by decide, by decide, ?_⟩
  · unfold mj_update_jpegdropon
    simp only [hw, hh]
    rfl
  · unfold mj_update_jpegdropon
    simp only [hw, hh]
    rfl

/-- The extent of whole units: `⌊dim / unit⌋·samp` blocks of `unit / samp` samples each cover
`dim − dim mod unit` samples, all of `dim` exactly when `dim` is a multiple of `unit`. -/
theorem whole_units_cover (dim unit samp : Nat) (hunit : 0 < unit) (hsamp : 0 < samp) :
    dim / unit * samp * unit / samp = dim - dim % unit
      ∧ (dim ≤ dim / unit * samp * unit / samp ↔ dim % unit = 0) := by
  have e : dim / unit * samp * unit = dim / unit * unit * samp := by ring
  have h1 : dim / unit * samp * unit / samp = dim / unit * unit := by
    rw [e, Nat.mul_div_cancel _ hsamp]
  have h2 := Nat.div_add_mod dim unit
  have h3 : dim / unit * unit = unit * (dim / unit) := Nat.mul_comm _ _
  have h4 := Nat.mod_lt dim hunit
  rw [h1, h3]
  constructor
  · omega
  · omega

/-- C27, amended: the adapter hands the dropon's own width and height to the encoder, without
padding. For an adapted image of width `W` the composited extent of component `c` is
`w_c = ⌊W/(8·max_h)⌋·h_samp_c` blocks, which cover `w_c·8·max_h/h_samp_c = W − W mod (8·max_h)`
pixel columns: every column of the logo exactly when `W` is a multiple of `8·max_h`, and the
trailing `W mod (8·max_h)` columns are dropped otherwise; the same holds for the rows. -/
theorem adapted_extent {R : Type} [Field R] (c0 : R) (codec : Codec)
    (d : modjpeg_jpegdropon_t R) (s : Nat → modjpeg_jpegsampling_t) (x : modjpeg_jpegimage_t)
    (c : Nat) (hmax_h : 0 < x.max_h_samp_factor) (hmax_v : 0 < x.max_v_samp_factor)
    (hh : 0 < (x.comp_info c).h_samp_factor) (hv : 0 < (x.comp_info c).v_samp_factor) :
    (mj_update_jpegdropon c0 codec d s).image
        = (mj_read_jpegimage_from_mem codec
            (codec.encode d.rawimage MODJPEG_COLORSPACE_RGB s d.width d.height)).map requantise
      ∧ dropon_width x c * (x.max_h_samp_factor * DCTSIZE) / (x.comp_info c).h_samp_factor
          = x.image_width - x.image_width % (x.max_h_samp_factor * DCTSIZE)
      ∧ (x.image_width
            ≤ dropon_width x c * (x.max_h_samp_factor * DCTSIZE) / (x.comp_info c).h_samp_factor
          ↔ x.image_width % (x.max_h_samp_factor * DCTSIZE) = 0)
      ∧ dropon_height x c * (x.max_v_samp_factor * DCTSIZE) / (x.comp_info c).v_samp_factor
          = x.image_height - x.image_height % (x.max_v_samp_factor * DCTSIZE)
      ∧ (x.image_height
            ≤ dropon_height x c * (x.max_v_samp_factor * DCTSIZE)
              / (x.comp_info c).v_samp_factor
          ↔ x.image_height % (x.max_v_samp_factor * DCTSIZE) = 0) := by
  obtain ⟨a1, a2⟩ := whole_units_cover x.image_width (x.max_h_samp_factor * DCTSIZE)
    (x.comp_info c).h_samp_factor (Nat.mul_pos hmax_h (by decide)) hh
  obtain ⟨b1, b2⟩ := whole_units_cover x.image_height (x.max_v_samp_factor * DCTSIZE)
    (x.comp_info c).v_samp_factor (Nat.mul_pos hmax_v (by decide)) hv
  exact ⟨rfl, a1, a2, b1, b2⟩

theorem adapted_extent_witness :
    dropon_width sample_logo_420 0 * (sample_logo_420.max_h_samp_factor * DCTSIZE)
        / (sample_logo_420.comp_info 0).h_samp_factor
      = sample_logo_420.image_width
        - sample_logo_420.image_width % (sample_logo_420.max_h_samp_factor * DCTSIZE) :=
  (adapted_extent (1 : ℚ) sample_codec (sample_dropon sample_logo 255) sample_rgb_host.samp_factor
    sample_logo_420 0 (by decide) (by decide) (by decide) (by decide)).2.1

/-! ## The steps of the blend -/

/-- The cast `(int)` rounds toward zero: down for a value that is not negative, up for one
that is not positive, and never away from zero. -/
theorem trunc_toward_zero {R : Type} [LinearOrderedField R] [FloorRing R] (y : R) :
    (0 ≤ y → trunc y = Int.floor y) ∧ (y ≤ 0 → trunc y = Int.ceil y)
      ∧ |((trunc y : Int) : R)| ≤ |y| := by
  unfold trunc
  refine ⟨fun h => if_pos h, fun h => ?_, ?_⟩
  · by_cases h0 : 0 ≤ y
    · have e : y = 0 := le_antisymm h h0
      rw [if_pos h0, e]
      simp
    · rw [if_neg h0]
  · by_cases h0 : 0 ≤ y
    · rw [if_pos h0, abs_of_nonneg h0,
        abs_of_nonneg (by exact_mod_cast Int.floor_nonneg.mpr h0)]
      exact Int.floor_le y
    · have hneg : y ≤ 0 := le_of_lt (not_le.mp h0)
      rw [if_neg h0, abs_of_nonpos hneg,
        abs_of_nonpos (by exact_mod_cast Int.ceil_le.mpr (by simpa using hneg))]
      exact neg_le_neg (Int.le_ceil y)

/-- The host block after the blend with the store, entry by entry: the sum `x1[n] +
trunc(Y[n])` reduced into the range of `JCOEF`, which is the value that `blend_block` gives
when the sum lies in the range. -/
theorem blend_block_JCOEF_entry {R : Type} [LinearOrderedField R] [FloorRing R] (M_SQRT2 : R)
    (b : Nat → R) (x0 x1 : Nat → Int) (n : Nat) (hn : n < 64) :
    blend_block_JCOEF M_SQRT2 b x0 x1 n = to_JCOEF (x1 n + trunc (blend_Y M_SQRT2 b x0 x1 n))
      ∧ blend_block_JCOEF M_SQRT2 b x0 x1 n = to_JCOEF (blend_block M_SQRT2 b x0 x1 n)
      ∧ (-32768 ≤ x1 n + trunc (blend_Y M_SQRT2 b x0 x1 n) →
          x1 n + trunc (blend_Y M_SQRT2 b x0 x1 n) ≤ 32767 →
          blend_block_JCOEF M_SQRT2 b x0 x1 n = blend_block M_SQRT2 b x0 x1 n) := by
  have e1 : blend_block_JCOEF M_SQRT2 b x0 x1 n
      = to_JCOEF (x1 n + trunc (blend_Y M_SQRT2 b x0 x1 n)) := by
    unfold blend_block_JCOEF
    rw [if_pos (show n < DCTSIZE2 from hn)]
  have e2 : blend_block M_SQRT2 b x0 x1 n = x1 n + trunc (blend_Y M_SQRT2 b x0 x1 n) := by
    unfold blend_block
    rw [if_pos (show n < DCTSIZE2 from hn)]
  refine ⟨e1, ?_, fun h1 h2 => ?_⟩
  · rw [e1, e2]
  · rw [e1, e2, to_JCOEF_of_range _ h1 h2]

/-- C28, as stated, fails: for the operator with the single weight `b[0] = 1`, the dropon
block with `x0[0] = 20000` and the host block of zeros, the 64 calls leave `Y[0] = 80000`, so
`x1[0] + trunc(Y[0]) = 80000`, which the 16-bit coefficient cannot hold: after the write-back
the host coefficient is `14464 = 80000 − 65536`. -/
theorem blend_store_wraps :
    blend_Y (Real.sqrt 2) unit_operator loud_dropon_block zero_block 0 = 80000
      ∧ zero_block 0 + trunc (blend_Y (Real.sqrt 2) unit_operator loud_dropon_block
          zero_block 0) = 80000
      ∧ blend_block_JCOEF (Real.sqrt 2) unit_operator loud_dropon_block zero_block 0 = 14464
      ∧ blend_block_JCOEF (Real.sqrt 2) unit_operator loud_dropon_block zero_block 0
          ≠ zero_block 0 + trunc (blend_Y (Real.sqrt 2) unit_operator loud_dropon_block
              zero_block 0) := by
  have hY : blend_Y (Real.sqrt 2) unit_operator loud_dropon_block zero_block 0
      = ((80000 : ℤ) : ℝ) := by
    rw [blend_Y_single_weight (Real.sqrt 2) unit_operator
      (fun n hn => if_neg (by omega)) loud_dropon_block zero_block 0 (by decide)]
    simp only [unit_operator, loud_dropon_block, zero_block, if_true]
    norm_num
  have hsum : zero_block 0 + trunc (blend_Y (Real.sqrt 2) unit_operator loud_dropon_block
      zero_block 0) = 80000 := by
    rw [hY, trunc_intCast]
    rfl
  have hst : blend_block_JCOEF (Real.sqrt 2) unit_operator loud_dropon_block zero_block 0
      = 14464 := by
    rw [(blend_block_JCOEF_entry (Real.sqrt 2) unit_operator loud_dropon_block zero_block 0
      (by decide)).1, hsum]
    decide
  refine ⟨?_, hsum, hst, ?_⟩
  · rw [hY]
    norm_num
  · rw [hst, hsum]
    decide

/-- C28, amended, the steps of the blend of one block: `mj_compose_with_mask` takes the
differences `D[n] = x0[n] − x1[n]`, starts from `Y = 0`, calls
`mj_convolve(D, Y, b[i·8+j], i, j)` once for each of the 64 pairs `(i, j)`, in the order of the
index `i·8 + j`, and assigns `x1[n] + trunc(Y[n])` to the 16-bit host coefficient for every
`n` in `0..63`: the coefficient holds the sum reduced modulo `2^16` into `−32768..32767`,
which is the sum itself when it lies in this range. The cast `trunc` rounds toward zero
(`2.7` to `2`, `−2.7` to `−2`). The step changes the host block only: the dropon block and
the operator are read. -/
theorem blend_steps {R : Type} [LinearOrderedField R] [FloorRing R] (M_SQRT2 : R) (b : Nat → R)
    (x0 x1 : Nat → Int) :
    blend_Y M_SQRT2 b x0 x1
        = (List.range 64).foldl
            (fun Y p =>
              mj_convolve M_SQRT2 (fun n => ((x0 n - x1 n : Int) : R)) Y (b p)
                ((p / 8 : Nat) : Int) ((p % 8 : Nat) : Int))
            (fun _ => 0)
      ∧ (∀ n, n < 64 →
          blend_block_JCOEF M_SQRT2 b x0 x1 n
              = to_JCOEF (x1 n + trunc (blend_Y M_SQRT2 b x0 x1 n))
            ∧ (-32768 ≤ x1 n + trunc (blend_Y M_SQRT2 b x0 x1 n) →
                x1 n + trunc (blend_Y M_SQRT2 b x0 x1 n) ≤ 32767 →
                blend_block_JCOEF M_SQRT2 b x0 x1 n
                  = x1 n + trunc (blend_Y M_SQRT2 b x0 x1 n)))
      ∧ (∀ v : Int, -32768 ≤ to_JCOEF v ∧ to_JCOEF v ≤ 32767 ∧ (v - to_JCOEF v) % 65536 = 0)
      ∧ (∀ y : R, (0 ≤ y → trunc y = Int.floor y) ∧ (y ≤ 0 → trunc y = Int.ceil y)
          ∧ |((trunc y : Int) : R)| ≤ |y|)
      ∧ trunc (27 / 10 : R) = 2 ∧ trunc (-27 / 10 : R) = -2
      ∧ ∀ (x : modjpeg_jpegimage_t) (comp : modjpeg_jpegcomponent_t R) (c l rm : Nat)
          (width_offset : Int) (m : modjpeg_jpegimage_t) (k cm : Nat) (bb : Nat → R),
          host_col m c (width_offset + (k : Int)) = some cm →
          comp.blocks (mask_block_index comp.height_in_blocks l k) = some bb →
          with_mask_block_JCOEF M_SQRT2 x comp c l rm width_offset m k
            = some (write_block m c rm cm
                (blend_block_JCOEF M_SQRT2 bb ((x.coef c).blk l k) ((m.coef c).blk rm cm))) := by
  refine ⟨rfl, fun n hn => ?_, to_JCOEF_range, trunc_toward_zero, ?_, ?_, ?_⟩
  · obtain ⟨e1, -, -⟩ := blend_block_JCOEF_entry M_SQRT2 b x0 x1 n hn
    refine ⟨e1, fun h1 h2 => ?_⟩
    rw [e1, to_JCOEF_of_range _ h1 h2]
  · unfold trunc
    rw [if_pos (by norm_num)]
    rw [Int.floor_eq_iff]
    constructor <;> norm_num
  · unfold trunc
    rw [if_neg (by norm_num)]
    rw [Int.ceil_eq_iff]
    constructor <;> norm_num
  · intro x comp c l rm wo m k cm bb h1 h2
    unfold with_mask_block_JCOEF
    rw [h1]
    simp only
    rw [h2]

/-! ## The pixel offsets of `mj_compose` -/

/-- C36, the pixel offsets do not influence the result: for every host, dropon, codec and
alignment pair, and any two offset pairs `(offset_x, offset_y)` and `(offset_x', offset_y')`,
`mj_compose` returns the same value and leaves the same host and the same dropon. The body of
`mj_compose` never reads the two parameters. -/
theorem pixel_offsets_ignored {R : Type} [LinearOrderedField R] [FloorRing R] (M_SQRT2 c0 : R)
    (codec : Codec) (m : modjpeg_jpegimage_t) (d : modjpeg_jpegdropon_t R)
    (align_h align_v offset_x offset_y offset_x' offset_y' : Int) :
    mj_compose M_SQRT2 c0 codec m d align_h align_v offset_x offset_y
      = mj_compose M_SQRT2 c0 codec m d align_h align_v offset_x' offset_y' :=
  rfl

/-! ## Bounds of the host's extent -/

/-- C32, bounds of the computed host extent: for a host dimension `1 ≤ W < 2^32` (the width
with `max_h`, or the height with `max_v`) and a maximum sampling factor in `1..4`, with
`M = 8·max`, the extent that both compositors compute lies between `⌊W / M⌋` and `⌈W / M⌉`, and
it is `⌊W / M⌋ + 1` exactly when `W mod M > M / 2` or `W < M / 2`; hence for every sampling
factor `samp` of a component, `samp · H_blocks` does not exceed `⌈W / M⌉ · samp`, the number of
blocks that the component's plane has in this direction. -/
theorem host_extent_bounds (W max_samp_factor samp : Nat) (hW1 : 1 ≤ W) (hW : W < 4294967296)
    (h1 : 1 ≤ max_samp_factor) (h4 : max_samp_factor ≤ 4) :
    W / (8 * max_samp_factor) ≤ host_blocks W max_samp_factor
      ∧ host_blocks W max_samp_factor ≤ ceil_div W (8 * max_samp_factor)
      ∧ (host_blocks W max_samp_factor = W / (8 * max_samp_factor) + 1
          ↔ 8 * max_samp_factor / 2 < W % (8 * max_samp_factor) ∨ W < 8 * max_samp_factor / 2)
      ∧ samp * host_blocks W max_samp_factor
          ≤ ceil_div W (max_samp_factor * DCTSIZE) * samp := by
  have hmain : W / (8 * max_samp_factor) ≤ host_blocks W max_samp_factor
      ∧ host_blocks W max_samp_factor ≤ ceil_div W (8 * max_samp_factor)
      ∧ (host_blocks W max_samp_factor = W / (8 * max_samp_factor) + 1
          ↔ 8 * max_samp_factor / 2 < W % (8 * max_samp_factor)
            ∨ W < 8 * max_samp_factor / 2) := by
    rw [host_blocks_eq W max_samp_factor h4 hW]
    unfold ceil_div
    have hcases : max_samp_factor = 1 ∨ max_samp_factor = 2 ∨ max_samp_factor = 3
        ∨ max_samp_factor = 4 := by omega
    rcases hcases with rfl | rfl | rfl | rfl
    all_goals
      simp only [Nat.reduceMul, Nat.reduceDiv]
      split
      · refine ⟨by omega, by omega, ?_⟩
        constructor
        · intro _
          omega
        · intro _
          rfl
      · refine ⟨by omega, by omega, ?_⟩
        constructor
        · intro h
          omega
        · intro h
          omega
  refine ⟨hmain.1, hmain.2.1, hmain.2.2, ?_⟩
  have e : max_samp_factor * DCTSIZE = 8 * max_samp_factor := by
    unfold DCTSIZE
    omega
  rw [e, Nat.mul_comm samp]
  exact Nat.mul_le_mul_right samp hmain.2.1

theorem host_extent_bounds_witness :
    650 / (8 * 2) ≤ host_blocks 650 2 ∧ host_blocks 650 2 ≤ ceil_div 650 (8 * 2)
      ∧ (host_blocks 650 2 = 650 / (8 * 2) + 1 ↔ 8 * 2 / 2 < 650 % (8 * 2) ∨ 650 < 8 * 2 / 2)
      ∧ 2 * host_blocks 650 2 ≤ ceil_div 650 (2 * DCTSIZE) * 2 :=
  host_extent_bounds 650 2 2 (by decide) (by decide) (by decide) (by decide)

/-! ## Writing changes the image in memory -/

/-- The integer division of C by a divisor `q ≥ 1` gives the dividend back exactly when `q = 1`
or the dividend is `0`. -/
theorem tdiv_eq_self_iff (v q : Int) (hq : 1 ≤ q) : Int.tdiv v q = v ↔ q = 1 ∨ v = 0 := by
  constructor
  · intro h
    by_contra hne
    push_neg at hne
    have hn := congrArg Int.natAbs h
    rw [Int.natAbs_tdiv] at hn
    have h1 : 1 < q.natAbs := by omega
    have h2 : 0 < v.natAbs := Int.natAbs_pos.mpr hne.2
    exact absurd hn (Nat.ne_of_lt (Nat.div_lt_self h2 h1))
  · rintro (h | h)
    · rw [h, Int.tdiv_one]
    · rw [h, Int.zero_tdiv]

/-- C37, writing mutates the coefficient store: after the loops of
`mj_write_jpegimage_to_buffer`, which nothing undoes before the function returns, the
coefficient `i` of every visited block with the quantisation value `q[i] ≥ 1` is
`trunc(v / q[i])` for its value `v` before the call; it is the value `v` exactly when
`q[i] = 1` or `v = 0`; and the loops of a second call leave `trunc(trunc(v / q[i]) / q[i])` for
the encoder, which is `11` instead of `33` for `v = 100`, `q[i] = 3`. -/
theorem write_mutates_store (m : modjpeg_jpegimage_t) (c row col i : Nat)
    (hv : visited m c row col) (hi : i < DCTSIZE2) (hq : 1 ≤ (m.comp_info c).quantval i) :
    ((requantise m).coef c).blk row col i
        = Int.tdiv ((m.coef c).blk row col i) ((m.comp_info c).quantval i)
      ∧ (((requantise m).coef c).blk row col i = (m.coef c).blk row col i
          ↔ (m.comp_info c).quantval i = 1 ∨ (m.coef c).blk row col i = 0)
      ∧ ((requantise (requantise m)).coef c).blk row col i
        = Int.tdiv (Int.tdiv ((m.coef c).blk row col i) ((m.comp_info c).quantval i))
            ((m.comp_info c).quantval i)
      ∧ Int.tdiv 100 3 = 33 ∧ Int.tdiv (Int.tdiv 100 3) 3 = 11 := by
  obtain ⟨hg, hb⟩ := requantise_blocks m
  obtain ⟨-, hb2⟩ := requantise_blocks (requantise m)
  have hr : ((requantise m).coef c).blk row col i
      = Int.tdiv ((m.coef c).blk row col i) ((m.comp_info c).quantval i) := by
    rw [hb, if_pos hv]
    unfold requantise_block
    rw [if_pos hi]
  refine ⟨hr, ?_, ?_, by decide, by decide⟩
  · rw [hr]
    exact tdiv_eq_self_iff _ _ hq
  · rw [hb2, if_pos ((visited_of_same_geometry hg c row col).2 hv), hg.2.2.2.2.2.2.1]
    unfold requantise_block
    rw [if_pos hi, hr]

theorem write_mutates_store_witness :
    ((requantise sample_quantised).coef 0).blk 0 1 7 = 1
      ∧ ((requantise (requantise sample_quantised)).coef 0).blk 0 1 7 = 0
      ∧ (sample_quantised.coef 0).blk 0 1 7 = 10
      ∧ (sample_quantised.comp_info 0).quantval 7 = 9 :=
  ⟨(write_mutates_store sample_quantised 0 0 1 7 (by decide) (by decide) (by decide)).1.trans
      (by decide),
    (write_mutates_store sample_quantised 0 0 1 7 (by decide) (by decide)
      (by decide)).2.2.1.trans (by decide),
    by decide, by decide⟩

/-! ## The exact scale of the kernel -/

/-- C31, the exact scale of the kernel: over the reals, with `M_SQRT2 = √2`, for `k, l` in
`0..7` and every entry `n < 64`, `mj_convolve(X, Y, w, k, l)` adds exactly
`4 · w · DCT2D(iDCT2D(X) ⊙ φ_{k,l})[n]` to `Y[n]`, with the orthonormal 8×8 DCT-II; the call
with `(k, l) = (0, 0)` adds `4 · w · X[n]`; each of the two passes contributes a factor `2`,
its stencil being twice the scaled sum of the products of three cosines; and the divisor
`1020 = 4 · 255` of the mask operator takes the factor `4` back: with the weight
`coef · c(i) · c(j) / 1020` the call adds `coef · c(i) · c(j) / 255` times the transform, and
with the weight that the code stores at index `0` for the alpha coefficient `d` the call with
`(0, 0)` adds `(d + 1024) / 2040 · X[n]`. -/
theorem kernel_exact_scale (cs : ℕ → ℕ → ℝ)
    (hcs : ∀ p u, cs p u = Real.cos ((2 * (p : ℝ) + 1) * (u : ℝ) * Real.pi / 16))
    (X Y : ℕ → ℝ) (w : ℝ) (k l n : ℕ) (hk : k < 8) (hl : l < 8) (hn : n < 64) :
    mj_convolve (Real.sqrt 2) X Y w (k : ℤ) (l : ℤ) n - Y n
        = 4 * w * dct_of_product cs (Real.sqrt 2) X k l n
      ∧ mj_convolve (Real.sqrt 2) X Y w 0 0 n - Y n = 4 * w * X n
      ∧ (∀ v u, v < 8 → u < 8 →
          stencil_coef (Real.sqrt 2) l v u
            = 2 * (dct_scale (Real.sqrt 2) v * dct_scale (Real.sqrt 2) u
                * ∑ q in Finset.range 8, cs q u * cs q l * cs q v))
      ∧ (∀ (A : ℕ → ℤ) (m : ℕ),
          mj_convolve (Real.sqrt 2) X Y (spec_mask_operator (Real.sqrt 2) A m) (k : ℤ) (l : ℤ) n
              - Y n
            = (mask_shift_dc A m : ℝ)
                * (dct_scale (Real.sqrt 2) (m / 8) * dct_scale (Real.sqrt 2) (m % 8) / 255)
                * dct_of_product cs (Real.sqrt 2) X k l n)
      ∧ ∀ A : ℕ → ℤ,
          mj_convolve (Real.sqrt 2) X Y (mask_operator (Real.sqrt 2 / 4) A 0) 0 0 n - Y n
            = ((A 0 : ℝ) + 1024) / 2040 * X n := by
  have hs : Real.sqrt 2 * Real.sqrt 2 = 2 := Real.mul_self_sqrt (by norm_num)
  refine ⟨?_, ?_, ?_, ?_, ?_⟩
  · rw [mj_convolve_eq_dct cs hcs X Y w k l n hk hl hn]
    ring
  · rw [mj_convolve_dc (Real.sqrt 2) X Y w n hn]
    ring
  · intro v u hv hu
    exact stencil_coef_eq_dct cs hcs l v u hl hv hu
  · intro A m
    rw [mj_convolve_eq_dct cs hcs X Y _ k l n hk hl hn]
    unfold spec_mask_operator
    ring
  · intro A
    rw [mj_convolve_dc (Real.sqrt 2) X Y _ n hn, mask_operator_entries, if_pos rfl]
    push_cast
    linear_combination ((1 / 4080 : ℝ) * ((A 0 : ℝ) + 1024) * X n) * hs

/-- Witness of C31: the call with `k = 1`, `l = 2` on a unit impulse, at entry `10`. -/
theorem kernel_exact_scale_witness :
    mj_convolve (Real.sqrt 2) (impulse 3) (fun _ => 5) 7 ((1 : ℕ) : ℤ) ((2 : ℕ) : ℤ) 10
        - (fun _ => (5 : ℝ)) 10
      = 4 * 7 * dct_of_product
          (fun p u => Real.cos ((2 * (p : ℝ) + 1) * (u : ℝ) * Real.pi / 16))
          (Real.sqrt 2) (impulse 3) 1 2 10 :=
  (kernel_exact_scale
    (fun p u => Real.cos ((2 * (p : ℝ) + 1) * (u : ℝ) * Real.pi / 16)) (fun _ _ => rfl)
    (impulse 3) (fun _ => 5) 7 1 2 10 (by decide) (by decide) (by decide)).1

/-! ## The two passes of the kernel -/

/-- The two sums of the kernel can be taken in either order. -/
theorem stencil_sum_comm (F G : ℕ → ℝ) (X : ℕ → ℕ → ℝ) :
    ∑ a in Finset.range 8, F a * ∑ u in Finset.range 8, G u * X a u
      = ∑ u in Finset.range 8, G u * ∑ a in Finset.range 8, F a * X a u := by
  simp only [Finset.mul_sum]
  rw [Finset.sum_comm]
  refine Finset.sum_congr rfl (fun u _ => ?_)
  refine Finset.sum_congr rfl (fun a _ => ?_)
  ring

/-- C38, the transpose symmetry of the two passes: over the reals, for `k, l` in `0..7` and
every entry `m < 64`, what `mj_convolve` adds for the transposed block with the indices
swapped is the transpose of what it adds for the block, `contrib(Xᵀ, w, l, k) =
contrib(X, w, k, l)ᵀ`; the contribution applies one family of stencils, with index `k` along
the columns and with index `l` along the rows, and the two passes can be taken in either
order. -/
theorem transpose_symmetry (X Y Y' : ℕ → ℝ) (w : ℝ) (k l m : ℕ) (hk : k < 8) (hl : l < 8)
    (hm : m < 64) :
    mj_convolve (Real.sqrt 2) (transpose X) Y' w (l : ℤ) (k : ℤ) m - Y' m
        = transpose (fun i => mj_convolve (Real.sqrt 2) X Y w (k : ℤ) (l : ℤ) i - Y i) m
      ∧ mj_convolve (Real.sqrt 2) X Y w (k : ℤ) (l : ℤ) m - Y m
        = w * ∑ a in Finset.range 8, stencil_coef (Real.sqrt 2) k (m / 8) a
            * ∑ u in Finset.range 8, stencil_coef (Real.sqrt 2) l (m % 8) u * X (8 * a + u)
      ∧ mj_convolve (Real.sqrt 2) X Y w (k : ℤ) (l : ℤ) m - Y m
        = w * ∑ u in Finset.range 8, stencil_coef (Real.sqrt 2) l (m % 8) u
            * ∑ a in Finset.range 8, stencil_coef (Real.sqrt 2) k (m / 8) a * X (8 * a + u) := by
  have hrow : mj_convolve (Real.sqrt 2) X Y w (k : ℤ) (l : ℤ) m - Y m
      = w * ∑ a in Finset.range 8, stencil_coef (Real.sqrt 2) k (m / 8) a
          * ∑ u in Finset.range 8, stencil_coef (Real.sqrt 2) l (m % 8) u * X (8 * a + u) := by
    rw [mj_convolve_stencil (Real.sqrt 2) X Y w k l hk hl m hm]
    ring
  refine ⟨?_, hrow, ?_⟩
  · have e1 : (8 * (m % 8) + m / 8) / 8 = m % 8 := by omega
    have e2 : (8 * (m % 8) + m / 8) % 8 = m / 8 := by omega
    show _ = mj_convolve (Real.sqrt 2) X Y w (k : ℤ) (l : ℤ) (8 * (m % 8) + m / 8)
      - Y (8 * (m % 8) + m / 8)
    rw [mj_convolve_stencil (Real.sqrt 2) (transpose X) Y' w l k hl hk m hm,
      mj_convolve_stencil (Real.sqrt 2) X Y w k l hk hl (8 * (m % 8) + m / 8) (by omega),
      e1, e2]
    rw [stencil_sum_comm (fun a => stencil_coef (Real.sqrt 2) k (m % 8) a)
      (fun u => stencil_coef (Real.sqrt 2) l (m / 8) u) (fun a u => X (8 * a + u))]
    have ht : ∀ a u, a ∈ Finset.range 8 → u ∈ Finset.range 8 →
        transpose X (8 * a + u) = X (8 * u + a) := by
      intro a u _ hu
      have hu' : u < 8 := Finset.mem_range.mp hu
      have e3 : (8 * a + u) % 8 = u := by omega
      have e4 : (8 * a + u) / 8 = a := by omega
      unfold transpose
      rw [e3, e4]
    have hsum : ∑ a in Finset.range 8, stencil_coef (Real.sqrt 2) l (m / 8) a
          * ∑ u in Finset.range 8, stencil_coef (Real.sqrt 2) k (m % 8) u * transpose X (8 * a + u)
        = ∑ u in Finset.range 8, stencil_coef (Real.sqrt 2) l (m / 8) u
          * ∑ a in Finset.range 8, stencil_coef (Real.sqrt 2) k (m % 8) a * X (8 * a + u) := by
      refine Finset.sum_congr rfl (fun a ha => ?_)
      congr 1
      refine Finset.sum_congr rfl (fun u hu => ?_)
      rw [ht a u ha hu]
    rw [hsum]
    ring
  · rw [hrow, stencil_sum_comm (fun a => stencil_coef (Real.sqrt 2) k (m / 8) a)
      (fun u => stencil_coef (Real.sqrt 2) l (m % 8) u) (fun a u => X (8 * a + u))]

/-- Witness of C38: the block with the entries `X[n] = n`, `k = 1`, `l = 2`, entry `10`. -/
theorem transpose_symmetry_witness :
    mj_convolve (Real.sqrt 2) (transpose (fun n => (n : ℝ))) (fun _ => 0) 7 ((2 : ℕ) : ℤ)
        ((1 : ℕ) : ℤ) 10 - (fun _ => (0 : ℝ)) 10
      = transpose (fun i => mj_convolve (Real.sqrt 2) (fun n => (n : ℝ)) (fun _ => 5) 7
          ((1 : ℕ) : ℤ) ((2 : ℕ) : ℤ) i - (fun _ => (5 : ℝ)) i) 10 :=
  (transpose_symmetry (fun n => (n : ℝ)) (fun _ => 5) (fun _ => 0) 7 1 2 10 (by decide)
    (by decide) (by decide)).1

/-! ## The blend with a constant mask stays between host and dropon -/

/-- The blend of one block for a mask block whose coefficients other than the first are `0`:
`x1[n] + trunc(a · (x0[n] − x1[n]))` with `a = (d + 1024) / 2040`. -/
theorem blend_block_constant (A x0 x1 : ℕ → ℤ) (hA : ∀ i, 1 ≤ i → i < 64 → A i = 0) (n : ℕ)
    (hn : n < 64) :
    blend_block (Real.sqrt 2) (mask_operator (Real.sqrt 2 / 4) A) x0 x1 n
      = x1 n + trunc (((A 0 : ℝ) + 1024) / 2040 * (((x0 n - x1 n : ℤ)) : ℝ)) := by
  have hs : Real.sqrt 2 * Real.sqrt 2 = 2 := Real.mul_self_sqrt (by norm_num)
  have hY : blend_Y (Real.sqrt 2) (mask_operator (Real.sqrt 2 / 4) A) x0 x1 n
      = ((A 0 : ℝ) + 1024) / 2040 * (((x0 n - x1 n : ℤ)) : ℝ) := by
    rw [blend_Y_single_weight (Real.sqrt 2) _ _ x0 x1 n hn]
    · rw [mask_operator_constant (Real.sqrt 2 / 4) A hA 0, if_pos rfl]
      push_cast
      linear_combination ((1 / 4080 : ℝ) * ((A 0 : ℝ) + 1024) * ((x0 n : ℝ) - (x1 n : ℝ))) * hs
    · intro m hm
      rw [mask_operator_constant (Real.sqrt 2 / 4) A hA m, if_neg (by omega)]
  unfold blend_block
  rw [if_pos (show n < DCTSIZE2 from hn), hY]

/-- The cast `(int)` of a fraction `a` in `[0, 1]` of an integer `D` lies between `0` and
`D`. -/
theorem trunc_scaled_between (a : ℝ) (D : ℤ) (h0 : 0 ≤ a) (h1 : a ≤ 1) :
    (0 ≤ D → 0 ≤ trunc (a * (D : ℝ)) ∧ trunc (a * (D : ℝ)) ≤ D)
      ∧ (D ≤ 0 → D ≤ trunc (a * (D : ℝ)) ∧ trunc (a * (D : ℝ)) ≤ 0) := by
  obtain ⟨t1, t2, -⟩ := trunc_toward_zero (a * (D : ℝ))
  constructor
  · intro hD
    have hDr : (0 : ℝ) ≤ (D : ℝ) := by exact_mod_cast hD
    have hy : 0 ≤ a * (D : ℝ) := mul_nonneg h0 hDr
    have hle : a * (D : ℝ) ≤ (D : ℝ) := by nlinarith
    rw [t1 hy]
    refine ⟨Int.floor_nonneg.mpr hy, ?_⟩
    have := Int.floor_le (a * (D : ℝ))
    exact_mod_cast le_trans this hle
  · intro hD
    have hDr : (D : ℝ) ≤ 0 := by exact_mod_cast hD
    have hy : a * (D : ℝ) ≤ 0 := mul_nonpos_of_nonneg_of_nonpos h0 hDr
    have hle : (D : ℝ) ≤ a * (D : ℝ) := by nlinarith
    rw [t2 hy]
    refine ⟨?_, Int.ceil_le.mpr (by simpa using hy)⟩
    have := Int.le_ceil (a * (D : ℝ))
    exact_mod_cast le_trans hle this

/-- C34, no overflow for a constant mask: for a mask block whose coefficients other than the
first are `0` and whose dequantised DC `d` gives `a = (d + 1024) / 2040` in `[0, 1]`, that is
`0 ≤ d + 1024 ≤ 2040`, the with-mask path (the operator of `mj_read_jpegmask_from_mem`, the 64
calls of `mj_convolve`, the write-back) leaves in every entry `n` of the host block a value
between the host's `x1[n]` and the dropon's `x0[n]`, both included; so when both lie in the
signed 16-bit range, the result does too, and the write-back to the 16-bit coefficient does
not wrap. -/
theorem constant_mask_no_overflow (A x0 x1 : ℕ → ℤ) (hA : ∀ i, 1 ≤ i → i < 64 → A i = 0)
    (hlo : 0 ≤ A 0 + 1024) (hhi : A 0 + 1024 ≤ 2040) (n : ℕ) (hn : n < 64) :
    min (x0 n) (x1 n) ≤ blend_block (Real.sqrt 2) (mask_operator (Real.sqrt 2 / 4) A) x0 x1 n
      ∧ blend_block (Real.sqrt 2) (mask_operator (Real.sqrt 2 / 4) A) x0 x1 n
          ≤ max (x0 n) (x1 n)
      ∧ (-32768 ≤ x0 n → x0 n ≤ 32767 → -32768 ≤ x1 n → x1 n ≤ 32767 →
          -32768 ≤ blend_block (Real.sqrt 2) (mask_operator (Real.sqrt 2 / 4) A) x0 x1 n
            ∧ blend_block (Real.sqrt 2) (mask_operator (Real.sqrt 2 / 4) A) x0 x1 n ≤ 32767
            ∧ (blend_block (Real.sqrt 2) (mask_operator (Real.sqrt 2 / 4) A) x0 x1 n + 32768)
                  % 65536 - 32768
                = blend_block (Real.sqrt 2) (mask_operator (Real.sqrt 2 / 4) A) x0 x1 n) := by
  have ha0 : (0 : ℝ) ≤ ((A 0 : ℝ) + 1024) / 2040 := by
    have : (0 : ℝ) ≤ ((A 0 + 1024 : ℤ) : ℝ) := by exact_mod_cast hlo
    push_cast at this
    positivity
  have ha1 : ((A 0 : ℝ) + 1024) / 2040 ≤ 1 := by
    have : ((A 0 + 1024 : ℤ) : ℝ) ≤ ((2040 : ℤ) : ℝ) := by exact_mod_cast hhi
    push_cast at this
    rw [div_le_one (by norm_num)]
    exact this
  obtain ⟨p1, p2⟩ := trunc_scaled_between _ (x0 n - x1 n) ha0 ha1
  rw [blend_block_constant A x0 x1 hA n hn]
  generalize trunc (((A 0 : ℝ) + 1024) / 2040 * (((x0 n - x1 n : ℤ)) : ℝ)) = t at p1 p2
  have hbetween : min (x0 n) (x1 n) ≤ x1 n + t ∧ x1 n + t ≤ max (x0 n) (x1 n) := by
    rcases le_total 0 (x0 n - x1 n) with h | h
    · have := p1 h
      rw [min_eq_right (by omega), max_eq_left (by omega)]
      omega
    · have := p2 h
      rw [min_eq_left (by omega), max_eq_right (by omega)]
      omega
  refine ⟨hbetween.1, hbetween.2, ?_⟩
  intro a1 a2 a3 a4
  have b1 : -32768 ≤ x1 n + t := le_trans (le_min a1 a3) hbetween.1
  have b2 : x1 n + t ≤ 32767 := le_trans hbetween.2 (max_le a2 a4)
  refine ⟨b1, b2, ?_⟩
  omega

/-- Witness of C34: the mask block with `d = 0`, so `a = 1024 / 2040`, the dropon coefficient
`2040` and the host coefficient `0`. -/
theorem constant_mask_no_overflow_witness :
    min (flat_dropon_block 0) (zero_block 0)
        ≤ blend_block (Real.sqrt 2) (mask_operator (Real.sqrt 2 / 4) (fun _ => 0))
            flat_dropon_block zero_block 0
      ∧ blend_block (Real.sqrt 2) (mask_operator (Real.sqrt 2 / 4) (fun _ => 0))
            flat_dropon_block zero_block 0
          ≤ max (flat_dropon_block 0) (zero_block 0) :=
  ⟨(constant_mask_no_overflow (fun _ => 0) flat_dropon_block zero_block (fun _ _ _ => rfl)
      (by decide) (by decide) 0 (by decide)).1,
    (constant_mask_no_overflow (fun _ => 0) flat_dropon_block zero_block (fun _ _ _ => rfl)
      (by decide) (by decide) 0 (by decide)).2.1⟩

/-! ## The positions of the components -/

/-- C33, evaluated: for the host `sample_host_odd` of `656 × 480` samples with the sampling
4:2:0, so `H_blocks = 41`, and the logo of `128 × 64` samples with the same sampling, aligned
CENTER, the horizontal offsets are `82 / 2 − 16 = 25` blocks for luma and `41 / 2 − 8 = 12`
blocks for chroma: multiplied by `max_h / h_samp_c` they are `25` and `24`, the pixel columns
`200` and `192`. The compositor writes the luma blocks from column `25` on and leaves column
`24` to the host, while the chroma blocks are written from column `12` on, which covers the
pixels of the luma columns `24` and `25`. With the alignments LEFT and RIGHT on the same input,
and vertically (`V_blocks = 30`), the components agree. In general, for a component with the
sampling factor `samp`, `max = samp · r`, and a dropon extent of `units · samp` blocks, the
offset times `r` is `0` for LEFT, `(blocks − units) · max` for RIGHT, and
`(b − units) · max` for CENTER when the host extent `blocks = 2 · b` is even: it does not depend
on the component in these cases. -/
theorem center_splits_components :
    host_blocks 656 2 = 41 ∧ host_blocks 480 2 = 30
      ∧ placed_width_offset sample_host_odd sample_logo_420 MODJPEG_ALIGN_CENTER 0 = 25
      ∧ placed_width_offset sample_host_odd sample_logo_420 MODJPEG_ALIGN_CENTER 1 = 12
      ∧ placed_width_offset sample_host_odd sample_logo_420 MODJPEG_ALIGN_CENTER 0
            * ((sample_host_odd.max_h_samp_factor
                / (sample_host_odd.comp_info 0).h_samp_factor : Nat) : Int) = 25
      ∧ placed_width_offset sample_host_odd sample_logo_420 MODJPEG_ALIGN_CENTER 1
            * ((sample_host_odd.max_h_samp_factor
                / (sample_host_odd.comp_info 1).h_samp_factor : Nat) : Int) = 24
      ∧ placed_width_offset sample_host_odd sample_logo_420 MODJPEG_ALIGN_RIGHT 0
            * ((sample_host_odd.max_h_samp_factor
                / (sample_host_odd.comp_info 0).h_samp_factor : Nat) : Int)
          = placed_width_offset sample_host_odd sample_logo_420 MODJPEG_ALIGN_RIGHT 1
            * ((sample_host_odd.max_h_samp_factor
                / (sample_host_odd.comp_info 1).h_samp_factor : Nat) : Int)
      ∧ placed_width_offset sample_host_odd sample_logo_420 MODJPEG_ALIGN_LEFT 0
            * ((sample_host_odd.max_h_samp_factor
                / (sample_host_odd.comp_info 0).h_samp_factor : Nat) : Int)
          = placed_width_offset sample_host_odd sample_logo_420 MODJPEG_ALIGN_LEFT 1
            * ((sample_host_odd.max_h_samp_factor
                / (sample_host_odd.comp_info 1).h_samp_factor : Nat) : Int)
      ∧ placed_height_offset sample_host_odd sample_logo_420 MODJPEG_ALIGN_CENTER 0
            * ((sample_host_odd.max_v_samp_factor
                / (sample_host_odd.comp_info 0).v_samp_factor : Nat) : Int)
          = placed_height_offset sample_host_odd sample_logo_420 MODJPEG_ALIGN_CENTER 1
            * ((sample_host_odd.max_v_samp_factor
                / (sample_host_odd.comp_info 1).v_samp_factor : Nat) : Int)
      ∧ (∃ m', mj_compose_without_mask sample_host_odd sample_logo_420 MODJPEG_ALIGN_CENTER
            MODJPEG_ALIGN_CENTER = some (0, m')
          ∧ (m'.coef 0).blk 22 24 0 = 0 ∧ (m'.coef 0).blk 22 25 0 = 1000
          ∧ (m'.coef 0).blk 22 40 0 = 1000 ∧ (m'.coef 0).blk 22 41 0 = 0
          ∧ (m'.coef 1).blk 11 11 0 = 0 ∧ (m'.coef 1).blk 11 12 0 = 1000
          ∧ (m'.coef 1).blk 11 19 0 = 1000 ∧ (m'.coef 1).blk 11 20 0 = 0)
      ∧ ∀ samp r blocks units b : Nat,
          width_offset MODJPEG_ALIGN_LEFT samp blocks (units * samp) * (r : Int) = 0
            ∧ width_offset MODJPEG_ALIGN_RIGHT samp blocks (units * samp) * (r : Int)
              = ((blocks : Int) - (units : Int)) * ((samp * r : Nat) : Int)
            ∧ width_offset MODJPEG_ALIGN_CENTER samp (2 * b) (units * samp) * (r : Int)
              = ((b : Int) - (units : Int)) * ((samp * r : Nat) : Int) := by
  refine ⟨by decide, by decide, by decide, by decide, by decide, by decide, by decide,
    by decide, by decide, ?_, ?_⟩
  · obtain ⟨m', hm', -, hcoef⟩ := mj_compose_without_mask_total sample_host_odd
      sample_logo_420 MODJPEG_ALIGN_CENTER MODJPEG_ALIGN_CENTER (by decide)
    refine ⟨m', hm', ?_, ?_, ?_, ?_, ?_, ?_, ?_, ?_⟩
    all_goals
      rw [hcoef]
      decide
  · intro samp r blocks units b
    unfold width_offset
    rw [if_pos rfl, if_neg (by decide), if_neg (by decide), if_neg (by decide), if_pos rfl]
    refine ⟨by ring, ?_, ?_⟩
    · push_cast
      ring
    · have e : ((samp * (2 * b) : Nat) : Int) / 2 = (samp : Int) * (b : Int) := by
        push_cast
        rw [show (samp : Int) * (2 * (b : Int)) = (samp : Int) * (b : Int) * 2 by ring]
        exact Int.mul_ediv_cancel _ (by norm_num)
      rw [e]
      push_cast
      ring

/-! ## The blocks that the compositor writes -/

/-- C35, evaluated: for the host `sample_narrow_host` of `13 × 8` samples with one component,
whose plane has the two blocks `(0, 0)` and `(0, 1)`, the compositor computes `H_blocks = 2`,
since `13 mod 8 > 4`, so the dropon `sample_logo` of one block fits; aligned RIGHT it has the
offset `2 − 1 = 1` and is written to block `(0, 1)`. The loops of
`mj_read_jpegimage_from_mem` and `mj_write_jpegimage_to_buffer` stop at the column
`⌊13 / 8⌋ = 1`: block `(0, 1)` is not among the blocks they visit. After the composition and
the loops of the write, coefficient `1` of block `(0, 1)` is still the dropon's dequantised
`5001`, not divided by the quantisation value `2`, while block `(0, 0)` has been divided. -/
theorem compositor_writes_unvisited :
    host_blocks 13 1 = 2 ∧ host_blocks 8 1 = 1
      ∧ dropon_width sample_logo 0 = 1 ∧ dropon_height sample_logo 0 = 1
      ∧ dropon_width sample_logo 0
          ≤ (sample_narrow_host.comp_info 0).h_samp_factor * host_blocks 13 1
      ∧ dropon_height sample_logo 0
          ≤ (sample_narrow_host.comp_info 0).v_samp_factor * host_blocks 8 1
      ∧ placed_width_offset sample_narrow_host sample_logo MODJPEG_ALIGN_RIGHT 0 = 1
      ∧ placed_height_offset sample_narrow_host sample_logo MODJPEG_ALIGN_TOP 0 = 0
      ∧ in_rectangle sample_narrow_host sample_logo MODJPEG_ALIGN_RIGHT MODJPEG_ALIGN_TOP 0 0 1
      ∧ in_plane sample_narrow_host 0 0 1
      ∧ ¬ visited sample_narrow_host 0 0 1
      ∧ 13 / (8 * sample_narrow_host.max_h_samp_factor)
          * (sample_narrow_host.comp_info 0).h_samp_factor = 1
      ∧ ∃ m', mj_compose_without_mask sample_narrow_host sample_logo MODJPEG_ALIGN_RIGHT
            MODJPEG_ALIGN_TOP = some (0, m')
          ∧ (sample_narrow_host.coef 0).blk 0 1 1 = 2
          ∧ (m'.coef 0).blk 0 1 1 = 5001
          ∧ ¬ visited m' 0 0 1
          ∧ ((requantise m').coef 0).blk 0 1 1 = 5001
          ∧ (m'.comp_info 0).quantval 1 = 2
          ∧ (m'.coef 0).blk 0 0 1 = 2
          ∧ ((requantise m').coef 0).blk 0 0 1 = 1 := by
  refine ⟨by decide, by decide, by decide, by decide, by decide, by decide, by decide,
    by decide, by decide, by decide, by decide, by decide, ?_⟩
  obtain ⟨m', hm', hh, hcoef⟩ := mj_compose_without_mask_total sample_narrow_host
    sample_logo MODJPEG_ALIGN_RIGHT MODJPEG_ALIGN_TOP (by decide)
  obtain ⟨-, hb⟩ := requantise_blocks m'
  have hv := visited_of_same_geometry (same_geometry_of_same_header hh)
  have hq : m'.comp_info = sample_narrow_host.comp_info := hh.2.2.2.2.2.2.1
  have h1 : (m'.coef 0).blk 0 1 1 = 5001 := by
    rw [hcoef]
    decide
  have h0 : (m'.coef 0).blk 0 0 1 = 2 := by
    rw [hcoef]
    decide
  have hn : ¬ visited m' 0 0 1 := fun h => absurd ((hv 0 0 1).1 h) (by decide)
  have hy : visited m' 0 0 0 := (hv 0 0 0).2 (by decide)
  refine ⟨m', hm', by decide, h1, hn, ?_, ?_, h0, ?_⟩
  · rw [hb, if_neg hn, h1]
  · rw [hq]
    decide
  · rw [hb, if_pos hy]
    unfold requantise_block
    rw [if_pos (by decide), h0, hq]
    decide

/-! ## Inside the range of `JCOEF` the store changes nothing

The statements above about `dequantise` and `blend_block`, which keep the assigned values as
integers, carry over to the stored 16-bit coefficients when the assigned values lie in
`−32768..32767`. -/

/-- Reading and writing with the store: for a quantisation value `q[i] ≥ 1` and a product
`c[i]·q[i]` in the range of `JCOEF`, the loops of `mj_write_jpegimage_to_buffer` after the
loops of `mj_read_jpegimage_from_mem` leave the decoded coefficient. -/
theorem requantise_dequantise_JCOEF (m : modjpeg_jpegimage_t) (c row col i : Nat)
    (hq : 1 ≤ (m.comp_info c).quantval i)
    (h1 : -32768 ≤ (m.coef c).blk row col i * (m.comp_info c).quantval i)
    (h2 : (m.coef c).blk row col i * (m.comp_info c).quantval i ≤ 32767) :
    ((requantise (dequantise_JCOEF m)).coef c).blk row col i = (m.coef c).blk row col i := by
  obtain ⟨hg, -⟩ := dequantise_JCOEF_blocks m
  obtain ⟨-, hb2⟩ := requantise_blocks (dequantise_JCOEF m)
  have hv := visited_of_same_geometry hg c row col
  rw [hb2 c row col]
  by_cases h : visited m c row col
  · rw [if_pos (hv.2 h), hg.2.2.2.2.2.2.1]
    unfold requantise_block
    by_cases hi : i < DCTSIZE2
    · rw [if_pos hi, dequantise_JCOEF_entry, if_pos ⟨h, hi⟩, to_JCOEF_of_range _ h1 h2]
      exact Int.mul_tdiv_cancel _ (by omega)
    · rw [if_neg hi, dequantise_JCOEF_entry, if_neg (fun h3 => hi h3.2)]
  · rw [if_neg (fun h3 => h (hv.1 h3)), dequantise_JCOEF_entry, if_neg (fun h3 => h h3.1)]

/-- The blend with a constant mask and the store: for `a = (d + 1024) / 2040` in `[0, 1]` and
host and dropon coefficients in the range of `JCOEF`, the stored result is
`x1[n] + trunc(a · (x0[n] − x1[n]))`, the value that `blend_block` gives, and it lies between
the host's and the dropon's coefficient. -/
theorem blend_block_JCOEF_constant (A x0 x1 : ℕ → ℤ) (hA : ∀ i, 1 ≤ i → i < 64 → A i = 0)
    (hlo : 0 ≤ A 0 + 1024) (hhi : A 0 + 1024 ≤ 2040) (n : ℕ) (hn : n < 64)
    (a1 : -32768 ≤ x0 n) (a2 : x0 n ≤ 32767) (a3 : -32768 ≤ x1 n) (a4 : x1 n ≤ 32767) :
    blend_block_JCOEF (Real.sqrt 2) (mask_operator (Real.sqrt 2 / 4) A) x0 x1 n
        = blend_block (Real.sqrt 2) (mask_operator (Real.sqrt 2 / 4) A) x0 x1 n
      ∧ blend_block_JCOEF (Real.sqrt 2) (mask_operator (Real.sqrt 2 / 4) A) x0 x1 n
        = x1 n + trunc (((A 0 : ℝ) + 1024) / 2040 * (((x0 n - x1 n : ℤ)) : ℝ))
      ∧ min (x0 n) (x1 n)
          ≤ blend_block_JCOEF (Real.sqrt 2) (mask_operator (Real.sqrt 2 / 4) A) x0 x1 n
      ∧ blend_block_JCOEF (Real.sqrt 2) (mask_operator (Real.sqrt 2 / 4) A) x0 x1 n
          ≤ max (x0 n) (x1 n) := by
  have ha0 : (0 : ℝ) ≤ ((A 0 : ℝ) + 1024) / 2040 := by
    have : (0 : ℝ) ≤ ((A 0 + 1024 : ℤ) : ℝ) := by exact_mod_cast hlo
    push_cast at this
    positivity
  have ha1 : ((A 0 : ℝ) + 1024) / 2040 ≤ 1 := by
    have : ((A 0 + 1024 : ℤ) : ℝ) ≤ ((2040 : ℤ) : ℝ) := by exact_mod_cast hhi
    push_cast at this
    rw [div_le_one (by norm_num)]
    exact this
  obtain ⟨p1, p2⟩ := trunc_scaled_between _ (x0 n - x1 n) ha0 ha1
  obtain ⟨-, e2, -⟩ := blend_block_JCOEF_entry (Real.sqrt 2)
    (mask_operator (Real.sqrt 2 / 4) A) x0 x1 n hn
  have e3 := blend_block_constant A x0 x1 hA n hn
  rw [e2, e3]
  generalize trunc (((A 0 : ℝ) + 1024) / 2040 * (((x0 n - x1 n : ℤ)) : ℝ)) = t at p1 p2
  have hbetween : min (x0 n) (x1 n) ≤ x1 n + t ∧ x1 n + t ≤ max (x0 n) (x1 n) := by
    rcases le_total 0 (x0 n - x1 n) with h | h
    · have := p1 h
      rw [min_eq_right (by omega), max_eq_left (by omega)]
      omega
    · have := p2 h
      rw [min_eq_left (by omega), max_eq_right (by omega)]
      omega
  have b1 : -32768 ≤ x1 n + t := le_trans (le_min a1 a3) hbetween.1
  have b2 : x1 n + t ≤ 32767 := le_trans hbetween.2 (max_le a2 a4)
  rw [to_JCOEF_of_range _ b1 b2]
  exact ⟨rfl, rfl, hbetween.1, hbetween.2⟩

end ModJpeg
